import Mathlib

/-! # Deep copy (`runtime/mercury_deep_copy_body.h`)

A shallow embedding of the type-directed copier `copy` / `copy_arg` /
`copy_type_info`.

* Memory is a flat map from byte addresses to cell contents.  A word lives in
  the cell at its (byte) address, a string occupies one cell per byte, and the
  C pointer arithmetic `p + i` on `Word *` is `p + i * sizeof(Word)`.
* The three C functions call each other recursively; the embedding bounds the
  call depth by a `fuel` argument (one unit per C call) and reports
  `Outcome.out_of_fuel` when the bound is hit.
* `fatal_error` does not return in C; the embedding stops with
  `Outcome.fatal_error`, carrying the message and the state reached.
* The state carries a ghost `trace` (newest event first) of allocations,
  forwarding marks and function entries.  The trace is never read by the code.
* The body file is a template: macros such as `MR_TYPEINFO_GET_TYPE_CTOR_INFO`,
  the struct layouts and the constants come from headers that are not part of
  the sources at hand.  They are the fields of `Cfg`, and every general
  theorem below holds for an arbitrary `Cfg`.
-/

namespace DeepCopy

abbrev Word := Nat

abbrev Mem := Nat → Word

/-- The representation kinds that `copy` switches on
(`type_ctor_info->type_ctor_rep`), in the order of the switch; `unlisted`
stands for any value that has no `case` of its own. -/
inductive MR_TypeCtorRepresentation where
  | MR_TYPECTOR_REP_ENUM
  | MR_TYPECTOR_REP_DU
  | MR_TYPECTOR_REP_NOTAG
  | MR_TYPECTOR_REP_EQUIV
  | MR_TYPECTOR_REP_EQUIV_VAR
  | MR_TYPECTOR_REP_INT
  | MR_TYPECTOR_REP_CHAR
  | MR_TYPECTOR_REP_FLOAT
  | MR_TYPECTOR_REP_STRING
  | MR_TYPECTOR_REP_PRED
  | MR_TYPECTOR_REP_UNIV
  | MR_TYPECTOR_REP_VOID
  | MR_TYPECTOR_REP_ARRAY
  | MR_TYPECTOR_REP_TYPEINFO
  | MR_TYPECTOR_REP_C_POINTER
  | MR_TYPECTOR_REP_SUCCIP
  | MR_TYPECTOR_REP_REDOIP
  | MR_TYPECTOR_REP_HP
  | MR_TYPECTOR_REP_CURFR
  | MR_TYPECTOR_REP_MAXFR
  | MR_TYPECTOR_REP_TRAIL_PTR
  | MR_TYPECTOR_REP_TICKET
  | MR_TYPECTOR_REP_UNKNOWN
  | unlisted (code : Nat)
  deriving DecidableEq, Repr

/-- The tag representations of the inner switch of the `MR_TYPECTOR_REP_DU`
case. -/
inductive MR_DiscUnionTagRepresentation where
  | MR_DISCUNIONTAG_SHARED_LOCAL
  | MR_DISCUNIONTAG_SHARED_REMOTE
  | MR_DISCUNIONTAG_UNSHARED
  deriving DecidableEq, Repr

/-- Ghost events, recorded newest first in `State.trace`. -/
inductive Event where
  | incr_saved_hp (addr words : Nat)
  | incr_saved_hp_atomic (addr words : Nat)
  | MR_make_array (addr size : Nat)
  | float_to_word (addr : Nat)
  | leave_forwarding_pointer (data_ptr new_data : Nat)
  | enter_copy (data_ptr type_info : Nat)
  | enter_copy_arg (data_ptr term_type_info arg_pseudo_type_info : Nat)
  | enter_copy_type_info (type_info_ptr : Nat)
  deriving DecidableEq, Repr

/-- The machine state: memory, the saved heap pointer of the destination
arena (a byte address), and the ghost trace. -/
structure State where
  mem : Mem
  hp : Nat
  trace : List Event

/-- What a call does: return a value, stop in `fatal_error`, or exceed the
call-depth bound of the embedding. -/
inductive Outcome (α : Type) where
  | ok (a : α)
  | fatal_error (msg : String) (s : State)
  | out_of_fuel

/-- Macros, struct layouts and constants that the body file takes from
headers outside the sources at hand.  Offsets count words. -/
structure Cfg where
  TAGBITS : Nat
  sizeof_Word : Nat
  CHAR_BIT : Nat
  int_bits : Nat
  BOXED_FLOAT : Bool
  FLOAT_WORDS : Nat
  TYPE_CTOR_LAYOUT_UNSHARED_ARITY_OFFSET : Nat
  TYPE_CTOR_LAYOUT_UNSHARED_ARGS_OFFSET : Nat
  UNIV_OFFSET_FOR_DATA : Nat
  UNIV_OFFSET_FOR_TYPEINFO : Nat
  TYPEINFO_OFFSET_FOR_PRED_ARGS : Nat
  MR_TYPEINFO_GET_TYPE_CTOR_INFO : Mem → Nat → Nat
  type_ctor_rep : Mem → Nat → MR_TypeCtorRepresentation
  type_ctor_layout : Mem → Nat → Nat → Word
  MR_get_tag_representation : Mem → Word → MR_DiscUnionTagRepresentation
  MR_TYPE_CTOR_LAYOUT_SHARED_REMOTE_VECTOR_GET_FUNCTOR_DESCRIPTOR : Mem → Nat → Word → Nat
  MR_TYPE_CTOR_LAYOUT_NO_TAG_VECTOR_ARGS : Mem → Nat → Nat
  MR_TYPE_CTOR_LAYOUT_EQUIV_TYPE : Mem → Nat → Nat
  MR_TYPE_CTOR_INFO_IS_HO : Mem → Nat → Bool
  MR_TYPEINFO_GET_HIGHER_ARITY : Mem → Nat → Nat
  MR_TYPE_CTOR_INFO_GET_TYPE_ARITY : Mem → Nat → Nat
  MR_make_type_info : Mem → Nat → Nat → Nat
  MR_closure_layout : Nat
  MR_closure_num_hidden_args : Nat
  MR_closure_code : Nat
  MR_closure_hidden_args_0 : Nat
  arg_pseudo_type_info : Nat

/-- The value of a signed integer type of `bits` bits that the word `w`
becomes when it is assigned to a variable of that type: the two's complement
value congruent to `w` modulo `2 ^ bits`. -/
def to_signed (bits : Nat) (w : Word) : Int :=
  ((w : Int) + 2 ^ (bits - 1)) % 2 ^ bits - 2 ^ (bits - 1)

/-- A word assigned to a variable of the C type `int`. -/
def to_int (c : Cfg) (w : Word) : Int := to_signed c.int_bits w

/-- A word assigned to a variable of the type `Integer`, the signed integer
that is as wide as a `Word` (`sizeof_Word` bytes of `CHAR_BIT` bits). -/
def to_Integer (c : Cfg) (w : Word) : Int := to_signed (c.CHAR_BIT * c.sizeof_Word) w

/-- The number of rounds of a C loop `for (i = 0; i < n; i++)` whose bound
`n` is signed: `n` rounds, none when `n` is negative. -/
def rounds (n : Int) : Nat := n.toNat

/-- The address `p + i` for a `Word *p`. -/
def word_ptr (c : Cfg) (p i : Nat) : Nat := p + i * c.sizeof_Word

/-- Store `v` in the cell at address `a`. -/
def store (m : Mem) (a : Nat) (v : Word) : Mem := fun x => if x = a then v else m x

/-- Memory write as a state change. -/
def State.write (s : State) (a : Nat) (v : Word) : State := { s with mem := store s.mem a v }

/-- Record a ghost event. -/
def State.log (s : State) (e : Event) : State := { s with trace := e :: s.trace }

/-- Modelled from the spec: the macro `MR_tag` is missing; the primary tag is
"packed into a pointer's low bits". -/
def MR_tag (c : Cfg) (w : Word) : Nat := w % 2 ^ c.TAGBITS

/-- Modelled from the spec: the macro `MR_body` is missing; the body pointer is
the "address obtained after removing a value's primary tag". -/
def MR_body (_c : Cfg) (w : Word) (tag : Nat) : Nat := w - tag

/-- Modelled from the spec: the macro `MR_strip_tag` is missing; it removes
the low tag bits of a word. -/
def MR_strip_tag (c : Cfg) (w : Word) : Nat := w - w % 2 ^ c.TAGBITS

/-- Modelled from the spec: the macro `MR_mkword` is missing; it "re-applies
the primary tag" to a body pointer. -/
def MR_mkword (_c : Cfg) (tag : Nat) (p : Nat) : Word := p + tag

/-- Modelled from the spec: the macro `in_range` is missing; "true iff
`lowerLimit <= bodyAddress < upperLimit`". -/
def in_range (lower_limit upper_limit : Nat) (x : Nat) : Bool :=
  decide (lower_limit ≤ x) && decide (x < upper_limit)

/-- Modelled from the spec: the macro `incr_saved_hp` is missing;
`allocateWords(n)` bump-allocates `n` words from the destination arena. -/
def incr_saved_hp (c : Cfg) (s : State) (n : Nat) : Nat × State :=
  (s.hp, { s with hp := s.hp + n * c.sizeof_Word,
                  trace := Event.incr_saved_hp s.hp n :: s.trace })

/-- Modelled from the spec: the macro `incr_saved_hp_atomic` is missing;
`allocateAtomicWords(n)` bump-allocates `n` words that hold no pointers. -/
def incr_saved_hp_atomic (c : Cfg) (s : State) (n : Nat) : Nat × State :=
  (s.hp, { s with hp := s.hp + n * c.sizeof_Word,
                  trace := Event.incr_saved_hp_atomic s.hp n :: s.trace })

/-- Modelled from the spec: the macro `MR_make_array` is missing; "allocate a
new array with the same element count": a size word followed by the
elements, taken from the destination arena.  The size is an `Integer`; an
array of negative size has no element. -/
def MR_make_array (c : Cfg) (s : State) (size : Int) : Nat × State :=
  (s.hp, { s with hp := s.hp + (rounds size + 1) * c.sizeof_Word,
                  trace := Event.MR_make_array s.hp (rounds size) :: s.trace })

/-- Offset of `size` in `MR_ArrayType`. -/
def MR_ArrayType_size : Nat := 0

/-- Offset of `elements` in `MR_ArrayType`. -/
def MR_ArrayType_elements : Nat := 1

/-- Modelled from the spec: the macro `leave_forwarding_pointer` is missing;
the forwarding mark is "left in place of" the reference just copied: the
slot `data_ptr` is overwritten with `new_data`. -/
def leave_forwarding_pointer (s : State) (data_ptr : Nat) (new_data : Word) : State :=
  { s with mem := store s.mem data_ptr new_data,
           trace := Event.leave_forwarding_pointer data_ptr new_data :: s.trace }

/-- Modelled from the spec: the macro `found_forwarding_pointer` is missing;
on the out-of-region path the reference is returned unchanged, the hook
only "checks" and changes nothing. -/
def found_forwarding_pointer (s : State) (_data : Word) : State := s

/-- Modelled from the spec: the macro `float_to_word` is missing (boxed
floats): "allocate one boxed cell, copy value"; the value is the cell
content `f`. -/
def float_to_word (c : Cfg) (s : State) (f : Nat) : Word × State :=
  (s.hp, { mem := store s.mem s.hp f, hp := s.hp + c.FLOAT_WORDS * c.sizeof_Word,
           trace := Event.float_to_word s.hp :: s.trace })

/-- Modelled from the spec: the macro `word_to_float` is missing (boxed
floats): the value held by the boxed cell `w`. -/
def word_to_float (s : State) (w : Word) : Nat := s.mem w

/-- The C library `strlen`: the number of non-NUL bytes from `p` on, searched
over at most `fuel` bytes. -/
def strlen (m : Mem) : Nat → Nat → Option Nat
  | 0, _ => none
  | fuel + 1, p => if m p = 0 then some 0 else (strlen m fuel (p + 1)).map (· + 1)

/-- The C library `strcpy` for a source of length `len`: bytes `0..len`
(the NUL included) of `src` are stored at `dst`. -/
def strcpy (m : Mem) (dst src len : Nat) : Mem :=
  fun x => if dst ≤ x ∧ x ≤ dst + len then m (src + (x - dst)) else m x

/-- A C loop `for (i = start; i < start + n; i++) body(i)` over the state. -/
def for_loop (body : Nat → State → Outcome State) : Nat → Nat → State → Outcome State
  | 0, _, s => Outcome.ok s
  | n + 1, i, s =>
    match body i s with
    | Outcome.ok s1 => for_loop body n (i + 1) s1
    | Outcome.fatal_error msg t => Outcome.fatal_error msg t
    | Outcome.out_of_fuel => Outcome.out_of_fuel

/-- Store the value a call returns at `dst` (the C assignment
`*dst = call(...)`). -/
def assign (dst : Nat) (r : Outcome (Word × State)) : Outcome State :=
  match r with
  | Outcome.ok (w, s1) => Outcome.ok (s1.write dst w)
  | Outcome.fatal_error msg t => Outcome.fatal_error msg t
  | Outcome.out_of_fuel => Outcome.out_of_fuel

/-- The end of an in-range branch: when the statements `r` before it have
run to completion, `leave_forwarding_pointer(data_ptr, new_data)` is executed
and `new_data` is returned. -/
def finish (new_data : Word) (data_ptr : Nat) (r : Outcome State) : Outcome (Word × State) :=
  match r with
  | Outcome.ok s1 => Outcome.ok (new_data, leave_forwarding_pointer s1 data_ptr new_data)
  | Outcome.fatal_error msg t => Outcome.fatal_error msg t
  | Outcome.out_of_fuel => Outcome.out_of_fuel

/-- The function `copy_type_info`.  The locals `arity`, `offset` and `i` are
of the type `Integer`: the loop `for (i = offset; i < arity + offset; i++)`
makes `rounds arity` rounds, none when the arity word is negative as an
`Integer`.  `incr_saved_hp`, which is modelled from the spec, is given the
words of the new descriptor: the `offset` words in front and one word for
each round (the C expression `arity + offset`, the same number unless `arity`
is negative).  The word stored in slot 1 of a higher-order descriptor is the
arity word. -/
def copy_type_info (c : Cfg) (lower_limit upper_limit : Nat) :
    Nat → State → Nat → Outcome (Word × State)
  | 0, _, _ => Outcome.out_of_fuel
  | fuel + 1, s0, type_info_ptr =>
    let s := s0.log (Event.enter_copy_type_info type_info_ptr)
    let type_info := s.mem type_info_ptr
    if in_range lower_limit upper_limit type_info then
      let type_ctor_info := c.MR_TYPEINFO_GET_TYPE_CTOR_INFO s.mem type_info
      if type_info = type_ctor_info then
        Outcome.ok (type_ctor_info, s)
      else
        let arity_word := if c.MR_TYPE_CTOR_INFO_IS_HO s.mem type_ctor_info
          then c.MR_TYPEINFO_GET_HIGHER_ARITY s.mem type_info
          else c.MR_TYPE_CTOR_INFO_GET_TYPE_ARITY s.mem type_ctor_info
        let arity := to_Integer c arity_word
        let offset := if c.MR_TYPE_CTOR_INFO_IS_HO s.mem type_ctor_info then 2 else 1
        let new_type_info := (incr_saved_hp c s (rounds arity + offset)).1
        let s1 := (incr_saved_hp c s (rounds arity + offset)).2
        let s2 := s1.write (word_ptr c new_type_info 0) type_ctor_info
        let s3 := if c.MR_TYPE_CTOR_INFO_IS_HO s.mem type_ctor_info
          then s2.write (word_ptr c new_type_info 1) arity_word else s2
        finish new_type_info type_info_ptr
          (for_loop (fun i t => assign (word_ptr c new_type_info i)
            (copy_type_info c lower_limit upper_limit fuel t (word_ptr c type_info i)))
            (rounds arity) offset s3)
    else
      Outcome.ok (type_info, found_forwarding_pointer s type_info)

open MR_TypeCtorRepresentation MR_DiscUnionTagRepresentation in
mutual

/-- The function `copy`.  In the two tagged-union branches the locals
`arity` and `i` are `int`s: the arity word is converted with `to_int` and the
field loop makes `rounds arity` rounds, none when the arity is negative.  In
the array branch `array_size` is an `Integer` and the element loop makes
`rounds array_size` rounds (its variable `i` is an `int`, which a size beyond
the range of `int` would overflow).  In the closure branch `args` and `i` are
`Unsigned`.  `incr_saved_hp`, which is modelled from the spec, is given the
words of the new object: one word for each round of the field loop, and one
more for the secondary tag (the C expressions `arity` and `arity + 1`, the
same numbers unless `arity` is negative). -/
def copy (c : Cfg) (lower_limit upper_limit : Nat) :
    Nat → State → Nat → Nat → Outcome (Word × State)
  | 0, _, _, _ => Outcome.out_of_fuel
  | fuel + 1, s0, data_ptr, type_info =>
    let s := s0.log (Event.enter_copy data_ptr type_info)
    let data := s.mem data_ptr
    let data_tag := MR_tag c data
    let data_value := MR_body c data data_tag
    let type_ctor_info := c.MR_TYPEINFO_GET_TYPE_CTOR_INFO s.mem type_info
    let layout_entry := c.type_ctor_layout s.mem type_ctor_info data_tag
    let entry_value := MR_strip_tag c layout_entry
    match c.type_ctor_rep s.mem type_ctor_info with
    | MR_TYPECTOR_REP_ENUM => Outcome.ok (data, s)
    | MR_TYPECTOR_REP_DU =>
      match c.MR_get_tag_representation s.mem layout_entry with
      | MR_DISCUNIONTAG_SHARED_LOCAL => Outcome.ok (data, s)
      | MR_DISCUNIONTAG_SHARED_REMOTE =>
        if in_range lower_limit upper_limit data_value then
          let secondary_tag := s.mem data_value
          let argument_vector := word_ptr c data_value 1
          let new_entry := c.MR_TYPE_CTOR_LAYOUT_SHARED_REMOTE_VECTOR_GET_FUNCTOR_DESCRIPTOR
            s.mem entry_value secondary_tag
          let arity := to_int c
            (s.mem (word_ptr c new_entry c.TYPE_CTOR_LAYOUT_UNSHARED_ARITY_OFFSET))
          let type_info_vector := word_ptr c new_entry c.TYPE_CTOR_LAYOUT_UNSHARED_ARGS_OFFSET
          let new_data := (incr_saved_hp c s (rounds arity + 1)).1
          let s1 := (incr_saved_hp c s (rounds arity + 1)).2
          let s2 := s1.write (word_ptr c new_data 0) secondary_tag
          finish (MR_mkword c data_tag new_data) data_ptr
            (for_loop (fun i t => assign (word_ptr c new_data (i + 1))
              (copy_arg c lower_limit upper_limit fuel t (word_ptr c argument_vector i)
                type_info (t.mem (word_ptr c type_info_vector i))))
              (rounds arity) 0 s2)
        else
          Outcome.ok (data, found_forwarding_pointer s data)
      | MR_DISCUNIONTAG_UNSHARED =>
        let argument_vector := data_value
        if in_range lower_limit upper_limit argument_vector then
          let arity := to_int c
            (s.mem (word_ptr c entry_value c.TYPE_CTOR_LAYOUT_UNSHARED_ARITY_OFFSET))
          let type_info_vector := word_ptr c entry_value c.TYPE_CTOR_LAYOUT_UNSHARED_ARGS_OFFSET
          let new_data := (incr_saved_hp c s (rounds arity)).1
          let s1 := (incr_saved_hp c s (rounds arity)).2
          finish (MR_mkword c data_tag new_data) data_ptr
            (for_loop (fun i t => assign (word_ptr c new_data i)
              (copy_arg c lower_limit upper_limit fuel t (word_ptr c argument_vector i)
                type_info (t.mem (word_ptr c type_info_vector i))))
              (rounds arity) 0 s1)
        else
          Outcome.ok (data, found_forwarding_pointer s data)
    | MR_TYPECTOR_REP_NOTAG =>
      copy_arg c lower_limit upper_limit fuel s data_ptr type_info
        (s.mem (c.MR_TYPE_CTOR_LAYOUT_NO_TAG_VECTOR_ARGS s.mem entry_value))
    | MR_TYPECTOR_REP_EQUIV =>
      copy_arg c lower_limit upper_limit fuel s data_ptr type_info
        (c.MR_TYPE_CTOR_LAYOUT_EQUIV_TYPE s.mem entry_value)
    | MR_TYPECTOR_REP_EQUIV_VAR =>
      copy c lower_limit upper_limit fuel s data_ptr (s.mem (word_ptr c type_info entry_value))
    | MR_TYPECTOR_REP_INT => Outcome.ok (data, s)
    | MR_TYPECTOR_REP_CHAR => Outcome.ok (data, s)
    | MR_TYPECTOR_REP_FLOAT =>
      if c.BOXED_FLOAT then
        if in_range lower_limit upper_limit data_value then
          let new_data := word_to_float (float_to_word c s data).2 (float_to_word c s data).1
          Outcome.ok (new_data, leave_forwarding_pointer (float_to_word c s data).2 data_ptr new_data)
        else
          Outcome.ok (data, found_forwarding_pointer s data)
      else
        Outcome.ok (data, s)
    | MR_TYPECTOR_REP_STRING =>
      if in_range lower_limit upper_limit data_value then
        match strlen s.mem fuel data with
        | none => Outcome.out_of_fuel
        | some len =>
          let new_data := (incr_saved_hp_atomic c s ((len + c.sizeof_Word) / c.sizeof_Word)).1
          let s1 := (incr_saved_hp_atomic c s ((len + c.sizeof_Word) / c.sizeof_Word)).2
          let s2 := { s1 with mem := strcpy s1.mem new_data data len }
          Outcome.ok (new_data, leave_forwarding_pointer s2 data_ptr new_data)
      else
        Outcome.ok (data, found_forwarding_pointer s data)
    | MR_TYPECTOR_REP_PRED =>
      if in_range lower_limit upper_limit data_value then
        let old_closure := data_value
        let closure_layout := s.mem (word_ptr c old_closure c.MR_closure_layout)
        let args := s.mem (word_ptr c old_closure c.MR_closure_num_hidden_args)
        let new_closure := (incr_saved_hp c s (args + 3)).1
        let s1 := (incr_saved_hp c s (args + 3)).2
        let s2 := s1.write (word_ptr c new_closure c.MR_closure_layout) closure_layout
        let s3 := s2.write (word_ptr c new_closure c.MR_closure_num_hidden_args) args
        let s4 := s3.write (word_ptr c new_closure c.MR_closure_code)
          (s3.mem (word_ptr c old_closure c.MR_closure_code))
        finish new_closure data_ptr
          (for_loop (fun i t => assign (word_ptr c new_closure (c.MR_closure_hidden_args_0 + i))
            (copy_arg c lower_limit upper_limit fuel t
              (word_ptr c old_closure (c.MR_closure_hidden_args_0 + i))
              (word_ptr c type_info c.TYPEINFO_OFFSET_FOR_PRED_ARGS - c.sizeof_Word)
              (t.mem (word_ptr c closure_layout (c.arg_pseudo_type_info + i)))))
            args 0 s4)
      else
        Outcome.ok (data, found_forwarding_pointer s data)
    | MR_TYPECTOR_REP_UNIV =>
      if in_range lower_limit upper_limit data_value then
        let new_data := (incr_saved_hp c s 2).1
        let s1 := (incr_saved_hp c s 2).2
        match assign (word_ptr c new_data c.UNIV_OFFSET_FOR_DATA)
            (copy c lower_limit upper_limit fuel s1 (word_ptr c data_value c.UNIV_OFFSET_FOR_DATA)
              (s1.mem (word_ptr c data_value c.UNIV_OFFSET_FOR_TYPEINFO))) with
        | Outcome.ok s2 =>
          finish new_data data_ptr
            (assign (word_ptr c new_data c.UNIV_OFFSET_FOR_TYPEINFO)
              (copy_type_info c lower_limit upper_limit fuel s2
                (word_ptr c data_value c.UNIV_OFFSET_FOR_TYPEINFO)))
        | Outcome.fatal_error msg t => Outcome.fatal_error msg t
        | Outcome.out_of_fuel => Outcome.out_of_fuel
      else
        Outcome.ok (data, found_forwarding_pointer s data)
    | MR_TYPECTOR_REP_VOID => Outcome.fatal_error "Cannot copy a void type" s
    | MR_TYPECTOR_REP_ARRAY =>
      if in_range lower_limit upper_limit data_value then
        let old_array := data_value
        let size_word := s.mem (word_ptr c old_array MR_ArrayType_size)
        let array_size := to_Integer c size_word
        let new_array := (MR_make_array c s array_size).1
        let s1 := (MR_make_array c s array_size).2
        let s2 := s1.write (word_ptr c new_array MR_ArrayType_size) size_word
        finish new_array data_ptr
          (for_loop (fun i t => assign (word_ptr c new_array (MR_ArrayType_elements + i))
            (copy_arg c lower_limit upper_limit fuel t
              (word_ptr c old_array (MR_ArrayType_elements + i)) type_info 1))
            (rounds array_size) 0 s2)
      else
        Outcome.ok (data, found_forwarding_pointer s data)
    | MR_TYPECTOR_REP_TYPEINFO => copy_type_info c lower_limit upper_limit fuel s data_ptr
    | MR_TYPECTOR_REP_C_POINTER =>
      if in_range lower_limit upper_limit data_value then
        Outcome.fatal_error "Cannot copy a c_pointer type" s
      else
        Outcome.ok (data, s)
    | MR_TYPECTOR_REP_SUCCIP => Outcome.ok (data, s)
    | MR_TYPECTOR_REP_REDOIP => Outcome.ok (data, s)
    | MR_TYPECTOR_REP_HP =>
      Outcome.fatal_error "Sorry, not implemented: copying saved heap pointers" s
    | MR_TYPECTOR_REP_CURFR => Outcome.ok (data, s)
    | MR_TYPECTOR_REP_MAXFR => Outcome.ok (data, s)
    | MR_TYPECTOR_REP_TRAIL_PTR => Outcome.ok (data, s)
    | MR_TYPECTOR_REP_TICKET => Outcome.ok (data, s)
    | MR_TYPECTOR_REP_UNKNOWN => Outcome.fatal_error "Unknown layout type in deep copy" s
    | unlisted _ => Outcome.fatal_error "Unknown layout type in deep copy" s
termination_by structural fuel => fuel

/-- The function `copy_arg`. -/
def copy_arg (c : Cfg) (lower_limit upper_limit : Nat) :
    Nat → State → Nat → Nat → Nat → Outcome (Word × State)
  | 0, _, _, _, _ => Outcome.out_of_fuel
  | fuel + 1, s0, data_ptr, term_type_info, arg_pseudo_type_info =>
    let s := s0.log (Event.enter_copy_arg data_ptr term_type_info arg_pseudo_type_info)
    let new_type_info := c.MR_make_type_info s.mem term_type_info arg_pseudo_type_info
    copy c lower_limit upper_limit fuel s data_ptr new_type_info
termination_by structural fuel => fuel

end

/-! ## A concrete configuration

The general theorems hold for every `Cfg`.  Concrete runs use `Cfg.std`, a
32-bit configuration with two tag bits.  In it a type_ctor_info is four
words: arity, representation code, address of the layout table (one entry
per primary tag), higher-order flag. -/

/-- Representation codes of `Cfg.std`, in the order of the switch. -/
def rep_of_code : Nat → MR_TypeCtorRepresentation
  | 0 => .MR_TYPECTOR_REP_ENUM
  | 1 => .MR_TYPECTOR_REP_DU
  | 2 => .MR_TYPECTOR_REP_NOTAG
  | 3 => .MR_TYPECTOR_REP_EQUIV
  | 4 => .MR_TYPECTOR_REP_EQUIV_VAR
  | 5 => .MR_TYPECTOR_REP_INT
  | 6 => .MR_TYPECTOR_REP_CHAR
  | 7 => .MR_TYPECTOR_REP_FLOAT
  | 8 => .MR_TYPECTOR_REP_STRING
  | 9 => .MR_TYPECTOR_REP_PRED
  | 10 => .MR_TYPECTOR_REP_UNIV
  | 11 => .MR_TYPECTOR_REP_VOID
  | 12 => .MR_TYPECTOR_REP_ARRAY
  | 13 => .MR_TYPECTOR_REP_TYPEINFO
  | 14 => .MR_TYPECTOR_REP_C_POINTER
  | 15 => .MR_TYPECTOR_REP_SUCCIP
  | 16 => .MR_TYPECTOR_REP_REDOIP
  | 17 => .MR_TYPECTOR_REP_HP
  | 18 => .MR_TYPECTOR_REP_CURFR
  | 19 => .MR_TYPECTOR_REP_MAXFR
  | 20 => .MR_TYPECTOR_REP_TRAIL_PTR
  | 21 => .MR_TYPECTOR_REP_TICKET
  | 22 => .MR_TYPECTOR_REP_UNKNOWN
  | n + 23 => .unlisted (n + 23)

/-- Tag representation of a layout entry in `Cfg.std`, read off the entry's
own low bits: 0 is a constant (shared local), 1 an unshared functor, anything
else a shared remote vector. -/
def tag_rep_of_entry (w : Word) : MR_DiscUnionTagRepresentation :=
  if w % 4 = 0 then .MR_DISCUNIONTAG_SHARED_LOCAL
  else if w % 4 = 1 then .MR_DISCUNIONTAG_UNSHARED
  else .MR_DISCUNIONTAG_SHARED_REMOTE

/-- Modelled from the spec: the function `MR_make_type_info` is missing; "If
the pseudo descriptor names parameter index `k`, return
`enclosingDescriptor.arguments[k]`; otherwise it is already concrete."  A
pseudo descriptor names a parameter when it is a small integer (the array
case of `copy` passes the pseudo descriptor `1`). -/
def make_type_info_std (m : Mem) (term_type_info arg_pseudo_type_info : Nat) : Nat :=
  if arg_pseudo_type_info ≤ 1024 then m (term_type_info + arg_pseudo_type_info * 4)
  else arg_pseudo_type_info

/-- The concrete configuration used for the runs below. -/
def Cfg.std : Cfg where
  TAGBITS := 2
  sizeof_Word := 4
  CHAR_BIT := 8
  int_bits := 32
  BOXED_FLOAT := true
  FLOAT_WORDS := 2
  TYPE_CTOR_LAYOUT_UNSHARED_ARITY_OFFSET := 0
  TYPE_CTOR_LAYOUT_UNSHARED_ARGS_OFFSET := 1
  UNIV_OFFSET_FOR_DATA := 1
  UNIV_OFFSET_FOR_TYPEINFO := 0
  TYPEINFO_OFFSET_FOR_PRED_ARGS := 2
  MR_TYPEINFO_GET_TYPE_CTOR_INFO := fun m type_info =>
    if m type_info = 0 then type_info else m type_info
  type_ctor_rep := fun m type_ctor_info => rep_of_code (m (type_ctor_info + 4))
  type_ctor_layout := fun m type_ctor_info tag => m (m (type_ctor_info + 8) + tag * 4)
  MR_get_tag_representation := fun _ layout_entry => tag_rep_of_entry layout_entry
  MR_TYPE_CTOR_LAYOUT_SHARED_REMOTE_VECTOR_GET_FUNCTOR_DESCRIPTOR := fun m entry_value tag =>
    m (entry_value + (tag + 1) * 4)
  MR_TYPE_CTOR_LAYOUT_NO_TAG_VECTOR_ARGS := fun _ entry_value => entry_value + 4
  MR_TYPE_CTOR_LAYOUT_EQUIV_TYPE := fun m entry_value => m entry_value
  MR_TYPE_CTOR_INFO_IS_HO := fun m type_ctor_info => decide (m (type_ctor_info + 12) ≠ 0)
  MR_TYPEINFO_GET_HIGHER_ARITY := fun m type_info => m (type_info + 4)
  MR_TYPE_CTOR_INFO_GET_TYPE_ARITY := fun m type_ctor_info => m type_ctor_info
  MR_make_type_info := make_type_info_std
  MR_closure_layout := 0
  MR_closure_num_hidden_args := 1
  MR_closure_code := 2
  MR_closure_hidden_args_0 := 3
  arg_pseudo_type_info := 1

/-- Memory holding the listed words (first match wins), zero elsewhere. -/
def mem_of (cells : List (Nat × Word)) : Mem :=
  fun a => match cells.lookup a with
    | some v => v
    | none => 0

/-- What a run is compared on: the returned word, the heap pointer, the trace
and the content of the listed addresses. -/
inductive Observed where
  | ok (w : Word) (hp : Nat) (trace : List Event) (cells : List Word)
  | fatal_error (msg : String) (hp : Nat) (trace : List Event) (cells : List Word)
  | out_of_fuel
  deriving DecidableEq, Repr

/-- Observe an outcome at the addresses `at_`. -/
def observe (at_ : List Nat) : Outcome (Word × State) → Observed
  | Outcome.ok (w, s) => Observed.ok w s.hp s.trace (at_.map s.mem)
  | Outcome.fatal_error msg s => Observed.fatal_error msg s.hp s.trace (at_.map s.mem)
  | Outcome.out_of_fuel => Observed.out_of_fuel

/-! ## The local variables of `copy`, as functions of the state -/

/-- The local `type_ctor_rep` of a call `copy(data_ptr, type_info, ...)`:
`MR_TYPEINFO_GET_TYPE_CTOR_INFO(type_info)->type_ctor_rep`. -/
def rep_of (c : Cfg) (m : Mem) (type_info : Nat) : MR_TypeCtorRepresentation :=
  c.type_ctor_rep m (c.MR_TYPEINFO_GET_TYPE_CTOR_INFO m type_info)

/-- The local `layout_entry` of a call of `copy` on the word `data`. -/
def layout_entry_of (c : Cfg) (m : Mem) (type_info : Nat) (data : Word) : Word :=
  c.type_ctor_layout m (c.MR_TYPEINFO_GET_TYPE_CTOR_INFO m type_info) (MR_tag c data)

/-- The local `tag_rep` of a call of `copy` on the word `data`. -/
def tag_rep_of (c : Cfg) (m : Mem) (type_info : Nat) (data : Word) :
    MR_DiscUnionTagRepresentation :=
  c.MR_get_tag_representation m (layout_entry_of c m type_info data)

/-- The local `data_value` of a call of `copy` on the word `data`: the body
address. -/
def data_value_of (c : Cfg) (data : Word) : Nat := MR_body c data (MR_tag c data)

/-- The kinds that `copy` hands back as they are, whatever the region (claim
C8): ENUM, INT, CHAR, a DU shared-local alternative, SUCCIP, REDOIP, CURFR,
MAXFR, TRAIL_PTR, TICKET. -/
def immediate_kind (c : Cfg) (m : Mem) (type_info : Nat) (data : Word) : Prop :=
  rep_of c m type_info = .MR_TYPECTOR_REP_ENUM ∨
  rep_of c m type_info = .MR_TYPECTOR_REP_INT ∨
  rep_of c m type_info = .MR_TYPECTOR_REP_CHAR ∨
  (rep_of c m type_info = .MR_TYPECTOR_REP_DU ∧
    tag_rep_of c m type_info data = .MR_DISCUNIONTAG_SHARED_LOCAL) ∨
  rep_of c m type_info = .MR_TYPECTOR_REP_SUCCIP ∨
  rep_of c m type_info = .MR_TYPECTOR_REP_REDOIP ∨
  rep_of c m type_info = .MR_TYPECTOR_REP_CURFR ∨
  rep_of c m type_info = .MR_TYPECTOR_REP_MAXFR ∨
  rep_of c m type_info = .MR_TYPECTOR_REP_TRAIL_PTR ∨
  rep_of c m type_info = .MR_TYPECTOR_REP_TICKET

/-- The pointer-carrying kinds of claim C3: a shared-remote or unshared
tagged union, a boxed float, a string, a closure, a univ, an array, a
c_pointer. -/
def pointer_kind (c : Cfg) (m : Mem) (type_info : Nat) (data : Word) : Prop :=
  (rep_of c m type_info = .MR_TYPECTOR_REP_DU ∧
    tag_rep_of c m type_info data = .MR_DISCUNIONTAG_SHARED_REMOTE) ∨
  (rep_of c m type_info = .MR_TYPECTOR_REP_DU ∧
    tag_rep_of c m type_info data = .MR_DISCUNIONTAG_UNSHARED) ∨
  (rep_of c m type_info = .MR_TYPECTOR_REP_FLOAT ∧ c.BOXED_FLOAT = true) ∨
  rep_of c m type_info = .MR_TYPECTOR_REP_STRING ∨
  rep_of c m type_info = .MR_TYPECTOR_REP_PRED ∨
  rep_of c m type_info = .MR_TYPECTOR_REP_UNIV ∨
  rep_of c m type_info = .MR_TYPECTOR_REP_ARRAY ∨
  rep_of c m type_info = .MR_TYPECTOR_REP_C_POINTER

/-- The fatal conditions of claim C6: the kind is VOID, HP, UNKNOWN or has no
case in the switch, or it is C_POINTER with the body address in range. -/
def fatal_kind (c : Cfg) (lower_limit upper_limit : Nat) (m : Mem) (type_info : Nat)
    (data : Word) : Prop :=
  rep_of c m type_info = .MR_TYPECTOR_REP_VOID ∨
  rep_of c m type_info = .MR_TYPECTOR_REP_HP ∨
  rep_of c m type_info = .MR_TYPECTOR_REP_UNKNOWN ∨
  (∃ code, rep_of c m type_info = .unlisted code) ∨
  (rep_of c m type_info = .MR_TYPECTOR_REP_C_POINTER ∧
    in_range lower_limit upper_limit (data_value_of c data) = true)

/-! ## Basic facts -/

@[simp] theorem State.log_mem (s : State) (e : Event) : (s.log e).mem = s.mem := rfl

@[simp] theorem State.log_hp (s : State) (e : Event) : (s.log e).hp = s.hp := rfl

@[simp] theorem State.log_trace (s : State) (e : Event) : (s.log e).trace = e :: s.trace := rfl

@[simp] theorem State.write_hp (s : State) (a : Nat) (v : Word) : (s.write a v).hp = s.hp := rfl

@[simp] theorem State.write_trace (s : State) (a : Nat) (v : Word) :
    (s.write a v).trace = s.trace := rfl

@[simp] theorem State.write_mem (s : State) (a : Nat) (v : Word) :
    (s.write a v).mem = store s.mem a v := rfl

theorem rounds_cast (n : Nat) : rounds (n : Int) = n := Int.toNat_ofNat n

theorem store_same (m : Mem) (a : Nat) (v : Word) : store m a v a = v := by
  simp [store]

theorem store_other (m : Mem) (a : Nat) (v : Word) (x : Nat) (h : x ≠ a) :
    store m a v x = m x := by
  simp [store, h]

/-! ## Immediate kinds, out-of-range pointers, fatal kinds -/

/-- Claim C8.  For every data word and every region, `copy` on a value of
kind ENUM, INT, CHAR, DU shared-local, SUCCIP, REDOIP, CURFR, MAXFR,
TRAIL_PTR or TICKET returns the input word itself; the state it leaves is
the entry state with nothing but the entry of this call added to the trace:
memory and heap pointer are as before (zero words allocated, no forwarding
mark), and no recursive call was entered.  One unit of fuel is enough. -/
theorem copy_immediate_round_trip (c : Cfg) (lower_limit upper_limit fuel : Nat) (s : State)
    (data_ptr type_info : Nat)
    (h : immediate_kind c s.mem type_info (s.mem data_ptr)) :
    copy c lower_limit upper_limit (fuel + 1) s data_ptr type_info
      = Outcome.ok (s.mem data_ptr, s.log (Event.enter_copy data_ptr type_info)) := by
  unfold immediate_kind rep_of tag_rep_of layout_entry_of at h
  rcases h with h | h | h | ⟨h, h2⟩ | h | h | h | h | h | h <;>
    simp [copy, *]

/-! ## Invariants of the three functions

A relation `R s t` between an earlier state `s` and a later state `t` that is
kept by every primitive step of the copier is kept by the three functions.
Writes are only required to keep `R` when they hit a cell at or above the
heap pointer of `s`, and, when the configuration is well formed (`W`), below
the heap pointer of `t`: a cell allocated since `s`. -/

/-- Facts about the missing headers that the frame properties rely on:
words have a positive size, the four closure fields sit at offsets 0..3 with
the hidden arguments last, a univ cell has its two fields at offsets 0 and 1,
and a boxed float takes at least one word. -/
structure Cfg.wf (c : Cfg) : Prop where
  sizeof_Word_pos : 0 < c.sizeof_Word
  closure_layout_lt : c.MR_closure_layout < 3
  closure_num_hidden_args_lt : c.MR_closure_num_hidden_args < 3
  closure_code_lt : c.MR_closure_code < 3
  closure_hidden_args_0_eq : c.MR_closure_hidden_args_0 = 3
  univ_data_lt : c.UNIV_OFFSET_FOR_DATA < 2
  univ_typeinfo_lt : c.UNIV_OFFSET_FOR_TYPEINFO < 2
  float_words_pos : 0 < c.FLOAT_WORDS

/-- A relation between an earlier and a later state that every primitive
step of the copier keeps; `W` is what the upper bound of a write may rely
on, `A` holds of the slots a forwarding mark may be left on.  A forwarding
mark only has to keep `R` when the word it leaves is at or above the heap
pointer of `s` or is the word already in the slot. -/
structure Closed (W : Prop) (A : Nat → Prop) (R : State → State → Prop) : Prop where
  refl : ∀ s, R s s
  trans : ∀ {s t u}, R s t → R t u → R s u
  hp_le : ∀ {s t}, R s t → s.hp ≤ t.hp
  log : ∀ {s t} (e : Event), R s t → R s (t.log e)
  bump : ∀ {s t} (k : Nat), R s t → R s { t with hp := t.hp + k }
  write : ∀ {s t} (a : Nat) (v : Word), R s t → s.hp ≤ a → (W → a < t.hp) → R s (t.write a v)
  block : ∀ {s t} (dst src len : Nat), R s t → s.hp ≤ dst → (W → dst + len < t.hp) →
    R s { t with mem := strcpy t.mem dst src len }
  fwd : ∀ {s t} (p : Nat) (w : Word), R s t → A p → (s.hp ≤ w ∨ w = t.mem p) →
    R s (leave_forwarding_pointer t p w)

/-- The state an outcome ends in satisfies `P` (nothing is said when the
fuel ran out). -/
def Outcome.holds (P : State → Prop) : Outcome (Word × State) → Prop
  | Outcome.ok (_, t) => P t
  | Outcome.fatal_error _ t => P t
  | Outcome.out_of_fuel => True

/-- The state an outcome of a statement ends in satisfies `P`. -/
def Outcome.holdsS (P : State → Prop) : Outcome State → Prop
  | Outcome.ok t => P t
  | Outcome.fatal_error _ t => P t
  | Outcome.out_of_fuel => True

theorem Outcome.holds_mono {P Q : State → Prop} (h : ∀ t, P t → Q t)
    (r : Outcome (Word × State)) (hr : r.holds P) : r.holds Q := by
  cases r with
  | ok a => exact h _ hr
  | fatal_error msg t => exact h _ hr
  | out_of_fuel => trivial

theorem holdsS_assign {P : State → Prop} (dst : Nat) (r : Outcome (Word × State))
    (hr : r.holds (fun t => P t ∧ ∀ w, P (t.write dst w))) : (assign dst r).holdsS P := by
  cases r with
  | ok a => exact hr.2 _
  | fatal_error msg t => exact hr.1
  | out_of_fuel => trivial

theorem holds_finish {P : State → Prop} (w : Word) (p : Nat) (r : Outcome State)
    (hr : r.holdsS (fun t => P t ∧ P (leave_forwarding_pointer t p w))) :
    (finish w p r).holds P := by
  cases r with
  | ok a => exact hr.2
  | fatal_error msg t => exact hr.1
  | out_of_fuel => trivial

theorem holdsS_for_loop {P : State → Prop} (body : Nat → State → Outcome State) :
    ∀ (n i : Nat) (s : State), P s →
      (∀ j t, i ≤ j → j < i + n → P t → (body j t).holdsS P) →
      (for_loop body n i s).holdsS P := by
  intro n
  induction n with
  | zero => intro i s hs _; exact hs
  | succ n ih =>
    intro i s hs hbody
    have hb := hbody i s (le_refl _) (by omega) hs
    unfold for_loop
    cases hbi : body i s with
    | ok s1 =>
      rw [hbi] at hb
      exact ih (i + 1) s1 hb (fun j t h1 h2 ht => hbody j t (by omega) (by omega) ht)
    | fatal_error msg t => rw [hbi] at hb; exact hb
    | out_of_fuel => trivial

theorem Outcome.holdsS_mono {P Q : State → Prop} (h : ∀ t, P t → Q t)
    (r : Outcome State) (hr : r.holdsS P) : r.holdsS Q := by
  cases r with
  | ok a => exact h _ hr
  | fatal_error msg t => exact h _ hr
  | out_of_fuel => trivial

theorem word_ptr_ge (c : Cfg) (p i : Nat) : p ≤ word_ptr c p i := Nat.le_add_right _ _

theorem word_ptr_lt (c : Cfg) (hc : 0 < c.sizeof_Word) (p i n : Nat) (h : i < n) :
    word_ptr c p i < p + n * c.sizeof_Word := by
  unfold word_ptr
  have := Nat.mul_lt_mul_of_pos_right h hc
  omega

/-- A nested call that keeps `R` from its own entry on, made in a state `t`
reached from `s` with the block `[s.hp, top)` allocated, keeps `R` from `s`
and leaves the block allocated; so does the store of its result into the
block. -/
theorem holdsS_assign_call {W : Prop} {A : Nat → Prop} {R : State → State → Prop}
    (hR : Closed W A R)
    (s t : State) (top : Nat)
    (e : Event) (dst : Nat) (r : Outcome (Word × State))
    (hst : R s t ∧ top ≤ t.hp) (hdst : s.hp ≤ dst ∧ (W → dst < top))
    (hr : r.holds (R (t.log e))) :
    (assign dst r).holdsS (fun u => R s u ∧ top ≤ u.hp) := by
  apply holdsS_assign
  refine Outcome.holds_mono ?_ r hr
  intro u hu
  have h1 : R s u := hR.trans (hR.log e hst.1) hu
  have h2 : top ≤ u.hp := le_trans hst.2 (by simpa using hR.hp_le hu)
  refine ⟨⟨h1, h2⟩, fun w => ⟨hR.write dst w h1 hdst.1 (fun hw => lt_of_lt_of_le (hdst.2 hw) h2), ?_⟩⟩
  simpa using h2

/-- A loop that stores the results of nested calls into cells allocated
since `s0`, followed by the forwarding mark, keeps `R`. -/
theorem holds_finish_loop {W : Prop} {A : Nat → Prop} {R : State → State → Prop}
    (hR : Closed W A R)
    (s0 s : State) (top : Nat) (n first : Nat) (w : Word) (p : Nat) (dst : Nat → Nat)
    (call : Nat → State → Outcome (Word × State)) (e : Nat → State → Event)
    (hp : A p) (hw : s0.hp ≤ w)
    (hs : R s0 s ∧ top ≤ s.hp)
    (hdst : ∀ j, first ≤ j → j < first + n → s0.hp ≤ dst j ∧ (W → dst j < top))
    (hcall : ∀ i t, (call i t).holds (R (t.log (e i t)))) :
    (finish w p (for_loop (fun i t => assign (dst i) (call i t)) n first s)).holds (R s0) := by
  apply holds_finish
  refine Outcome.holdsS_mono (P := fun t => R s0 t ∧ top ≤ t.hp) ?_ _ ?_
  · intro t ht
    exact ⟨ht.1, hR.fwd p w ht.1 hp (Or.inl hw)⟩
  · apply holdsS_for_loop _ n first s hs
    intro j t h1 h2 ht
    exact holdsS_assign_call hR s0 t top (e j t) _ _ ht (hdst j h1 h2) (hcall j t)

theorem in_range_ge {lower_limit upper_limit x : Nat}
    (h : in_range lower_limit upper_limit x = true) : lower_limit ≤ x := by
  simp only [in_range, Bool.and_eq_true, decide_eq_true_eq] at h
  exact h.1

theorem copy_type_info_closed {W : Prop} {A : Nat → Prop} {R : State → State → Prop}
    (hR : Closed W A R) (c : Cfg) (hc : W → c.wf)
    (lower_limit upper_limit : Nat) (hA : ∀ p, lower_limit ≤ p → A p) :
    ∀ (fuel : Nat) (s : State) (type_info_ptr : Nat), A type_info_ptr →
      (copy_type_info c lower_limit upper_limit fuel s type_info_ptr).holds
        (R (s.log (Event.enter_copy_type_info type_info_ptr))) := by
  intro fuel
  induction fuel with
  | zero => intro s p _; trivial
  | succ fuel ih =>
    intro s p hAp
    rw [copy_type_info]
    simp only []
    generalize hs0 : s.log (Event.enter_copy_type_info p) = s0
    split
    · rename_i hin
      have hlo := in_range_ge hin
      revert hlo
      split
      · intro _; exact hR.refl _
      · generalize s0.mem p = ti
        intro hlo
        generalize c.MR_TYPEINFO_GET_TYPE_CTOR_INFO s0.mem ti = tci
        by_cases hho : c.MR_TYPE_CTOR_INFO_IS_HO s0.mem tci = true
        · simp only [hho, if_true]
          generalize c.MR_TYPEINFO_GET_HIGHER_ARITY s0.mem ti = arity_word
          generalize rounds (to_Integer c arity_word) = arity
          have h1 : R s0 (incr_saved_hp c s0 (arity + 2)).2 :=
            hR.log _ (hR.bump ((arity + 2) * c.sizeof_Word) (hR.refl s0))
          have hlt : ∀ j, j < arity + 2 → W →
              word_ptr c s0.hp j < s0.hp + (arity + 2) * c.sizeof_Word :=
            fun j hj hw => word_ptr_lt c (hc hw).sizeof_Word_pos _ _ _ hj
          have h2 := hR.write (word_ptr c s0.hp 0) tci h1 (word_ptr_ge _ _ _) (hlt 0 (by omega))
          have h3 := hR.write (word_ptr c s0.hp 1) arity_word h2 (word_ptr_ge _ _ _)
            (hlt 1 (by omega))
          refine holds_finish_loop hR s0 _ (s0.hp + (arity + 2) * c.sizeof_Word) arity 2 _ p
            (fun i => word_ptr c s0.hp i) _ (fun i _ => Event.enter_copy_type_info (word_ptr c ti i))
            hAp (le_refl _) ⟨h3, le_refl _⟩ ?_
            (fun i t => ih t _ (hA _ (le_trans hlo (word_ptr_ge c ti i))))
          intro j hj1 hj2
          exact ⟨word_ptr_ge _ _ _, hlt j (by omega)⟩
        · simp only [hho, if_false, Bool.false_eq_true]
          generalize rounds (to_Integer c (c.MR_TYPE_CTOR_INFO_GET_TYPE_ARITY s0.mem tci)) = arity
          have h1 : R s0 (incr_saved_hp c s0 (arity + 1)).2 :=
            hR.log _ (hR.bump ((arity + 1) * c.sizeof_Word) (hR.refl s0))
          have hlt : ∀ j, j < arity + 1 → W →
              word_ptr c s0.hp j < s0.hp + (arity + 1) * c.sizeof_Word :=
            fun j hj hw => word_ptr_lt c (hc hw).sizeof_Word_pos _ _ _ hj
          have h2 := hR.write (word_ptr c s0.hp 0) tci h1 (word_ptr_ge _ _ _) (hlt 0 (by omega))
          refine holds_finish_loop hR s0 _ (s0.hp + (arity + 1) * c.sizeof_Word) arity 1 _ p
            (fun i => word_ptr c s0.hp i) _ (fun i _ => Event.enter_copy_type_info (word_ptr c ti i))
            hAp (le_refl _) ⟨h2, le_refl _⟩ ?_
            (fun i t => ih t _ (hA _ (le_trans hlo (word_ptr_ge c ti i))))
          intro j hj1 hj2
          exact ⟨word_ptr_ge _ _ _, hlt j (by omega)⟩
    · exact hR.refl _

theorem Closed.enter {W : Prop} {A : Nat → Prop} {R : State → State → Prop}
    (hR : Closed W A R) {s t : State} (e : Event)
    (r : Outcome (Word × State)) (hst : R s t) (hr : r.holds (R (t.log e))) : r.holds (R s) :=
  Outcome.holds_mono (fun _ hu => hR.trans (hR.log e hst) hu) r hr

theorem strcpy_fits (c : Cfg) (hc : 0 < c.sizeof_Word) (hp len : Nat) :
    hp + len < hp + (len + c.sizeof_Word) / c.sizeof_Word * c.sizeof_Word := by
  have h := Nat.div_add_mod (len + c.sizeof_Word) c.sizeof_Word
  have h2 := Nat.mod_lt (len + c.sizeof_Word) hc
  have h3 : c.sizeof_Word * ((len + c.sizeof_Word) / c.sizeof_Word)
      = (len + c.sizeof_Word) / c.sizeof_Word * c.sizeof_Word := Nat.mul_comm _ _
  omega

theorem copy_closed {W : Prop} {A : Nat → Prop} {R : State → State → Prop}
    (hR : Closed W A R) (c : Cfg) (hc : W → c.wf)
    (lower_limit upper_limit : Nat) (hA : ∀ p, lower_limit ≤ p → A p) :
    ∀ (fuel : Nat),
      (∀ (s : State) (data_ptr type_info : Nat), A data_ptr →
        (copy c lower_limit upper_limit fuel s data_ptr type_info).holds
          (R (s.log (Event.enter_copy data_ptr type_info)))) ∧
      (∀ (s : State) (data_ptr term_type_info arg_pseudo_type_info : Nat), A data_ptr →
        (copy_arg c lower_limit upper_limit fuel s data_ptr term_type_info
          arg_pseudo_type_info).holds
          (R (s.log (Event.enter_copy_arg data_ptr term_type_info arg_pseudo_type_info)))) := by
  intro fuel
  induction fuel with
  | zero => exact ⟨fun _ _ _ _ => trivial, fun _ _ _ _ _ => trivial⟩
  | succ fuel ih =>
    obtain ⟨ihc, iha⟩ := ih
    constructor
    · intro s dp ti hAp
      rw [copy]
      simp only []
      generalize hs0 : s.log (Event.enter_copy dp ti) = s0
      generalize hdata : s0.mem dp = data
      have halloc : ∀ n, R s0 (incr_saved_hp c s0 n).2 := fun n =>
        hR.log _ (hR.bump (n * c.sizeof_Word) (hR.refl s0))
      have hlt : ∀ n j, j < n → W → word_ptr c s0.hp j < s0.hp + n * c.sizeof_Word :=
        fun n j hj hw => word_ptr_lt c (hc hw).sizeof_Word_pos _ _ _ hj
      have hsub : ∀ i, in_range lower_limit upper_limit (MR_body c data (MR_tag c data)) = true →
          A (word_ptr c (MR_body c data (MR_tag c data)) i) :=
        fun i hin => hA _ (le_trans (in_range_ge hin) (word_ptr_ge c _ i))
      have hmk : ∀ tag, s0.hp ≤ MR_mkword c tag s0.hp := fun tag => Nat.le_add_right _ _
      split
      · exact hR.refl _
      · split
        · exact hR.refl _
        · split
          · rename_i hin
            generalize rounds (to_int c (s0.mem (word_ptr c _ c.TYPE_CTOR_LAYOUT_UNSHARED_ARITY_OFFSET)))
              = arity
            have h2 := hR.write (word_ptr c s0.hp 0) (s0.mem (MR_body c data (MR_tag c data)))
              (halloc (arity + 1)) (word_ptr_ge _ _ _) (hlt _ 0 (by omega))
            refine holds_finish_loop hR s0 _ (s0.hp + (arity + 1) * c.sizeof_Word) arity 0 _ dp
              (fun i => word_ptr c s0.hp (i + 1)) _
              (fun i t => Event.enter_copy_arg _ _ _) hAp (hmk _) ⟨h2, le_refl _⟩ ?_
              (fun i t => iha t _ _ _ (hA _ (le_trans (in_range_ge hin)
                (le_trans (word_ptr_ge c _ 1) (word_ptr_ge c _ i)))))
            intro j _ hj2
            exact ⟨word_ptr_ge _ _ _, hlt _ _ (by omega)⟩
          · exact hR.refl _
        · split
          · rename_i hin
            generalize rounds (to_int c (s0.mem (word_ptr c _ c.TYPE_CTOR_LAYOUT_UNSHARED_ARITY_OFFSET)))
              = arity
            refine holds_finish_loop hR s0 _ (s0.hp + arity * c.sizeof_Word) arity 0 _ dp
              (fun i => word_ptr c s0.hp i) _
              (fun i t => Event.enter_copy_arg _ _ _) hAp (hmk _) ⟨halloc arity, le_refl _⟩ ?_
              (fun i t => iha t _ _ _ (hsub i hin))
            intro j _ hj2
            exact ⟨word_ptr_ge _ _ _, hlt _ _ (by omega)⟩
          · exact hR.refl _
      · exact hR.enter _ _ (hR.refl _) (iha s0 _ _ _ hAp)
      · exact hR.enter _ _ (hR.refl _) (iha s0 _ _ _ hAp)
      · exact hR.enter _ _ (hR.refl _) (ihc s0 _ _ hAp)
      · exact hR.refl _
      · exact hR.refl _
      · split
        · split
          · have h1 : R s0 (float_to_word c s0 data).2 := by
              have hb := hR.bump (c.FLOAT_WORDS * c.sizeof_Word) (hR.refl s0)
              have hw := hR.write s0.hp data hb (le_refl _) (fun hw => by
                have := Nat.mul_pos (hc hw).float_words_pos (hc hw).sizeof_Word_pos
                show s0.hp < s0.hp + _
                omega)
              exact hR.log (Event.float_to_word s0.hp) hw
            refine hR.fwd _ _ h1 hAp (Or.inr ?_)
            simp only [word_to_float, float_to_word]
            rw [store_same]
            by_cases hdp : dp = s0.hp
            · rw [hdp, store_same]
            · rw [store_other _ _ _ _ hdp, hdata]
          · exact hR.refl _
        · exact hR.refl _
      · split
        · split
          · trivial
          · rename_i len _
            have h1 : R s0 (incr_saved_hp_atomic c s0 ((len + c.sizeof_Word) / c.sizeof_Word)).2 :=
              hR.log _ (hR.bump _ (hR.refl s0))
            have h2 := hR.block s0.hp data len h1 (le_refl _)
              (fun hw => strcpy_fits c (hc hw).sizeof_Word_pos s0.hp len)
            exact hR.fwd _ _ h2 hAp (Or.inl (le_refl _))
        · exact hR.refl _
      · split
        · rename_i hin
          generalize s0.mem (word_ptr c _ c.MR_closure_num_hidden_args) = args
          generalize s0.mem (word_ptr c _ c.MR_closure_layout) = closure_layout
          have h2 := hR.write (word_ptr c s0.hp c.MR_closure_layout) closure_layout
            (halloc (args + 3)) (word_ptr_ge _ _ _) (fun hw => hlt _ _ (by have := (hc hw).closure_layout_lt; omega) hw)
          have h3 := hR.write (word_ptr c s0.hp c.MR_closure_num_hidden_args) args
            h2 (word_ptr_ge _ _ _) (fun hw => hlt _ _ (by have := (hc hw).closure_num_hidden_args_lt; omega) hw)
          have h4 := fun v => hR.write (word_ptr c s0.hp c.MR_closure_code) v
            h3 (word_ptr_ge _ _ _) (fun hw => hlt _ _ (by have := (hc hw).closure_code_lt; omega) hw)
          refine holds_finish_loop hR s0 _ (s0.hp + (args + 3) * c.sizeof_Word) args 0 _ dp
            (fun i => word_ptr c s0.hp (c.MR_closure_hidden_args_0 + i)) _
            (fun i t => Event.enter_copy_arg _ _ _) hAp (le_refl _) ⟨h4 _, le_refl _⟩ ?_
            (fun i t => iha t _ _ _ (hsub _ hin))
          intro j _ hj2
          exact ⟨word_ptr_ge _ _ _,
            fun hw => hlt _ _ (by have := (hc hw).closure_hidden_args_0_eq; omega) hw⟩
        · exact hR.refl _
      · split
        · rename_i hin
          have hA1 := holdsS_assign_call hR s0 (incr_saved_hp c s0 2).2
            (s0.hp + 2 * c.sizeof_Word) (Event.enter_copy _ _)
            (word_ptr c s0.hp c.UNIV_OFFSET_FOR_DATA) _ ⟨halloc 2, le_refl _⟩
            ⟨word_ptr_ge _ _ _, fun hw => hlt _ _ (hc hw).univ_data_lt hw⟩
            (ihc (incr_saved_hp c s0 2).2
              (word_ptr c (MR_body c data (MR_tag c data)) c.UNIV_OFFSET_FOR_DATA)
              ((incr_saved_hp c s0 2).2.mem
                (word_ptr c (MR_body c data (MR_tag c data)) c.UNIV_OFFSET_FOR_TYPEINFO))
              (hsub _ hin))
          split
          · rename_i s2 heq
            replace hA1 : (Outcome.ok s2 : Outcome State).holdsS
                (fun u => R s0 u ∧ s0.hp + 2 * c.sizeof_Word ≤ u.hp) := by
              rw [← heq]; exact hA1
            apply holds_finish
            refine Outcome.holdsS_mono (P := fun t => R s0 t ∧ s0.hp + 2 * c.sizeof_Word ≤ t.hp)
              (fun t ht => ⟨ht.1, hR.fwd _ _ ht.1 hAp (Or.inl (le_refl _))⟩) _ ?_
            exact holdsS_assign_call hR s0 s2 (s0.hp + 2 * c.sizeof_Word)
              (Event.enter_copy_type_info _) (word_ptr c s0.hp c.UNIV_OFFSET_FOR_TYPEINFO) _ hA1
              ⟨word_ptr_ge _ _ _, fun hw => hlt _ _ (hc hw).univ_typeinfo_lt hw⟩
              (copy_type_info_closed hR c hc _ _ hA fuel s2 _ (hsub _ hin))
          · rename_i msg t heq
            replace hA1 : (Outcome.fatal_error msg t : Outcome State).holdsS
                (fun u => R s0 u ∧ s0.hp + 2 * c.sizeof_Word ≤ u.hp) := by
              rw [← heq]; exact hA1
            exact hA1.1
          · trivial
        · exact hR.refl _
      · exact hR.refl _
      · split
        · rename_i hin
          generalize s0.mem (word_ptr c _ MR_ArrayType_size) = size_word
          obtain ⟨array_size, hsize⟩ : ∃ n, rounds (to_Integer c size_word) = n := ⟨_, rfl⟩
          have h1 : R s0 (MR_make_array c s0 (to_Integer c size_word)).2 :=
            hR.log _ (hR.bump ((rounds (to_Integer c size_word) + 1) * c.sizeof_Word)
              (hR.refl s0))
          have h2 := hR.write (word_ptr c s0.hp MR_ArrayType_size) size_word
            h1 (word_ptr_ge _ _ _) (hlt _ _ (by unfold MR_ArrayType_size; omega))
          rw [hsize]
          have htop : s0.hp + (array_size + 1) * c.sizeof_Word
              ≤ ((MR_make_array c s0 (to_Integer c size_word)).2.write
                (word_ptr c s0.hp MR_ArrayType_size) size_word).hp := by
            simp [MR_make_array, hsize, State.write]
          refine holds_finish_loop hR s0 _ (s0.hp + (array_size + 1) * c.sizeof_Word) array_size 0
            _ dp (fun i => word_ptr c s0.hp (MR_ArrayType_elements + i)) _
            (fun i t => Event.enter_copy_arg _ _ _) hAp (le_refl _) ⟨h2, htop⟩ ?_
            (fun i t => iha t _ _ _ (hsub _ hin))
          intro j _ hj2
          exact ⟨word_ptr_ge _ _ _, hlt _ _ (by unfold MR_ArrayType_elements; omega)⟩
        · exact hR.refl _
      · exact hR.enter _ _ (hR.refl _) (copy_type_info_closed hR c hc _ _ hA fuel s0 _ hAp)
      · split
        · exact hR.refl _
        · exact hR.refl _
      · exact hR.refl _
      · exact hR.refl _
      · exact hR.refl _
      · exact hR.refl _
      · exact hR.refl _
      · exact hR.refl _
      · exact hR.refl _
      · exact hR.refl _
      · exact hR.refl _
    · intro s dp tti apti hAp
      rw [copy_arg]
      exact hR.enter _ _ (hR.refl _) (ihc _ _ _ hAp)

/-- The heap pointer never moves back and the trace only grows. -/
def Reaches (s t : State) : Prop := s.hp ≤ t.hp ∧ ∃ l, t.trace = l ++ s.trace

theorem Reaches_closed : Closed False (fun _ => True) Reaches where
  refl := fun s => ⟨le_refl _, [], rfl⟩
  trans := by
    rintro s t u ⟨h1, l1, e1⟩ ⟨h2, l2, e2⟩
    exact ⟨le_trans h1 h2, l2 ++ l1, by rw [e2, e1, List.append_assoc]⟩
  hp_le := fun h => h.1
  log := by
    rintro s t e ⟨h1, l1, e1⟩
    exact ⟨h1, e :: l1, by simp [e1]⟩
  bump := by
    rintro s t k ⟨h1, l1, e1⟩
    exact ⟨Nat.le_add_right_of_le h1, l1, e1⟩
  write := fun _ _ h _ _ => h
  block := fun _ _ _ h _ _ => h
  fwd := by
    rintro s t p w ⟨h1, l1, e1⟩ _ _
    exact ⟨h1, Event.leave_forwarding_pointer p w :: l1, by simp [leave_forwarding_pointer, e1]⟩

/-- The slot `a` is the target of a forwarding mark recorded in `l`. -/
def forwarded (l : List Event) (a : Nat) : Prop :=
  ∃ w, Event.leave_forwarding_pointer a w ∈ l

/-- The frame of the copier: from `s` to `t` the heap pointer did not move
back, the trace grew by some events `l`, and every cell that is neither
allocated between `s` and `t` nor the target of a forwarding mark of `l`
holds what it held in `s`. -/
def Frame (s t : State) : Prop :=
  s.hp ≤ t.hp ∧ ∃ l, t.trace = l ++ s.trace ∧
    ∀ a, (a < s.hp ∨ t.hp ≤ a) → ¬ forwarded l a → t.mem a = s.mem a

theorem Frame_closed : Closed True (fun _ => True) Frame where
  refl := fun s => ⟨le_refl _, [], rfl, fun _ _ _ => rfl⟩
  trans := by
    rintro s t u ⟨h1, l1, e1, f1⟩ ⟨h2, l2, e2, f2⟩
    refine ⟨le_trans h1 h2, l2 ++ l1, by rw [e2, e1, List.append_assoc], ?_⟩
    intro a ha hf
    have hf1 : ¬ forwarded l1 a := fun ⟨w, hw⟩ => hf ⟨w, List.mem_append_right _ hw⟩
    have hf2 : ¬ forwarded l2 a := fun ⟨w, hw⟩ => hf ⟨w, List.mem_append_left _ hw⟩
    rw [f2 a (by omega) hf2, f1 a (by omega) hf1]
  hp_le := fun h => h.1
  log := by
    rintro s t e ⟨h1, l1, e1, f1⟩
    refine ⟨h1, e :: l1, by simp [e1], ?_⟩
    intro a ha hf
    exact f1 a ha (fun ⟨w, hw⟩ => hf ⟨w, List.mem_cons_of_mem _ hw⟩)
  bump := by
    rintro s t k ⟨h1, l1, e1, f1⟩
    refine ⟨Nat.le_add_right_of_le h1, l1, e1, ?_⟩
    intro a ha hf
    exact f1 a (by simp only [] at ha; omega) hf
  write := by
    rintro s t a v ⟨h1, l1, e1, f1⟩ ha1 ha2
    replace ha2 := ha2 trivial
    refine ⟨h1, l1, e1, ?_⟩
    intro x hx hf
    rw [State.write_mem, store_other _ _ _ _ (by simp only [State.write_hp] at hx; omega)]
    exact f1 x hx hf
  block := by
    rintro s t dst src len ⟨h1, l1, e1, f1⟩ ha1 ha2
    replace ha2 := ha2 trivial
    refine ⟨h1, l1, e1, ?_⟩
    intro x hx hf
    have hx2 : ¬ (dst ≤ x ∧ x ≤ dst + len) := by simp only [] at hx; omega
    simp only [strcpy, hx2, if_false]
    exact f1 x hx hf
  fwd := by
    rintro s t p w ⟨h1, l1, e1, f1⟩ _ _
    refine ⟨h1, Event.leave_forwarding_pointer p w :: l1, by simp [leave_forwarding_pointer, e1], ?_⟩
    intro x hx hf
    have hxp : x ≠ p := by
      rintro rfl
      exact hf ⟨w, List.mem_cons_self _ _⟩
    simp only [leave_forwarding_pointer, store_other _ _ _ _ hxp]
    exact f1 x hx (fun ⟨w2, hw⟩ => hf ⟨w2, List.mem_cons_of_mem _ hw⟩)

/-- Claim C3.  A call of `copy` on a value of a pointer-carrying kind
(shared-remote or unshared tagged union, boxed float, string, closure, univ,
array, c_pointer) whose body address is not in range, and a call of
`copy_type_info` on a descriptor that is not in range, return the input word
and leave the entry state with only the entry of the call itself added to
the trace: the heap pointer has not moved (no allocation), no cell of memory
has changed, and no further call of `copy`, `copy_arg` or `copy_type_info`
was entered.  One unit of fuel is enough. -/
theorem range_fidelity (c : Cfg) (lower_limit upper_limit fuel : Nat) (s : State) :
    (∀ data_ptr type_info,
      pointer_kind c s.mem type_info (s.mem data_ptr) →
      in_range lower_limit upper_limit (data_value_of c (s.mem data_ptr)) = false →
      copy c lower_limit upper_limit (fuel + 1) s data_ptr type_info
        = Outcome.ok (s.mem data_ptr, s.log (Event.enter_copy data_ptr type_info))) ∧
    (∀ type_info_ptr,
      in_range lower_limit upper_limit (s.mem type_info_ptr) = false →
      copy_type_info c lower_limit upper_limit (fuel + 1) s type_info_ptr
        = Outcome.ok (s.mem type_info_ptr, s.log (Event.enter_copy_type_info type_info_ptr))) := by
  constructor
  · intro data_ptr type_info h hr
    unfold pointer_kind rep_of tag_rep_of layout_entry_of at h
    unfold data_value_of at hr
    rcases h with ⟨h, h2⟩ | ⟨h, h2⟩ | ⟨h, h2⟩ | h | h | h | h | h <;>
      simp [copy, found_forwarding_pointer, *]
  · intro type_info_ptr hr
    simp [copy_type_info, found_forwarding_pointer, hr]

/-- Claim C7.  A call of `copy` whose type descriptor reports the VOID kind,
or the C_POINTER kind with the body address inside the region, ends in
`fatal_error`, and the state it stops in is the entry state with only the
entry of the call added to the trace: the heap pointer has not moved and the
trace holds no `incr_saved_hp`, `incr_saved_hp_atomic` or `MR_make_array`
of this call (zero allocations), and no cell of memory has changed. -/
theorem fatal_path_allocates_nothing (c : Cfg) (lower_limit upper_limit fuel : Nat) (s : State)
    (data_ptr type_info : Nat)
    (h : rep_of c s.mem type_info = .MR_TYPECTOR_REP_VOID ∨
      (rep_of c s.mem type_info = .MR_TYPECTOR_REP_C_POINTER ∧
        in_range lower_limit upper_limit (data_value_of c (s.mem data_ptr)) = true)) :
    ∃ msg, copy c lower_limit upper_limit (fuel + 1) s data_ptr type_info
      = Outcome.fatal_error msg (s.log (Event.enter_copy data_ptr type_info)) := by
  unfold rep_of data_value_of at h
  rcases h with h | ⟨h, h2⟩
  · exact ⟨"Cannot copy a void type", by simp [copy, *]⟩
  · exact ⟨"Cannot copy a c_pointer type", by simp [copy, *]⟩

/-- From the entry of a call on, the trace is strictly longer than before
the call. -/
theorem Reaches.trace_lt {s t : State} (e : Event) (h : Reaches (s.log e) t) :
    s.trace.length < t.trace.length := by
  obtain ⟨_, l, hl⟩ := h
  simp only [hl, State.log_trace, List.length_append, List.length_cons]
  omega

/-- The states in which a statement can stop with a fatal error. -/
def Outcome.fatalS (P : State → Prop) : Outcome State → Prop
  | Outcome.ok _ => True
  | Outcome.fatal_error _ t => P t
  | Outcome.out_of_fuel => True

/-- The states in which a call can stop with a fatal error. -/
def Outcome.fatal (P : State → Prop) : Outcome (Word × State) → Prop
  | Outcome.ok _ => True
  | Outcome.fatal_error _ t => P t
  | Outcome.out_of_fuel => True

/-- A loop of nested calls, each of which adds its entry to the trace, only
stops with a fatal error in a state whose trace is longer than at the start
of the loop. -/
theorem for_loop_fatal (k : Nat) (dst : Nat → Nat) (call : Nat → State → Outcome (Word × State))
    (hcall : ∀ i t, (call i t).holds (fun u => t.trace.length < u.trace.length)) :
    ∀ (n i : Nat) (s : State), k ≤ s.trace.length →
      (for_loop (fun i t => assign (dst i) (call i t)) n i s).fatalS
        (fun u => k < u.trace.length) := by
  intro n
  induction n with
  | zero => intro i s _; trivial
  | succ n ih =>
    intro i s hs
    unfold for_loop
    have hc := hcall i s
    cases hr : call i s with
    | ok a =>
      obtain ⟨w, s1⟩ := a
      rw [hr] at hc
      simp only [assign]
      exact ih (i + 1) _ (by
        have : s.trace.length < s1.trace.length := hc
        simp only [State.write_trace]
        omega)
    | fatal_error msg t =>
      rw [hr] at hc
      simp only [assign]
      have : s.trace.length < t.trace.length := hc
      show k < t.trace.length
      omega
    | out_of_fuel => simp only [assign]; trivial

theorem holdsS_assign_trace (k : Nat) (dst : Nat) (r : Outcome (Word × State))
    (h : r.holds (fun u => k < u.trace.length)) :
    (assign dst r).holdsS (fun u => k < u.trace.length) := by
  cases r with
  | ok a => exact h
  | fatal_error msg t => exact h
  | out_of_fuel => trivial

theorem fatalS_of_holdsS {P : State → Prop} (r : Outcome State)
    (h : r.holdsS P) : r.fatalS P := by
  cases r with
  | ok a => trivial
  | fatal_error msg t => exact h
  | out_of_fuel => trivial

theorem fatal_finish {P : State → Prop} (w : Word) (p : Nat) (r : Outcome State)
    (h : r.fatalS P) : (finish w p r).fatal P := by
  cases r with
  | ok a => trivial
  | fatal_error msg t => exact h
  | out_of_fuel => trivial

theorem copy_trace_lt (c : Cfg) (lower_limit upper_limit fuel : Nat) (s : State)
    (data_ptr type_info : Nat) :
    (copy c lower_limit upper_limit fuel s data_ptr type_info).holds
      (fun u => s.trace.length < u.trace.length) :=
  Outcome.holds_mono (fun _ h => Reaches.trace_lt _ h) _
    ((copy_closed Reaches_closed c False.elim lower_limit upper_limit
      (fun _ _ => trivial) fuel).1 s data_ptr type_info trivial)

theorem copy_arg_trace_lt (c : Cfg) (lower_limit upper_limit fuel : Nat) (s : State)
    (data_ptr term_type_info arg_pseudo_type_info : Nat) :
    (copy_arg c lower_limit upper_limit fuel s data_ptr term_type_info
      arg_pseudo_type_info).holds (fun u => s.trace.length < u.trace.length) :=
  Outcome.holds_mono (fun _ h => Reaches.trace_lt _ h) _
    ((copy_closed Reaches_closed c False.elim lower_limit upper_limit
      (fun _ _ => trivial) fuel).2 s data_ptr term_type_info arg_pseudo_type_info trivial)

theorem copy_type_info_trace_lt (c : Cfg) (lower_limit upper_limit fuel : Nat) (s : State)
    (type_info_ptr : Nat) :
    (copy_type_info c lower_limit upper_limit fuel s type_info_ptr).holds
      (fun u => s.trace.length < u.trace.length) :=
  Outcome.holds_mono (fun _ h => Reaches.trace_lt _ h) _
    (copy_type_info_closed Reaches_closed c False.elim lower_limit upper_limit
      (fun _ _ => trivial) fuel s type_info_ptr trivial)

theorem Outcome.fatal_of_holds {P : State → Prop} (r : Outcome (Word × State))
    (h : r.holds P) : r.fatal P := by
  cases r with
  | ok a => trivial
  | fatal_error msg t => exact h
  | out_of_fuel => trivial

/-- A fatal error of a call of `copy` on a kind outside `fatal_kind` is
raised by a nested call: the trace of the state it stops in is longer than
the trace at the dispatch of the call itself. -/
theorem copy_fatal_nested (c : Cfg) (lower_limit upper_limit fuel : Nat) (s : State)
    (data_ptr type_info : Nat)
    (h : ¬ fatal_kind c lower_limit upper_limit s.mem type_info (s.mem data_ptr)) :
    (copy c lower_limit upper_limit (fuel + 1) s data_ptr type_info).fatal
      (fun u => (s.log (Event.enter_copy data_ptr type_info)).trace.length < u.trace.length) := by
  unfold fatal_kind rep_of data_value_of at h
  rw [copy]
  simp only []
  generalize hs0 : s.log (Event.enter_copy data_ptr type_info) = s0
  have hm : s0.mem = s.mem := by rw [← hs0]; rfl
  rw [hm]
  have hloop : ∀ (w : Word) (s1 : State) (n : Nat) (dst : Nat → Nat)
      (tiv : Nat → State → Nat) (slot : Nat → Nat) (tti : Nat),
      s0.trace.length ≤ s1.trace.length →
      (finish w data_ptr (for_loop (fun i t => assign (dst i)
        (copy_arg c lower_limit upper_limit fuel t (slot i) tti (tiv i t))) n 0 s1)).fatal
        (fun u => s0.trace.length < u.trace.length) := by
    intro w s1 n dst tiv slot tti hs1
    apply fatal_finish
    exact for_loop_fatal s0.trace.length dst _
      (fun i t => copy_arg_trace_lt c lower_limit upper_limit fuel t _ _ _) n 0 s1 hs1
  split
  · trivial
  · split
    · trivial
    · split
      · exact hloop _ _ _ (fun i => word_ptr c s0.hp (i + 1)) (fun i t => t.mem _) _ _
          (by simp [incr_saved_hp])
      · trivial
    · split
      · exact hloop _ _ _ (fun i => word_ptr c s0.hp i) (fun i t => t.mem _) _ _
          (by simp [incr_saved_hp])
      · trivial
  · exact Outcome.fatal_of_holds _ (copy_arg_trace_lt c lower_limit upper_limit fuel s0 _ _ _)
  · exact Outcome.fatal_of_holds _ (copy_arg_trace_lt c lower_limit upper_limit fuel s0 _ _ _)
  · exact Outcome.fatal_of_holds _ (copy_trace_lt c lower_limit upper_limit fuel s0 _ _)
  · trivial
  · trivial
  · split
    · split
      · trivial
      · trivial
    · trivial
  · split
    · split
      · trivial
      · trivial
    · trivial
  · split
    · exact hloop _ _ _ (fun i => word_ptr c s0.hp (c.MR_closure_hidden_args_0 + i))
        (fun i t => t.mem _) _ _ (by simp [incr_saved_hp])
    · trivial
  · split
    · have hA := holdsS_assign_trace (incr_saved_hp c s0 2).2.trace.length
        (word_ptr c s0.hp c.UNIV_OFFSET_FOR_DATA) _
        (copy_trace_lt c lower_limit upper_limit fuel (incr_saved_hp c s0 2).2
          (word_ptr c (MR_body c (s.mem data_ptr) (MR_tag c (s.mem data_ptr)))
            c.UNIV_OFFSET_FOR_DATA)
          ((incr_saved_hp c s0 2).2.mem
            (word_ptr c (MR_body c (s.mem data_ptr) (MR_tag c (s.mem data_ptr)))
              c.UNIV_OFFSET_FOR_TYPEINFO)))
      have hlen : s0.trace.length < (incr_saved_hp c s0 2).2.trace.length := by
        simp [incr_saved_hp]
      split
      · rename_i s2 heq
        replace hA : (Outcome.ok s2 : Outcome State).holdsS
            (fun u => (incr_saved_hp c s0 2).2.trace.length < u.trace.length) := by
          rw [← heq]; exact hA
        apply fatal_finish
        apply fatalS_of_holdsS
        refine Outcome.holdsS_mono ?_ _ (holdsS_assign_trace s2.trace.length _ _
          (copy_type_info_trace_lt c lower_limit upper_limit fuel s2 _))
        intro u hu
        have h2 : (incr_saved_hp c s0 2).2.trace.length < s2.trace.length := hA
        omega
      · rename_i msg t heq
        replace hA : (Outcome.fatal_error msg t : Outcome State).holdsS
            (fun u => (incr_saved_hp c s0 2).2.trace.length < u.trace.length) := by
          rw [← heq]; exact hA
        have h2 : (incr_saved_hp c s0 2).2.trace.length < t.trace.length := hA
        show s0.trace.length < t.trace.length
        omega
      · trivial
    · trivial
  · rename_i hrep
    exact absurd (Or.inl hrep) h
  · split
    · exact hloop _ _ _ (fun i => word_ptr c s0.hp (MR_ArrayType_elements + i))
        (fun i t => 1) _ _ (by simp [MR_make_array])
    · trivial
  · exact Outcome.fatal_of_holds _ (copy_type_info_trace_lt c lower_limit upper_limit fuel s0 _)
  · split
    · rename_i hrep hin
      exact absurd (Or.inr (Or.inr (Or.inr (Or.inr ⟨hrep, hin⟩)))) h
    · trivial
  · trivial
  · trivial
  · rename_i hrep
    exact absurd (Or.inr (Or.inl hrep)) h
  · trivial
  · trivial
  · trivial
  · trivial
  · rename_i hrep
    exact absurd (Or.inr (Or.inr (Or.inl hrep))) h
  · rename_i code hrep
    exact absurd (Or.inr (Or.inr (Or.inr (Or.inl ⟨code, hrep⟩)))) h

/-- Claim C6.  The dispatch step of a call of `copy` invokes `fatal_error`
(the call stops with a fatal error in the very state of its dispatch, the
entry state with only the entry of the call added) if and only if the kind
is VOID, HP, UNKNOWN or a value without a case in the switch, or is
C_POINTER with the body address in range; and a C_POINTER whose body is out
of range is returned unchanged. -/
theorem fatal_conditions (c : Cfg) (lower_limit upper_limit fuel : Nat) (s : State)
    (data_ptr type_info : Nat) :
    ((∃ msg, copy c lower_limit upper_limit (fuel + 1) s data_ptr type_info
        = Outcome.fatal_error msg (s.log (Event.enter_copy data_ptr type_info)))
      ↔ fatal_kind c lower_limit upper_limit s.mem type_info (s.mem data_ptr)) ∧
    (rep_of c s.mem type_info = .MR_TYPECTOR_REP_C_POINTER →
      in_range lower_limit upper_limit (data_value_of c (s.mem data_ptr)) = false →
      copy c lower_limit upper_limit (fuel + 1) s data_ptr type_info
        = Outcome.ok (s.mem data_ptr, s.log (Event.enter_copy data_ptr type_info))) := by
  refine ⟨⟨?_, ?_⟩, ?_⟩
  · rintro ⟨msg, hmsg⟩
    by_contra hk
    have := copy_fatal_nested c lower_limit upper_limit fuel s data_ptr type_info hk
    rw [hmsg] at this
    exact absurd this (lt_irrefl _)
  · intro hk
    unfold fatal_kind rep_of data_value_of at hk
    rcases hk with h | h | h | ⟨code, h⟩ | ⟨h, h2⟩
    · exact ⟨"Cannot copy a void type", by simp [copy, *]⟩
    · exact ⟨"Sorry, not implemented: copying saved heap pointers", by simp [copy, *]⟩
    · exact ⟨"Unknown layout type in deep copy", by simp [copy, *]⟩
    · exact ⟨"Unknown layout type in deep copy", by simp [copy, *]⟩
    · exact ⟨"Cannot copy a c_pointer type", by simp [copy, *]⟩
  · intro h h2
    unfold rep_of at h
    unfold data_value_of at h2
    simp [copy, *]

/-! ## Strings -/

/-- An in-memory string of length `len` at address `p`: `len` non-NUL bytes
followed by a NUL. -/
def is_string (m : Mem) (p len : Nat) : Prop :=
  (∀ k, k < len → m (p + k) ≠ 0) ∧ m (p + len) = 0

theorem strlen_of_is_string (m : Mem) :
    ∀ (len fuel p : Nat), is_string m p len → len < fuel → strlen m fuel p = some len := by
  intro len
  induction len with
  | zero =>
    intro fuel p h hf
    obtain ⟨fuel, rfl⟩ : ∃ f, fuel = f + 1 := ⟨fuel - 1, by omega⟩
    have h0 : m p = 0 := by simpa using h.2
    simp [strlen, h0]
  | succ len ih =>
    intro fuel p h hf
    obtain ⟨fuel, rfl⟩ : ∃ f, fuel = f + 1 := ⟨fuel - 1, by omega⟩
    have h0 : m p ≠ 0 := by simpa using h.1 0 (by omega)
    have hrec : is_string m (p + 1) len := by
      refine ⟨fun k hk => ?_, ?_⟩
      · have := h.1 (k + 1) (by omega)
        rwa [show p + 1 + k = p + (k + 1) by omega]
      · have := h.2
        rwa [show p + 1 + len = p + (len + 1) by omega]
    simp [strlen, h0, ih fuel (p + 1) hrec (by omega)]

/-- The word count `(len + W) / W` of the string case is `ceil((len+1)/W)`. -/
theorem string_words_eq_ceil (len W : Nat) (hW : 1 ≤ W) :
    (len + W) / W = ⌈((len : ℚ) + 1) / (W : ℚ)⌉₊ := by
  have hWq : (0 : ℚ) < (W : ℚ) := by exact_mod_cast hW
  have h1 := Nat.div_add_mod (len + W) W
  have h2 := Nat.mod_lt (len + W) hW
  have hpos : 1 ≤ (len + W) / W := (Nat.one_le_div_iff hW).2 (by omega)
  symm
  rw [Nat.ceil_eq_iff (by omega)]
  obtain ⟨n, hn⟩ : ∃ n, (len + W) / W = n + 1 := ⟨(len + W) / W - 1, by omega⟩
  rw [hn] at h1 ⊢
  have h3 : W * (n + 1) = W * n + W := by ring
  have h5 : n * W = W * n := Nat.mul_comm _ _
  have h6 : (n + 1) * W = W * n + W := by ring
  constructor
  · rw [lt_div_iff₀ hWq]
    have : n * W < len + 1 := by omega
    have h4 : ((n * W : ℕ) : ℚ) < ((len + 1 : ℕ) : ℚ) := by exact_mod_cast this
    simpa using h4
  · rw [div_le_iff₀ hWq]
    have : len + 1 ≤ (n + 1) * W := by omega
    have h4 : ((len + 1 : ℕ) : ℚ) ≤ (((n + 1) * W : ℕ) : ℚ) := by exact_mod_cast this
    simpa using h4

/-- Claim C5.  For an in-region string of length `len` and word size
`W = sizeof(Word) >= 1`, `copy` returns the old heap pointer as the new
string, having made exactly one allocation, an atomic one of
`(len + W) / W` words; that count is `ceil((len+1)/W)`, the block holds at
least `len + 1` bytes, and the `len + 1` bytes of the new string, the NUL
included, are the bytes of the source (the slot `data_ptr` itself lying
outside the new block). -/
theorem string_copy (c : Cfg) (lower_limit upper_limit fuel : Nat) (s : State)
    (data_ptr type_info len : Nat)
    (hrep : rep_of c s.mem type_info = .MR_TYPECTOR_REP_STRING)
    (hin : in_range lower_limit upper_limit (data_value_of c (s.mem data_ptr)) = true)
    (hstr : is_string s.mem (s.mem data_ptr) len)
    (hW : 1 ≤ c.sizeof_Word)
    (hslot : data_ptr < s.hp ∨ s.hp + len < data_ptr)
    (hfuel : len < fuel) :
    ∃ s1, copy c lower_limit upper_limit (fuel + 1) s data_ptr type_info = Outcome.ok (s.hp, s1) ∧
      s1.hp = s.hp + (len + c.sizeof_Word) / c.sizeof_Word * c.sizeof_Word ∧
      s1.trace = Event.leave_forwarding_pointer data_ptr s.hp ::
        Event.incr_saved_hp_atomic s.hp ((len + c.sizeof_Word) / c.sizeof_Word) ::
        Event.enter_copy data_ptr type_info :: s.trace ∧
      (len + c.sizeof_Word) / c.sizeof_Word = ⌈((len : ℚ) + 1) / (c.sizeof_Word : ℚ)⌉₊ ∧
      len + 1 ≤ (len + c.sizeof_Word) / c.sizeof_Word * c.sizeof_Word ∧
      ∀ k, k ≤ len → s1.mem (s.hp + k) = s.mem (s.mem data_ptr + k) := by
  unfold rep_of at hrep
  unfold data_value_of at hin
  have hlen := strlen_of_is_string s.mem len fuel (s.mem data_ptr) hstr hfuel
  refine ⟨leave_forwarding_pointer
      { mem := strcpy s.mem s.hp (s.mem data_ptr) len,
        hp := s.hp + (len + c.sizeof_Word) / c.sizeof_Word * c.sizeof_Word,
        trace := Event.incr_saved_hp_atomic s.hp ((len + c.sizeof_Word) / c.sizeof_Word) ::
          Event.enter_copy data_ptr type_info :: s.trace } data_ptr s.hp,
    by simp [copy, hrep, hin, hlen, incr_saved_hp_atomic, State.log], rfl, rfl,
    string_words_eq_ceil len c.sizeof_Word hW, ?_, ?_⟩
  · have := strcpy_fits c hW 0 len
    omega
  · intro k hk
    simp only [leave_forwarding_pointer]
    rw [store_other _ _ _ _ (by omega)]
    simp [strcpy, hk]

/-! ## Univ -/

theorem copy_trace_shape (c : Cfg) (lower_limit upper_limit fuel : Nat) (s : State)
    (data_ptr type_info : Nat) (w : Word) (t : State)
    (h : copy c lower_limit upper_limit fuel s data_ptr type_info = Outcome.ok (w, t)) :
    ∃ l, t.trace = l ++ Event.enter_copy data_ptr type_info :: s.trace := by
  have := (copy_closed Reaches_closed c False.elim lower_limit upper_limit
      (fun _ _ => trivial) fuel).1 s data_ptr type_info trivial
  rw [h] at this
  exact this.2

theorem copy_type_info_trace_shape (c : Cfg) (lower_limit upper_limit fuel : Nat) (s : State)
    (type_info_ptr : Nat) (w : Word) (t : State)
    (h : copy_type_info c lower_limit upper_limit fuel s type_info_ptr = Outcome.ok (w, t)) :
    ∃ l, t.trace = l ++ Event.enter_copy_type_info type_info_ptr :: s.trace := by
  have := copy_type_info_closed Reaches_closed c False.elim lower_limit upper_limit
    (fun _ _ => trivial) fuel s type_info_ptr trivial
  rw [h] at this
  exact this.2

/-- Claim C9.  For an in-region univ value, `copy` allocates a cell of exactly
2 words and then runs, in this order, (1) the copy of the carried data, with
the type descriptor read from the type-info slot of the source cell, in a
state whose memory is still the memory at entry (the slot holds the original
descriptor, no forwarding mark), and (2), only when (1) has returned,
`copy_type_info` on that slot, started from the state (1) returned with the
data word stored.  When (1) stops with a fatal error or runs out of fuel,
so does the call, and (2) is not run.  In the trace of a call that returns,
the entry of `copy_type_info` on the slot comes after every event of the
data copy. -/
theorem univ_ordering (c : Cfg) (lower_limit upper_limit fuel : Nat) (s : State)
    (data_ptr type_info : Nat)
    (hrep : rep_of c s.mem type_info = .MR_TYPECTOR_REP_UNIV)
    (hin : in_range lower_limit upper_limit (data_value_of c (s.mem data_ptr)) = true) :
    let data_value := data_value_of c (s.mem data_ptr)
    let data_slot := word_ptr c data_value c.UNIV_OFFSET_FOR_DATA
    let type_info_slot := word_ptr c data_value c.UNIV_OFFSET_FOR_TYPEINFO
    let s1 : State := State.mk s.mem (s.hp + 2 * c.sizeof_Word)
      (Event.incr_saved_hp s.hp 2 :: Event.enter_copy data_ptr type_info :: s.trace)
    copy c lower_limit upper_limit (fuel + 1) s data_ptr type_info =
      (match copy c lower_limit upper_limit fuel s1 data_slot (s.mem type_info_slot) with
        | Outcome.ok (d, s2) =>
          (match copy_type_info c lower_limit upper_limit fuel
              (s2.write (word_ptr c s.hp c.UNIV_OFFSET_FOR_DATA) d) type_info_slot with
            | Outcome.ok (t, s3) =>
              Outcome.ok (s.hp, leave_forwarding_pointer
                (s3.write (word_ptr c s.hp c.UNIV_OFFSET_FOR_TYPEINFO) t) data_ptr s.hp)
            | Outcome.fatal_error msg u => Outcome.fatal_error msg u
            | Outcome.out_of_fuel => Outcome.out_of_fuel)
        | Outcome.fatal_error msg u => Outcome.fatal_error msg u
        | Outcome.out_of_fuel => Outcome.out_of_fuel) ∧
    ∀ w s4, copy c lower_limit upper_limit (fuel + 1) s data_ptr type_info = Outcome.ok (w, s4) →
      ∃ l_type_info l_data,
        s4.trace = Event.leave_forwarding_pointer data_ptr s.hp ::
          (l_type_info ++ Event.enter_copy_type_info type_info_slot ::
            (l_data ++ Event.enter_copy data_slot (s.mem type_info_slot) ::
              Event.incr_saved_hp s.hp 2 :: Event.enter_copy data_ptr type_info :: s.trace)) := by
  intro data_value data_slot type_info_slot s1
  unfold rep_of at hrep
  have hin2 : in_range lower_limit upper_limit
      (MR_body c (s.mem data_ptr) (MR_tag c (s.mem data_ptr))) = true := hin
  have heq : copy c lower_limit upper_limit (fuel + 1) s data_ptr type_info =
      (match copy c lower_limit upper_limit fuel s1 data_slot (s.mem type_info_slot) with
        | Outcome.ok (d, s2) =>
          (match copy_type_info c lower_limit upper_limit fuel
              (s2.write (word_ptr c s.hp c.UNIV_OFFSET_FOR_DATA) d) type_info_slot with
            | Outcome.ok (t, s3) =>
              Outcome.ok (s.hp, leave_forwarding_pointer
                (s3.write (word_ptr c s.hp c.UNIV_OFFSET_FOR_TYPEINFO) t) data_ptr s.hp)
            | Outcome.fatal_error msg u => Outcome.fatal_error msg u
            | Outcome.out_of_fuel => Outcome.out_of_fuel)
        | Outcome.fatal_error msg u => Outcome.fatal_error msg u
        | Outcome.out_of_fuel => Outcome.out_of_fuel) := by
    rw [copy]
    simp only [State.log_mem, hrep, hin2, if_true]
    show (match assign _ (copy c lower_limit upper_limit fuel s1 data_slot
      (s.mem type_info_slot)) with
      | Outcome.ok s2 => _
      | Outcome.fatal_error msg t => _
      | Outcome.out_of_fuel => _) = _
    cases h1 : copy c lower_limit upper_limit fuel s1 data_slot (s.mem type_info_slot) with
    | ok a =>
      obtain ⟨d, s2⟩ := a
      simp only [assign]
      show finish _ _ (assign _ (copy_type_info c lower_limit upper_limit fuel
        (s2.write (word_ptr c s.hp c.UNIV_OFFSET_FOR_DATA) d) type_info_slot)) = _
      cases h2 : copy_type_info c lower_limit upper_limit fuel
          (s2.write (word_ptr c s.hp c.UNIV_OFFSET_FOR_DATA) d) type_info_slot with
      | ok b =>
        obtain ⟨t, s3⟩ := b
        rfl
      | fatal_error msg u => rfl
      | out_of_fuel => rfl
    | fatal_error msg u => rfl
    | out_of_fuel => rfl
  refine ⟨heq, ?_⟩
  intro w s4 hok
  rw [heq] at hok
  cases h1 : copy c lower_limit upper_limit fuel s1 data_slot (s.mem type_info_slot) with
  | ok a =>
    obtain ⟨d, s2⟩ := a
    rw [h1] at hok
    simp only [] at hok
    cases h2 : copy_type_info c lower_limit upper_limit fuel
        (s2.write (word_ptr c s.hp c.UNIV_OFFSET_FOR_DATA) d) type_info_slot with
    | ok b =>
      obtain ⟨t, s3⟩ := b
      rw [h2] at hok
      simp only [Outcome.ok.injEq, Prod.mk.injEq] at hok
      obtain ⟨l_data, hd⟩ := copy_trace_shape c _ _ _ _ _ _ _ _ h1
      obtain ⟨l_ti, ht⟩ := copy_type_info_trace_shape c _ _ _ _ _ _ _ h2
      refine ⟨l_ti, l_data, ?_⟩
      rw [← hok.2]
      simp only [leave_forwarding_pointer, State.write_trace, ht, hd]
    | fatal_error msg u => rw [h2] at hok; simp at hok
    | out_of_fuel => rw [h2] at hok; simp at hok
  | fatal_error msg u => rw [h1] at hok; simp at hok
  | out_of_fuel => rw [h1] at hok; simp at hok

/-! ## Arrays -/

/-- The element loop in the words of the specification: for `i` from `first`
on, `n` times, copy element `i` with `call i` and store the result at
`dst i`; the results are collected in order. -/
def copy_elements (call : Nat → State → Outcome (Word × State)) (dst : Nat → Nat) :
    Nat → Nat → State → Outcome (List Word × State)
  | 0, _, s => Outcome.ok ([], s)
  | n + 1, i, s =>
    match call i s with
    | Outcome.ok (r, t) =>
      match copy_elements call dst n (i + 1) (t.write (dst i) r) with
      | Outcome.ok (rs, u) => Outcome.ok (r :: rs, u)
      | Outcome.fatal_error msg u => Outcome.fatal_error msg u
      | Outcome.out_of_fuel => Outcome.out_of_fuel
    | Outcome.fatal_error msg u => Outcome.fatal_error msg u
    | Outcome.out_of_fuel => Outcome.out_of_fuel

/-- The end of the array branch in terms of `copy_elements`. -/
def finish_elements (new_data : Word) (data_ptr : Nat) (r : Outcome (List Word × State)) :
    Outcome (Word × State) :=
  match r with
  | Outcome.ok (_, u) => Outcome.ok (new_data, leave_forwarding_pointer u data_ptr new_data)
  | Outcome.fatal_error msg t => Outcome.fatal_error msg t
  | Outcome.out_of_fuel => Outcome.out_of_fuel

/-- The loop of the source is the loop of the specification. -/
theorem for_loop_eq_copy_elements (call : Nat → State → Outcome (Word × State))
    (dst : Nat → Nat) (new_data : Word) (data_ptr : Nat) :
    ∀ (n i : Nat) (s : State),
      finish new_data data_ptr (for_loop (fun i t => assign (dst i) (call i t)) n i s)
        = finish_elements new_data data_ptr (copy_elements call dst n i s) := by
  intro n
  induction n with
  | zero => intro i s; rfl
  | succ n ih =>
    intro i s
    have hstep : for_loop (fun i t => assign (dst i) (call i t)) (n + 1) i s =
        (match assign (dst i) (call i s) with
          | Outcome.ok s1 => for_loop (fun i t => assign (dst i) (call i t)) n (i + 1) s1
          | Outcome.fatal_error msg t => Outcome.fatal_error msg t
          | Outcome.out_of_fuel => Outcome.out_of_fuel) := rfl
    rw [hstep, copy_elements]
    cases h : call i s with
    | ok a =>
      obtain ⟨r, t⟩ := a
      show finish new_data data_ptr
        (for_loop (fun i t => assign (dst i) (call i t)) n (i + 1) (t.write (dst i) r)) = _
      rw [ih (i + 1) (t.write (dst i) r)]
      simp only []
      cases copy_elements call dst n (i + 1) (t.write (dst i) r) with
      | ok b => rfl
      | fatal_error msg u => rfl
      | out_of_fuel => rfl
    | fatal_error msg u => rfl
    | out_of_fuel => rfl

/-- What the element loop leaves behind when every call keeps the frame:
exactly `n` results, result `k` is what `call (first + k)` returned, and the
cell `dst (first + k)` still holds it at the end unless a forwarding mark of
the loop hit that cell. -/
theorem copy_elements_frame (call : Nat → State → Outcome (Word × State)) (dst : Nat → Nat)
    (e : Nat → State → Event)
    (hcall : ∀ i t, (call i t).holds (Frame (t.log (e i t))))
    (hinj : ∀ i j, i ≠ j → dst i ≠ dst j) :
    ∀ (n first : Nat) (s : State) (rs : List Word) (u : State),
      copy_elements call dst n first s = Outcome.ok (rs, u) →
      (∀ k, first ≤ k → k < first + n → dst k < s.hp) →
      rs.length = n ∧ s.hp ≤ u.hp ∧ ∃ l, u.trace = l ++ s.trace ∧
        (∀ a, a < s.hp → ¬ forwarded l a →
          (∀ k, first ≤ k → k < first + n → a ≠ dst k) → u.mem a = s.mem a) ∧
        (∀ k, k < n → ∃ t t1, call (first + k) t = Outcome.ok (rs.getD k 0, t1)) ∧
        (∀ k, k < n → ¬ forwarded l (dst (first + k)) →
          u.mem (dst (first + k)) = rs.getD k 0) := by
  intro n
  induction n with
  | zero =>
    intro first s rs u h _
    simp only [copy_elements, Outcome.ok.injEq, Prod.mk.injEq] at h
    obtain ⟨rfl, rfl⟩ := h
    exact ⟨rfl, le_refl _, [], rfl, fun _ _ _ _ => rfl, fun k hk => absurd hk (by omega),
      fun k hk => absurd hk (by omega)⟩
  | succ n ih =>
    intro first s rs u h hdst
    unfold copy_elements at h
    have hc := hcall first s
    cases h1 : call first s with
    | ok a =>
      obtain ⟨r, t⟩ := a
      rw [h1] at h hc
      simp only [] at h
      cases h2 : copy_elements call dst n (first + 1) (t.write (dst first) r) with
      | ok b =>
        obtain ⟨rs1, u1⟩ := b
        rw [h2] at h
        simp only [Outcome.ok.injEq, Prod.mk.injEq] at h
        obtain ⟨rfl, rfl⟩ := h
        obtain ⟨hle, l1, hl1, hf1⟩ : Frame (s.log (e first s)) t := hc
        simp only [State.log_hp, State.log_trace] at hle hl1 hf1
        obtain ⟨hlen, hle2, l2, hl2, hf2, hres, hcell⟩ := ih (first + 1) _ rs1 u1 h2
          (fun k hk1 hk2 => by
            have := hdst k (by omega) (by omega)
            simp only [State.write_hp]
            omega)
        simp only [State.write_hp, State.write_trace, State.write_mem] at hle2 hl2 hf2 hcell
        have hdf := hdst first (le_refl _) (by omega)
        refine ⟨by simp [hlen], le_trans hle hle2, l2 ++ l1 ++ [e first s],
          by simp [hl2, hl1], ?_, ?_, ?_⟩
        · intro a ha hfw hne
          have hfw1 : ¬ forwarded l1 a := fun ⟨w, hw⟩ =>
            hfw ⟨w, List.mem_append_left _ (List.mem_append_right _ hw)⟩
          have hfw2 : ¬ forwarded l2 a := fun ⟨w, hw⟩ =>
            hfw ⟨w, List.mem_append_left _ (List.mem_append_left _ hw)⟩
          rw [hf2 a (by omega) hfw2 (fun k hk1 hk2 => hne k (by omega) (by omega)),
            store_other _ _ _ _ (hne first (le_refl _) (by omega))]
          exact hf1 a (Or.inl ha) hfw1
        · intro k hk
          cases k with
          | zero => exact ⟨s, t, by simpa using h1⟩
          | succ k =>
            obtain ⟨t2, t3, h3⟩ := hres k (by omega)
            exact ⟨t2, t3, by simpa [Nat.add_assoc, Nat.add_comm 1 k] using h3⟩
        · intro k hk hfw
          cases k with
          | zero =>
            have hfw2 : ¬ forwarded l2 (dst first) := fun ⟨w, hw⟩ =>
              hfw ⟨w, List.mem_append_left _ (List.mem_append_left _ hw)⟩
            simp only [Nat.add_zero, List.getD_cons_zero]
            rw [hf2 (dst first) (by omega) hfw2
              (fun j hj1 _ => hinj first j (by omega)), store_same]
          | succ k =>
            have hfw2 : ¬ forwarded l2 (dst (first + 1 + k)) := fun ⟨w, hw⟩ =>
              hfw ⟨w, by
                rw [show first + (k + 1) = first + 1 + k by omega]
                exact List.mem_append_left _ (List.mem_append_left _ hw)⟩
            have := hcell k (by omega) hfw2
            simpa [show first + (k + 1) = first + 1 + k by omega] using this
      | fatal_error msg u2 => rw [h2] at h; simp at h
      | out_of_fuel => rw [h2] at h; simp at h
    | fatal_error msg u2 => rw [h1] at h; simp at h
    | out_of_fuel => rw [h1] at h; simp at h

theorem word_ptr_inj (c : Cfg) (hc : 0 < c.sizeof_Word) (p i j : Nat) (h : i ≠ j) :
    word_ptr c p i ≠ word_ptr c p j := by
  unfold word_ptr
  intro he
  have : i * c.sizeof_Word = j * c.sizeof_Word := by omega
  exact h (Nat.eq_of_mul_eq_mul_right hc this)

/-- Claim C10.  For an in-region array with `N` elements: the size field of
the source, read as the `Integer` `array_size`, is `N >= 0`, and `N` is
within the range of the loop variable `int i`.  `copy` makes a new array with
`MR_make_array(N)` at the old heap pointer, stores the size word of the
source in its size field and runs the element loop of the specification: for
`i = 0 .. N-1`, in this order, `copy_arg` on source element `i` (pseudo
type-info `1`), the result stored in element `i` of the new array; then it
marks `data_ptr` as forwarded and returns the new array.  When the loop
returns, exactly `N` element copies were made, result `i` is what `copy_arg`
returned for source element `i`, and, unless a forwarding mark of the call
was left on a word of the new array itself, the returned array has the size
field of the source, which is `N`, and element `i` equal to result `i`. -/
theorem array_round_trip (c : Cfg) (hc : c.wf) (lower_limit upper_limit fuel : Nat) (s : State)
    (data_ptr type_info N : Nat)
    (hrep : rep_of c s.mem type_info = .MR_TYPECTOR_REP_ARRAY)
    (hin : in_range lower_limit upper_limit (data_value_of c (s.mem data_ptr)) = true)
    (hsize : to_Integer c
      (s.mem (word_ptr c (data_value_of c (s.mem data_ptr)) MR_ArrayType_size)) = (N : Int))
    (_hint : (N : Int) < 2 ^ (c.int_bits - 1)) :
    let old_array := data_value_of c (s.mem data_ptr)
    let size_word : Word := s.mem (word_ptr c old_array MR_ArrayType_size)
    let s2 : State := State.mk (store s.mem (word_ptr c s.hp MR_ArrayType_size) size_word)
      (s.hp + (N + 1) * c.sizeof_Word)
      (Event.MR_make_array s.hp N :: Event.enter_copy data_ptr type_info :: s.trace)
    let element_copy := fun (i : Nat) (t : State) => copy_arg c lower_limit upper_limit fuel t
      (word_ptr c old_array (MR_ArrayType_elements + i)) type_info 1
    let new_element := fun (i : Nat) => word_ptr c s.hp (MR_ArrayType_elements + i)
    copy c lower_limit upper_limit (fuel + 1) s data_ptr type_info
      = finish_elements s.hp data_ptr (copy_elements element_copy new_element N 0 s2) ∧
    ∀ rs u, copy_elements element_copy new_element N 0 s2 = Outcome.ok (rs, u) →
      rs.length = N ∧
      (∀ i, i < N → ∃ t t1, element_copy i t = Outcome.ok (rs.getD i 0, t1)) ∧
      ∃ l, (leave_forwarding_pointer u data_ptr s.hp).trace = l ++ s.trace ∧
        ((∀ a, s.hp ≤ a → a < s.hp + (N + 1) * c.sizeof_Word → ¬ forwarded l a) →
          (leave_forwarding_pointer u data_ptr s.hp).mem (word_ptr c s.hp MR_ArrayType_size)
            = size_word ∧
          to_Integer c size_word = (N : Int) ∧
          ∀ i, i < N →
            (leave_forwarding_pointer u data_ptr s.hp).mem (new_element i) = rs.getD i 0) := by
  intro old_array size_word s2 element_copy new_element
  have hW := hc.sizeof_Word_pos
  unfold rep_of at hrep
  have hin2 : in_range lower_limit upper_limit
      (MR_body c (s.mem data_ptr) (MR_tag c (s.mem data_ptr))) = true := hin
  have hsize2 : to_Integer c
      (s.mem (word_ptr c (MR_body c (s.mem data_ptr) (MR_tag c (s.mem data_ptr)))
        MR_ArrayType_size)) = (N : Int) := hsize
  constructor
  · rw [copy]
    simp only [State.log_mem, hrep, hin2, if_true, hsize2]
    exact for_loop_eq_copy_elements element_copy new_element s.hp data_ptr N 0 s2
  · intro rs u hrun
    have hlt : ∀ j, j < N + 1 → word_ptr c s.hp j < s.hp + (N + 1) * c.sizeof_Word :=
      fun j hj => word_ptr_lt c hW _ _ _ hj
    obtain ⟨hlen, _, l, hl, hframe, hres, hcell⟩ := copy_elements_frame element_copy new_element
      (fun i _ => Event.enter_copy_arg (word_ptr c old_array (MR_ArrayType_elements + i))
        type_info 1)
      (fun i t => (copy_closed Frame_closed c (fun _ => hc) lower_limit upper_limit
        (fun _ _ => trivial) fuel).2 t _ _ _ trivial)
      (fun i j hij => word_ptr_inj c hW s.hp (MR_ArrayType_elements + i)
        (MR_ArrayType_elements + j) (by omega)) N 0 s2 rs u hrun
      (fun k _ hk => hlt (MR_ArrayType_elements + k) (by unfold MR_ArrayType_elements; omega))
    have hs2 : s2.hp = s.hp + (N + 1) * c.sizeof_Word := rfl
    refine ⟨hlen, fun i hi => by simpa using hres i hi,
      Event.leave_forwarding_pointer data_ptr s.hp :: l ++
        [Event.MR_make_array s.hp N, Event.enter_copy data_ptr type_info], ?_, ?_⟩
    · simp [leave_forwarding_pointer, hl, s2]
    · intro hnf
      have hnf_dp : ∀ a, s.hp ≤ a → a < s.hp + (N + 1) * c.sizeof_Word → a ≠ data_ptr := by
        intro a h1 h2 ha
        exact hnf a h1 h2 ⟨s.hp, by rw [ha]; simp⟩
      have hnf_l : ∀ a, s.hp ≤ a → a < s.hp + (N + 1) * c.sizeof_Word → ¬ forwarded l a := by
        intro a h1 h2 ⟨w, hw⟩
        exact hnf a h1 h2 ⟨w, by simp [hw]⟩
      constructor
      · have ha1 := word_ptr_ge c s.hp MR_ArrayType_size
        have ha2 := hlt MR_ArrayType_size (by unfold MR_ArrayType_size; omega)
        simp only [leave_forwarding_pointer]
        rw [store_other _ _ _ _ (hnf_dp _ ha1 ha2),
          hframe _ (hs2 ▸ ha2) (hnf_l _ ha1 ha2) (fun k _ _ =>
            word_ptr_inj c hW s.hp MR_ArrayType_size (MR_ArrayType_elements + k)
              (by unfold MR_ArrayType_size MR_ArrayType_elements; omega))]
        exact store_same _ _ _
      · refine ⟨hsize, ?_⟩
        intro i hi
        have ha1 := word_ptr_ge c s.hp (MR_ArrayType_elements + i)
        have ha2 := hlt (MR_ArrayType_elements + i) (by unfold MR_ArrayType_elements; omega)
        simp only [leave_forwarding_pointer]
        rw [store_other _ _ _ _ (hnf_dp _ ha1 ha2)]
        have := hcell i hi (by simpa using hnf_l _ ha1 ha2)
        simpa using this

/-! ## A concrete heap

Region `[0x1000, 0x2000)`, destination arena from `0x3000`, static type
metadata from `0x500`, top-level slots from `0x100`. -/

/-- The memory of the concrete runs.

Static metadata (`Cfg.std` layout: arity, representation code, layout table,
higher-order flag): `0x500` int, `0x510` string, `0x520` a
discriminated union whose tag-0 alternative is an unshared functor with two
string arguments, `0x530` a discriminated union whose tag-0 alternative is
an unshared functor with one argument of the same type, `0x540` void,
`0x550` c_pointer, `0x560` univ, `0x570` array (one parameter) with the
type_info `array(string)` at `0x610`.

Heap objects in the region: the string "ab" at `0x1600`; a two-field node at
`0x1500` whose fields both refer to that string; a one-field node at
`0x1700` whose field refers to the node itself; a univ cell at `0x1800`
holding the string with its type; an array at `0x1A00` with the two elements
"ab", "ab".  Outside the region: the string "x" at `0x5000`.

Top-level slots: `0x100` the two-field node, `0x104` the self-referential
node, `0x108` the univ, `0x10C` the array, `0x110` the string, `0x114` the
integer 42, `0x118` the string outside the region. -/
def example_mem : Mem := mem_of [
  (0x504, 5), (0x514, 8),
  (0x524, 1), (0x528, 0x590), (0x590, 0x5A1),
  (0x5A0, 2), (0x5A4, 0x510), (0x5A8, 0x510),
  (0x534, 1), (0x538, 0x5B0), (0x5B0, 0x5C1),
  (0x5C0, 1), (0x5C4, 0x530),
  (0x544, 11), (0x554, 14), (0x564, 10),
  (0x570, 1), (0x574, 12), (0x610, 0x570), (0x614, 0x510),
  (0x1600, 97), (0x1601, 98),
  (0x1500, 0x1600), (0x1504, 0x1600),
  (0x1700, 0x1700),
  (0x1800, 0x510), (0x1804, 0x1600),
  (0x1A00, 2), (0x1A04, 0x1600), (0x1A08, 0x1600),
  (0x5000, 120),
  (0x100, 0x1500), (0x104, 0x1700), (0x108, 0x1800), (0x10C, 0x1A00),
  (0x110, 0x1600), (0x114, 42), (0x118, 0x5000)]

/-- The state of the concrete runs: `example_mem`, an empty arena starting at
`0x3000`, an empty trace. -/
def example_state : State := { mem := example_mem, hp := 0x3000, trace := [] }

theorem Cfg.std_wf : Cfg.std.wf := by
  constructor <;> decide

/-! ## Concrete instances of the general theorems -/

/-- The integer 42 in slot `0x114` is returned as it is, with one unit of
fuel. -/
theorem copy_immediate_round_trip_witness :
    immediate_kind Cfg.std example_state.mem 0x500 (example_state.mem 0x114) ∧
    copy Cfg.std 0x1000 0x2000 1 example_state 0x114 0x500
      = Outcome.ok (example_state.mem 0x114,
          example_state.log (Event.enter_copy 0x114 0x500)) :=
  ⟨Or.inr (Or.inl (by decide)),
   copy_immediate_round_trip Cfg.std 0x1000 0x2000 0 example_state 0x114 0x500
     (Or.inr (Or.inl (by decide)))⟩

/-- The string outside the region (slot `0x118`) and, as a descriptor, the
word in slot `0x114` are returned as they are. -/
theorem range_fidelity_witness :
    (pointer_kind Cfg.std example_state.mem 0x510 (example_state.mem 0x118) ∧
      in_range 0x1000 0x2000 (data_value_of Cfg.std (example_state.mem 0x118)) = false ∧
      copy Cfg.std 0x1000 0x2000 1 example_state 0x118 0x510
        = Outcome.ok (example_state.mem 0x118,
            example_state.log (Event.enter_copy 0x118 0x510))) ∧
    (in_range 0x1000 0x2000 (example_state.mem 0x114) = false ∧
      copy_type_info Cfg.std 0x1000 0x2000 1 example_state 0x114
        = Outcome.ok (example_state.mem 0x114,
            example_state.log (Event.enter_copy_type_info 0x114))) :=
  ⟨⟨Or.inr (Or.inr (Or.inr (Or.inl (by decide)))), by decide,
    (range_fidelity Cfg.std 0x1000 0x2000 0 example_state).1 0x118 0x510
      (Or.inr (Or.inr (Or.inr (Or.inl (by decide))))) (by decide)⟩,
   ⟨by decide,
    (range_fidelity Cfg.std 0x1000 0x2000 0 example_state).2 0x114 (by decide)⟩⟩

/-- A value of the void type (slot `0x114` read with the void descriptor)
stops in `fatal_error` with nothing allocated. -/
theorem fatal_path_allocates_nothing_witness :
    rep_of Cfg.std example_state.mem 0x540 = .MR_TYPECTOR_REP_VOID ∧
    ∃ msg, copy Cfg.std 0x1000 0x2000 1 example_state 0x114 0x540
      = Outcome.fatal_error msg (example_state.log (Event.enter_copy 0x114 0x540)) :=
  ⟨by decide,
   fatal_path_allocates_nothing Cfg.std 0x1000 0x2000 0 example_state 0x114 0x540
     (Or.inl (by decide))⟩

theorem example_is_string : is_string example_state.mem (example_state.mem 0x110) 2 := by
  refine ⟨fun k hk => ?_, by decide⟩
  have : k = 0 ∨ k = 1 := by omega
  rcases this with rfl | rfl <;> decide

/-- The string "ab" in slot `0x110`: one atomic allocation of
`(2 + 4) / 4 = 1` word. -/
theorem string_copy_witness :
    ∃ s1, copy Cfg.std 0x1000 0x2000 4 example_state 0x110 0x510
        = Outcome.ok (example_state.hp, s1) ∧
      s1.hp = example_state.hp + (2 + Cfg.std.sizeof_Word) / Cfg.std.sizeof_Word
        * Cfg.std.sizeof_Word ∧
      s1.trace = Event.leave_forwarding_pointer 0x110 example_state.hp ::
        Event.incr_saved_hp_atomic example_state.hp
          ((2 + Cfg.std.sizeof_Word) / Cfg.std.sizeof_Word) ::
        Event.enter_copy 0x110 0x510 :: example_state.trace ∧
      (2 + Cfg.std.sizeof_Word) / Cfg.std.sizeof_Word
        = ⌈(((2 : ℕ) : ℚ) + 1) / (Cfg.std.sizeof_Word : ℚ)⌉₊ ∧
      2 + 1 ≤ (2 + Cfg.std.sizeof_Word) / Cfg.std.sizeof_Word * Cfg.std.sizeof_Word ∧
      ∀ k, k ≤ 2 → s1.mem (example_state.hp + k)
        = example_state.mem (example_state.mem 0x110 + k) :=
  string_copy Cfg.std 0x1000 0x2000 3 example_state 0x110 0x510 2 (by decide) (by decide)
    example_is_string (by decide) (Or.inl (by decide)) (by decide)

/-- The univ cell in slot `0x108`, holding the string "ab" with the string
descriptor. -/
theorem univ_ordering_witness :
    rep_of Cfg.std example_state.mem 0x560 = .MR_TYPECTOR_REP_UNIV ∧
    in_range 0x1000 0x2000 (data_value_of Cfg.std (example_state.mem 0x108)) = true ∧
    (
    let data_value := data_value_of Cfg.std (example_state.mem 0x108)
    let data_slot := word_ptr Cfg.std data_value Cfg.std.UNIV_OFFSET_FOR_DATA
    let type_info_slot := word_ptr Cfg.std data_value Cfg.std.UNIV_OFFSET_FOR_TYPEINFO
    let s1 : State := State.mk example_state.mem (example_state.hp + 2 * Cfg.std.sizeof_Word)
      (Event.incr_saved_hp example_state.hp 2 :: Event.enter_copy 0x108 0x560 :: example_state.trace)
    copy Cfg.std 0x1000 0x2000 (5 + 1) example_state 0x108 0x560 =
      (match copy Cfg.std 0x1000 0x2000 5 s1 data_slot (example_state.mem type_info_slot) with
        | Outcome.ok (d, s2) =>
          (match copy_type_info Cfg.std 0x1000 0x2000 5
              (s2.write (word_ptr Cfg.std example_state.hp Cfg.std.UNIV_OFFSET_FOR_DATA) d) type_info_slot with
            | Outcome.ok (t, s3) =>
              Outcome.ok (example_state.hp, leave_forwarding_pointer
                (s3.write (word_ptr Cfg.std example_state.hp Cfg.std.UNIV_OFFSET_FOR_TYPEINFO) t) 0x108 example_state.hp)
            | Outcome.fatal_error msg u => Outcome.fatal_error msg u
            | Outcome.out_of_fuel => Outcome.out_of_fuel)
        | Outcome.fatal_error msg u => Outcome.fatal_error msg u
        | Outcome.out_of_fuel => Outcome.out_of_fuel) ∧
    ∀ w s4, copy Cfg.std 0x1000 0x2000 (5 + 1) example_state 0x108 0x560 = Outcome.ok (w, s4) →
      ∃ l_type_info l_data,
        s4.trace = Event.leave_forwarding_pointer 0x108 example_state.hp ::
          (l_type_info ++ Event.enter_copy_type_info type_info_slot ::
            (l_data ++ Event.enter_copy data_slot (example_state.mem type_info_slot) ::
              Event.incr_saved_hp example_state.hp 2 :: Event.enter_copy 0x108 0x560 :: example_state.trace))) :=
  ⟨by decide, by decide,
   univ_ordering Cfg.std 0x1000 0x2000 5 example_state 0x108 0x560 (by decide) (by decide)⟩

/-- The array in slot `0x10C`, two elements of type string. -/
theorem array_round_trip_witness :
    rep_of Cfg.std example_state.mem 0x610 = .MR_TYPECTOR_REP_ARRAY ∧
    in_range 0x1000 0x2000 (data_value_of Cfg.std (example_state.mem 0x10C)) = true ∧
    to_Integer Cfg.std (example_state.mem
      (word_ptr Cfg.std (data_value_of Cfg.std (example_state.mem 0x10C)) MR_ArrayType_size))
      = ((2 : Nat) : Int) ∧
    (((2 : Nat) : Int) < 2 ^ (Cfg.std.int_bits - 1)) ∧
    (
    let N : Nat := 2
    let old_array := data_value_of Cfg.std (example_state.mem 0x10C)
    let size_word : Word := example_state.mem (word_ptr Cfg.std old_array MR_ArrayType_size)
    let s2 : State := State.mk (store example_state.mem (word_ptr Cfg.std example_state.hp MR_ArrayType_size) size_word)
      (example_state.hp + (N + 1) * Cfg.std.sizeof_Word)
      (Event.MR_make_array example_state.hp N :: Event.enter_copy 0x10C 0x610 :: example_state.trace)
    let element_copy := fun (i : Nat) (t : State) => copy_arg Cfg.std 0x1000 0x2000 5 t
      (word_ptr Cfg.std old_array (MR_ArrayType_elements + i)) 0x610 1
    let new_element := fun (i : Nat) => word_ptr Cfg.std example_state.hp (MR_ArrayType_elements + i)
    copy Cfg.std 0x1000 0x2000 (5 + 1) example_state 0x10C 0x610
      = finish_elements example_state.hp 0x10C (copy_elements element_copy new_element N 0 s2) ∧
    ∀ rs u, copy_elements element_copy new_element N 0 s2 = Outcome.ok (rs, u) →
      rs.length = N ∧
      (∀ i, i < N → ∃ t t1, element_copy i t = Outcome.ok (rs.getD i 0, t1)) ∧
      ∃ l, (leave_forwarding_pointer u 0x10C example_state.hp).trace = l ++ example_state.trace ∧
        ((∀ a, example_state.hp ≤ a → a < example_state.hp + (N + 1) * Cfg.std.sizeof_Word → ¬ forwarded l a) →
          (leave_forwarding_pointer u 0x10C example_state.hp).mem (word_ptr Cfg.std example_state.hp MR_ArrayType_size)
            = size_word ∧
          to_Integer Cfg.std size_word = (N : Int) ∧
          ∀ i, i < N →
            (leave_forwarding_pointer u 0x10C example_state.hp).mem (new_element i) = rs.getD i 0)) :=
  ⟨by decide, by decide, by decide, by decide,
   array_round_trip Cfg.std Cfg.std_wf 0x1000 0x2000 5 example_state 0x10C 0x610 2
     (by decide) (by decide) (by decide) (by decide)⟩

/-! ## Sharing -/

/-- Claim C1, counterexample.  In `example_state` the two fields of the
in-region node at `0x1500` (slots `0x1500` and `0x1504`) both refer to the
in-region string at `0x1600`.  One top-level call of `copy` on the node
(slot `0x100`) allocates the node and then two strings, one per field (the
two `incr_saved_hp_atomic` events), and the two fields of the new node, at
`0x3000` and `0x3004`, hold different words, `0x3008` and `0x300C`. -/
theorem sharing_identity_counterexample :
    example_state.mem 0x1500 = 0x1600 ∧ example_state.mem 0x1504 = 0x1600 ∧
    in_range 0x1000 0x2000 0x1600 = true ∧
    observe [0x3000, 0x3004] (copy Cfg.std 0x1000 0x2000 10 example_state 0x100 0x520)
      = Observed.ok 0x3000 0x3010
          [Event.leave_forwarding_pointer 0x100 0x3000,
           Event.leave_forwarding_pointer 0x1504 0x300C,
           Event.incr_saved_hp_atomic 0x300C 1,
           Event.enter_copy 0x1504 0x510,
           Event.enter_copy_arg 0x1504 0x520 0x510,
           Event.leave_forwarding_pointer 0x1500 0x3008,
           Event.incr_saved_hp_atomic 0x3008 1,
           Event.enter_copy 0x1500 0x510,
           Event.enter_copy_arg 0x1500 0x520 0x510,
           Event.incr_saved_hp 0x3000 2,
           Event.enter_copy 0x100 0x520]
          [0x3008, 0x300C] := by
  decide

/-- The in-range branches of `copy` that allocate a new object and end with
the forwarding hook: a shared-remote or unshared tagged union, a string, a
closure, a univ, an array. -/
def relocating_kind (c : Cfg) (m : Mem) (type_info : Nat) (data : Word) : Prop :=
  (rep_of c m type_info = .MR_TYPECTOR_REP_DU ∧
    tag_rep_of c m type_info data = .MR_DISCUNIONTAG_SHARED_REMOTE) ∨
  (rep_of c m type_info = .MR_TYPECTOR_REP_DU ∧
    tag_rep_of c m type_info data = .MR_DISCUNIONTAG_UNSHARED) ∨
  rep_of c m type_info = .MR_TYPECTOR_REP_STRING ∨
  rep_of c m type_info = .MR_TYPECTOR_REP_PRED ∨
  rep_of c m type_info = .MR_TYPECTOR_REP_UNIV ∨
  rep_of c m type_info = .MR_TYPECTOR_REP_ARRAY

/-- The primary tag of the word `copy` returns for a relocated object: the
tag of the source word for a tagged union, none otherwise. -/
def result_tag (c : Cfg) (m : Mem) (type_info : Nat) (data : Word) : Nat :=
  if rep_of c m type_info = .MR_TYPECTOR_REP_DU then MR_tag c data else 0

theorem finish_ok (new_data : Word) (data_ptr : Nat) (r : Outcome State) (w : Word) (t : State)
    (h : finish new_data data_ptr r = Outcome.ok (w, t)) :
    w = new_data ∧ ∃ u, r = Outcome.ok u ∧ t = leave_forwarding_pointer u data_ptr new_data := by
  cases r with
  | ok u =>
    simp only [finish, Outcome.ok.injEq, Prod.mk.injEq] at h
    exact ⟨h.1.symm, u, rfl, h.2.symm⟩
  | fatal_error msg u => simp [finish] at h
  | out_of_fuel => simp [finish] at h

/-- Claim C1, amended.  Forwarding is per referring slot, not per source
object.  Whenever `copy` returns from a slot that holds a reference to an
in-region object of a relocating kind, the word it returns is the heap
pointer at the entry of this very call (with the primary tag of the source
for a tagged union): a newly allocated destination object, whether or not
the same source object was copied before through another slot.  The last
step of the call is `leave_forwarding_pointer(data_ptr, new_data)`, after
the fields have been copied, so that the referring slot, and only a later
visit through that same slot, finds the destination word. -/
theorem sharing_is_per_slot (c : Cfg) (lower_limit upper_limit fuel : Nat) (s : State)
    (data_ptr type_info : Nat) (w : Word) (t : State)
    (hkind : relocating_kind c s.mem type_info (s.mem data_ptr))
    (hin : in_range lower_limit upper_limit (data_value_of c (s.mem data_ptr)) = true)
    (hret : copy c lower_limit upper_limit (fuel + 1) s data_ptr type_info = Outcome.ok (w, t)) :
    w = MR_mkword c (result_tag c s.mem type_info (s.mem data_ptr)) s.hp ∧
    t.mem data_ptr = w ∧
    ∃ u, t = leave_forwarding_pointer u data_ptr w ∧ s.hp ≤ u.hp := by
  have hreach := (copy_closed Reaches_closed c False.elim lower_limit upper_limit
    (fun _ _ => trivial) (fuel + 1)).1 s data_ptr type_info trivial
  rw [hret] at hreach
  have hhp : s.hp ≤ t.hp := hreach.1
  have key : ∀ (new_data : Word) (r : Outcome State),
      finish new_data data_ptr r = Outcome.ok (w, t) →
      w = new_data ∧ t.mem data_ptr = w ∧
        ∃ u, t = leave_forwarding_pointer u data_ptr w ∧ s.hp ≤ u.hp := by
    intro new_data r h
    obtain ⟨hw, u, _, ht⟩ := finish_ok new_data data_ptr r w t h
    subst hw
    refine ⟨rfl, ?_, u, ht, ?_⟩
    · rw [ht]; exact store_same _ _ _
    · rw [ht] at hhp; exact hhp
  unfold relocating_kind rep_of tag_rep_of layout_entry_of at hkind
  unfold result_tag rep_of
  have hin2 : in_range lower_limit upper_limit
      (MR_body c (s.mem data_ptr) (MR_tag c (s.mem data_ptr))) = true := hin
  rw [copy] at hret
  rcases hkind with ⟨h1, h2⟩ | ⟨h1, h2⟩ | h1 | h1 | h1 | h1
  · simp only [State.log_mem, h1, h2, hin2, if_true] at hret
    obtain ⟨hw, rest⟩ := key _ _ hret
    exact ⟨by rw [hw]; simp [h1, incr_saved_hp], rest⟩
  · simp only [State.log_mem, h1, h2, hin2, if_true] at hret
    obtain ⟨hw, rest⟩ := key _ _ hret
    exact ⟨by rw [hw]; simp [h1, incr_saved_hp], rest⟩
  · simp only [State.log_mem, h1, hin2, if_true] at hret
    split at hret
    · simp at hret
    · simp only [Outcome.ok.injEq, Prod.mk.injEq] at hret
      obtain ⟨hw, ht⟩ := hret
      subst hw
      subst ht
      exact ⟨by simp [h1, incr_saved_hp_atomic, MR_mkword], store_same _ _ _,
        ⟨_, rfl, by simp [incr_saved_hp_atomic]⟩⟩
  · simp only [State.log_mem, h1, hin2, if_true] at hret
    obtain ⟨hw, rest⟩ := key _ _ hret
    exact ⟨by rw [hw]; simp [h1, incr_saved_hp, MR_mkword], rest⟩
  · simp only [State.log_mem, h1, hin2, if_true] at hret
    split at hret
    · obtain ⟨hw, rest⟩ := key _ _ hret
      exact ⟨by rw [hw]; simp [h1, incr_saved_hp, MR_mkword], rest⟩
    · simp at hret
    · simp at hret
  · simp only [State.log_mem, h1, hin2, if_true] at hret
    obtain ⟨hw, rest⟩ := key _ _ hret
    exact ⟨by rw [hw]; simp [h1, MR_make_array, MR_mkword], rest⟩

/-- The word a call returns, if it returns. -/
def result_word : Outcome (Word × State) → Option Word
  | Outcome.ok (w, _) => some w
  | Outcome.fatal_error _ _ => none
  | Outcome.out_of_fuel => none

theorem result_word_some (r : Outcome (Word × State)) (w : Word) (h : result_word r = some w) :
    ∃ t, r = Outcome.ok (w, t) := by
  cases r with
  | ok a =>
    obtain ⟨w1, t⟩ := a
    simp only [result_word, Option.some.injEq] at h
    exact ⟨t, by rw [h]⟩
  | fatal_error msg u => simp [result_word] at h
  | out_of_fuel => simp [result_word] at h

/-- The two-field node in slot `0x100`: the call returns the heap pointer at
its entry, `0x3000`, and leaves it in the slot. -/
theorem sharing_is_per_slot_witness :
    relocating_kind Cfg.std example_state.mem 0x520 (example_state.mem 0x100) ∧
    in_range 0x1000 0x2000 (data_value_of Cfg.std (example_state.mem 0x100)) = true ∧
    ∃ w t, copy Cfg.std 0x1000 0x2000 10 example_state 0x100 0x520 = Outcome.ok (w, t) ∧
      w = MR_mkword Cfg.std
        (result_tag Cfg.std example_state.mem 0x520 (example_state.mem 0x100))
        example_state.hp ∧
      t.mem 0x100 = w ∧
      ∃ u, t = leave_forwarding_pointer u 0x100 w ∧ example_state.hp ≤ u.hp := by
  have hkind : relocating_kind Cfg.std example_state.mem 0x520 (example_state.mem 0x100) :=
    Or.inr (Or.inl ⟨by decide, by decide⟩)
  obtain ⟨t, ht⟩ := result_word_some
    (copy Cfg.std 0x1000 0x2000 10 example_state 0x100 0x520) 0x3000 (by decide)
  exact ⟨hkind, by decide, 0x3000, t, ht,
    sharing_is_per_slot Cfg.std 0x1000 0x2000 9 example_state 0x100 0x520 0x3000 t hkind
      (by decide) ht⟩

/-! ## Termination -/

/-- An in-region unshared node whose first field is the slot that refers to
the node (the field points back to the node itself), the field's type being
the type of the node: no amount of fuel lets `copy` return.  Each call
allocates a new node and recurses into the first field, which is the same
slot holding the same word; the forwarding mark would only be left after the
fields have been copied. -/
theorem self_reference_diverges (c : Cfg) (lower_limit upper_limit : Nat) (m : Mem)
    (slot type_info arity : Nat)
    (hrep : rep_of c m type_info = .MR_TYPECTOR_REP_DU)
    (htag : tag_rep_of c m type_info (m slot) = .MR_DISCUNIONTAG_UNSHARED)
    (hin : in_range lower_limit upper_limit (data_value_of c (m slot)) = true)
    (harity : to_int c (m (word_ptr c (MR_strip_tag c (layout_entry_of c m type_info (m slot)))
      c.TYPE_CTOR_LAYOUT_UNSHARED_ARITY_OFFSET)) = ((arity + 1 : Nat) : Int))
    (hself : word_ptr c (data_value_of c (m slot)) 0 = slot)
    (htype : c.MR_make_type_info m type_info
      (m (word_ptr c (word_ptr c (MR_strip_tag c (layout_entry_of c m type_info (m slot)))
        c.TYPE_CTOR_LAYOUT_UNSHARED_ARGS_OFFSET) 0)) = type_info) :
    ∀ (fuel : Nat) (s : State), s.mem = m →
      copy c lower_limit upper_limit fuel s slot type_info = Outcome.out_of_fuel ∧
      copy_arg c lower_limit upper_limit fuel s slot type_info
        (m (word_ptr c (word_ptr c (MR_strip_tag c (layout_entry_of c m type_info (m slot)))
          c.TYPE_CTOR_LAYOUT_UNSHARED_ARGS_OFFSET) 0)) = Outcome.out_of_fuel := by
  have htype0 := htype
  unfold rep_of at hrep
  unfold tag_rep_of at htag
  unfold layout_entry_of at htag harity htype
  unfold data_value_of at hin hself
  intro fuel
  induction fuel with
  | zero => intro s _; exact ⟨rfl, rfl⟩
  | succ fuel ih =>
    intro s hs
    constructor
    · have h2 := (ih (incr_saved_hp c (s.log (Event.enter_copy slot type_info)) (arity + 1)).2
        (by simp [incr_saved_hp, hs])).2
      unfold layout_entry_of at h2
      rw [copy]
      simp only [State.log_mem, hs, hrep, htag, hin, if_true, harity, rounds_cast, for_loop,
        hself]
      have hm : (incr_saved_hp c (s.log (Event.enter_copy slot type_info)) (arity + 1)).2.mem = m := by
        simp [incr_saved_hp, hs]
      rw [hm, h2]
      rfl
    · rw [copy_arg]
      simp only [State.log_mem, hs, htype0]
      exact (ih (s.log _) hs).1

/-- Claim C2, counterexample.  In `example_state` the in-region unshared node
at `0x1700` has one field, which refers to the node itself.  The call of
`copy` on it returns for no amount of fuel.  The node in slot `0x100`, which
is not cyclic, has two distinct sub-objects in the region, the node at
`0x1500` and the string at `0x1600` that both of its fields refer to: the call
of `copy` on it enters `copy` three times and `copy_arg` twice. -/
theorem termination_counterexample :
    example_state.mem 0x1700 = 0x1700 ∧
    in_range 0x1000 0x2000 0x1700 = true ∧
    (¬ ∃ fuel, copy Cfg.std 0x1000 0x2000 fuel example_state 0x1700 0x530
        ≠ Outcome.out_of_fuel) ∧
    example_state.mem 0x100 = 0x1500 ∧
    example_state.mem 0x1500 = 0x1600 ∧ example_state.mem 0x1504 = 0x1600 ∧
    observe [] (copy Cfg.std 0x1000 0x2000 10 example_state 0x100 0x520)
      = Observed.ok 0x3000 0x3010
          [Event.leave_forwarding_pointer 0x100 0x3000,
           Event.leave_forwarding_pointer 0x1504 0x300C,
           Event.incr_saved_hp_atomic 0x300C 1,
           Event.enter_copy 0x1504 0x510,
           Event.enter_copy_arg 0x1504 0x520 0x510,
           Event.leave_forwarding_pointer 0x1500 0x3008,
           Event.incr_saved_hp_atomic 0x3008 1,
           Event.enter_copy 0x1500 0x510,
           Event.enter_copy_arg 0x1500 0x520 0x510,
           Event.incr_saved_hp 0x3000 2,
           Event.enter_copy 0x100 0x520]
          [] := by
  refine ⟨by decide, by decide, ?_, by decide, by decide, by decide, by decide⟩
  rintro ⟨fuel, h⟩
  exact h (self_reference_diverges Cfg.std 0x1000 0x2000 example_mem 0x1700 0x530 0
    (by decide) (by decide) (by decide) (by decide) (by decide) (by decide) fuel example_state
    rfl).1

/-- A call of one of the three functions, by its arguments. -/
inductive Call where
  | copy (data_ptr type_info : Nat)
  | copy_arg (data_ptr term_type_info arg_pseudo_type_info : Nat)
  | copy_type_info (type_info_ptr : Nat)

/-- Run a call with the given fuel. -/
def run (c : Cfg) (lower_limit upper_limit fuel : Nat) (s : State) : Call → Outcome (Word × State)
  | Call.copy data_ptr type_info => copy c lower_limit upper_limit fuel s data_ptr type_info
  | Call.copy_arg data_ptr term_type_info arg_pseudo_type_info =>
    copy_arg c lower_limit upper_limit fuel s data_ptr term_type_info arg_pseudo_type_info
  | Call.copy_type_info type_info_ptr =>
    copy_type_info c lower_limit upper_limit fuel s type_info_ptr

/-- What a call does apart from its nested calls: it is done with an outcome
of its own (`done`), it copies a string (`string`, the only place where the
length of the source decides whether the call comes to an end), it hands over
to one nested call and returns what that call returns (`tail`), or it fills
a new object: in the state `s2`, for `i` from `first` on, `n` times, the
nested call `child i t` is made in the state `t` reached so far and its
result is stored at `dst i`; then `data_ptr` is marked as forwarded and
`new_data` is returned (`loop`). -/
inductive Step where
  | done (r : Outcome (Word × State))
  | string (data : Word) (data_ptr : Nat) (s : State)
  | tail (s : State) (child : Call)
  | loop (new_data : Word) (data_ptr : Nat) (s2 : State) (n first : Nat)
      (dst : Nat → Nat) (child : Nat → State → Call)

open MR_TypeCtorRepresentation MR_DiscUnionTagRepresentation in
/-- The bodies of `copy`, `copy_arg` and `copy_type_info` with the nested
calls left open: the same dispatch, the same allocations and header writes,
and for every nested call its arguments and the place of its result.  The
two nested calls of the univ branch are rounds 0 and 1 of a loop. -/
def dispatch (c : Cfg) (lower_limit upper_limit : Nat) (s0 : State) : Call → Step
  | Call.copy data_ptr type_info =>
    let s := s0.log (Event.enter_copy data_ptr type_info)
    let data := s.mem data_ptr
    let data_tag := MR_tag c data
    let data_value := MR_body c data data_tag
    let type_ctor_info := c.MR_TYPEINFO_GET_TYPE_CTOR_INFO s.mem type_info
    let layout_entry := c.type_ctor_layout s.mem type_ctor_info data_tag
    let entry_value := MR_strip_tag c layout_entry
    match c.type_ctor_rep s.mem type_ctor_info with
    | MR_TYPECTOR_REP_ENUM => Step.done (Outcome.ok (data, s))
    | MR_TYPECTOR_REP_DU =>
      match c.MR_get_tag_representation s.mem layout_entry with
      | MR_DISCUNIONTAG_SHARED_LOCAL => Step.done (Outcome.ok (data, s))
      | MR_DISCUNIONTAG_SHARED_REMOTE =>
        if in_range lower_limit upper_limit data_value then
          let secondary_tag := s.mem data_value
          let argument_vector := word_ptr c data_value 1
          let new_entry := c.MR_TYPE_CTOR_LAYOUT_SHARED_REMOTE_VECTOR_GET_FUNCTOR_DESCRIPTOR
            s.mem entry_value secondary_tag
          let arity := to_int c
            (s.mem (word_ptr c new_entry c.TYPE_CTOR_LAYOUT_UNSHARED_ARITY_OFFSET))
          let type_info_vector := word_ptr c new_entry c.TYPE_CTOR_LAYOUT_UNSHARED_ARGS_OFFSET
          let new_data := (incr_saved_hp c s (rounds arity + 1)).1
          let s1 := (incr_saved_hp c s (rounds arity + 1)).2
          let s2 := s1.write (word_ptr c new_data 0) secondary_tag
          Step.loop (MR_mkword c data_tag new_data) data_ptr s2 (rounds arity) 0
            (fun i => word_ptr c new_data (i + 1))
            (fun i t => Call.copy_arg (word_ptr c argument_vector i) type_info
              (t.mem (word_ptr c type_info_vector i)))
        else
          Step.done (Outcome.ok (data, found_forwarding_pointer s data))
      | MR_DISCUNIONTAG_UNSHARED =>
        let argument_vector := data_value
        if in_range lower_limit upper_limit argument_vector then
          let arity := to_int c
            (s.mem (word_ptr c entry_value c.TYPE_CTOR_LAYOUT_UNSHARED_ARITY_OFFSET))
          let type_info_vector := word_ptr c entry_value c.TYPE_CTOR_LAYOUT_UNSHARED_ARGS_OFFSET
          let new_data := (incr_saved_hp c s (rounds arity)).1
          let s1 := (incr_saved_hp c s (rounds arity)).2
          Step.loop (MR_mkword c data_tag new_data) data_ptr s1 (rounds arity) 0
            (fun i => word_ptr c new_data i)
            (fun i t => Call.copy_arg (word_ptr c argument_vector i) type_info
              (t.mem (word_ptr c type_info_vector i)))
        else
          Step.done (Outcome.ok (data, found_forwarding_pointer s data))
    | MR_TYPECTOR_REP_NOTAG =>
      Step.tail s (Call.copy_arg data_ptr type_info
        (s.mem (c.MR_TYPE_CTOR_LAYOUT_NO_TAG_VECTOR_ARGS s.mem entry_value)))
    | MR_TYPECTOR_REP_EQUIV =>
      Step.tail s (Call.copy_arg data_ptr type_info
        (c.MR_TYPE_CTOR_LAYOUT_EQUIV_TYPE s.mem entry_value))
    | MR_TYPECTOR_REP_EQUIV_VAR =>
      Step.tail s (Call.copy data_ptr (s.mem (word_ptr c type_info entry_value)))
    | MR_TYPECTOR_REP_INT => Step.done (Outcome.ok (data, s))
    | MR_TYPECTOR_REP_CHAR => Step.done (Outcome.ok (data, s))
    | MR_TYPECTOR_REP_FLOAT =>
      if c.BOXED_FLOAT then
        if in_range lower_limit upper_limit data_value then
          let new_data := word_to_float (float_to_word c s data).2 (float_to_word c s data).1
          Step.done (Outcome.ok
            (new_data, leave_forwarding_pointer (float_to_word c s data).2 data_ptr new_data))
        else
          Step.done (Outcome.ok (data, found_forwarding_pointer s data))
      else
        Step.done (Outcome.ok (data, s))
    | MR_TYPECTOR_REP_STRING =>
      if in_range lower_limit upper_limit data_value then
        Step.string data data_ptr s
      else
        Step.done (Outcome.ok (data, found_forwarding_pointer s data))
    | MR_TYPECTOR_REP_PRED =>
      if in_range lower_limit upper_limit data_value then
        let old_closure := data_value
        let closure_layout := s.mem (word_ptr c old_closure c.MR_closure_layout)
        let args := s.mem (word_ptr c old_closure c.MR_closure_num_hidden_args)
        let new_closure := (incr_saved_hp c s (args + 3)).1
        let s1 := (incr_saved_hp c s (args + 3)).2
        let s2 := s1.write (word_ptr c new_closure c.MR_closure_layout) closure_layout
        let s3 := s2.write (word_ptr c new_closure c.MR_closure_num_hidden_args) args
        let s4 := s3.write (word_ptr c new_closure c.MR_closure_code)
          (s3.mem (word_ptr c old_closure c.MR_closure_code))
        Step.loop new_closure data_ptr s4 args 0
          (fun i => word_ptr c new_closure (c.MR_closure_hidden_args_0 + i))
          (fun i t => Call.copy_arg (word_ptr c old_closure (c.MR_closure_hidden_args_0 + i))
            (word_ptr c type_info c.TYPEINFO_OFFSET_FOR_PRED_ARGS - c.sizeof_Word)
            (t.mem (word_ptr c closure_layout (c.arg_pseudo_type_info + i))))
      else
        Step.done (Outcome.ok (data, found_forwarding_pointer s data))
    | MR_TYPECTOR_REP_UNIV =>
      if in_range lower_limit upper_limit data_value then
        let new_data := (incr_saved_hp c s 2).1
        let s1 := (incr_saved_hp c s 2).2
        Step.loop new_data data_ptr s1 2 0
          (fun i => if i = 0 then word_ptr c new_data c.UNIV_OFFSET_FOR_DATA
            else word_ptr c new_data c.UNIV_OFFSET_FOR_TYPEINFO)
          (fun i _ => if i = 0
            then Call.copy (word_ptr c data_value c.UNIV_OFFSET_FOR_DATA)
              (s1.mem (word_ptr c data_value c.UNIV_OFFSET_FOR_TYPEINFO))
            else Call.copy_type_info (word_ptr c data_value c.UNIV_OFFSET_FOR_TYPEINFO))
      else
        Step.done (Outcome.ok (data, found_forwarding_pointer s data))
    | MR_TYPECTOR_REP_VOID => Step.done (Outcome.fatal_error "Cannot copy a void type" s)
    | MR_TYPECTOR_REP_ARRAY =>
      if in_range lower_limit upper_limit data_value then
        let old_array := data_value
        let size_word := s.mem (word_ptr c old_array MR_ArrayType_size)
        let array_size := to_Integer c size_word
        let new_array := (MR_make_array c s array_size).1
        let s1 := (MR_make_array c s array_size).2
        let s2 := s1.write (word_ptr c new_array MR_ArrayType_size) size_word
        Step.loop new_array data_ptr s2 (rounds array_size) 0
          (fun i => word_ptr c new_array (MR_ArrayType_elements + i))
          (fun i _ => Call.copy_arg (word_ptr c old_array (MR_ArrayType_elements + i))
            type_info 1)
      else
        Step.done (Outcome.ok (data, found_forwarding_pointer s data))
    | MR_TYPECTOR_REP_TYPEINFO => Step.tail s (Call.copy_type_info data_ptr)
    | MR_TYPECTOR_REP_C_POINTER =>
      if in_range lower_limit upper_limit data_value then
        Step.done (Outcome.fatal_error "Cannot copy a c_pointer type" s)
      else
        Step.done (Outcome.ok (data, s))
    | MR_TYPECTOR_REP_SUCCIP => Step.done (Outcome.ok (data, s))
    | MR_TYPECTOR_REP_REDOIP => Step.done (Outcome.ok (data, s))
    | MR_TYPECTOR_REP_HP =>
      Step.done (Outcome.fatal_error "Sorry, not implemented: copying saved heap pointers" s)
    | MR_TYPECTOR_REP_CURFR => Step.done (Outcome.ok (data, s))
    | MR_TYPECTOR_REP_MAXFR => Step.done (Outcome.ok (data, s))
    | MR_TYPECTOR_REP_TRAIL_PTR => Step.done (Outcome.ok (data, s))
    | MR_TYPECTOR_REP_TICKET => Step.done (Outcome.ok (data, s))
    | MR_TYPECTOR_REP_UNKNOWN =>
      Step.done (Outcome.fatal_error "Unknown layout type in deep copy" s)
    | unlisted _ => Step.done (Outcome.fatal_error "Unknown layout type in deep copy" s)
  | Call.copy_arg data_ptr term_type_info arg_pseudo_type_info =>
    let s := s0.log (Event.enter_copy_arg data_ptr term_type_info arg_pseudo_type_info)
    Step.tail s
      (Call.copy data_ptr (c.MR_make_type_info s.mem term_type_info arg_pseudo_type_info))
  | Call.copy_type_info type_info_ptr =>
    let s := s0.log (Event.enter_copy_type_info type_info_ptr)
    let type_info := s.mem type_info_ptr
    if in_range lower_limit upper_limit type_info then
      let type_ctor_info := c.MR_TYPEINFO_GET_TYPE_CTOR_INFO s.mem type_info
      if type_info = type_ctor_info then
        Step.done (Outcome.ok (type_ctor_info, s))
      else
        let arity_word := if c.MR_TYPE_CTOR_INFO_IS_HO s.mem type_ctor_info
          then c.MR_TYPEINFO_GET_HIGHER_ARITY s.mem type_info
          else c.MR_TYPE_CTOR_INFO_GET_TYPE_ARITY s.mem type_ctor_info
        let arity := to_Integer c arity_word
        let offset := if c.MR_TYPE_CTOR_INFO_IS_HO s.mem type_ctor_info then 2 else 1
        let new_type_info := (incr_saved_hp c s (rounds arity + offset)).1
        let s1 := (incr_saved_hp c s (rounds arity + offset)).2
        let s2 := s1.write (word_ptr c new_type_info 0) type_ctor_info
        let s3 := if c.MR_TYPE_CTOR_INFO_IS_HO s.mem type_ctor_info
          then s2.write (word_ptr c new_type_info 1) arity_word else s2
        Step.loop new_type_info type_info_ptr s3 (rounds arity) offset
          (fun i => word_ptr c new_type_info i)
          (fun i _ => Call.copy_type_info (word_ptr c type_info i))
    else
      Step.done (Outcome.ok (type_info, found_forwarding_pointer s type_info))

/-- The outcome of a call from its body and the outcomes of its nested
calls, which run with the call depth `fuel`. -/
def exec (c : Cfg) (lower_limit upper_limit fuel : Nat) : Step → Outcome (Word × State)
  | Step.done r => r
  | Step.string data data_ptr s =>
    match strlen s.mem fuel data with
    | none => Outcome.out_of_fuel
    | some len =>
      let new_data := (incr_saved_hp_atomic c s ((len + c.sizeof_Word) / c.sizeof_Word)).1
      let s1 := (incr_saved_hp_atomic c s ((len + c.sizeof_Word) / c.sizeof_Word)).2
      let s2 := { s1 with mem := strcpy s1.mem new_data data len }
      Outcome.ok (new_data, leave_forwarding_pointer s2 data_ptr new_data)
  | Step.tail s child => run c lower_limit upper_limit fuel s child
  | Step.loop new_data data_ptr s2 n first dst child =>
    finish new_data data_ptr
      (for_loop (fun i t => assign (dst i) (run c lower_limit upper_limit fuel t (child i t)))
        n first s2)

/-- The nested call number `k` of the call `parent` started in `s0`, when the
nested calls before it have returned (they run with the call depth `fuel`):
the state it is made in, the call, and the cell its result is stored in
(`none` when the result is what the parent returns). -/
def call_site (c : Cfg) (lower_limit upper_limit fuel : Nat) (s0 : State) (parent : Call)
    (k : Nat) : Option (State × Call × Option Nat) :=
  match dispatch c lower_limit upper_limit s0 parent with
  | Step.done _ => none
  | Step.string _ _ _ => none
  | Step.tail s child => if k = 0 then some (s, child, none) else none
  | Step.loop _ _ s2 n first dst child =>
    if k < n then
      match for_loop
        (fun i t => assign (dst i) (run c lower_limit upper_limit fuel t (child i t)))
        k first s2 with
      | Outcome.ok t => some (t, child (first + k) t, some (dst (first + k)))
      | Outcome.fatal_error _ _ => none
      | Outcome.out_of_fuel => none
    else none

/-- A call with call depth `fuel + 1` is its body with the nested calls run
with call depth `fuel`. -/
theorem run_succ (c : Cfg) (lower_limit upper_limit fuel : Nat) (s : State) (call : Call) :
    run c lower_limit upper_limit (fuel + 1) s call
      = exec c lower_limit upper_limit fuel (dispatch c lower_limit upper_limit s call) := by
  cases call with
  | copy data_ptr type_info =>
    simp only [run, dispatch]
    rw [copy]
    simp only [State.log_mem]
    cases hrep : c.type_ctor_rep s.mem (c.MR_TYPEINFO_GET_TYPE_CTOR_INFO s.mem type_info)
    all_goals simp only []
    all_goals try rfl
    · cases htag : c.MR_get_tag_representation s.mem
        (c.type_ctor_layout s.mem (c.MR_TYPEINFO_GET_TYPE_CTOR_INFO s.mem type_info)
          (MR_tag c (s.mem data_ptr)))
      all_goals simp only []
      all_goals try rfl
      all_goals split_ifs <;> rfl
    · split_ifs <;> rfl
    · split_ifs <;> rfl
    · split_ifs <;> rfl
    · split_ifs
      · simp only [exec, for_loop, if_true, Nat.zero_add, one_ne_zero, if_false, run]
        cases assign (word_ptr c (incr_saved_hp c (s.log (Event.enter_copy data_ptr type_info)) 2).1
            c.UNIV_OFFSET_FOR_DATA)
          (copy c lower_limit upper_limit fuel
            (incr_saved_hp c (s.log (Event.enter_copy data_ptr type_info)) 2).2
            (word_ptr c (MR_body c (s.mem data_ptr) (MR_tag c (s.mem data_ptr)))
              c.UNIV_OFFSET_FOR_DATA)
            ((incr_saved_hp c (s.log (Event.enter_copy data_ptr type_info)) 2).2.mem
              (word_ptr c (MR_body c (s.mem data_ptr) (MR_tag c (s.mem data_ptr)))
                c.UNIV_OFFSET_FOR_TYPEINFO))) with
        | ok s2 =>
          simp only []
          cases assign (word_ptr c (incr_saved_hp c (s.log (Event.enter_copy data_ptr type_info)) 2).1
              c.UNIV_OFFSET_FOR_TYPEINFO)
            (copy_type_info c lower_limit upper_limit fuel s2
              (word_ptr c (MR_body c (s.mem data_ptr) (MR_tag c (s.mem data_ptr)))
                c.UNIV_OFFSET_FOR_TYPEINFO)) <;> rfl
        | fatal_error msg t => rfl
        | out_of_fuel => rfl
      · rfl
    · split_ifs <;> rfl
    · split_ifs <;> rfl
  | copy_arg data_ptr term_type_info arg_pseudo_type_info =>
    simp only [run, dispatch]
    rw [copy_arg]
    rfl
  | copy_type_info type_info_ptr =>
    simp only [run, dispatch]
    rw [copy_type_info]
    simp only []
    split
    · split <;> rfl
    · rfl

/-- A call that is done without a nested call has returned or stopped in
`fatal_error`. -/
theorem dispatch_done (c : Cfg) (lower_limit upper_limit : Nat) (s : State) (call : Call)
    (r : Outcome (Word × State))
    (h : dispatch c lower_limit upper_limit s call = Step.done r) :
    r ≠ Outcome.out_of_fuel := by
  cases call with
  | copy data_ptr type_info =>
    simp only [dispatch] at h
    split at h
    all_goals try split at h
    all_goals try split at h
    all_goals first
      | (simp only [Step.done.injEq] at h; rw [← h]; exact fun h2 => Outcome.noConfusion h2)
      | exact Step.noConfusion h
  | copy_arg data_ptr term_type_info arg_pseudo_type_info =>
    simp only [dispatch] at h
    exact Step.noConfusion h
  | copy_type_info type_info_ptr =>
    simp only [dispatch] at h
    split at h
    all_goals try split at h
    all_goals first
      | (simp only [Step.done.injEq] at h; rw [← h]; exact fun h2 => Outcome.noConfusion h2)
      | exact Step.noConfusion h

/-- The string step is the in-range branch of `copy` on a STRING type. -/
theorem dispatch_string (c : Cfg) (lower_limit upper_limit : Nat) (s : State) (call : Call)
    (data : Word) (data_ptr : Nat) (s1 : State)
    (h : dispatch c lower_limit upper_limit s call = Step.string data data_ptr s1) :
    ∃ type_info, call = Call.copy data_ptr type_info ∧
      rep_of c s.mem type_info = .MR_TYPECTOR_REP_STRING ∧
      in_range lower_limit upper_limit (data_value_of c (s.mem data_ptr)) = true ∧
      data = s.mem data_ptr ∧ s1 = s.log (Event.enter_copy data_ptr type_info) := by
  cases call with
  | copy p type_info =>
    simp only [dispatch, State.log_mem] at h
    cases hrep : c.type_ctor_rep s.mem (c.MR_TYPEINFO_GET_TYPE_CTOR_INFO s.mem type_info)
    all_goals rw [hrep] at h
    all_goals simp only [] at h
    all_goals try (exact Step.noConfusion h)
    all_goals try (split at h)
    all_goals try (split at h)
    all_goals try (exact Step.noConfusion h)
    rename_i hin
    simp only [Step.string.injEq] at h
    obtain ⟨h1, h2, h3⟩ := h
    subst h2
    exact ⟨type_info, rfl, hrep, hin, h1.symm, h3.symm⟩
  | copy_arg data_ptr term_type_info arg_pseudo_type_info =>
    simp only [dispatch] at h
    exact Step.noConfusion h
  | copy_type_info type_info_ptr =>
    simp only [dispatch] at h
    split at h
    all_goals try split at h
    all_goals exact Step.noConfusion h

/-- A loop comes to an end when every round does, in the state the rounds
before it have led to. -/
theorem for_loop_comes_to_end (body : Nat → State → Outcome State) :
    ∀ (n first : Nat) (s : State),
      (∀ k t, k < n → for_loop body k first s = Outcome.ok t →
        body (first + k) t ≠ Outcome.out_of_fuel) →
      for_loop body n first s ≠ Outcome.out_of_fuel := by
  intro n
  induction n with
  | zero => intro first s _ h; simp [for_loop] at h
  | succ n ih =>
    intro first s hbody
    have h0 := hbody 0 s (by omega) rfl
    unfold for_loop
    cases hb : body first s with
    | ok s1 =>
      simp only []
      apply ih (first + 1) s1
      intro k t hk hpre
      have := hbody (k + 1) t (by omega) (by
        show for_loop body (k + 1) first s = Outcome.ok t
        unfold for_loop
        rw [hb]
        exact hpre)
      rwa [show first + (k + 1) = first + 1 + k by omega] at this
    | fatal_error msg t => simp
    | out_of_fuel => rw [Nat.add_zero, hb] at h0; exact absurd rfl h0

/-- Claim C2, amended.  The recursion `copy` / `copy_arg` / `copy_type_info`
comes to an end on every source whose nesting is well founded.  `call_site`
gives the nested calls a call makes, each with the state it is made in (the
state the call itself and the nested calls before it have led to).  Let `D`
be a set of calls, each taken with the state it is started in, and `rank` a
number for each of them.  Whenever every nested call that a call of `D` makes
is in `D` again with a smaller rank, and a string in the region that a call of
`D` copies is shorter than the rank of that call, then every call of `D`,
started with a call depth above its rank, comes to an end: it returns or
stops in `fatal_error`, it does not exceed the call depth.  No bound in terms
of the number of distinct sub-objects is claimed: every referring slot is
visited. -/
theorem ranked_calls_terminate (c : Cfg) (lower_limit upper_limit : Nat)
    (D : State → Call → Prop) (rank : State → Call → Nat)
    (hnest : ∀ fuel s parent k t child dst, D s parent →
      call_site c lower_limit upper_limit fuel s parent k = some (t, child, dst) →
      D t child ∧ rank t child < rank s parent)
    (hstring : ∀ s data_ptr type_info, D s (Call.copy data_ptr type_info) →
      rep_of c s.mem type_info = .MR_TYPECTOR_REP_STRING →
      in_range lower_limit upper_limit (data_value_of c (s.mem data_ptr)) = true →
      ∃ len, is_string s.mem (s.mem data_ptr) len ∧
        len < rank s (Call.copy data_ptr type_info)) :
    ∀ (N : Nat) (s : State) (call : Call), D s call → rank s call < N →
      run c lower_limit upper_limit N s call ≠ Outcome.out_of_fuel := by
  intro N
  induction N with
  | zero => intro s call _ h; omega
  | succ N ih =>
    intro s call hD hrank
    rw [run_succ]
    cases hd : dispatch c lower_limit upper_limit s call with
    | done r => exact dispatch_done c lower_limit upper_limit s call r hd
    | string data data_ptr s1 =>
      obtain ⟨type_info, rfl, hrep, hin, rfl, rfl⟩ :=
        dispatch_string c lower_limit upper_limit s call data data_ptr s1 hd
      obtain ⟨len, hlen, hlt⟩ := hstring s data_ptr type_info hD hrep hin
      simp only [exec, State.log_mem]
      rw [strlen_of_is_string s.mem len N (s.mem data_ptr) hlen (by omega)]
      simp
    | tail s1 child =>
      obtain ⟨h1, h2⟩ := hnest N s call 0 s1 child none hD (by simp [call_site, hd])
      exact ih s1 child h1 (by omega)
    | loop new_data data_ptr s2 n first dst child =>
      simp only [exec]
      have hloop := for_loop_comes_to_end
        (fun i t => assign (dst i) (run c lower_limit upper_limit N t (child i t))) n first s2
        (by
          intro k t hk hpre
          obtain ⟨h1, h2⟩ := hnest N s call k t (child (first + k) t) (some (dst (first + k)))
            hD (by simp [call_site, hd, hk, hpre])
          have := ih t (child (first + k) t) h1 (by omega)
          simp only []
          cases hr : run c lower_limit upper_limit N t (child (first + k) t) with
          | ok a => simp [assign]
          | fatal_error msg u => simp [assign]
          | out_of_fuel => exact absurd hr this)
      cases hl : for_loop
        (fun i t => assign (dst i) (run c lower_limit upper_limit N t (child i t))) n first s2 with
      | ok u => simp [finish]
      | fatal_error msg u => simp [finish]
      | out_of_fuel => exact absurd hl hloop

/-! ## Field loops -/

/-- What a field loop leaves behind when every call keeps the frame, with the
state each call was made in: exactly `n` results; result `k` is what
`call (first + k)` returned when started in a state `t` that agrees with `s`
on every cell below the heap pointer of `s` that is neither marked as
forwarded by the loop nor a destination of the loop; and the cell
`dst (first + k)` holds result `k` at the end unless a forwarding mark of the
loop hit that cell. -/
theorem copy_elements_states (call : Nat → State → Outcome (Word × State)) (dst : Nat → Nat)
    (e : Nat → State → Event)
    (hcall : ∀ i t, (call i t).holds (Frame (t.log (e i t))))
    (hinj : ∀ i j, i ≠ j → dst i ≠ dst j) :
    ∀ (n first : Nat) (s : State) (rs : List Word) (u : State),
      copy_elements call dst n first s = Outcome.ok (rs, u) →
      (∀ k, first ≤ k → k < first + n → dst k < s.hp) →
      rs.length = n ∧ s.hp ≤ u.hp ∧ ∃ l, u.trace = l ++ s.trace ∧
        (∀ a, a < s.hp → ¬ forwarded l a →
          (∀ k, first ≤ k → k < first + n → a ≠ dst k) → u.mem a = s.mem a) ∧
        (∀ k, k < n → ∃ t t1, call (first + k) t = Outcome.ok (rs.getD k 0, t1) ∧
          ∀ a, a < s.hp → ¬ forwarded l a →
            (∀ j, first ≤ j → j < first + n → a ≠ dst j) → t.mem a = s.mem a) ∧
        (∀ k, k < n → ¬ forwarded l (dst (first + k)) →
          u.mem (dst (first + k)) = rs.getD k 0) := by
  intro n
  induction n with
  | zero =>
    intro first s rs u h _
    simp only [copy_elements, Outcome.ok.injEq, Prod.mk.injEq] at h
    obtain ⟨rfl, rfl⟩ := h
    exact ⟨rfl, le_refl _, [], rfl, fun _ _ _ _ => rfl, fun k hk => absurd hk (by omega),
      fun k hk => absurd hk (by omega)⟩
  | succ n ih =>
    intro first s rs u h hdst
    unfold copy_elements at h
    have hc := hcall first s
    cases h1 : call first s with
    | ok a =>
      obtain ⟨r, t⟩ := a
      rw [h1] at h hc
      simp only [] at h
      cases h2 : copy_elements call dst n (first + 1) (t.write (dst first) r) with
      | ok b =>
        obtain ⟨rs1, u1⟩ := b
        rw [h2] at h
        simp only [Outcome.ok.injEq, Prod.mk.injEq] at h
        obtain ⟨rfl, rfl⟩ := h
        obtain ⟨hle, l1, hl1, hf1⟩ : Frame (s.log (e first s)) t := hc
        simp only [State.log_hp, State.log_trace] at hle hl1 hf1
        obtain ⟨hlen, hle2, l2, hl2, hf2, hres, hcell⟩ := ih (first + 1) _ rs1 u1 h2
          (fun k hk1 hk2 => by
            have := hdst k (by omega) (by omega)
            simp only [State.write_hp]
            omega)
        simp only [State.write_hp, State.write_trace, State.write_mem] at hle2 hl2 hf2 hcell hres
        have hdf := hdst first (le_refl _) (by omega)
        have hstep : ∀ a, a < s.hp → ¬ forwarded (l2 ++ l1 ++ [e first s]) a →
            (∀ k, first ≤ k → k < first + (n + 1) → a ≠ dst k) →
            store t.mem (dst first) r a = s.mem a := by
          intro a ha hfw hne
          have hfw1 : ¬ forwarded l1 a := fun ⟨w, hw⟩ =>
            hfw ⟨w, List.mem_append_left _ (List.mem_append_right _ hw)⟩
          rw [store_other _ _ _ _ (hne first (le_refl _) (by omega))]
          exact hf1 a (Or.inl ha) hfw1
        have hfw2_of : ∀ a, ¬ forwarded (l2 ++ l1 ++ [e first s]) a → ¬ forwarded l2 a :=
          fun a hfw ⟨w, hw⟩ => hfw ⟨w, List.mem_append_left _ (List.mem_append_left _ hw)⟩
        refine ⟨by simp [hlen], le_trans hle hle2, l2 ++ l1 ++ [e first s],
          by simp [hl2, hl1], ?_, ?_, ?_⟩
        · intro a ha hfw hne
          rw [hf2 a (by omega) (hfw2_of a hfw) (fun k hk1 hk2 => hne k (by omega) (by omega))]
          exact hstep a ha hfw hne
        · intro k hk
          cases k with
          | zero => exact ⟨s, t, by simpa using h1, fun _ _ _ _ => rfl⟩
          | succ k =>
            obtain ⟨t2, t3, h3, h4⟩ := hres k (by omega)
            refine ⟨t2, t3, by simpa [Nat.add_assoc, Nat.add_comm 1 k] using h3, ?_⟩
            intro a ha hfw hne
            rw [h4 a (by omega) (hfw2_of a hfw) (fun j hj1 hj2 => hne j (by omega) (by omega))]
            exact hstep a ha hfw hne
        · intro k hk hfw
          cases k with
          | zero =>
            simp only [Nat.add_zero, List.getD_cons_zero]
            rw [hf2 (dst first) (by omega) (hfw2_of _ hfw)
              (fun j hj1 _ => hinj first j (by omega)), store_same]
          | succ k =>
            have hfw2 : ¬ forwarded l2 (dst (first + 1 + k)) := by
              have := hfw2_of _ hfw
              rwa [show first + (k + 1) = first + 1 + k by omega] at this
            have := hcell k (by omega) hfw2
            simpa [show first + (k + 1) = first + 1 + k by omega] using this
      | fatal_error msg u2 => rw [h2] at h; simp at h
      | out_of_fuel => rw [h2] at h; simp at h
    | fatal_error msg u2 => rw [h1] at h; simp at h
    | out_of_fuel => rw [h1] at h; simp at h

/-- The shape of a freshly allocated block `[s.hp, s.hp + words * W)` after
its field loop and the forwarding mark of the call.  `s` is the state at the
entry of the call, `s2` the state in which the loop starts (block allocated,
header words written, the events `pre` logged).  When the loop returns:
exactly `n` nested calls were made, in order; call `k` was started in a state
that agrees with `s` on every unforwarded cell below the block; and every
destination on which the call left no forwarding mark holds the result of
its call, every other unmarked word of the block is as the header writes left
it. -/
theorem block_shape (c : Cfg) (s s2 : State) (pre : List Event) (words n first : Nat)
    (p : Nat) (w : Word)
    (call : Nat → State → Outcome (Word × State)) (dst : Nat → Nat) (e : Nat → State → Event)
    (hcall : ∀ i t, (call i t).holds (Frame (t.log (e i t))))
    (hinj : ∀ i j, i ≠ j → dst i ≠ dst j)
    (hhp : s2.hp = s.hp + words * c.sizeof_Word) (htr : s2.trace = pre ++ s.trace)
    (hmem : ∀ a, a < s.hp → s2.mem a = s.mem a)
    (hdst : ∀ k, first ≤ k → k < first + n →
      s.hp ≤ dst k ∧ dst k < s.hp + words * c.sizeof_Word)
    (rs : List Word) (u : State)
    (hrun : copy_elements call dst n first s2 = Outcome.ok (rs, u)) :
    rs.length = n ∧
    ∃ l, (leave_forwarding_pointer u p w).trace = l ++ s.trace ∧
      (∀ k, k < n → ∃ t t1, call (first + k) t = Outcome.ok (rs.getD k 0, t1) ∧
        ∀ a, a < s.hp → ¬ forwarded l a → t.mem a = s.mem a) ∧
      (∀ a, s.hp ≤ a → a < s.hp + words * c.sizeof_Word → ¬ forwarded l a →
        (∀ k, first ≤ k → k < first + n → a ≠ dst k) →
        (leave_forwarding_pointer u p w).mem a = s2.mem a) ∧
      (∀ k, k < n → ¬ forwarded l (dst (first + k)) →
        (leave_forwarding_pointer u p w).mem (dst (first + k)) = rs.getD k 0) := by
  obtain ⟨hlen, _, l, hl, hframe, hres, hcell⟩ := copy_elements_states call dst e hcall hinj
    n first s2 rs u hrun (fun k h1 h2 => by rw [hhp]; exact (hdst k h1 h2).2)
  refine ⟨hlen, Event.leave_forwarding_pointer p w :: l ++ pre, ?_, ?_, ?_, ?_⟩
  · simp [leave_forwarding_pointer, hl, htr]
  · intro k hk
    obtain ⟨t, t1, h1, h2⟩ := hres k hk
    refine ⟨t, t1, h1, fun a ha hfw => ?_⟩
    rw [h2 a (by omega) (fun ⟨v, hv⟩ => hfw ⟨v, by simp [hv]⟩)
      (fun j hj1 hj2 => by have := (hdst j hj1 hj2).1; omega), hmem a ha]
  · intro a h1 h2 hnf hne
    have hap : a ≠ p := fun ha => hnf ⟨w, by rw [ha]; simp⟩
    simp only [leave_forwarding_pointer]
    rw [store_other _ _ _ _ hap]
    exact hframe a (by omega) (fun ⟨v, hv⟩ => hnf ⟨v, by simp [hv]⟩) hne
  · intro k hk hnf
    have hap : dst (first + k) ≠ p := fun ha => hnf ⟨w, by rw [ha]; simp⟩
    simp only [leave_forwarding_pointer]
    rw [store_other _ _ _ _ hap]
    exact hcell k hk (fun ⟨v, hv⟩ => hnf ⟨v, by simp [hv]⟩)

/-! ## Tagged unions -/

theorem MR_tag_mkword (c : Cfg) (w : Word) (hp : Nat) (h : hp % 2 ^ c.TAGBITS = 0) :
    MR_tag c (MR_mkword c (MR_tag c w) hp) = MR_tag c w ∧
    MR_body c (MR_mkword c (MR_tag c w) hp) (MR_tag c (MR_mkword c (MR_tag c w) hp)) = hp := by
  have hpos : 0 < 2 ^ c.TAGBITS := Nat.two_pow_pos _
  have hlt : w % 2 ^ c.TAGBITS < 2 ^ c.TAGBITS := Nat.mod_lt _ hpos
  have h1 : (hp + w % 2 ^ c.TAGBITS) % 2 ^ c.TAGBITS = w % 2 ^ c.TAGBITS := by
    rw [Nat.add_mod, h, Nat.zero_add, Nat.mod_mod, Nat.mod_eq_of_lt hlt]
  unfold MR_tag MR_mkword MR_body
  rw [h1]
  exact ⟨rfl, by omega⟩

/-- Claim C12.  For an in-region DU value whose layout entry is UNSHARED with
arity `a` (the arity word of the layout entry, read as the `int` `arity`, is
`a >= 0`), `copy` allocates exactly `a` words at the old heap pointer (no
header word) and runs the field loop of the specification: for `i = 0 .. a-1`, in this order, `copy_arg` on source
argument `i` under the `i`-th argument pseudo type (word `i` of the layout
entry's argument vector, read when the field is copied, in a state that
agrees with the entry state on every unforwarded cell below the old heap
pointer), the result stored in word `i` of the new block; then it marks
`data_ptr` as forwarded and returns the new block with the primary tag of the
source word.  With the heap pointer aligned to the tag bits, the tag of the
result is the tag of the source and its body is the new block.  When the loop
returns, exactly `a` field copies were made and word `i` of the block holds
result `i`, unless a forwarding mark of the call was left on that very
word. -/
theorem unshared_copy (c : Cfg) (hc : c.wf) (lower_limit upper_limit fuel : Nat) (s : State)
    (data_ptr type_info arity : Nat)
    (hrep : rep_of c s.mem type_info = .MR_TYPECTOR_REP_DU)
    (htag : tag_rep_of c s.mem type_info (s.mem data_ptr) = .MR_DISCUNIONTAG_UNSHARED)
    (hin : in_range lower_limit upper_limit (data_value_of c (s.mem data_ptr)) = true)
    (harity : to_int c (s.mem (word_ptr c
      (MR_strip_tag c (layout_entry_of c s.mem type_info (s.mem data_ptr)))
      c.TYPE_CTOR_LAYOUT_UNSHARED_ARITY_OFFSET)) = (arity : Int)) :
    let argument_vector := data_value_of c (s.mem data_ptr)
    let entry_value := MR_strip_tag c (layout_entry_of c s.mem type_info (s.mem data_ptr))
    let type_info_vector := word_ptr c entry_value c.TYPE_CTOR_LAYOUT_UNSHARED_ARGS_OFFSET
    let s1 : State := State.mk s.mem (s.hp + arity * c.sizeof_Word)
      (Event.incr_saved_hp s.hp arity :: Event.enter_copy data_ptr type_info :: s.trace)
    let field_copy := fun (i : Nat) (t : State) => copy_arg c lower_limit upper_limit fuel t
      (word_ptr c argument_vector i) type_info (t.mem (word_ptr c type_info_vector i))
    let new_field := fun (i : Nat) => word_ptr c s.hp i
    let result := MR_mkword c (MR_tag c (s.mem data_ptr)) s.hp
    copy c lower_limit upper_limit (fuel + 1) s data_ptr type_info
      = finish_elements result data_ptr (copy_elements field_copy new_field arity 0 s1) ∧
    (s.hp % 2 ^ c.TAGBITS = 0 →
      MR_tag c result = MR_tag c (s.mem data_ptr) ∧ MR_body c result (MR_tag c result) = s.hp) ∧
    ∀ rs u, copy_elements field_copy new_field arity 0 s1 = Outcome.ok (rs, u) →
      rs.length = arity ∧
      ∃ l, (leave_forwarding_pointer u data_ptr result).trace = l ++ s.trace ∧
        (∀ i, i < arity → ∃ t t1, field_copy i t = Outcome.ok (rs.getD i 0, t1) ∧
          ∀ a, a < s.hp → ¬ forwarded l a → t.mem a = s.mem a) ∧
        (∀ i, i < arity → ¬ forwarded l (new_field i) →
          (leave_forwarding_pointer u data_ptr result).mem (new_field i) = rs.getD i 0) := by
  intro argument_vector entry_value type_info_vector s1 field_copy new_field result
  have hW := hc.sizeof_Word_pos
  unfold rep_of at hrep
  unfold tag_rep_of layout_entry_of at htag
  unfold layout_entry_of at harity
  have hin2 : in_range lower_limit upper_limit
      (MR_body c (s.mem data_ptr) (MR_tag c (s.mem data_ptr))) = true := hin
  refine ⟨?_, MR_tag_mkword c (s.mem data_ptr) s.hp, ?_⟩
  · rw [copy]
    simp only [State.log_mem, hrep, htag, hin2, if_true, harity, rounds_cast]
    exact for_loop_eq_copy_elements field_copy new_field result data_ptr arity 0 s1
  · intro rs u hrun
    obtain ⟨hlen, l, hl, hres, _, hcell⟩ := block_shape c s s1
      [Event.incr_saved_hp s.hp arity, Event.enter_copy data_ptr type_info] arity arity 0
      data_ptr result field_copy new_field
      (fun i t => Event.enter_copy_arg (word_ptr c argument_vector i) type_info
        (t.mem (word_ptr c type_info_vector i)))
      (fun i t => (copy_closed Frame_closed c (fun _ => hc) lower_limit upper_limit
        (fun _ _ => trivial) fuel).2 t _ _ _ trivial)
      (fun i j hij => word_ptr_inj c hW s.hp i j hij) rfl rfl (fun _ _ => rfl)
      (fun k _ hk => ⟨word_ptr_ge c _ _, word_ptr_lt c hW _ _ _ (by omega)⟩) rs u hrun
    refine ⟨hlen, l, hl, fun i hi => by simpa using hres i hi, fun i hi hnf => ?_⟩
    have := hcell i hi (by simpa using hnf)
    simpa using this

/-- Claim C11.  For an in-region DU value whose layout entry is SHARED_REMOTE
and whose functor descriptor (selected by the secondary tag in body word 0)
has arity `a` (its arity word, read as the `int` `arity`, is `a >= 0`), `copy`
allocates exactly `a + 1` words at the old heap pointer,
stores the secondary tag of the source in word 0 and runs the field loop of
the specification: for `i = 0 .. a-1`, in this order, `copy_arg` on source
argument `i` (body word `i + 1`) under the `i`-th argument pseudo type of the
functor descriptor (read when the field is copied, in a state that agrees
with the entry state on every unforwarded cell below the old heap pointer),
the result stored in word `i + 1` of the new block; then it marks `data_ptr`
as forwarded and returns the new block with the primary tag of the source
word.  With the heap pointer aligned to the tag bits, the tag of the result
is the tag of the source and its body is the new block.  When the loop
returns, exactly `a` field copies were made, word 0 holds the secondary tag
of the source and word `i + 1` holds result `i`, each unless a forwarding
mark of the call was left on that very word. -/
theorem shared_remote_copy (c : Cfg) (hc : c.wf) (lower_limit upper_limit fuel : Nat) (s : State)
    (data_ptr type_info arity : Nat)
    (hrep : rep_of c s.mem type_info = .MR_TYPECTOR_REP_DU)
    (htag : tag_rep_of c s.mem type_info (s.mem data_ptr) = .MR_DISCUNIONTAG_SHARED_REMOTE)
    (hin : in_range lower_limit upper_limit (data_value_of c (s.mem data_ptr)) = true)
    (harity : to_int c (s.mem (word_ptr c
      (c.MR_TYPE_CTOR_LAYOUT_SHARED_REMOTE_VECTOR_GET_FUNCTOR_DESCRIPTOR s.mem
        (MR_strip_tag c (layout_entry_of c s.mem type_info (s.mem data_ptr)))
        (s.mem (data_value_of c (s.mem data_ptr))))
      c.TYPE_CTOR_LAYOUT_UNSHARED_ARITY_OFFSET)) = (arity : Int)) :
    let data_value := data_value_of c (s.mem data_ptr)
    let secondary_tag := s.mem data_value
    let argument_vector := word_ptr c data_value 1
    let entry_value := MR_strip_tag c (layout_entry_of c s.mem type_info (s.mem data_ptr))
    let new_entry := c.MR_TYPE_CTOR_LAYOUT_SHARED_REMOTE_VECTOR_GET_FUNCTOR_DESCRIPTOR s.mem
      entry_value secondary_tag
    let type_info_vector := word_ptr c new_entry c.TYPE_CTOR_LAYOUT_UNSHARED_ARGS_OFFSET
    let s2 : State := State.mk (store s.mem (word_ptr c s.hp 0) secondary_tag)
      (s.hp + (arity + 1) * c.sizeof_Word)
      (Event.incr_saved_hp s.hp (arity + 1) :: Event.enter_copy data_ptr type_info :: s.trace)
    let field_copy := fun (i : Nat) (t : State) => copy_arg c lower_limit upper_limit fuel t
      (word_ptr c argument_vector i) type_info (t.mem (word_ptr c type_info_vector i))
    let new_field := fun (i : Nat) => word_ptr c s.hp (i + 1)
    let result := MR_mkword c (MR_tag c (s.mem data_ptr)) s.hp
    copy c lower_limit upper_limit (fuel + 1) s data_ptr type_info
      = finish_elements result data_ptr (copy_elements field_copy new_field arity 0 s2) ∧
    (s.hp % 2 ^ c.TAGBITS = 0 →
      MR_tag c result = MR_tag c (s.mem data_ptr) ∧ MR_body c result (MR_tag c result) = s.hp) ∧
    ∀ rs u, copy_elements field_copy new_field arity 0 s2 = Outcome.ok (rs, u) →
      rs.length = arity ∧
      ∃ l, (leave_forwarding_pointer u data_ptr result).trace = l ++ s.trace ∧
        (∀ i, i < arity → ∃ t t1, field_copy i t = Outcome.ok (rs.getD i 0, t1) ∧
          ∀ a, a < s.hp → ¬ forwarded l a → t.mem a = s.mem a) ∧
        (¬ forwarded l (word_ptr c s.hp 0) →
          (leave_forwarding_pointer u data_ptr result).mem (word_ptr c s.hp 0)
            = secondary_tag) ∧
        (∀ i, i < arity → ¬ forwarded l (new_field i) →
          (leave_forwarding_pointer u data_ptr result).mem (new_field i) = rs.getD i 0) := by
  intro data_value secondary_tag argument_vector entry_value new_entry type_info_vector
    s2 field_copy new_field result
  have hW := hc.sizeof_Word_pos
  unfold rep_of at hrep
  unfold tag_rep_of layout_entry_of at htag
  unfold layout_entry_of data_value_of at harity
  have hin2 : in_range lower_limit upper_limit
      (MR_body c (s.mem data_ptr) (MR_tag c (s.mem data_ptr))) = true := hin
  refine ⟨?_, MR_tag_mkword c (s.mem data_ptr) s.hp, ?_⟩
  · rw [copy]
    simp only [State.log_mem, hrep, htag, hin2, if_true, harity, rounds_cast]
    exact for_loop_eq_copy_elements field_copy new_field result data_ptr arity 0 s2
  · intro rs u hrun
    have hlt : ∀ j, j < arity + 1 → word_ptr c s.hp j < s.hp + (arity + 1) * c.sizeof_Word :=
      fun j hj => word_ptr_lt c hW _ _ _ hj
    obtain ⟨hlen, l, hl, hres, hhead, hcell⟩ := block_shape c s s2
      [Event.incr_saved_hp s.hp (arity + 1), Event.enter_copy data_ptr type_info] (arity + 1)
      arity 0 data_ptr result field_copy new_field
      (fun i t => Event.enter_copy_arg (word_ptr c argument_vector i) type_info
        (t.mem (word_ptr c type_info_vector i)))
      (fun i t => (copy_closed Frame_closed c (fun _ => hc) lower_limit upper_limit
        (fun _ _ => trivial) fuel).2 t _ _ _ trivial)
      (fun i j hij => word_ptr_inj c hW s.hp (i + 1) (j + 1) (by omega)) rfl rfl
      (fun a ha => store_other _ _ _ _ (by have := word_ptr_ge c s.hp 0; omega))
      (fun k _ hk => ⟨word_ptr_ge c _ _, hlt (k + 1) (by omega)⟩) rs u hrun
    refine ⟨hlen, l, hl, fun i hi => by simpa using hres i hi, fun hnf => ?_,
      fun i hi hnf => ?_⟩
    · rw [hhead (word_ptr c s.hp 0) (word_ptr_ge c _ _) (hlt 0 (by omega)) hnf
        (fun k _ _ => word_ptr_inj c hW s.hp 0 (k + 1) (by omega))]
      exact store_same _ _ _
    · have := hcell i hi (by simpa using hnf)
      simpa using this

/-! ## Closures -/

theorem word_ptr_eq_iff (c : Cfg) (hc : 0 < c.sizeof_Word) (p i j : Nat) :
    word_ptr c p i = word_ptr c p j ↔ i = j :=
  ⟨fun h => by_contra (fun hne => word_ptr_inj c hc p i j hne h), fun h => by rw [h]⟩

/-- Claim C14.  For an in-region closure with `n` hidden arguments (the count
word of the source), `copy` allocates exactly `n + 3` words at the old heap
pointer, stores the layout pointer, the hidden-argument count and the code
address of the source in the new closure and runs the argument loop of the
specification: for `i = 0 .. n-1`, in this order, `copy_arg` on source hidden
argument `i` under `closure_layout->arg_pseudo_type_info[i]` (read when the
argument is copied, in a state that agrees with the entry state on every
unforwarded cell below the old heap pointer), resolved against the closure's
`type_info` offset by `TYPEINFO_OFFSET_FOR_PRED_ARGS - 1` words, the result
stored in hidden argument `i` of the new closure; then it marks `data_ptr` as
forwarded and returns the new closure.  When the loop returns, exactly `n`
argument copies were made; with the three fixed words of the source below the
old heap pointer, the layout pointer, the count and the code address of the
new closure are those of the source; and hidden argument `i` holds result
`i`; each unless a forwarding mark of the call was left on that very word of
the new closure. -/
theorem closure_copy (c : Cfg) (hc : c.wf) (lower_limit upper_limit fuel : Nat) (s : State)
    (data_ptr type_info : Nat)
    (hrep : rep_of c s.mem type_info = .MR_TYPECTOR_REP_PRED)
    (hin : in_range lower_limit upper_limit (data_value_of c (s.mem data_ptr)) = true) :
    let old_closure := data_value_of c (s.mem data_ptr)
    let closure_layout := s.mem (word_ptr c old_closure c.MR_closure_layout)
    let n : Nat := s.mem (word_ptr c old_closure c.MR_closure_num_hidden_args)
    let s1 : State := State.mk s.mem (s.hp + (n + 3) * c.sizeof_Word)
      (Event.incr_saved_hp s.hp (n + 3) :: Event.enter_copy data_ptr type_info :: s.trace)
    let s3 : State := (s1.write (word_ptr c s.hp c.MR_closure_layout) closure_layout).write
      (word_ptr c s.hp c.MR_closure_num_hidden_args) n
    let s4 : State := s3.write (word_ptr c s.hp c.MR_closure_code)
      (s3.mem (word_ptr c old_closure c.MR_closure_code))
    let hidden_copy := fun (i : Nat) (t : State) => copy_arg c lower_limit upper_limit fuel t
      (word_ptr c old_closure (c.MR_closure_hidden_args_0 + i))
      (word_ptr c type_info c.TYPEINFO_OFFSET_FOR_PRED_ARGS - c.sizeof_Word)
      (t.mem (word_ptr c closure_layout (c.arg_pseudo_type_info + i)))
    let new_hidden := fun (i : Nat) => word_ptr c s.hp (c.MR_closure_hidden_args_0 + i)
    copy c lower_limit upper_limit (fuel + 1) s data_ptr type_info
      = finish_elements s.hp data_ptr (copy_elements hidden_copy new_hidden n 0 s4) ∧
    ∀ rs u, copy_elements hidden_copy new_hidden n 0 s4 = Outcome.ok (rs, u) →
      rs.length = n ∧
      ∃ l, (leave_forwarding_pointer u data_ptr s.hp).trace = l ++ s.trace ∧
        (∀ i, i < n → ∃ t t1, hidden_copy i t = Outcome.ok (rs.getD i 0, t1) ∧
          ∀ a, a < s.hp → ¬ forwarded l a → t.mem a = s.mem a) ∧
        ((∀ k, k < 3 → word_ptr c old_closure k < s.hp) →
          (¬ forwarded l (word_ptr c s.hp c.MR_closure_layout) →
            (leave_forwarding_pointer u data_ptr s.hp).mem (word_ptr c s.hp c.MR_closure_layout)
              = s.mem (word_ptr c old_closure c.MR_closure_layout)) ∧
          (¬ forwarded l (word_ptr c s.hp c.MR_closure_num_hidden_args) →
            (leave_forwarding_pointer u data_ptr s.hp).mem
                (word_ptr c s.hp c.MR_closure_num_hidden_args)
              = s.mem (word_ptr c old_closure c.MR_closure_num_hidden_args)) ∧
          (¬ forwarded l (word_ptr c s.hp c.MR_closure_code) →
            (leave_forwarding_pointer u data_ptr s.hp).mem (word_ptr c s.hp c.MR_closure_code)
              = s.mem (word_ptr c old_closure c.MR_closure_code))) ∧
        (∀ i, i < n → ¬ forwarded l (new_hidden i) →
          (leave_forwarding_pointer u data_ptr s.hp).mem (new_hidden i) = rs.getD i 0) := by
  intro old_closure closure_layout n s1 s3 s4 hidden_copy new_hidden
  have hW := hc.sizeof_Word_pos
  unfold rep_of at hrep
  have hin2 : in_range lower_limit upper_limit
      (MR_body c (s.mem data_ptr) (MR_tag c (s.mem data_ptr))) = true := hin
  constructor
  · rw [copy]
    simp only [State.log_mem, hrep, hin2, if_true]
    exact for_loop_eq_copy_elements hidden_copy new_hidden s.hp data_ptr n 0 s4
  · intro rs u hrun
    have hlt : ∀ j, j < n + 3 → word_ptr c s.hp j < s.hp + (n + 3) * c.sizeof_Word :=
      fun j hj => word_ptr_lt c hW _ _ _ hj
    have h0 := hc.closure_hidden_args_0_eq
    have hl1 := hc.closure_layout_lt
    have hl2 := hc.closure_num_hidden_args_lt
    have hl3 := hc.closure_code_lt
    have hs4 : ∀ a, a < s.hp → s4.mem a = s.mem a := by
      intro a ha
      have g1 := word_ptr_ge c s.hp c.MR_closure_layout
      have g2 := word_ptr_ge c s.hp c.MR_closure_num_hidden_args
      have g3 := word_ptr_ge c s.hp c.MR_closure_code
      show store (store (store s.mem _ _) _ _) _ _ a = s.mem a
      rw [store_other _ _ _ _ (by omega), store_other _ _ _ _ (by omega),
        store_other _ _ _ _ (by omega)]
    obtain ⟨hlen, l, hl, hres, hheadc, hcell⟩ := block_shape c s s4
      [Event.incr_saved_hp s.hp (n + 3), Event.enter_copy data_ptr type_info] (n + 3)
      n 0 data_ptr s.hp hidden_copy new_hidden
      (fun i t => Event.enter_copy_arg (word_ptr c old_closure (c.MR_closure_hidden_args_0 + i))
        (word_ptr c type_info c.TYPEINFO_OFFSET_FOR_PRED_ARGS - c.sizeof_Word)
        (t.mem (word_ptr c closure_layout (c.arg_pseudo_type_info + i))))
      (fun i t => (copy_closed Frame_closed c (fun _ => hc) lower_limit upper_limit
        (fun _ _ => trivial) fuel).2 t _ _ _ trivial)
      (fun i j hij => word_ptr_inj c hW s.hp _ _ (by omega)) rfl rfl hs4
      (fun k _ hk => ⟨word_ptr_ge c _ _, hlt _ (by omega)⟩) rs u hrun
    refine ⟨hlen, l, hl, fun i hi => by simpa using hres i hi, fun hsrc => ?_,
      fun i hi hnf => by
        have := hcell i hi (by simpa using hnf)
        simpa using this⟩
    have hhead : ∀ j, j < 3 → ¬ forwarded l (word_ptr c s.hp j) →
        (leave_forwarding_pointer u data_ptr s.hp).mem (word_ptr c s.hp j)
        = s4.mem (word_ptr c s.hp j) := fun j hj hnf =>
      hheadc (word_ptr c s.hp j) (word_ptr_ge c _ _) (hlt j (by omega)) hnf
        (fun k _ _ => word_ptr_inj c hW s.hp j _ (by omega))
    have hcode : s3.mem (word_ptr c old_closure c.MR_closure_code)
        = s.mem (word_ptr c old_closure c.MR_closure_code) := by
      have g1 := word_ptr_ge c s.hp c.MR_closure_layout
      have g2 := word_ptr_ge c s.hp c.MR_closure_num_hidden_args
      have := hsrc _ hl3
      show store (store s.mem _ _) _ _ _ = _
      rw [store_other _ _ _ _ (by omega), store_other _ _ _ _ (by omega)]
    have hs4v : ∀ j, s4.mem (word_ptr c s.hp j) =
        if j = c.MR_closure_code then s.mem (word_ptr c old_closure c.MR_closure_code)
        else if j = c.MR_closure_num_hidden_args then n
        else if j = c.MR_closure_layout then closure_layout
        else s.mem (word_ptr c s.hp j) := by
      intro j
      show store (store (store s.mem _ _) _ _) _ _ _ = _
      simp only [store, word_ptr_eq_iff c hW, hcode]
    refine ⟨fun hnf => ?_, fun hnf => ?_, fun hnf => ?_⟩
    · rw [hhead _ hl1 hnf, hs4v]
      by_cases h1 : c.MR_closure_layout = c.MR_closure_code
      · rw [if_pos h1, h1]
      · rw [if_neg h1]
        by_cases h2 : c.MR_closure_layout = c.MR_closure_num_hidden_args
        · rw [if_pos h2, h2]
        · rw [if_neg h2, if_pos rfl]
    · rw [hhead _ hl2 hnf, hs4v]
      by_cases h1 : c.MR_closure_num_hidden_args = c.MR_closure_code
      · rw [if_pos h1, h1]
      · rw [if_neg h1, if_pos rfl]
    · rw [hhead _ hl3 hnf, hs4v, if_pos rfl]

/-! ## Type descriptors -/

/-- Claim C15.  For an in-region type descriptor that is not identical to its
type-constructor descriptor and has arity `arity` (the arity word, read as
the `Integer` `arity`, is `arity >= 0`), `copy_type_info` allocates, at the
old heap pointer, exactly `arity + 1` words for an ordinary constructor (arity
taken from the constructor) or exactly `arity + 2` words for a higher-order
constructor (arity taken from the descriptor and stored in slot 1 of the new
descriptor), stores the type-constructor pointer of the source in slot 0 and
runs the argument loop: for `i = offset .. offset + arity - 1` (`offset` is 1,
resp. 2), in this order, `copy_type_info` on source argument slot `i`, the
result stored in slot `i` of the new descriptor; then it marks the slot
`type_info_ptr` as forwarded and returns the new descriptor.  When the loop
returns, exactly `arity` argument copies were made, slot 0 holds the
type-constructor pointer, slot 1 of a higher-order descriptor holds the
arity, and argument slot `i` holds the result for source slot `i`, each
unless a forwarding mark of the call was left on that very word. -/
theorem type_info_copy_shape (c : Cfg) (hc : c.wf) (lower_limit upper_limit fuel : Nat)
    (s : State) (type_info_ptr arity : Nat)
    (hin : in_range lower_limit upper_limit (s.mem type_info_ptr) = true)
    (hne : s.mem type_info_ptr ≠ c.MR_TYPEINFO_GET_TYPE_CTOR_INFO s.mem (s.mem type_info_ptr))
    (harity : to_Integer c
      (if c.MR_TYPE_CTOR_INFO_IS_HO s.mem
          (c.MR_TYPEINFO_GET_TYPE_CTOR_INFO s.mem (s.mem type_info_ptr)) = true
        then c.MR_TYPEINFO_GET_HIGHER_ARITY s.mem (s.mem type_info_ptr)
        else c.MR_TYPE_CTOR_INFO_GET_TYPE_ARITY s.mem
          (c.MR_TYPEINFO_GET_TYPE_CTOR_INFO s.mem (s.mem type_info_ptr))) = (arity : Int)) :
    let type_info := s.mem type_info_ptr
    let type_ctor_info := c.MR_TYPEINFO_GET_TYPE_CTOR_INFO s.mem type_info
    let ho := c.MR_TYPE_CTOR_INFO_IS_HO s.mem type_ctor_info
    let arity_word : Word := if ho then c.MR_TYPEINFO_GET_HIGHER_ARITY s.mem type_info
      else c.MR_TYPE_CTOR_INFO_GET_TYPE_ARITY s.mem type_ctor_info
    let offset : Nat := if ho then 2 else 1
    let s1 : State := State.mk s.mem (s.hp + (arity + offset) * c.sizeof_Word)
      (Event.incr_saved_hp s.hp (arity + offset) :: Event.enter_copy_type_info type_info_ptr ::
        s.trace)
    let s2 : State := s1.write (word_ptr c s.hp 0) type_ctor_info
    let s3 : State := if ho then s2.write (word_ptr c s.hp 1) arity_word else s2
    let arg_copy := fun (i : Nat) (t : State) => copy_type_info c lower_limit upper_limit fuel t
      (word_ptr c type_info i)
    let new_arg := fun (i : Nat) => word_ptr c s.hp i
    copy_type_info c lower_limit upper_limit (fuel + 1) s type_info_ptr
      = finish_elements s.hp type_info_ptr (copy_elements arg_copy new_arg arity offset s3) ∧
    ∀ rs u, copy_elements arg_copy new_arg arity offset s3 = Outcome.ok (rs, u) →
      rs.length = arity ∧
      ∃ l, (leave_forwarding_pointer u type_info_ptr s.hp).trace = l ++ s.trace ∧
        (∀ k, k < arity → ∃ t t1, arg_copy (offset + k) t = Outcome.ok (rs.getD k 0, t1) ∧
          ∀ a, a < s.hp → ¬ forwarded l a → t.mem a = s.mem a) ∧
        (¬ forwarded l (word_ptr c s.hp 0) →
          (leave_forwarding_pointer u type_info_ptr s.hp).mem (word_ptr c s.hp 0)
            = type_ctor_info) ∧
        (ho = true → ¬ forwarded l (word_ptr c s.hp 1) →
          (leave_forwarding_pointer u type_info_ptr s.hp).mem (word_ptr c s.hp 1) = arity_word ∧
          to_Integer c arity_word = (arity : Int)) ∧
        (∀ k, k < arity → ¬ forwarded l (new_arg (offset + k)) →
          (leave_forwarding_pointer u type_info_ptr s.hp).mem (new_arg (offset + k))
            = rs.getD k 0) := by
  intro type_info type_ctor_info ho arity_word offset s1 s2 s3 arg_copy new_arg
  have hW := hc.sizeof_Word_pos
  have hne2 : ¬ type_info = type_ctor_info := hne
  have harity2 : to_Integer c arity_word = (arity : Int) := harity
  constructor
  · rw [copy_type_info]
    simp only [State.log_mem, hin, if_true, hne2, if_false]
    rw [show to_Integer c (if c.MR_TYPE_CTOR_INFO_IS_HO s.mem
          (c.MR_TYPEINFO_GET_TYPE_CTOR_INFO s.mem (s.mem type_info_ptr)) = true
        then c.MR_TYPEINFO_GET_HIGHER_ARITY s.mem (s.mem type_info_ptr)
        else c.MR_TYPE_CTOR_INFO_GET_TYPE_ARITY s.mem
          (c.MR_TYPEINFO_GET_TYPE_CTOR_INFO s.mem (s.mem type_info_ptr))) = (arity : Int)
      from harity, rounds_cast]
    exact for_loop_eq_copy_elements arg_copy new_arg s.hp type_info_ptr arity offset s3
  · intro rs u hrun
    have hoff : 1 ≤ offset ∧ (ho = true → offset = 2) := by
      show 1 ≤ (if ho then 2 else 1) ∧ (ho = true → (if ho then 2 else 1) = 2)
      cases ho <;> simp
    clear_value arity_word offset
    have hlt : ∀ j, j < arity + offset →
        word_ptr c s.hp j < s.hp + (arity + offset) * c.sizeof_Word :=
      fun j hj => word_ptr_lt c hW _ _ _ hj
    have hs3 : ∀ a, a < s.hp → s3.mem a = s.mem a := by
      intro a ha
      have g0 := word_ptr_ge c s.hp 0
      have g1 := word_ptr_ge c s.hp 1
      show (if ho then s2.write (word_ptr c s.hp 1) arity_word else s2).mem a = s.mem a
      cases ho
      · show store s.mem _ _ a = s.mem a
        rw [store_other _ _ _ _ (by omega)]
      · show store (store s.mem _ _) _ _ a = s.mem a
        rw [store_other _ _ _ _ (by omega), store_other _ _ _ _ (by omega)]
    have hs3hp : s3.hp = s.hp + (arity + offset) * c.sizeof_Word := by
      show (if ho then s2.write (word_ptr c s.hp 1) arity_word else s2).hp = _
      cases ho <;> rfl
    have hs3tr : s3.trace = [Event.incr_saved_hp s.hp (arity + offset),
        Event.enter_copy_type_info type_info_ptr] ++ s.trace := by
      show (if ho then s2.write (word_ptr c s.hp 1) arity_word else s2).trace = _
      cases ho <;> rfl
    obtain ⟨hlen, l, hl, hres, hhead, hcell⟩ := block_shape c s s3
      [Event.incr_saved_hp s.hp (arity + offset), Event.enter_copy_type_info type_info_ptr]
      (arity + offset) arity offset type_info_ptr s.hp arg_copy new_arg
      (fun i _ => Event.enter_copy_type_info (word_ptr c type_info i))
      (fun i t => copy_type_info_closed Frame_closed c (fun _ => hc) lower_limit upper_limit
        (fun _ _ => trivial) fuel t _ trivial)
      (fun i j hij => word_ptr_inj c hW s.hp i j hij) hs3hp hs3tr hs3
      (fun k _ hk => ⟨word_ptr_ge c _ _, hlt _ (by omega)⟩) rs u hrun
    refine ⟨hlen, l, hl, hres, fun hnf => ?_, fun hho hnf => ?_, hcell⟩
    · rw [hhead (word_ptr c s.hp 0) (word_ptr_ge c _ _) (hlt 0 (by omega)) hnf
        (fun k hk _ => word_ptr_inj c hW s.hp 0 k (by omega))]
      show (if ho then s2.write (word_ptr c s.hp 1) arity_word else s2).mem _ = _
      cases ho
      · exact store_same _ _ _
      · show store (store s.mem _ _) _ _ _ = _
        rw [store_other _ _ _ _ (word_ptr_inj c hW s.hp 0 1 (by omega)), store_same]
    · have h2 := hoff.2 hho
      refine ⟨?_, harity2⟩
      rw [hhead (word_ptr c s.hp 1) (word_ptr_ge c _ _) (hlt 1 (by omega)) hnf
        (fun k hk _ => word_ptr_inj c hW s.hp 1 k (by omega))]
      show (if ho then s2.write (word_ptr c s.hp 1) arity_word else s2).mem _ = _
      rw [hho]
      exact store_same _ _ _

/-! ## A second concrete heap

Region `[0x1000, 0x2000)`, destination arena from `0x3000`, static type
metadata from `0x500`, top-level slots from `0x100`. -/

/-- The memory of the example scenario and of the runs on closures, type
descriptors, transparent kinds and floats.

Static metadata (`Cfg.std` layout): `0x500` int, `0x510` string, `0x520` a
discriminated union whose tag-0 alternative is an unshared functor with a
string and an int argument, `0x530` a discriminated union whose tag-1
alternative is shared remote, its secondary tag 0 selecting a functor with
one string argument, `0x540` float, `0x550` the higher-order constructor of
predicates, with the type_info `0x5E0` (arity 1, argument string) and the
closure layout `0x5F0` (hidden argument 0 of type string), `0x560` a notag
type wrapping a string, `0x570` a type equivalent to string, `0x580` a type
equivalent to its parameter 4, with the type_info `0x650` whose word 4 is
string, `0x6A0` an ordinary constructor of arity 1, `0x6B0` type_info.

Heap objects in the region: the string "ab" at `0x1600`; the node at `0x1500`
with the fields "ab" and 7; the shared-remote cell at `0x1700` (secondary tag
0, one argument "ab"); the closure at `0x1800` (layout `0x5F0`, one hidden
argument "ab", code `0xC0DE`); the type descriptors `0x1900` (constructor
`0x6A0`, argument int), `0x1910` (higher order, arity 1, argument string),
`0x1920` (no arguments: identical to its constructor) and `0x1930`
(constructor `0x6A0`, argument the descriptor `0x1900`); the float box at
`0x1940`.  Outside the region: the node at `0x5100` with the fields "ab" (the
string inside the region) and 7.

Top-level slots: `0x100` the node, `0x104` the shared-remote value (tag 1),
`0x108` the closure, `0x10C` the string, `0x110`, `0x114`, `0x118` the first
three descriptors, `0x11C` the float, `0x120` the node outside the region,
`0x124` the descriptor `0x1930`. -/
def scenario_mem : Mem := mem_of [
  (0x504, 5), (0x514, 8),
  (0x524, 1), (0x528, 0x590), (0x590, 0x5A1),
  (0x5A0, 2), (0x5A4, 0x510), (0x5A8, 0x500),
  (0x534, 1), (0x538, 0x5B0), (0x5B4, 0x5C2), (0x5C4, 0x5D0),
  (0x5D0, 1), (0x5D4, 0x510),
  (0x544, 7),
  (0x554, 9), (0x55C, 1), (0x5E0, 0x550), (0x5E4, 1), (0x5E8, 0x510), (0x5F4, 0x510),
  (0x564, 2), (0x568, 0x600), (0x600, 0x610), (0x614, 0x510),
  (0x574, 3), (0x578, 0x620), (0x620, 0x630), (0x630, 0x510),
  (0x584, 4), (0x588, 0x640), (0x640, 4), (0x650, 0x580), (0x660, 0x510),
  (0x6A0, 1), (0x6A4, 1), (0x6B4, 13),
  (0x1600, 97), (0x1601, 98),
  (0x1500, 0x1600), (0x1504, 7),
  (0x1704, 0x1600),
  (0x1800, 0x5F0), (0x1804, 1), (0x1808, 0xC0DE), (0x180C, 0x1600),
  (0x1900, 0x6A0), (0x1904, 0x500),
  (0x1910, 0x550), (0x1914, 1), (0x1918, 0x510),
  (0x1930, 0x6A0), (0x1934, 0x1900),
  (0x1940, 0x40490FDB),
  (0x5100, 0x1600), (0x5104, 7),
  (0x100, 0x1500), (0x104, 0x1701), (0x108, 0x1800), (0x10C, 0x1600),
  (0x110, 0x1900), (0x114, 0x1910), (0x118, 0x1920), (0x11C, 0x1940), (0x120, 0x5100),
  (0x124, 0x1930)]

/-- The state of the runs on `scenario_mem`: an empty arena starting at
`0x3000`, an empty trace. -/
def scenario_state : State := { mem := scenario_mem, hp := 0x3000, trace := [] }

/-- Claim C13.  The example scenario: region `[0x1000, 0x2000)`, the slot
`0x100` refers to the 2-field unshared alternative at `0x1500`, whose first
field is the in-region string "ab" at `0x1600` and whose second field is the
integer 7.  The call of `copy` returns the new node `0x3000`.  Its trace holds
exactly two allocations: the node allocation `incr_saved_hp` of 2 words
(word count = arity = 2) and, for the string, one `incr_saved_hp_atomic` of 1
word; none is made for the integer.  Field 0 of the new node is the new
string `0x3008`, which is not `0x1600` and holds the bytes 'a', 'b', NUL;
field 1 is literally 7.  The heap pointer has moved by 3 words in all. -/
theorem example_scenario :
    (scenario_state.mem 0x100 = 0x1500 ∧
      rep_of Cfg.std scenario_state.mem 0x520 = .MR_TYPECTOR_REP_DU ∧
      tag_rep_of Cfg.std scenario_state.mem 0x520 0x1500 = .MR_DISCUNIONTAG_UNSHARED ∧
      scenario_state.mem 0x5A0 = 2 ∧
      rep_of Cfg.std scenario_state.mem (scenario_state.mem 0x5A4) = .MR_TYPECTOR_REP_STRING ∧
      rep_of Cfg.std scenario_state.mem (scenario_state.mem 0x5A8) = .MR_TYPECTOR_REP_INT ∧
      scenario_state.mem 0x1500 = 0x1600 ∧ scenario_state.mem 0x1504 = 7 ∧
      scenario_state.mem 0x1600 = 97 ∧ scenario_state.mem 0x1601 = 98 ∧
      scenario_state.mem 0x1602 = 0) ∧
    observe [0x3000, 0x3004, 0x3008, 0x3009, 0x300A]
        (copy Cfg.std 0x1000 0x2000 10 scenario_state 0x100 0x520)
      = Observed.ok 0x3000 (0x3000 + 3 * 4)
          [Event.leave_forwarding_pointer 0x100 0x3000,
           Event.enter_copy 0x1504 0x500,
           Event.enter_copy_arg 0x1504 0x520 0x500,
           Event.leave_forwarding_pointer 0x1500 0x3008,
           Event.incr_saved_hp_atomic 0x3008 1,
           Event.enter_copy 0x1500 0x510,
           Event.enter_copy_arg 0x1500 0x520 0x510,
           Event.incr_saved_hp 0x3000 2,
           Event.enter_copy 0x100 0x520]
          [0x3008, 7, 97, 98, 0] ∧
    (0x3008 : Nat) ≠ 0x1600 := by
  decide

/-- The shared-remote value in slot `0x104` of `scenario_state`: primary tag 1,
secondary tag 0, one string argument. -/
theorem shared_remote_copy_witness :
    rep_of Cfg.std scenario_state.mem 0x530 = .MR_TYPECTOR_REP_DU ∧
    tag_rep_of Cfg.std scenario_state.mem 0x530 (scenario_state.mem 0x104) = .MR_DISCUNIONTAG_SHARED_REMOTE ∧
    in_range 0x1000 0x2000 (data_value_of Cfg.std (scenario_state.mem 0x104)) = true ∧
    to_int Cfg.std (scenario_state.mem (word_ptr Cfg.std
      (Cfg.std.MR_TYPE_CTOR_LAYOUT_SHARED_REMOTE_VECTOR_GET_FUNCTOR_DESCRIPTOR scenario_state.mem
        (MR_strip_tag Cfg.std
          (layout_entry_of Cfg.std scenario_state.mem 0x530 (scenario_state.mem 0x104)))
        (scenario_state.mem (data_value_of Cfg.std (scenario_state.mem 0x104))))
      Cfg.std.TYPE_CTOR_LAYOUT_UNSHARED_ARITY_OFFSET)) = ((1 : Nat) : Int) ∧
    (
    let data_value := data_value_of Cfg.std (scenario_state.mem 0x104)
    let secondary_tag := scenario_state.mem data_value
    let argument_vector := word_ptr Cfg.std data_value 1
    let entry_value := MR_strip_tag Cfg.std (layout_entry_of Cfg.std scenario_state.mem 0x530 (scenario_state.mem 0x104))
    let new_entry := Cfg.std.MR_TYPE_CTOR_LAYOUT_SHARED_REMOTE_VECTOR_GET_FUNCTOR_DESCRIPTOR scenario_state.mem
      entry_value secondary_tag
    let arity : Nat := 1
    let type_info_vector := word_ptr Cfg.std new_entry Cfg.std.TYPE_CTOR_LAYOUT_UNSHARED_ARGS_OFFSET
    let s2 : State := State.mk (store scenario_state.mem (word_ptr Cfg.std scenario_state.hp 0) secondary_tag)
      (scenario_state.hp + (arity + 1) * Cfg.std.sizeof_Word)
      (Event.incr_saved_hp scenario_state.hp (arity + 1) :: Event.enter_copy 0x104 0x530 :: scenario_state.trace)
    let field_copy := fun (i : Nat) (t : State) => copy_arg Cfg.std 0x1000 0x2000 9 t
      (word_ptr Cfg.std argument_vector i) 0x530 (t.mem (word_ptr Cfg.std type_info_vector i))
    let new_field := fun (i : Nat) => word_ptr Cfg.std scenario_state.hp (i + 1)
    let result := MR_mkword Cfg.std (MR_tag Cfg.std (scenario_state.mem 0x104)) scenario_state.hp
    copy Cfg.std 0x1000 0x2000 (9 + 1) scenario_state 0x104 0x530
      = finish_elements result 0x104 (copy_elements field_copy new_field arity 0 s2) ∧
    (scenario_state.hp % 2 ^ Cfg.std.TAGBITS = 0 →
      MR_tag Cfg.std result = MR_tag Cfg.std (scenario_state.mem 0x104) ∧ MR_body Cfg.std result (MR_tag Cfg.std result) = scenario_state.hp) ∧
    ∀ rs u, copy_elements field_copy new_field arity 0 s2 = Outcome.ok (rs, u) →
      rs.length = arity ∧
      ∃ l, (leave_forwarding_pointer u 0x104 result).trace = l ++ scenario_state.trace ∧
        (∀ i, i < arity → ∃ t t1, field_copy i t = Outcome.ok (rs.getD i 0, t1) ∧
          ∀ a, a < scenario_state.hp → ¬ forwarded l a → t.mem a = scenario_state.mem a) ∧
        (¬ forwarded l (word_ptr Cfg.std scenario_state.hp 0) →
          (leave_forwarding_pointer u 0x104 result).mem (word_ptr Cfg.std scenario_state.hp 0)
            = secondary_tag) ∧
        (∀ i, i < arity → ¬ forwarded l (new_field i) →
          (leave_forwarding_pointer u 0x104 result).mem (new_field i) = rs.getD i 0)) :=
  ⟨by decide, by decide, by decide, by decide,
   shared_remote_copy Cfg.std Cfg.std_wf 0x1000 0x2000 9 scenario_state 0x104 0x530 1
     (by decide) (by decide) (by decide) (by decide)⟩

/-- The node in slot `0x100` of `scenario_state`: an unshared alternative with a
string and an int field. -/
theorem unshared_copy_witness :
    rep_of Cfg.std scenario_state.mem 0x520 = .MR_TYPECTOR_REP_DU ∧
    tag_rep_of Cfg.std scenario_state.mem 0x520 (scenario_state.mem 0x100) = .MR_DISCUNIONTAG_UNSHARED ∧
    in_range 0x1000 0x2000 (data_value_of Cfg.std (scenario_state.mem 0x100)) = true ∧
    to_int Cfg.std (scenario_state.mem (word_ptr Cfg.std
      (MR_strip_tag Cfg.std
        (layout_entry_of Cfg.std scenario_state.mem 0x520 (scenario_state.mem 0x100)))
      Cfg.std.TYPE_CTOR_LAYOUT_UNSHARED_ARITY_OFFSET)) = ((2 : Nat) : Int) ∧
    (
    let argument_vector := data_value_of Cfg.std (scenario_state.mem 0x100)
    let entry_value := MR_strip_tag Cfg.std (layout_entry_of Cfg.std scenario_state.mem 0x520 (scenario_state.mem 0x100))
    let arity : Nat := 2
    let type_info_vector := word_ptr Cfg.std entry_value Cfg.std.TYPE_CTOR_LAYOUT_UNSHARED_ARGS_OFFSET
    let s1 : State := State.mk scenario_state.mem (scenario_state.hp + arity * Cfg.std.sizeof_Word)
      (Event.incr_saved_hp scenario_state.hp arity :: Event.enter_copy 0x100 0x520 :: scenario_state.trace)
    let field_copy := fun (i : Nat) (t : State) => copy_arg Cfg.std 0x1000 0x2000 9 t
      (word_ptr Cfg.std argument_vector i) 0x520 (t.mem (word_ptr Cfg.std type_info_vector i))
    let new_field := fun (i : Nat) => word_ptr Cfg.std scenario_state.hp i
    let result := MR_mkword Cfg.std (MR_tag Cfg.std (scenario_state.mem 0x100)) scenario_state.hp
    copy Cfg.std 0x1000 0x2000 (9 + 1) scenario_state 0x100 0x520
      = finish_elements result 0x100 (copy_elements field_copy new_field arity 0 s1) ∧
    (scenario_state.hp % 2 ^ Cfg.std.TAGBITS = 0 →
      MR_tag Cfg.std result = MR_tag Cfg.std (scenario_state.mem 0x100) ∧ MR_body Cfg.std result (MR_tag Cfg.std result) = scenario_state.hp) ∧
    ∀ rs u, copy_elements field_copy new_field arity 0 s1 = Outcome.ok (rs, u) →
      rs.length = arity ∧
      ∃ l, (leave_forwarding_pointer u 0x100 result).trace = l ++ scenario_state.trace ∧
        (∀ i, i < arity → ∃ t t1, field_copy i t = Outcome.ok (rs.getD i 0, t1) ∧
          ∀ a, a < scenario_state.hp → ¬ forwarded l a → t.mem a = scenario_state.mem a) ∧
        (∀ i, i < arity → ¬ forwarded l (new_field i) →
          (leave_forwarding_pointer u 0x100 result).mem (new_field i) = rs.getD i 0)) :=
  ⟨by decide, by decide, by decide, by decide,
   unshared_copy Cfg.std Cfg.std_wf 0x1000 0x2000 9 scenario_state 0x100 0x520 2
     (by decide) (by decide) (by decide) (by decide)⟩

/-- The closure in slot `0x108` of `scenario_state`, with one hidden argument. -/
theorem closure_copy_witness :
    rep_of Cfg.std scenario_state.mem 0x5E0 = .MR_TYPECTOR_REP_PRED ∧
    in_range 0x1000 0x2000 (data_value_of Cfg.std (scenario_state.mem 0x108)) = true ∧
    (
    let old_closure := data_value_of Cfg.std (scenario_state.mem 0x108)
    let closure_layout := scenario_state.mem (word_ptr Cfg.std old_closure Cfg.std.MR_closure_layout)
    let n : Nat := scenario_state.mem (word_ptr Cfg.std old_closure Cfg.std.MR_closure_num_hidden_args)
    let s1 : State := State.mk scenario_state.mem (scenario_state.hp + (n + 3) * Cfg.std.sizeof_Word)
      (Event.incr_saved_hp scenario_state.hp (n + 3) :: Event.enter_copy 0x108 0x5E0 :: scenario_state.trace)
    let s3 : State := (s1.write (word_ptr Cfg.std scenario_state.hp Cfg.std.MR_closure_layout) closure_layout).write
      (word_ptr Cfg.std scenario_state.hp Cfg.std.MR_closure_num_hidden_args) n
    let s4 : State := s3.write (word_ptr Cfg.std scenario_state.hp Cfg.std.MR_closure_code)
      (s3.mem (word_ptr Cfg.std old_closure Cfg.std.MR_closure_code))
    let hidden_copy := fun (i : Nat) (t : State) => copy_arg Cfg.std 0x1000 0x2000 9 t
      (word_ptr Cfg.std old_closure (Cfg.std.MR_closure_hidden_args_0 + i))
      (word_ptr Cfg.std 0x5E0 Cfg.std.TYPEINFO_OFFSET_FOR_PRED_ARGS - Cfg.std.sizeof_Word)
      (t.mem (word_ptr Cfg.std closure_layout (Cfg.std.arg_pseudo_type_info + i)))
    let new_hidden := fun (i : Nat) => word_ptr Cfg.std scenario_state.hp (Cfg.std.MR_closure_hidden_args_0 + i)
    copy Cfg.std 0x1000 0x2000 (9 + 1) scenario_state 0x108 0x5E0
      = finish_elements scenario_state.hp 0x108 (copy_elements hidden_copy new_hidden n 0 s4) ∧
    ∀ rs u, copy_elements hidden_copy new_hidden n 0 s4 = Outcome.ok (rs, u) →
      rs.length = n ∧
      ∃ l, (leave_forwarding_pointer u 0x108 scenario_state.hp).trace = l ++ scenario_state.trace ∧
        (∀ i, i < n → ∃ t t1, hidden_copy i t = Outcome.ok (rs.getD i 0, t1) ∧
          ∀ a, a < scenario_state.hp → ¬ forwarded l a → t.mem a = scenario_state.mem a) ∧
        ((∀ k, k < 3 → word_ptr Cfg.std old_closure k < scenario_state.hp) →
          (¬ forwarded l (word_ptr Cfg.std scenario_state.hp Cfg.std.MR_closure_layout) →
            (leave_forwarding_pointer u 0x108 scenario_state.hp).mem (word_ptr Cfg.std scenario_state.hp Cfg.std.MR_closure_layout)
              = scenario_state.mem (word_ptr Cfg.std old_closure Cfg.std.MR_closure_layout)) ∧
          (¬ forwarded l (word_ptr Cfg.std scenario_state.hp Cfg.std.MR_closure_num_hidden_args) →
            (leave_forwarding_pointer u 0x108 scenario_state.hp).mem
                (word_ptr Cfg.std scenario_state.hp Cfg.std.MR_closure_num_hidden_args)
              = scenario_state.mem (word_ptr Cfg.std old_closure Cfg.std.MR_closure_num_hidden_args)) ∧
          (¬ forwarded l (word_ptr Cfg.std scenario_state.hp Cfg.std.MR_closure_code) →
            (leave_forwarding_pointer u 0x108 scenario_state.hp).mem (word_ptr Cfg.std scenario_state.hp Cfg.std.MR_closure_code)
              = scenario_state.mem (word_ptr Cfg.std old_closure Cfg.std.MR_closure_code))) ∧
        (∀ i, i < n → ¬ forwarded l (new_hidden i) →
          (leave_forwarding_pointer u 0x108 scenario_state.hp).mem (new_hidden i) = rs.getD i 0)) :=
  ⟨by decide, by decide,
   closure_copy Cfg.std Cfg.std_wf 0x1000 0x2000 9 scenario_state 0x108 0x5E0
     (by decide) (by decide)⟩

/-- The higher-order descriptor in slot `0x114` of `scenario_state`: arity 1,
three words. -/
theorem type_info_copy_shape_witness :
    in_range 0x1000 0x2000 (scenario_state.mem 0x114) = true ∧
    scenario_state.mem 0x114 ≠ Cfg.std.MR_TYPEINFO_GET_TYPE_CTOR_INFO scenario_state.mem (scenario_state.mem 0x114) ∧
    to_Integer Cfg.std
      (if Cfg.std.MR_TYPE_CTOR_INFO_IS_HO scenario_state.mem
          (Cfg.std.MR_TYPEINFO_GET_TYPE_CTOR_INFO scenario_state.mem (scenario_state.mem 0x114))
          = true
        then Cfg.std.MR_TYPEINFO_GET_HIGHER_ARITY scenario_state.mem (scenario_state.mem 0x114)
        else Cfg.std.MR_TYPE_CTOR_INFO_GET_TYPE_ARITY scenario_state.mem
          (Cfg.std.MR_TYPEINFO_GET_TYPE_CTOR_INFO scenario_state.mem (scenario_state.mem 0x114)))
      = ((1 : Nat) : Int) ∧
    (
    let arity : Nat := 1
    let type_info := scenario_state.mem 0x114
    let type_ctor_info := Cfg.std.MR_TYPEINFO_GET_TYPE_CTOR_INFO scenario_state.mem type_info
    let ho := Cfg.std.MR_TYPE_CTOR_INFO_IS_HO scenario_state.mem type_ctor_info
    let arity_word : Word := if ho then Cfg.std.MR_TYPEINFO_GET_HIGHER_ARITY scenario_state.mem type_info
      else Cfg.std.MR_TYPE_CTOR_INFO_GET_TYPE_ARITY scenario_state.mem type_ctor_info
    let offset : Nat := if ho then 2 else 1
    let s1 : State := State.mk scenario_state.mem (scenario_state.hp + (arity + offset) * Cfg.std.sizeof_Word)
      (Event.incr_saved_hp scenario_state.hp (arity + offset) :: Event.enter_copy_type_info 0x114 ::
        scenario_state.trace)
    let s2 : State := s1.write (word_ptr Cfg.std scenario_state.hp 0) type_ctor_info
    let s3 : State := if ho then s2.write (word_ptr Cfg.std scenario_state.hp 1) arity_word else s2
    let arg_copy := fun (i : Nat) (t : State) => copy_type_info Cfg.std 0x1000 0x2000 9 t
      (word_ptr Cfg.std type_info i)
    let new_arg := fun (i : Nat) => word_ptr Cfg.std scenario_state.hp i
    copy_type_info Cfg.std 0x1000 0x2000 (9 + 1) scenario_state 0x114
      = finish_elements scenario_state.hp 0x114 (copy_elements arg_copy new_arg arity offset s3) ∧
    ∀ rs u, copy_elements arg_copy new_arg arity offset s3 = Outcome.ok (rs, u) →
      rs.length = arity ∧
      ∃ l, (leave_forwarding_pointer u 0x114 scenario_state.hp).trace = l ++ scenario_state.trace ∧
        (∀ k, k < arity → ∃ t t1, arg_copy (offset + k) t = Outcome.ok (rs.getD k 0, t1) ∧
          ∀ a, a < scenario_state.hp → ¬ forwarded l a → t.mem a = scenario_state.mem a) ∧
        (¬ forwarded l (word_ptr Cfg.std scenario_state.hp 0) →
          (leave_forwarding_pointer u 0x114 scenario_state.hp).mem (word_ptr Cfg.std scenario_state.hp 0)
            = type_ctor_info) ∧
        (ho = true → ¬ forwarded l (word_ptr Cfg.std scenario_state.hp 1) →
          (leave_forwarding_pointer u 0x114 scenario_state.hp).mem (word_ptr Cfg.std scenario_state.hp 1) = arity_word ∧
          to_Integer Cfg.std arity_word = (arity : Int)) ∧
        (∀ k, k < arity → ¬ forwarded l (new_arg (offset + k)) →
          (leave_forwarding_pointer u 0x114 scenario_state.hp).mem (new_arg (offset + k))
            = rs.getD k 0)) :=
  ⟨by decide, by decide, by decide,
   type_info_copy_shape Cfg.std Cfg.std_wf 0x1000 0x2000 9 scenario_state 0x114 1
     (by decide) (by decide) (by decide)⟩

/-! ## Transparent kinds -/

/-- Claim C17.  For every slot and region: `copy` on a NOTAG type is
`copy_arg` on the same slot with the pseudo type of the wrapped field (read
from the layout entry); `copy` on an EQUIV type is `copy_arg` on the same
slot with the underlying type of the layout entry; `copy` on an EQUIV_VAR
type whose layout entry names parameter `k` is `copy` on the same slot with
`type_info[k]`.  The delegate starts in the entry state with nothing but the
entry of the delegating call added to the trace: memory and heap pointer are
as at entry, so the delegating step allocates nothing and installs no
forwarding mark.  (The delegate has one unit of fuel less: it is one call
deeper.) -/
theorem transparent_kinds (c : Cfg) (lower_limit upper_limit fuel : Nat) (s : State)
    (data_ptr type_info : Nat) :
    let s1 := s.log (Event.enter_copy data_ptr type_info)
    let entry_value := MR_strip_tag c (layout_entry_of c s.mem type_info (s.mem data_ptr))
    (rep_of c s.mem type_info = .MR_TYPECTOR_REP_NOTAG →
      copy c lower_limit upper_limit (fuel + 1) s data_ptr type_info
        = copy_arg c lower_limit upper_limit fuel s1 data_ptr type_info
            (s.mem (c.MR_TYPE_CTOR_LAYOUT_NO_TAG_VECTOR_ARGS s.mem entry_value))) ∧
    (rep_of c s.mem type_info = .MR_TYPECTOR_REP_EQUIV →
      copy c lower_limit upper_limit (fuel + 1) s data_ptr type_info
        = copy_arg c lower_limit upper_limit fuel s1 data_ptr type_info
            (c.MR_TYPE_CTOR_LAYOUT_EQUIV_TYPE s.mem entry_value)) ∧
    (rep_of c s.mem type_info = .MR_TYPECTOR_REP_EQUIV_VAR →
      copy c lower_limit upper_limit (fuel + 1) s data_ptr type_info
        = copy c lower_limit upper_limit fuel s1 data_ptr
            (s.mem (word_ptr c type_info entry_value))) ∧
    s1.mem = s.mem ∧ s1.hp = s.hp ∧
    s1.trace = Event.enter_copy data_ptr type_info :: s.trace := by
  intro s1 entry_value
  unfold rep_of
  refine ⟨fun h => ?_, fun h => ?_, fun h => ?_, rfl, rfl, rfl⟩
  · rw [copy]
    simp only [State.log_mem, h]
    rfl
  · rw [copy]
    simp only [State.log_mem, h]
    rfl
  · rw [copy]
    simp only [State.log_mem, h]
    rfl

/-- The string in slot `0x10C` of `scenario_state`, read through the notag
type `0x560`, the equivalence type `0x570` and the type `0x650`, which is
equivalent to its parameter 4. -/
theorem transparent_kinds_witness :
    (rep_of Cfg.std scenario_state.mem 0x560 = .MR_TYPECTOR_REP_NOTAG ∧
      copy Cfg.std 0x1000 0x2000 (9 + 1) scenario_state 0x10C 0x560
        = copy_arg Cfg.std 0x1000 0x2000 9 (scenario_state.log (Event.enter_copy 0x10C 0x560))
            0x10C 0x560 (scenario_state.mem (Cfg.std.MR_TYPE_CTOR_LAYOUT_NO_TAG_VECTOR_ARGS
              scenario_state.mem (MR_strip_tag Cfg.std
                (layout_entry_of Cfg.std scenario_state.mem 0x560 (scenario_state.mem 0x10C)))))) ∧
    (rep_of Cfg.std scenario_state.mem 0x570 = .MR_TYPECTOR_REP_EQUIV ∧
      copy Cfg.std 0x1000 0x2000 (9 + 1) scenario_state 0x10C 0x570
        = copy_arg Cfg.std 0x1000 0x2000 9 (scenario_state.log (Event.enter_copy 0x10C 0x570))
            0x10C 0x570 (Cfg.std.MR_TYPE_CTOR_LAYOUT_EQUIV_TYPE scenario_state.mem
              (MR_strip_tag Cfg.std
                (layout_entry_of Cfg.std scenario_state.mem 0x570 (scenario_state.mem 0x10C))))) ∧
    (rep_of Cfg.std scenario_state.mem 0x650 = .MR_TYPECTOR_REP_EQUIV_VAR ∧
      copy Cfg.std 0x1000 0x2000 (9 + 1) scenario_state 0x10C 0x650
        = copy Cfg.std 0x1000 0x2000 9 (scenario_state.log (Event.enter_copy 0x10C 0x650))
            0x10C (scenario_state.mem (word_ptr Cfg.std 0x650 (MR_strip_tag Cfg.std
              (layout_entry_of Cfg.std scenario_state.mem 0x650 (scenario_state.mem 0x10C)))))) :=
  ⟨⟨by decide, (transparent_kinds Cfg.std 0x1000 0x2000 9 scenario_state 0x10C 0x560).1
      (by decide)⟩,
   ⟨by decide, (transparent_kinds Cfg.std 0x1000 0x2000 9 scenario_state 0x10C 0x570).2.1
      (by decide)⟩,
   ⟨by decide, (transparent_kinds Cfg.std 0x1000 0x2000 9 scenario_state 0x10C 0x650).2.2.1
      (by decide)⟩⟩

/-! ## Type-constructor descriptors are not copied -/

theorem for_loop_split (body : Nat → State → Outcome State) :
    ∀ (k n i : Nat) (s u : State), k < n → for_loop body n i s = Outcome.ok u →
      ∃ t t1, for_loop body k i s = Outcome.ok t ∧ body (i + k) t = Outcome.ok t1 ∧
        for_loop body (n - k - 1) (i + k + 1) t1 = Outcome.ok u := by
  intro k
  induction k with
  | zero =>
    intro n i s u hk h
    obtain ⟨n, rfl⟩ : ∃ m, n = m + 1 := ⟨n - 1, by omega⟩
    unfold for_loop at h
    cases hb : body i s with
    | ok s1 =>
      rw [hb] at h
      exact ⟨s, s1, rfl, by simpa using hb, by simpa using h⟩
    | fatal_error msg t => rw [hb] at h; simp at h
    | out_of_fuel => rw [hb] at h; simp at h
  | succ k ih =>
    intro n i s u hk h
    obtain ⟨n, rfl⟩ : ∃ m, n = m + 1 := ⟨n - 1, by omega⟩
    unfold for_loop at h
    cases hb : body i s with
    | ok s1 =>
      rw [hb] at h
      obtain ⟨t, t1, h1, h2, h3⟩ := ih n (i + 1) s1 u (by omega) h
      refine ⟨t, t1, ?_, ?_, ?_⟩
      · unfold for_loop
        rw [hb]
        exact h1
      · rw [show i + (k + 1) = i + 1 + k by omega]; exact h2
      · rw [show n + 1 - (k + 1) - 1 = n - k - 1 by omega,
          show i + (k + 1) + 1 = i + 1 + k + 1 by omega]
        exact h3
    | fatal_error msg t => rw [hb] at h; simp at h
    | out_of_fuel => rw [hb] at h; simp at h

theorem assign_ok (dst : Nat) (r : Outcome (Word × State)) (t1 : State)
    (h : assign dst r = Outcome.ok t1) :
    ∃ w t, r = Outcome.ok (w, t) ∧ t1 = t.write dst w := by
  cases r with
  | ok a =>
    obtain ⟨w, t⟩ := a
    simp only [assign, Outcome.ok.injEq] at h
    exact ⟨w, t, rfl, h.symm⟩
  | fatal_error msg u => simp [assign] at h
  | out_of_fuel => simp [assign] at h

/-- Claim C18, the boxed in-region float.  The slot `0x11C` of `scenario_state`
refers to the in-region float box at `0x1940`, which holds `0x40490FDB`.  The
call of `copy` allocates one box (`float_to_word` at `0x3000`, 2 words), but
the box holds the input word `0x1940`, not the float value `0x40490FDB` of the
source, and the word returned (and left in the slot) is the input word
`0x1940`, the reference to the source box in the region, not a reference to
the new box: the branch computes `word_to_float(float_to_word(data))`. -/
theorem float_copy_returns_source_box :
    Cfg.std.BOXED_FLOAT = true ∧
    rep_of Cfg.std scenario_state.mem 0x540 = .MR_TYPECTOR_REP_FLOAT ∧
    scenario_state.mem 0x11C = 0x1940 ∧
    in_range 0x1000 0x2000 (data_value_of Cfg.std (scenario_state.mem 0x11C)) = true ∧
    scenario_state.mem 0x1940 = 0x40490FDB ∧
    observe [0x3000, 0x11C, 0x1940]
        (copy Cfg.std 0x1000 0x2000 10 scenario_state 0x11C 0x540)
      = Observed.ok 0x1940 (0x3000 + 2 * 4)
          [Event.leave_forwarding_pointer 0x11C 0x1940,
           Event.float_to_word 0x3000,
           Event.enter_copy 0x11C 0x540]
          [0x1940, 0x1940, 0x40490FDB] := by
  decide

/-! ## Calls that return -/

/-- The call has returned. -/
def returns : Outcome (Word × State) → Bool
  | Outcome.ok _ => true
  | Outcome.fatal_error _ _ => false
  | Outcome.out_of_fuel => false

/-- The least call depth from `first` on with which the call returns, looked
for among `span` call depths (`first + span` when it returns with none of
them). -/
def depth_from (c : Cfg) (lower_limit upper_limit : Nat) (s : State) (call : Call) :
    Nat → Nat → Nat
  | 0, first => first
  | span + 1, first =>
    if returns (run c lower_limit upper_limit first s call) then first
    else depth_from c lower_limit upper_limit s call span (first + 1)

/-- The least call depth up to `bound` with which the call returns (`bound`
when it returns with none). -/
def depth (c : Cfg) (lower_limit upper_limit : Nat) (s : State) (call : Call) (bound : Nat) :
    Nat :=
  depth_from c lower_limit upper_limit s call bound 0

theorem returns_ok (r : Outcome (Word × State)) (h : returns r = true) :
    ∃ w t, r = Outcome.ok (w, t) := by
  cases r with
  | ok a => exact ⟨a.1, a.2, rfl⟩
  | fatal_error msg t => exact Bool.noConfusion h
  | out_of_fuel => exact Bool.noConfusion h

theorem depth_from_least (c : Cfg) (lower_limit upper_limit : Nat) (s : State) (call : Call) :
    ∀ (span first N : Nat), first ≤ N → N ≤ first + span →
      returns (run c lower_limit upper_limit N s call) = true →
      returns (run c lower_limit upper_limit
        (depth_from c lower_limit upper_limit s call span first) s call) = true ∧
      depth_from c lower_limit upper_limit s call span first ≤ N := by
  intro span
  induction span with
  | zero =>
    intro first N h1 h2 h
    obtain rfl : N = first := by omega
    exact ⟨h, le_refl _⟩
  | succ span ih =>
    intro first N h1 h2 h
    rw [depth_from]
    split
    · rename_i h0
      exact ⟨h0, h1⟩
    · rename_i h0
      have hne : N ≠ first := fun he => h0 (by rw [← he]; exact h)
      exact ih (first + 1) N (by omega) (by omega) h

theorem depth_least (c : Cfg) (lower_limit upper_limit : Nat) (s : State) (call : Call)
    (bound N : Nat) (hN : N ≤ bound)
    (h : returns (run c lower_limit upper_limit N s call) = true) :
    returns (run c lower_limit upper_limit
      (depth c lower_limit upper_limit s call bound) s call) = true ∧
    depth c lower_limit upper_limit s call bound ≤ N :=
  depth_from_least c lower_limit upper_limit s call bound 0 N (Nat.zero_le _) (by omega) h

theorem strlen_mono (m : Mem) :
    ∀ (fuel p len : Nat), strlen m fuel p = some len → strlen m (fuel + 1) p = some len := by
  intro fuel
  induction fuel with
  | zero => intro p len h; simp [strlen] at h
  | succ fuel ih =>
    intro p len h
    rw [strlen] at h ⊢
    split
    · rename_i h0
      rw [if_pos h0] at h
      exact h
    · rename_i h0
      rw [if_neg h0] at h
      cases h1 : strlen m fuel (p + 1) with
      | none => rw [h1] at h; simp at h
      | some l =>
        rw [h1] at h
        rw [ih (p + 1) l h1]
        exact h

theorem strlen_some (m : Mem) :
    ∀ (fuel p len : Nat), strlen m fuel p = some len → is_string m p len ∧ len < fuel := by
  intro fuel
  induction fuel with
  | zero => intro p len h; simp [strlen] at h
  | succ fuel ih =>
    intro p len h
    rw [strlen] at h
    by_cases h0 : m p = 0
    · rw [if_pos h0] at h
      simp only [Option.some.injEq] at h
      subst h
      exact ⟨⟨fun k hk => absurd hk (by omega), h0⟩, by omega⟩
    · rw [if_neg h0] at h
      cases h1 : strlen m fuel (p + 1) with
      | none => rw [h1] at h; simp at h
      | some l =>
        rw [h1] at h
        simp only [Option.map_some', Option.some.injEq] at h
        subst h
        obtain ⟨⟨h2, h3⟩, h4⟩ := ih (p + 1) l h1
        refine ⟨⟨fun k hk => ?_, ?_⟩, by omega⟩
        · cases k with
          | zero => exact h0
          | succ k =>
            have := h2 k (by omega)
            rwa [show p + 1 + k = p + (k + 1) by omega] at this
        · rwa [show p + 1 + l = p + (l + 1) by omega] at h3

/-- A loop whose rounds return the same with a second body returns the same
with it. -/
theorem for_loop_congr_ok (body body1 : Nat → State → Outcome State)
    (h : ∀ i x y, body i x = Outcome.ok y → body1 i x = Outcome.ok y) :
    ∀ (n first : Nat) (s u : State),
      for_loop body n first s = Outcome.ok u → for_loop body1 n first s = Outcome.ok u := by
  intro n
  induction n with
  | zero => intro first s u hu; exact hu
  | succ n ih =>
    intro first s u hu
    unfold for_loop at hu ⊢
    cases hb : body first s with
    | ok s1 =>
      rw [hb] at hu
      rw [h first s s1 hb]
      exact ih (first + 1) s1 u hu
    | fatal_error msg t => rw [hb] at hu; simp at hu
    | out_of_fuel => rw [hb] at hu; simp at hu

/-- A call that returns with some call depth returns the same with a greater
one. -/
theorem run_mono (c : Cfg) (lower_limit upper_limit : Nat) :
    ∀ (N : Nat) (s : State) (call : Call) (r : Word × State),
      run c lower_limit upper_limit N s call = Outcome.ok r →
      run c lower_limit upper_limit (N + 1) s call = Outcome.ok r := by
  intro N
  induction N with
  | zero => intro s call r h; cases call <;> simp [run, copy, copy_arg, copy_type_info] at h
  | succ N ih =>
    intro s call r h
    rw [run_succ] at h ⊢
    cases hd : dispatch c lower_limit upper_limit s call with
    | done r1 => rw [hd] at h; exact h
    | string data data_ptr s1 =>
      rw [hd] at h
      simp only [exec] at h ⊢
      cases hs : strlen s1.mem N data with
      | none => rw [hs] at h; simp at h
      | some len =>
        rw [hs] at h
        rw [strlen_mono s1.mem N data len hs]
        exact h
    | tail s1 child =>
      rw [hd] at h
      exact ih s1 child r h
    | loop new_data data_ptr s2 n first dst child =>
      rw [hd] at h
      simp only [exec] at h ⊢
      obtain ⟨w, t⟩ := r
      obtain ⟨rfl, v, hloop, rfl⟩ := finish_ok _ _ _ _ _ h
      rw [for_loop_congr_ok _
        (fun i x => assign (dst i) (run c lower_limit upper_limit (N + 1) x (child i x)))
        (fun i x y hy => by
          obtain ⟨w1, x1, h1, rfl⟩ := assign_ok _ _ _ hy
          simp only []
          rw [ih x (child i x) (w1, x1) h1]
          rfl) n first s2 v hloop]
      rfl

theorem run_mono_le (c : Cfg) (lower_limit upper_limit : Nat) (s : State) (call : Call)
    (r : Word × State) (N : Nat)
    (h : run c lower_limit upper_limit N s call = Outcome.ok r) :
    ∀ M, N ≤ M → run c lower_limit upper_limit M s call = Outcome.ok r := by
  intro M hM
  induction M with
  | zero =>
    obtain rfl : N = 0 := by omega
    exact h
  | succ M ih =>
    by_cases hN : N = M + 1
    · subst hN; exact h
    · exact run_mono c lower_limit upper_limit M s call r (ih (by omega))

/-- The calls that return with the call depth `bound` meet the hypotheses of
the ranked-call theorem, with the least call depth they return with as the
rank: a nested call of such a call returns with a smaller call depth, and a
string that such a call copies is shorter than its call depth. -/
theorem returning_calls_ranked (c : Cfg) (lower_limit upper_limit bound : Nat) :
    (∀ fuel s parent k t child dst,
      returns (run c lower_limit upper_limit bound s parent) = true →
      call_site c lower_limit upper_limit fuel s parent k = some (t, child, dst) →
      returns (run c lower_limit upper_limit bound t child) = true ∧
      depth c lower_limit upper_limit t child bound
        < depth c lower_limit upper_limit s parent bound) ∧
    (∀ s data_ptr type_info,
      returns (run c lower_limit upper_limit bound s (Call.copy data_ptr type_info)) = true →
      rep_of c s.mem type_info = .MR_TYPECTOR_REP_STRING →
      in_range lower_limit upper_limit (data_value_of c (s.mem data_ptr)) = true →
      ∃ len, is_string s.mem (s.mem data_ptr) len ∧
        len < depth c lower_limit upper_limit s (Call.copy data_ptr type_info) bound) := by
  have hpos : ∀ (s : State) (call : Call),
      returns (run c lower_limit upper_limit bound s call) = true →
      ∃ M, depth c lower_limit upper_limit s call bound = M + 1 ∧ M + 1 ≤ bound ∧
        ∃ w t, run c lower_limit upper_limit (M + 1) s call = Outcome.ok (w, t) := by
    intro s call h
    obtain ⟨h1, h2⟩ := depth_least c lower_limit upper_limit s call bound bound (le_refl _) h
    obtain ⟨w, t, h3⟩ := returns_ok _ h1
    cases hd : depth c lower_limit upper_limit s call bound with
    | zero =>
      rw [hd] at h3
      cases call <;> simp [run, copy, copy_arg, copy_type_info] at h3
    | succ M =>
      rw [hd] at h3 h2
      exact ⟨M, rfl, h2, w, t, h3⟩
  have hchild : ∀ (M : Nat) (u : State) (child : Call) (r : Word × State), M + 1 ≤ bound →
      run c lower_limit upper_limit M u child = Outcome.ok r →
      returns (run c lower_limit upper_limit bound u child) = true ∧
      depth c lower_limit upper_limit u child bound < M + 1 := by
    intro M u child r hM h
    have h1 : returns (run c lower_limit upper_limit M u child) = true := by rw [h]; rfl
    have h2 := run_mono_le c lower_limit upper_limit u child r M h bound (by omega)
    exact ⟨by rw [h2]; rfl,
      Nat.lt_succ_of_le (depth_least c lower_limit upper_limit u child bound M (by omega) h1).2⟩
  constructor
  · intro fuel s parent k u child dst hD hsite
    obtain ⟨M, hM, hle, w, t, hret⟩ := hpos s parent hD
    rw [hM]
    rw [run_succ] at hret
    unfold call_site at hsite
    cases hd : dispatch c lower_limit upper_limit s parent with
    | done r => rw [hd] at hsite; exact Option.noConfusion hsite
    | string data data_ptr s1 => rw [hd] at hsite; exact Option.noConfusion hsite
    | tail s1 child1 =>
      rw [hd] at hsite hret
      simp only [] at hsite
      split at hsite
      · simp only [Option.some.injEq, Prod.mk.injEq] at hsite
        obtain ⟨rfl, rfl, rfl⟩ := hsite
        exact hchild M s1 child1 (w, t) hle hret
      · exact Option.noConfusion hsite
    | loop new_data data_ptr s2 n first dst1 child1 =>
      rw [hd] at hsite hret
      simp only [] at hsite
      split at hsite
      · rename_i hk
        simp only [exec] at hret
        obtain ⟨_, v, hloop, _⟩ := finish_ok _ _ _ _ _ hret
        obtain ⟨u0, t1, hpre, hbody, _⟩ := for_loop_split _ k n first s2 v hk hloop
        obtain ⟨w1, u1, hrun, _⟩ := assign_ok _ _ _ hbody
        cases hpre1 : for_loop (fun i t => assign (dst1 i)
            (run c lower_limit upper_limit fuel t (child1 i t))) k first s2 with
        | ok u2 =>
          rw [hpre1] at hsite
          simp only [Option.some.injEq, Prod.mk.injEq] at hsite
          obtain ⟨rfl, rfl, rfl⟩ := hsite
          -- the rounds before the call lead to the same state with both call depths
          have hboth : ∀ (F : Nat) (x : State), F ≤ max fuel M →
              for_loop (fun i t => assign (dst1 i)
                (run c lower_limit upper_limit F t (child1 i t))) k first s2 = Outcome.ok x →
              for_loop (fun i t => assign (dst1 i)
                (run c lower_limit upper_limit (max fuel M) t (child1 i t))) k first s2
                = Outcome.ok x := by
            intro F x hF hx
            refine for_loop_congr_ok _ _ (fun i y z hz => ?_) k first s2 x hx
            obtain ⟨w2, y1, h1, rfl⟩ := assign_ok _ _ _ hz
            show assign (dst1 i) (run c lower_limit upper_limit (max fuel M) y (child1 i y)) = _
            rw [run_mono_le c lower_limit upper_limit y (child1 i y) (w2, y1) F h1 _ hF]
            rfl
          have h1 := hboth M u0 (le_max_right _ _) hpre
          have h2 := hboth fuel _ (le_max_left _ _) hpre1
          rw [h1] at h2
          simp only [Outcome.ok.injEq] at h2
          subst h2
          exact hchild M u0 _ (w1, u1) hle hrun
        | fatal_error msg x => rw [hpre1] at hsite; exact Option.noConfusion hsite
        | out_of_fuel => rw [hpre1] at hsite; exact Option.noConfusion hsite
      · exact Option.noConfusion hsite
  · intro s data_ptr type_info hD hrep hin
    obtain ⟨M, hM, hle, w, t, hret⟩ := hpos s _ hD
    rw [hM]
    rw [run_succ] at hret
    unfold rep_of at hrep
    have hin2 : in_range lower_limit upper_limit
        (MR_body c (s.mem data_ptr) (MR_tag c (s.mem data_ptr))) = true := hin
    simp only [dispatch, State.log_mem, hrep, hin2, if_true, exec] at hret
    cases hs : strlen s.mem M (s.mem data_ptr) with
    | none => rw [hs] at hret; simp at hret
    | some len =>
      obtain ⟨h1, h2⟩ := strlen_some s.mem M (s.mem data_ptr) len hs
      exact ⟨len, h1, by omega⟩

/-- The node in slot `0x100` of `example_state`, whose two fields both refer
to the string at `0x1600`: the call returns with the call depth 10, the least
call depth it returns with is below 10, and the calls that return with the
call depth 10, ranked by the least call depth they return with, meet the
hypotheses of the theorem. -/
theorem ranked_calls_terminate_witness :
    returns (run Cfg.std 0x1000 0x2000 10 example_state (Call.copy 0x100 0x520)) = true ∧
    depth Cfg.std 0x1000 0x2000 example_state (Call.copy 0x100 0x520) 10 < 10 ∧
    run Cfg.std 0x1000 0x2000 10 example_state (Call.copy 0x100 0x520)
      ≠ Outcome.out_of_fuel :=
  ⟨by decide, by decide,
   ranked_calls_terminate Cfg.std 0x1000 0x2000
     (fun s call => returns (run Cfg.std 0x1000 0x2000 10 s call) = true)
     (fun s call => depth Cfg.std 0x1000 0x2000 s call 10)
     (returning_calls_ranked Cfg.std 0x1000 0x2000 10).1
     (returning_calls_ranked Cfg.std 0x1000 0x2000 10).2
     10 example_state (Call.copy 0x100 0x520) (by decide) (by decide)⟩

/-! ## Independence of the copy -/

/-- The event a call logs when it is entered. -/
def Call.enter : Call → Event
  | Call.copy data_ptr type_info => Event.enter_copy data_ptr type_info
  | Call.copy_arg data_ptr term_type_info arg_pseudo_type_info =>
    Event.enter_copy_arg data_ptr term_type_info arg_pseudo_type_info
  | Call.copy_type_info type_info_ptr => Event.enter_copy_type_info type_info_ptr

/-- How a nested call lies in the call that makes it, itself or through
nested calls.  The outer call is started in `s` and returns `w` in `t`; the
nested call is started in `u` and returns `w1` in `u1`; `dst` is the cell the
result of the nested call is stored in (`none` when it is what the outer call
returns).  The nested call runs between `s` and `t`, its heap pointer at
entry is that of `s` up to a multiple of `U`, every word it allocated is in
`t` as it was in `u1` unless a forwarding mark was left on it after the nested
call returned, and so is its result in the cell `dst`. -/
def Made (U : Nat) (s t : State) (w : Word) (u : State) (dst : Option Nat) (w1 : Word)
    (u1 : State) : Prop :=
  ∃ l0 l1 l2, u.trace = l0 ++ s.trace ∧ u1.trace = l1 ++ u.trace ∧ t.trace = l2 ++ u1.trace ∧
    s.hp ≤ u.hp ∧ u.hp ≤ u1.hp ∧ u1.hp ≤ t.hp ∧ u.hp % U = s.hp % U ∧
    (∀ a, u.hp ≤ a → a < u1.hp → ¬ forwarded l2 a → t.mem a = u1.mem a) ∧
    (match dst with
      | some d => s.hp ≤ d ∧ d < t.hp ∧ (¬ forwarded l2 d → t.mem d = w1)
      | none => w1 = w)

/-- The cell the result of a nested call of a nested call ends in: its own
cell, or the cell of the call that returns it. -/
def result_cell (inner outer : Option Nat) : Option Nat :=
  match inner with
  | some d => some d
  | none => outer

theorem forwarded_append_left {l1 l2 : List Event} {a : Nat} (h : ¬ forwarded (l1 ++ l2) a) :
    ¬ forwarded l1 a :=
  fun ⟨w, hw⟩ => h ⟨w, List.mem_append_left _ hw⟩

theorem forwarded_append_right {l1 l2 : List Event} {a : Nat} (h : ¬ forwarded (l1 ++ l2) a) :
    ¬ forwarded l2 a :=
  fun ⟨w, hw⟩ => h ⟨w, List.mem_append_right _ hw⟩

/-- A nested call of a nested call lies in the outer call. -/
theorem Made.trans {U : Nat} {s t : State} {w : Word} {u : State} {dst : Option Nat}
    {w1 : Word} {u1 : State} {v : State} {dst1 : Option Nat} {w2 : Word} {v1 : State}
    (h : Made U s t w u dst w1 u1) (h1 : Made U u u1 w1 v dst1 w2 v1) :
    Made U s t w v (result_cell dst1 dst) w2 v1 := by
  obtain ⟨l0, l1, l2, e0, e1, e2, a0, a1, a2, al, hc, hb⟩ := h
  obtain ⟨m0, m1, m2, f0, f1, f2, b0, b1, b2, bl, kc, kb⟩ := h1
  refine ⟨m0 ++ l0, m1, l2 ++ m2, by rw [f0, e0, List.append_assoc], f1,
    by rw [e2, f2, List.append_assoc], by omega, b1, by omega, by rw [bl, al], ?_, ?_⟩
  · intro a ha1 ha2 hf
    rw [hc a (by omega) (by omega) (forwarded_append_left hf),
      kc a ha1 ha2 (forwarded_append_right hf)]
  · cases dst1 with
    | some d =>
      simp only [result_cell]
      simp only [] at kb
      obtain ⟨k1, k2, k3⟩ := kb
      refine ⟨by omega, by omega, fun hf => ?_⟩
      rw [hc d k1 k2 (forwarded_append_left hf), k3 (forwarded_append_right hf)]
    | none =>
      simp only [result_cell]
      simp only [] at kb
      subst kb
      cases dst with
      | some d =>
        simp only [] at hb ⊢
        exact ⟨hb.1, hb.2.1, fun hf => hb.2.2 (forwarded_append_left hf)⟩
      | none => exact hb

theorem MR_tag_lt (c : Cfg) (data : Word) : MR_tag c data < 2 ^ c.TAGBITS :=
  Nat.mod_lt _ (Nat.two_pow_pos _)

/-- The configuration `c` with the layout tables replaced by `layout`. -/
def Cfg.with_layout (c : Cfg) (layout : Mem → Nat → Nat → Word) : Cfg :=
  { c with type_ctor_layout := layout }

theorem copy_type_info_with_layout (c : Cfg) (layout : Mem → Nat → Nat → Word)
    (lower_limit upper_limit : Nat) :
    ∀ (fuel : Nat) (s : State) (type_info_ptr : Nat),
      copy_type_info (c.with_layout layout) lower_limit upper_limit fuel s type_info_ptr
        = copy_type_info c lower_limit upper_limit fuel s type_info_ptr := by
  intro fuel
  induction fuel with
  | zero => intro s p; rfl
  | succ fuel ih =>
    intro s p
    rw [copy_type_info, copy_type_info]
    simp only [ih]
    rfl

theorem copy_with_layout (c : Cfg) (layout : Mem → Nat → Nat → Word)
    (h : ∀ m type_ctor_info tag, tag < 2 ^ c.TAGBITS →
      layout m type_ctor_info tag = c.type_ctor_layout m type_ctor_info tag)
    (lower_limit upper_limit : Nat) :
    ∀ (fuel : Nat),
      (∀ (s : State) (data_ptr type_info : Nat),
        copy (c.with_layout layout) lower_limit upper_limit fuel s data_ptr type_info
          = copy c lower_limit upper_limit fuel s data_ptr type_info) ∧
      (∀ (s : State) (data_ptr term_type_info arg_pseudo_type_info : Nat),
        copy_arg (c.with_layout layout) lower_limit upper_limit fuel s data_ptr term_type_info
            arg_pseudo_type_info
          = copy_arg c lower_limit upper_limit fuel s data_ptr term_type_info
            arg_pseudo_type_info) := by
  intro fuel
  induction fuel with
  | zero => exact ⟨fun _ _ _ => by rw [copy, copy], fun _ _ _ _ => by rw [copy_arg, copy_arg]⟩
  | succ fuel ih =>
    obtain ⟨ihc, iha⟩ := ih
    constructor
    · intro s dp ti
      have hl : (c.with_layout layout).type_ctor_layout s.mem
          (c.MR_TYPEINFO_GET_TYPE_CTOR_INFO s.mem ti) (MR_tag c (s.mem dp))
          = c.type_ctor_layout s.mem (c.MR_TYPEINFO_GET_TYPE_CTOR_INFO s.mem ti)
              (MR_tag c (s.mem dp)) := h _ _ _ (MR_tag_lt c _)
      rw [copy, copy]
      simp only [ihc, iha, copy_type_info_with_layout]
      simp only [Cfg.with_layout, State.log_mem] at hl ⊢
      unfold MR_tag at hl ⊢
      rw [hl]
      rfl
    · intro s dp T p
      rw [copy_arg, copy_arg]
      simp only [ihc]
      rfl

/-- Claim C29.  The layout lookup of `copy` is in bounds.  The local
`layout_entry` of a call, whatever the representation kind of the type, is
entry `data_tag = MR_tag(data)` of the layout table of the type's
type_ctor_info, and `data_tag < 2 ^ TAGBITS` for every data word, also for an
integer or a character with arbitrary low bits.  So with one table entry per
primary tag value no entry outside the table is consulted: replacing the
entries at indices from `2 ^ TAGBITS` on by anything else changes no call of
`copy`. -/
theorem layout_lookup_in_bounds (c : Cfg) :
    (∀ (m : Mem) (type_info : Nat) (data : Word),
      layout_entry_of c m type_info data
        = c.type_ctor_layout m (c.MR_TYPEINFO_GET_TYPE_CTOR_INFO m type_info) (MR_tag c data) ∧
      MR_tag c data < 2 ^ c.TAGBITS) ∧
    (∀ layout : Mem → Nat → Nat → Word,
      (∀ m type_ctor_info tag, tag < 2 ^ c.TAGBITS →
        layout m type_ctor_info tag = c.type_ctor_layout m type_ctor_info tag) →
      ∀ (lower_limit upper_limit fuel : Nat) (s : State) (data_ptr type_info : Nat),
        copy (c.with_layout layout) lower_limit upper_limit fuel s data_ptr type_info
          = copy c lower_limit upper_limit fuel s data_ptr type_info) :=
  ⟨fun _ _ data => ⟨rfl, MR_tag_lt c data⟩,
   fun layout h lower_limit upper_limit fuel s data_ptr type_info =>
    (copy_with_layout c layout h lower_limit upper_limit fuel).1 s data_ptr type_info⟩

/-- Layout tables of `Cfg.std` (four primary tags) whose entries from index 4
on are replaced by `0xDEAD`: the copy of the node in slot `0x100` of
`scenario_state` is the same. -/
theorem layout_lookup_in_bounds_witness :
    MR_tag Cfg.std 0x1503 = 3 ∧
    (fun m type_ctor_info tag =>
        if tag < 4 then Cfg.std.type_ctor_layout m type_ctor_info tag else 0xDEAD)
      scenario_state.mem 0x520 4 ≠ Cfg.std.type_ctor_layout scenario_state.mem 0x520 4 ∧
    copy (Cfg.std.with_layout (fun m type_ctor_info tag =>
        if tag < 4 then Cfg.std.type_ctor_layout m type_ctor_info tag else 0xDEAD))
      0x1000 0x2000 10 scenario_state 0x100 0x520
      = copy Cfg.std 0x1000 0x2000 10 scenario_state 0x100 0x520 :=
  ⟨by decide, by decide,
   (layout_lookup_in_bounds Cfg.std).2 _
    (fun m type_ctor_info tag h => by
      have h4 : tag < 4 := h
      simp only [h4, if_true])
    0x1000 0x2000 10 scenario_state 0x100 0x520⟩

end DeepCopy

/-! # The tracing base (`mercury_trace_base.c`)

The functions of `src/runtime/mercury_trace_base.c` that the claims are
about.  A `FILE` stream is the list of the bytes written to it; a C string is
the list of its bytes; a pointer is an address. -/

namespace TraceBase

/-! ## Machine integers -/

/-- Widths, in bits, of the C types `int` and `MR_Unsigned` (the typedef of
`MR_Unsigned`, an unsigned integer as wide as a machine word, is in a header
outside the sources at hand). -/
structure Machine where
  int_bits : Nat
  MR_Unsigned_bits : Nat

/-- A 32-bit platform. -/
def Machine.ilp32 : Machine := { int_bits := 32, MR_Unsigned_bits := 32 }

/-- A 64-bit platform with 32-bit `int`. -/
def Machine.lp64 : Machine := { int_bits := 32, MR_Unsigned_bits := 64 }

/-- The value of the type `int` that the integer `x` becomes: the two's
complement value congruent to `x` modulo `2 ^ int_bits`.  This is the
conversion of an out-of-range unsigned value to `int` and the wrap-around of
`int` arithmetic. -/
def to_int (M : Machine) (x : Int) : Int :=
  (x + 2 ^ (M.int_bits - 1)) % 2 ^ M.int_bits - 2 ^ (M.int_bits - 1)

/-- The value of the type `MR_Unsigned` that the integer `x` becomes: `x`
modulo `2 ^ MR_Unsigned_bits`. -/
def to_MR_Unsigned (M : Machine) (x : Int) : Nat :=
  (x % 2 ^ M.MR_Unsigned_bits).toNat

/-! ## I/O tabling statistics -/

theorem to_int_of_small (M : Machine) (hM : 0 < M.int_bits) (x : Int)
    (h1 : -(2 ^ (M.int_bits - 1)) ≤ x) (h2 : x < 2 ^ (M.int_bits - 1)) :
    to_int M x = x := by
  have hp : (2 : Int) ^ M.int_bits = 2 * 2 ^ (M.int_bits - 1) := by
    rw [← pow_succ', Nat.sub_add_cancel hM]
  unfold to_int
  rw [Int.emod_eq_of_lt (by omega) (by omega)]
  omega

/-- The global variables that `MR_turn_off_debug` and `MR_turn_debug_back_on`
read or write.  `MR_debugflag` is an array of `MR_MAXFLAG` flags. -/
structure Globals where
  MR_debug_enabled : Bool
  MR_io_tabling_enabled : Bool
  MR_debugflag : Nat → Bool
  MR_trace_call_seqno : Nat
  MR_trace_call_depth : Nat
  MR_trace_event_number : Nat
  MR_trace_func_enabled : Bool
  MR_trace_count_enabled : Bool

/-- The struct `MR_SavedDebugState` (declared in a header outside the sources
at hand; the fields are the ones the two functions use). -/
structure MR_SavedDebugState where
  MR_sds_debug_enabled : Bool
  MR_sds_io_tabling_enabled : Bool
  MR_sds_debugflags : Nat → Bool
  MR_sds_include_counter_vars : Bool
  MR_sds_trace_call_seqno : Nat
  MR_sds_trace_call_depth : Nat
  MR_sds_trace_event_number : Nat

/-- What the two functions take from headers outside the sources at hand:
the constant `MR_MAXFLAG`, and the macro `MR_update_trace_func_enabled`,
which assigns to `MR_trace_func_enabled` a value computed from the other
globals. -/
structure DebugCfg where
  MR_MAXFLAG : Nat
  trace_func_enabled : Globals → Bool

/-- The macro `MR_update_trace_func_enabled`. -/
def MR_update_trace_func_enabled (c : DebugCfg) (g : Globals) : Globals :=
  { g with MR_trace_func_enabled := c.trace_func_enabled g }

/-- The loop `for (i = 0; i < n; i++) body`. -/
def for_upto {σ : Type} (n : Nat) (body : Nat → σ → σ) (s : σ) : σ :=
  (List.range n).foldl (fun s i => body i s) s

/-- An array with element `i` set to `v`. -/
def set_flag (a : Nat → Bool) (i : Nat) (v : Bool) : Nat → Bool :=
  fun j => if j = i then v else a j

/-- The body of the loop of `MR_turn_off_debug`: save flag `i`, then clear
it. -/
def turn_off_body (i : Nat) (p : Globals × MR_SavedDebugState) :
    Globals × MR_SavedDebugState :=
  let flags := set_flag p.2.MR_sds_debugflags i (p.1.MR_debugflag i)
  let saved_state := { p.2 with MR_sds_debugflags := flags }
  let g := { p.1 with MR_debugflag := set_flag p.1.MR_debugflag i false }
  (g, saved_state)

/-- The body of the loop of `MR_turn_debug_back_on`: restore flag `i`. -/
def turn_back_on_body (saved_state : MR_SavedDebugState) (i : Nat) (g : Globals) : Globals :=
  { g with MR_debugflag := set_flag g.MR_debugflag i (saved_state.MR_sds_debugflags i) }

/-- The function `MR_turn_off_debug`; `saved_state` is the content of the
struct the pointer refers to, returned updated. -/
def MR_turn_off_debug (c : DebugCfg) (g : Globals) (saved_state : MR_SavedDebugState)
    (include_counter_vars : Bool) : Globals × MR_SavedDebugState :=
  let saved_state := { saved_state with MR_sds_debug_enabled := g.MR_debug_enabled }
  let saved_state := { saved_state with MR_sds_io_tabling_enabled := g.MR_io_tabling_enabled }
  let g := { g with MR_debug_enabled := false }
  let g := MR_update_trace_func_enabled c g
  let g := { g with MR_io_tabling_enabled := false }
  let p := for_upto c.MR_MAXFLAG turn_off_body (g, saved_state)
  let g := p.1
  let saved_state := p.2
  let saved_state := { saved_state with MR_sds_include_counter_vars := include_counter_vars }
  let saved_state := { saved_state with MR_sds_trace_call_seqno := g.MR_trace_call_seqno }
  let saved_state := { saved_state with MR_sds_trace_call_depth := g.MR_trace_call_depth }
  let saved_state := { saved_state with MR_sds_trace_event_number := g.MR_trace_event_number }
  (g, saved_state)

/-- The function `MR_turn_debug_back_on`. -/
def MR_turn_debug_back_on (c : DebugCfg) (g : Globals) (saved_state : MR_SavedDebugState) :
    Globals :=
  let g := { g with MR_debug_enabled := saved_state.MR_sds_debug_enabled }
  let g := MR_update_trace_func_enabled c g
  let g := { g with MR_io_tabling_enabled := saved_state.MR_sds_io_tabling_enabled }
  let g := for_upto c.MR_MAXFLAG (turn_back_on_body saved_state) g
  if saved_state.MR_sds_include_counter_vars then
    let g := { g with MR_trace_call_seqno := saved_state.MR_sds_trace_call_seqno }
    let g := { g with MR_trace_call_depth := saved_state.MR_sds_trace_call_depth }
    { g with MR_trace_event_number := saved_state.MR_sds_trace_event_number }
  else g

theorem for_upto_succ {σ : Type} (n : Nat) (body : Nat → σ → σ) (s : σ) :
    for_upto (n + 1) body s = body n (for_upto n body s) := by
  simp [for_upto, List.range_succ]

/-- The state of the loop of `MR_turn_off_debug` after `n` rounds. -/
theorem turn_off_loop (g : Globals) (saved_state : MR_SavedDebugState) (n : Nat) :
    for_upto n turn_off_body (g, saved_state)
    = ({ g with MR_debugflag := fun j => if j < n then false else g.MR_debugflag j },
       { saved_state with
         MR_sds_debugflags := fun j =>
           if j < n then g.MR_debugflag j else saved_state.MR_sds_debugflags j }) := by
  induction n with
  | zero => simp [for_upto]
  | succ n ih =>
    rw [for_upto_succ, ih]
    simp only [turn_off_body, Prod.mk.injEq, Globals.mk.injEq, MR_SavedDebugState.mk.injEq,
      true_and, and_true]
    constructor
    · funext j
      simp only [set_flag]
      by_cases h1 : j = n
      · simp [h1]
      · by_cases h2 : j < n
        · simp [h1, h2, Nat.lt_succ_of_lt h2]
        · have : ¬ j < n + 1 := by omega
          simp [h1, h2, this]
    · funext j
      simp only [set_flag]
      by_cases h1 : j = n
      · simp [h1]
      · by_cases h2 : j < n
        · simp [h1, h2, Nat.lt_succ_of_lt h2]
        · have : ¬ j < n + 1 := by omega
          simp [h1, h2, this]

/-- The state of the loop of `MR_turn_debug_back_on` after `n` rounds. -/
theorem turn_back_on_loop (g : Globals) (saved_state : MR_SavedDebugState) (n : Nat) :
    for_upto n (turn_back_on_body saved_state) g
    = { g with
        MR_debugflag := fun j =>
          if j < n then saved_state.MR_sds_debugflags j else g.MR_debugflag j } := by
  induction n with
  | zero => simp [for_upto]
  | succ n ih =>
    rw [for_upto_succ, ih]
    simp only [turn_back_on_body, Globals.mk.injEq, true_and, and_true]
    funext j
    simp only [set_flag]
    by_cases h1 : j = n
    · simp [h1]
    · by_cases h2 : j < n
      · simp [h1, h2, Nat.lt_succ_of_lt h2]
      · have : ¬ j < n + 1 := by omega
        simp [h1, h2, this]

/-- Claim C26.  Debug-state round trip.  Immediately after
`MR_turn_off_debug(s, include_counter_vars)` the globals `MR_debug_enabled`
and `MR_io_tabling_enabled` and every `MR_debugflag[i]`, `i < MR_MAXFLAG`, are
false.  A following `MR_turn_debug_back_on(s)`, from whatever globals `g2`
there are by then, sets `MR_debug_enabled`, `MR_io_tabling_enabled` and every
`MR_debugflag[i]`, `i < MR_MAXFLAG`, to their values from before the turn-off;
it sets `MR_trace_call_seqno`, `MR_trace_call_depth` and
`MR_trace_event_number` to their values from before the turn-off when
`include_counter_vars` is true and leaves the three counters of `g2` as they
are when it is false. -/
theorem debug_state_round_trip (c : DebugCfg) (g : Globals) (saved_state : MR_SavedDebugState)
    (include_counter_vars : Bool) :
    let turned_off := MR_turn_off_debug c g saved_state include_counter_vars
    (turned_off.1.MR_debug_enabled = false ∧ turned_off.1.MR_io_tabling_enabled = false ∧
      ∀ i, i < c.MR_MAXFLAG → turned_off.1.MR_debugflag i = false) ∧
    ∀ g2 : Globals,
      let turned_on := MR_turn_debug_back_on c g2 turned_off.2
      turned_on.MR_debug_enabled = g.MR_debug_enabled ∧
      turned_on.MR_io_tabling_enabled = g.MR_io_tabling_enabled ∧
      (∀ i, i < c.MR_MAXFLAG → turned_on.MR_debugflag i = g.MR_debugflag i) ∧
      (include_counter_vars = true →
        turned_on.MR_trace_call_seqno = g.MR_trace_call_seqno ∧
        turned_on.MR_trace_call_depth = g.MR_trace_call_depth ∧
        turned_on.MR_trace_event_number = g.MR_trace_event_number) ∧
      (include_counter_vars = false →
        turned_on.MR_trace_call_seqno = g2.MR_trace_call_seqno ∧
        turned_on.MR_trace_call_depth = g2.MR_trace_call_depth ∧
        turned_on.MR_trace_event_number = g2.MR_trace_event_number) := by
  intro turned_off
  have hoff : turned_off = MR_turn_off_debug c g saved_state include_counter_vars := rfl
  unfold MR_turn_off_debug at hoff
  simp only [turn_off_loop, MR_update_trace_func_enabled] at hoff
  refine ⟨?_, ?_⟩
  · rw [hoff]
    refine ⟨rfl, rfl, ?_⟩
    intro i hi
    simp [hi]
  · intro g2 turned_on
    have hon : turned_on = MR_turn_debug_back_on c g2 turned_off.2 := rfl
    unfold MR_turn_debug_back_on at hon
    simp only [turn_back_on_loop, MR_update_trace_func_enabled] at hon
    rw [hoff] at hon
    cases include_counter_vars with
    | true =>
      simp only [if_true] at hon
      rw [hon]
      refine ⟨rfl, rfl, ?_, fun _ => ⟨rfl, rfl, rfl⟩, fun h => by cases h⟩
      intro i hi
      simp [hi]
    | false =>
      simp only [Bool.false_eq_true, if_false] at hon
      rw [hon]
      refine ⟨rfl, rfl, ?_, fun h => (by cases h), fun _ => ⟨rfl, rfl, rfl⟩⟩
      intro i hi
      simp [hi]

/-! ## Layout structures and execution counts -/

/-- A C string: the bytes before the terminating NUL, as `char` values. -/
abbrev CString := List Int

/-- The struct `MR_User_Proc_Id` (the fields written to the trace count
file). -/
structure MR_User_Proc_Id where
  MR_user_pred_or_func : Nat
  MR_user_decl_module : CString
  MR_user_def_module : CString
  MR_user_name : CString
  MR_user_arity : Int
  MR_user_mode : Int

/-- The struct `MR_Label_Layout` (declared in a header outside the sources at
hand; the fields are the ones the functions below use).  Pointers are
addresses; `goal_path` is what the macro `MR_label_goal_path` yields. -/
structure MR_Label_Layout where
  MR_sll_entry : Nat
  MR_sll_label_num_in_module : Nat
  MR_sll_port : Nat
  goal_path : CString

/-- The struct `MR_Proc_Layout`; `has_exec_trace` and `is_uci` are what the
macros `MR_PROC_LAYOUT_HAS_EXEC_TRACE` and `MR_PROC_LAYOUT_IS_UCI` yield. -/
structure MR_Proc_Layout where
  has_exec_trace : Bool
  is_uci : Bool
  MR_sle_module_layout : Nat
  MR_sle_call_label : Nat
  MR_sle_user : MR_User_Proc_Id

/-- The struct `MR_Module_File_Layout`. -/
structure MR_Module_File_Layout where
  MR_mfl_filename : CString
  MR_mfl_label_count : Int
  MR_mfl_label_lineno : Nat → Int
  MR_mfl_label_layout : Nat → Nat

/-- The struct `MR_Module_Layout`; `MR_ml_label_exec_count` is the address of
the array of counters. -/
structure MR_Module_Layout where
  MR_ml_filename_count : Int
  MR_ml_module_file_layout : Nat → Nat
  MR_ml_num_label_exec_counts : Int
  MR_ml_label_exec_count : Nat

/-- The layout structures in memory, by address.  They are constant data. -/
structure Layouts where
  label : Nat → MR_Label_Layout
  proc : Nat → MR_Proc_Layout
  file : Nat → MR_Module_File_Layout
  module : Nat → MR_Module_Layout

/-- The counters in memory: the `MR_Unsigned` at an address, an address
counting in units of one counter. -/
abbrev Counters := Nat → Nat

/-- What a function does: return, or stop the program in `MR_fatal_error`. -/
inductive Result (α : Type) where
  | ok (a : α)
  | fatal_error (msg : String)
  deriving DecidableEq, Repr

/-- The function `MR_trace_lookup_trace_count`: the address of the counter. -/
def MR_trace_lookup_trace_count (L : Layouts) (label_layout : Nat) : Result Nat :=
  let proc_layout := (L.label label_layout).MR_sll_entry
  if ! (L.proc proc_layout).has_exec_trace then
    Result.fatal_error "MR_trace_lookup_trace_count: no exec trace"
  else
    let module_layout := (L.proc proc_layout).MR_sle_module_layout
    let label_number := (L.label label_layout).MR_sll_label_num_in_module
    if (label_number : Int) ≥ (L.module module_layout).MR_ml_num_label_exec_counts then
      Result.fatal_error "MR_trace_lookup_trace_count: invalid label number"
    else
      Result.ok ((L.module module_layout).MR_ml_label_exec_count + label_number)

/-- The block of `MR_trace_count` that is compiled when `MR_TRACE_COUNT_DEBUG`
is defined: `none` when it falls through, the message when it stops. -/
def trace_count_debug (L : Layouts) (counters : Counters) (label_layout : Nat) :
    Option String :=
  let proc_layout := (L.label label_layout).MR_sll_entry
  let module_layout := (L.proc proc_layout).MR_sle_module_layout
  let call_label_layout := (L.proc proc_layout).MR_sle_call_label
  if label_layout ≠ call_label_layout then
    let call_label_number := (L.label call_label_layout).MR_sll_label_num_in_module
    if (call_label_number : Int) ≥ (L.module module_layout).MR_ml_num_label_exec_counts then
      some "MR_trace_count: invalid call label number"
    else if counters ((L.module module_layout).MR_ml_label_exec_count + call_label_number) = 0
    then
      some "MR_trace_count: call label count is zero"
    else none
  else none

/-- The function `MR_trace_count`.  It returns `NULL` (0) and the counters.
The flag says whether `MR_TRACE_COUNT_DEBUG` is defined. -/
def MR_trace_count (M : Machine) (MR_TRACE_COUNT_DEBUG : Bool) (L : Layouts)
    (counters : Counters) (label_layout : Nat) : Result (Nat × Counters) :=
  match MR_trace_lookup_trace_count L label_layout with
  | Result.fatal_error msg => Result.fatal_error msg
  | Result.ok exec_count =>
    match (if MR_TRACE_COUNT_DEBUG then trace_count_debug L counters label_layout else none) with
    | some msg => Result.fatal_error msg
    | none =>
      Result.ok (0, fun a =>
        if a = exec_count then to_MR_Unsigned M ((counters exec_count : Int) + 1)
        else counters a)

/-- The message of a fatal error, if the function stopped in one. -/
def Result.message {α : Type} : Result α → Option String
  | Result.ok _ => none
  | Result.fatal_error msg => some msg

theorem to_MR_Unsigned_succ (M : Machine) (x : Nat) :
    to_MR_Unsigned M ((x : Int) + 1) = (x + 1) % 2 ^ M.MR_Unsigned_bits := by
  unfold to_MR_Unsigned
  have h : ((x : Int) + 1) % 2 ^ M.MR_Unsigned_bits
      = (((x + 1) % 2 ^ M.MR_Unsigned_bits : Nat) : Int) := by
    push_cast
    rfl
  rw [h, Int.toNat_ofNat]

/-- Layouts for a procedure at `0x40` of the module at `0x80` (four counters
at `0x1000`): its call label at `0x20` has number 0, the label at `0x10` has
number 1, the label at `0x30` has number 4. -/
def example_layouts : Layouts where
  label := fun a =>
    { MR_sll_entry := 0x40,
      MR_sll_label_num_in_module := if a = 0x10 then 1 else if a = 0x30 then 4 else 0,
      MR_sll_port := 0, goal_path := [] }
  proc := fun _ =>
    { has_exec_trace := true, is_uci := false, MR_sle_module_layout := 0x80,
      MR_sle_call_label := 0x20,
      MR_sle_user := { MR_user_pred_or_func := 0, MR_user_decl_module := [],
                       MR_user_def_module := [], MR_user_name := [], MR_user_arity := 0,
                       MR_user_mode := 0 } }
  file := fun _ =>
    { MR_mfl_filename := [], MR_mfl_label_count := 0, MR_mfl_label_lineno := fun _ => 0,
      MR_mfl_label_layout := fun _ => 0 }
  module := fun _ =>
    { MR_ml_filename_count := 0, MR_ml_module_file_layout := fun _ => 0,
      MR_ml_num_label_exec_counts := 4, MR_ml_label_exec_count := 0x1000 }

/-- Claim C28, counterexample.  With `MR_TRACE_COUNT_DEBUG` defined: the
label at `0x10` has exec-trace information and the valid number 1, so
`MR_trace_lookup_trace_count` returns the address of counter 1, but
`MR_trace_count` on it stops in a fatal error, because the count of the call
label of the procedure is zero; no counter is increased. -/
theorem trace_count_counterexample :
    MR_trace_lookup_trace_count example_layouts 0x10 = Result.ok 0x1001 ∧
    (MR_trace_count Machine.ilp32 true example_layouts (fun _ => 0) 0x10).message
      = some "MR_trace_count: call label count is zero" := by
  decide

/-- Claim C28, amended.  `MR_trace_lookup_trace_count` stops in a fatal error
if and only if the procedure of the label has no exec-trace information or
the number of the label in its module is at least
`MR_ml_num_label_exec_counts` of the module; otherwise it returns the address
of the counter with that number.  On such a label `MR_trace_count` returns
`NULL` and increases that counter by one modulo `2 ^ MR_Unsigned_bits`,
leaving every other counter as it is, provided `MR_TRACE_COUNT_DEBUG` is not
defined or its checks pass: the label is the call label of its procedure, or
the number of the call label is below `MR_ml_num_label_exec_counts` and the
count of the call label is not zero.  With `MR_TRACE_COUNT_DEBUG` defined and
a check failing, `MR_trace_count` stops in a fatal error. -/
theorem trace_count_lookup_and_increment (M : Machine) (MR_TRACE_COUNT_DEBUG : Bool)
    (L : Layouts) (counters : Counters) (label_layout : Nat) :
    let proc_layout := L.proc (L.label label_layout).MR_sll_entry
    let module_layout := L.module proc_layout.MR_sle_module_layout
    let label_number := (L.label label_layout).MR_sll_label_num_in_module
    let exec_count := module_layout.MR_ml_label_exec_count + label_number
    let call_label_layout := proc_layout.MR_sle_call_label
    let call_label_number := (L.label call_label_layout).MR_sll_label_num_in_module
    let invalid := proc_layout.has_exec_trace = false ∨
      (label_number : Int) ≥ module_layout.MR_ml_num_label_exec_counts
    let checks_pass := label_layout = call_label_layout ∨
      ((call_label_number : Int) < module_layout.MR_ml_num_label_exec_counts ∧
        counters (module_layout.MR_ml_label_exec_count + call_label_number) ≠ 0)
    ((∃ msg, MR_trace_lookup_trace_count L label_layout = Result.fatal_error msg) ↔ invalid) ∧
    (¬ invalid → MR_trace_lookup_trace_count L label_layout = Result.ok exec_count) ∧
    (¬ invalid → (MR_TRACE_COUNT_DEBUG = false ∨ checks_pass) →
      MR_trace_count M MR_TRACE_COUNT_DEBUG L counters label_layout
        = Result.ok (0, fun a =>
            if a = exec_count then (counters exec_count + 1) % 2 ^ M.MR_Unsigned_bits
            else counters a)) ∧
    (¬ invalid → MR_TRACE_COUNT_DEBUG = true → ¬ checks_pass →
      ∃ msg, MR_trace_count M MR_TRACE_COUNT_DEBUG L counters label_layout
        = Result.fatal_error msg) := by
  intro proc_layout module_layout label_number exec_count call_label_layout call_label_number
    invalid checks_pass
  have hlook : ¬ invalid →
      MR_trace_lookup_trace_count L label_layout = Result.ok exec_count := by
    intro h
    have h1 : proc_layout.has_exec_trace = true := by
      cases hx : proc_layout.has_exec_trace with
      | true => rfl
      | false => exact absurd (Or.inl hx) h
    have h2 : ¬ (label_number : Int) ≥ module_layout.MR_ml_num_label_exec_counts :=
      fun hx => h (Or.inr hx)
    unfold MR_trace_lookup_trace_count
    simp only [proc_layout] at h1
    simp only [h1, Bool.not_true, Bool.false_eq_true, if_false]
    rw [if_neg h2]
  have hdebug : checks_pass ↔ trace_count_debug L counters label_layout = none := by
    unfold trace_count_debug
    simp only [checks_pass]
    by_cases h1 : label_layout = call_label_layout
    · simp [call_label_layout, proc_layout] at h1
      simp [call_label_layout, proc_layout, ← h1]
    · simp only [call_label_layout, proc_layout] at h1
      simp only [call_label_layout, proc_layout, call_label_number, module_layout, h1,
        false_or, ne_eq, not_false_eq_true, if_true]
      by_cases h3 : ((L.label (L.proc (L.label label_layout).MR_sll_entry).MR_sle_call_label
          ).MR_sll_label_num_in_module : Int)
          ≥ (L.module (L.proc (L.label label_layout).MR_sll_entry).MR_sle_module_layout
            ).MR_ml_num_label_exec_counts
      · rw [if_pos h3]
        simp only [reduceCtorEq, iff_false, not_and]
        intro h4
        omega
      · rw [if_neg h3]
        by_cases h4 : counters
            ((L.module (L.proc (L.label label_layout).MR_sll_entry).MR_sle_module_layout
              ).MR_ml_label_exec_count +
              (L.label (L.proc (L.label label_layout).MR_sll_entry).MR_sle_call_label
                ).MR_sll_label_num_in_module) = 0
        · rw [if_pos h4]
          simp only [reduceCtorEq, iff_false, not_and, not_not]
          exact fun _ => h4
        · rw [if_neg h4]
          simp only [iff_true]
          exact ⟨by omega, h4⟩
  refine ⟨⟨?_, ?_⟩, hlook, ?_, ?_⟩
  · rintro ⟨msg, hmsg⟩
    by_contra h
    rw [hlook h] at hmsg
    cases hmsg
  · intro h
    unfold MR_trace_lookup_trace_count
    rcases h with h | h
    · simp only [proc_layout] at h
      exact ⟨"MR_trace_lookup_trace_count: no exec trace",
        by simp only [h, Bool.not_false, if_true]⟩
    · by_cases hx : (L.proc (L.label label_layout).MR_sll_entry).has_exec_trace = true
      · simp only [hx, Bool.not_true, Bool.false_eq_true, if_false]
        exact ⟨_, if_pos h⟩
      · simp only [Bool.not_eq_true] at hx
        exact ⟨"MR_trace_lookup_trace_count: no exec trace",
          by simp only [hx, Bool.not_false, if_true]⟩
  · intro h hd
    unfold MR_trace_count
    rw [hlook h]
    have hnone : (if MR_TRACE_COUNT_DEBUG then trace_count_debug L counters label_layout
        else none) = none := by
      rcases hd with hd | hd
      · simp [hd]
      · rw [hdebug.1 hd]; simp
    simp only [hnone, to_MR_Unsigned_succ]
  · intro h hd hc
    unfold MR_trace_count
    rw [hlook h, hd]
    simp only [if_true]
    cases hx : trace_count_debug L counters label_layout with
    | none => exact absurd (hdebug.2 hx) hc
    | some msg => exact ⟨msg, rfl⟩

/-! ## Standardized event and call numbers -/

/-- The struct `MR_Standard_Hash_Record`. -/
structure MR_Standard_Hash_Record where
  MR_std_orig_number : Nat
  MR_std_std_number : Nat
  deriving DecidableEq, Repr

/-- The constant `MR_STANDARD_HASH_TABLE_SIZE`. -/
def MR_STANDARD_HASH_TABLE_SIZE : Nat := 1024

/-- The function `MR_get_orig_number`: the key of a record. -/
def MR_get_orig_number (record : MR_Standard_Hash_Record) : Nat :=
  record.MR_std_orig_number

/-- The function `MR_hash_orig_number`. -/
def MR_hash_orig_number (M : Machine) (orig_number : Nat) : Int :=
  to_int M ((orig_number % MR_STANDARD_HASH_TABLE_SIZE : Nat) : Int)

/-- The function `MR_equal_orig_number`. -/
def MR_equal_orig_number (orig_number1 orig_number2 : Nat) : Bool :=
  decide (orig_number1 = orig_number2)

/-- The hash table module (`mercury_hash_table`), which is outside the
sources at hand, as a parameter: the tables with the key, hash and equality
functions above, with what the module promises of them.  A table that
`MR_init_hash_table` has just initialised holds no record; after a record
whose key was not in the table has been inserted, a lookup with a key equal
to the key of the record finds the record, and every other lookup finds what
it found before. -/
structure HashTableOps where
  Table : Type
  static_table : Table
  MR_init_hash_table : Table → Table
  MR_lookup_hash_table : Table → Nat → Option MR_Standard_Hash_Record
  MR_insert_hash_table : Table → MR_Standard_Hash_Record → Table
  lookup_init : ∀ t k, MR_lookup_hash_table (MR_init_hash_table t) k = none
  lookup_insert : ∀ t r k, MR_lookup_hash_table t (MR_get_orig_number r) = none →
    MR_lookup_hash_table (MR_insert_hash_table t r) k
      = if MR_equal_orig_number (MR_get_orig_number r) k = true then some r
        else MR_lookup_hash_table t k

/-- The function `MR_standardize_num`.  The three pointers are to a table, to
its flag and to its counter, an `int`; their contents are passed in and
returned.  `(*next_ptr)++` is taken in `int`, and the `int` `std_num` becomes
an `MR_Unsigned` in the record and in the result. -/
def MR_standardize_num (M : Machine) (ops : HashTableOps) (num : Nat)
    (table : ops.Table) (init : Bool) (next : Int) : Nat × ops.Table × Bool × Int :=
  let table1 := if init then table else ops.MR_init_hash_table table
  match ops.MR_lookup_hash_table table1 num with
  | some record => (record.MR_std_std_number, table1, true, next)
  | none =>
    let std_num := next
    let next1 := to_int M (next + 1)
    let new_record : MR_Standard_Hash_Record :=
      { MR_std_orig_number := num, MR_std_std_number := to_MR_Unsigned M std_num }
    (to_MR_Unsigned M std_num, ops.MR_insert_hash_table table1 new_record, true, next1)

/-- The static variables of the standardization of numbers. -/
structure StdNums (ops : HashTableOps) where
  MR_standard_event_num_table : ops.Table
  MR_standard_call_num_table : ops.Table
  MR_init_event_num_hash : Bool
  MR_init_call_num_hash : Bool
  MR_next_std_event_num : Int
  MR_next_std_call_num : Int

/-- The initial values of the static variables. -/
def StdNums.initial (ops : HashTableOps) : StdNums ops where
  MR_standard_event_num_table := ops.static_table
  MR_standard_call_num_table := ops.static_table
  MR_init_event_num_hash := false
  MR_init_call_num_hash := false
  MR_next_std_event_num := 1
  MR_next_std_call_num := 1

/-- The function `MR_standardize_event_num`. -/
def MR_standardize_event_num (M : Machine) (ops : HashTableOps) (event_num : Nat)
    (g : StdNums ops) : Nat × StdNums ops :=
  let r := MR_standardize_num M ops event_num g.MR_standard_event_num_table
    g.MR_init_event_num_hash g.MR_next_std_event_num
  (r.1, { g with MR_standard_event_num_table := r.2.1, MR_init_event_num_hash := r.2.2.1,
                 MR_next_std_event_num := r.2.2.2 })

/-- The function `MR_standardize_call_num`. -/
def MR_standardize_call_num (M : Machine) (ops : HashTableOps) (call_num : Nat)
    (g : StdNums ops) : Nat × StdNums ops :=
  let r := MR_standardize_num M ops call_num g.MR_standard_call_num_table
    g.MR_init_call_num_hash g.MR_next_std_call_num
  (r.1, { g with MR_standard_call_num_table := r.2.1, MR_init_call_num_hash := r.2.2.1,
                 MR_next_std_call_num := r.2.2.2 })

/-- A call of one of the two functions. -/
inductive StdCall where
  | event (event_num : Nat)
  | call (call_num : Nat)
  deriving DecidableEq, Repr

/-- A sequence of calls, from the state `g`: the calls with their results, in
order, and the final state. -/
def std_run (M : Machine) (ops : HashTableOps) :
    List StdCall → StdNums ops → List (StdCall × Nat) × StdNums ops
  | [], g => ([], g)
  | StdCall.event n :: rest, g =>
    let r := MR_standardize_event_num M ops n g
    let rs := std_run M ops rest r.2
    ((StdCall.event n, r.1) :: rs.1, rs.2)
  | StdCall.call n :: rest, g =>
    let r := MR_standardize_call_num M ops n g
    let rs := std_run M ops rest r.2
    ((StdCall.call n, r.1) :: rs.1, rs.2)

/-- The original numbers and results of the calls of
`MR_standardize_event_num` in a run. -/
def event_results : List (StdCall × Nat) → List (Nat × Nat)
  | [] => []
  | (StdCall.event n, r) :: rest => (n, r) :: event_results rest
  | (StdCall.call _, _) :: rest => event_results rest

/-- The original numbers and results of the calls of
`MR_standardize_call_num` in a run. -/
def call_results : List (StdCall × Nat) → List (Nat × Nat)
  | [] => []
  | (StdCall.event _, _) :: rest => call_results rest
  | (StdCall.call n, r) :: rest => (n, r) :: call_results rest

/-- The distinct numbers of a list, in the order of their first
occurrence. -/
def first_seen (nums : List Nat) : List Nat :=
  nums.foldl (fun seen n => if n ∈ seen then seen else seen ++ [n]) []

/-- The standard number of the `j`-th distinct number, `j` counting from 0,
as the code computes it: the `int` counter, started at 1 and increased `j`
times, as an `MR_Unsigned`. -/
def std_of (M : Machine) (j : Nat) : Nat := to_MR_Unsigned M (to_int M ((j : Int) + 1))

/-- One step of `first_seen`. -/
def seen_step (seen : List Nat) (n : Nat) : List Nat :=
  if n ∈ seen then seen else seen ++ [n]

theorem first_seen_snoc (nums : List Nat) (n : Nat) :
    first_seen (nums ++ [n]) = seen_step (first_seen nums) n := by
  simp [first_seen, seen_step, List.foldl_append]

theorem mem_first_seen (nums : List Nat) (k : Nat) : k ∈ first_seen nums ↔ k ∈ nums := by
  revert k
  induction nums using List.reverseRecOn with
  | nil => simp [first_seen]
  | append_singleton l n ih =>
    intro k
    rw [first_seen_snoc]
    unfold seen_step
    by_cases h : n ∈ first_seen l
    · rw [if_pos h]
      simp only [List.mem_append, List.mem_singleton, ih]
      constructor
      · exact Or.inl
      · rintro (h1 | h1)
        · exact h1
        · rw [h1]; exact (ih n).1 h
    · rw [if_neg h]
      simp only [List.mem_append, List.mem_singleton, ih]

theorem first_seen_length_le (nums : List Nat) : (first_seen nums).length ≤ nums.length := by
  induction nums using List.reverseRecOn with
  | nil => simp [first_seen]
  | append_singleton l n ih =>
    rw [first_seen_snoc]
    unfold seen_step
    split
    · simp only [List.length_append, List.length_singleton]; omega
    · simp only [List.length_append, List.length_singleton]; omega

/-- The distinct numbers of a list start with the distinct numbers of each
of its prefixes. -/
theorem first_seen_append (a b : List Nat) : ∃ l, first_seen (a ++ b) = first_seen a ++ l := by
  induction b using List.reverseRecOn with
  | nil => exact ⟨[], by simp⟩
  | append_singleton b n ih =>
    obtain ⟨l, hl⟩ := ih
    rw [← List.append_assoc, first_seen_snoc, hl]
    unfold seen_step
    split
    · exact ⟨l, rfl⟩
    · exact ⟨l ++ [n], by rw [List.append_assoc]⟩

/-- The rank of a number among the distinct numbers of a list; the number of
distinct numbers when the number is not in the list. -/
def rank (nums : List Nat) (k : Nat) : Nat := (first_seen nums).indexOf k

theorem rank_append_of_mem (a b : List Nat) (k : Nat) (h : k ∈ a) :
    rank (a ++ b) k = rank a k := by
  obtain ⟨l, hl⟩ := first_seen_append a b
  unfold rank
  rw [hl, List.indexOf_append_of_mem ((mem_first_seen a k).2 h)]

theorem rank_snoc_of_not_mem (a : List Nat) (k : Nat) (h : k ∉ a) :
    rank (a ++ [k]) k = (first_seen a).length := by
  have h1 : k ∉ first_seen a := fun hx => h ((mem_first_seen a k).1 hx)
  unfold rank
  rw [first_seen_snoc]
  unfold seen_step
  rw [if_neg h1, List.indexOf_append_of_not_mem h1]
  simp

theorem rank_lt (nums : List Nat) (k : Nat) (h : k ∈ nums) :
    rank nums k < (first_seen nums).length :=
  List.indexOf_lt_length.2 ((mem_first_seen nums k).2 h)

theorem to_int_to_int_add (M : Machine) (x y : Int) :
    to_int M (to_int M x + y) = to_int M (x + y) := by
  unfold to_int
  have h : ((x + 2 ^ (M.int_bits - 1)) % 2 ^ M.int_bits - 2 ^ (M.int_bits - 1) + y
      + 2 ^ (M.int_bits - 1)) % 2 ^ M.int_bits
      = (x + y + 2 ^ (M.int_bits - 1)) % 2 ^ M.int_bits := by
    have e1 : (x + 2 ^ (M.int_bits - 1)) % 2 ^ M.int_bits - 2 ^ (M.int_bits - 1) + y
        + 2 ^ (M.int_bits - 1) = (x + 2 ^ (M.int_bits - 1)) % 2 ^ M.int_bits + y := by ring
    have e2 : x + y + 2 ^ (M.int_bits - 1) = (x + 2 ^ (M.int_bits - 1)) + y := by ring
    rw [e1, e2, Int.emod_add_cancel_right]
    exact Int.emod_emod_of_dvd _ (dvd_refl _)
  rw [h]

/-- Below `2 ^ (int_bits - 1)` the standard number of the `j`-th distinct
number is `j + 1`. -/
theorem std_of_small (M : Machine) (hM : 0 < M.int_bits)
    (hw : M.int_bits ≤ M.MR_Unsigned_bits + 1) (j : Nat) (h : j + 1 < 2 ^ (M.int_bits - 1)) :
    std_of M j = j + 1 := by
  unfold std_of
  have h1 : ((j : Int) + 1) < 2 ^ (M.int_bits - 1) := by exact_mod_cast h
  rw [to_int_of_small M hM _ (by have : (0 : Int) < 2 ^ (M.int_bits - 1) := by positivity
                                 omega) h1]
  unfold to_MR_Unsigned
  have h2 : (2 : Int) ^ (M.int_bits - 1) ≤ 2 ^ M.MR_Unsigned_bits :=
    pow_le_pow_right₀ (by norm_num) (by omega)
  rw [Int.emod_eq_of_lt (by omega) (by omega)]
  have : ((j : Int) + 1) = ((j + 1 : Nat) : Int) := by push_cast; rfl
  rw [this, Int.toNat_ofNat]

/-- A sequence of calls of `MR_standardize_num` on one table: the numbers
with their results, in order, and the final table, flag and counter. -/
def num_run (M : Machine) (ops : HashTableOps) :
    List Nat → ops.Table → Bool → Int → List (Nat × Nat) × ops.Table × Bool × Int
  | [], table, init, next => ([], table, init, next)
  | num :: rest, table, init, next =>
    let r := MR_standardize_num M ops num table init next
    let rs := num_run M ops rest r.2.1 r.2.2.1 r.2.2.2
    ((num, r.1) :: rs.1, rs.2)

/-- The numbers of the calls of `MR_standardize_event_num` in a sequence. -/
def event_nums : List StdCall → List Nat
  | [] => []
  | StdCall.event n :: rest => n :: event_nums rest
  | StdCall.call _ :: rest => event_nums rest

/-- The numbers of the calls of `MR_standardize_call_num` in a sequence. -/
def call_nums : List StdCall → List Nat
  | [] => []
  | StdCall.event _ :: rest => call_nums rest
  | StdCall.call n :: rest => n :: call_nums rest

theorem event_results_std_run (M : Machine) (ops : HashTableOps) (calls : List StdCall) :
    ∀ g : StdNums ops, event_results (std_run M ops calls g).1
      = (num_run M ops (event_nums calls) g.MR_standard_event_num_table
          g.MR_init_event_num_hash g.MR_next_std_event_num).1 := by
  induction calls with
  | nil => intro g; rfl
  | cons c rest ih =>
    intro g
    cases c with
    | event n =>
      simp only [std_run, event_results, event_nums, num_run, ih, MR_standardize_event_num]
    | call n =>
      simp only [std_run, event_results, event_nums, ih, MR_standardize_call_num]

theorem call_results_std_run (M : Machine) (ops : HashTableOps) (calls : List StdCall) :
    ∀ g : StdNums ops, call_results (std_run M ops calls g).1
      = (num_run M ops (call_nums calls) g.MR_standard_call_num_table
          g.MR_init_call_num_hash g.MR_next_std_call_num).1 := by
  induction calls with
  | nil => intro g; rfl
  | cons c rest ih =>
    intro g
    cases c with
    | event n =>
      simp only [std_run, call_results, call_nums, ih, MR_standardize_event_num]
    | call n =>
      simp only [std_run, call_results, call_nums, num_run, ih, MR_standardize_call_num]

/-- The table, flag and counter after the calls on the numbers `pre`. -/
def Good (M : Machine) (ops : HashTableOps) (pre : List Nat)
    (table : ops.Table) (init : Bool) (next : Int) : Prop :=
  next = to_int M (((first_seen pre).length : Int) + 1) ∧
  (init = false → pre = []) ∧
  (init = true → ∀ k, ops.MR_lookup_hash_table table k
    = if k ∈ pre then
        some { MR_std_orig_number := k, MR_std_std_number := std_of M (rank pre k) }
      else none)

theorem Good_step (M : Machine) (ops : HashTableOps) (pre : List Nat)
    (table : ops.Table) (init : Bool) (next : Int) (h : Good M ops pre table init next)
    (num : Nat) :
    (MR_standardize_num M ops num table init next).1 = std_of M (rank (pre ++ [num]) num) ∧
    Good M ops (pre ++ [num]) (MR_standardize_num M ops num table init next).2.1
      (MR_standardize_num M ops num table init next).2.2.1
      (MR_standardize_num M ops num table init next).2.2.2 := by
  obtain ⟨hn, h0, h1⟩ := h
  have hl : ∀ k, ops.MR_lookup_hash_table
      (if init = true then table else ops.MR_init_hash_table table) k
      = if k ∈ pre then
          some { MR_std_orig_number := k, MR_std_std_number := std_of M (rank pre k) }
        else none := by
    intro k
    cases init with
    | true => simpa using h1 rfl k
    | false =>
      have := h0 rfl
      subst this
      simp [ops.lookup_init]
  unfold MR_standardize_num
  simp only []
  by_cases hmem : num ∈ pre
  · have hfs : first_seen (pre ++ [num]) = first_seen pre := by
      rw [first_seen_snoc, seen_step, if_pos ((mem_first_seen pre num).2 hmem)]
    have hr : ∀ k, rank (pre ++ [num]) k = rank pre k := by
      intro k; unfold rank; rw [hfs]
    rw [hl num, if_pos hmem]
    simp only []
    refine ⟨by rw [hr], ?_, fun hx => (by cases hx), fun _ k => ?_⟩
    · rw [hfs]; exact hn
    · rw [hl k, hr k]
      have : k ∈ pre ++ [num] ↔ k ∈ pre := by
        simp only [List.mem_append, List.mem_singleton]
        constructor
        · rintro (hx | hx)
          · exact hx
          · rw [hx]; exact hmem
        · exact Or.inl
      simp only [this]
  · have hfs : first_seen (pre ++ [num]) = first_seen pre ++ [num] := by
      rw [first_seen_snoc, seen_step,
        if_neg (fun hx => hmem ((mem_first_seen pre num).1 hx))]
    have hrn : rank (pre ++ [num]) num = (first_seen pre).length :=
      rank_snoc_of_not_mem pre num hmem
    rw [hl num, if_neg hmem]
    simp only []
    have hstd : to_MR_Unsigned M next = std_of M (first_seen pre).length := by
      rw [hn]; rfl
    refine ⟨by rw [hstd, hrn], ?_, fun hx => (by cases hx), fun _ k => ?_⟩
    · rw [hfs, hn, to_int_to_int_add]
      simp only [List.length_append, List.length_singleton]
      push_cast
      rfl
    · rw [ops.lookup_insert _ _ _ (by
        show ops.MR_lookup_hash_table _ num = none
        rw [hl num, if_neg hmem])]
      simp only [MR_equal_orig_number, MR_get_orig_number, decide_eq_true_eq]
      by_cases hk : num = k
      · subst hk
        rw [if_pos rfl, if_pos (by simp), hstd, hrn]
      · rw [if_neg hk, hl k]
        by_cases hkp : k ∈ pre
        · rw [if_pos hkp, if_pos (by simp [hkp]), rank_append_of_mem pre [num] k hkp]
        · rw [if_neg hkp, if_neg (by
            simp only [List.mem_append, List.mem_singleton, not_or]
            exact ⟨hkp, fun hx => hk hx.symm⟩)]

/-- The results of the calls on `nums` after the calls on `pre`: each is the
rank, among the distinct numbers of all the calls so far, of its number. -/
theorem num_run_results (M : Machine) (ops : HashTableOps) (nums : List Nat) :
    ∀ (pre : List Nat) (table : ops.Table) (init : Bool) (next : Int),
      Good M ops pre table init next →
      (num_run M ops nums table init next).1
        = nums.map (fun n => (n, std_of M (rank (pre ++ nums) n))) := by
  induction nums with
  | nil => intro pre table init next _; rfl
  | cons n rest ih =>
    intro pre table init next h
    obtain ⟨h1, h2⟩ := Good_step M ops pre table init next h n
    simp only [num_run, List.map_cons, List.cons.injEq, Prod.mk.injEq, true_and]
    constructor
    · rw [h1]
      have : pre ++ n :: rest = (pre ++ [n]) ++ rest := by simp
      rw [this, rank_append_of_mem (pre ++ [n]) rest n (by simp)]
    · rw [ih (pre ++ [n]) _ _ _ h2]
      have : pre ++ n :: rest = (pre ++ [n]) ++ rest := by simp
      rw [this]

theorem event_nums_length_le (calls : List StdCall) :
    (event_nums calls).length ≤ calls.length := by
  induction calls with
  | nil => simp [event_nums]
  | cons c rest ih =>
    cases c with
    | event n => simp only [event_nums, List.length_cons]; omega
    | call n => simp only [event_nums, List.length_cons]; omega

theorem call_nums_length_le (calls : List StdCall) :
    (call_nums calls).length ≤ calls.length := by
  induction calls with
  | nil => simp [call_nums]
  | cons c rest ih =>
    cases c with
    | event n => simp only [call_nums, List.length_cons]; omega
    | call n => simp only [call_nums, List.length_cons]; omega

theorem split_at_index (nums : List Nat) (i n : Nat) (h : nums[i]? = some n) :
    nums = (nums.take i ++ [n]) ++ nums.drop (i + 1) := by
  obtain ⟨hi, hn⟩ := List.getElem?_eq_some.1 h
  have h1 := List.take_append_drop i nums
  rw [List.drop_eq_getElem_cons hi, hn] at h1
  rw [List.append_assoc]
  exact h1.symm

/-- What the results of the calls on one table are like when the counter
stays in range: sequential for new numbers, and stable and injective. -/
theorem results_standardized (M : Machine) (hM : 0 < M.int_bits)
    (hw : M.int_bits ≤ M.MR_Unsigned_bits + 1) (nums : List Nat)
    (hlen : nums.length < 2 ^ (M.int_bits - 1)) (r : List (Nat × Nat))
    (hr : r = nums.map (fun n => (n, std_of M (rank nums n)))) :
    (∀ i n s, r[i]? = some (n, s) → n ∉ (r.take i).map Prod.fst →
      s = (first_seen ((r.take i).map Prod.fst)).length + 1) ∧
    (∀ p ∈ r, ∀ q ∈ r, p.1 = q.1 ↔ p.2 = q.2) := by
  have hstd : ∀ n, n ∈ nums → std_of M (rank nums n) = rank nums n + 1 := by
    intro n hn
    have h1 := rank_lt nums n hn
    have h2 := first_seen_length_le nums
    exact std_of_small M hM hw _ (by omega)
  have hfst : ∀ i, (r.take i).map Prod.fst = nums.take i := by
    intro i
    rw [hr, ← List.map_take, List.map_map]
    exact List.map_id _
  constructor
  · intro i n s hi hnew
    rw [hfst] at hnew ⊢
    rw [hr, List.getElem?_map] at hi
    cases hx : nums[i]? with
    | none => rw [hx] at hi; cases hi
    | some x =>
      rw [hx] at hi
      simp only [Option.map_some', Option.some.injEq, Prod.mk.injEq] at hi
      obtain ⟨h1, h2⟩ := hi
      subst h1
      have hmem : x ∈ nums := by
        obtain ⟨hlt, hget⟩ := List.getElem?_eq_some.1 hx
        rw [← hget]
        exact List.getElem_mem hlt
      rw [← h2, hstd x hmem]
      have hsplit := split_at_index nums i x hx
      have : rank nums x = rank (nums.take i ++ [x]) x := by
        conv_lhs => rw [hsplit]
        exact rank_append_of_mem _ _ _ (by simp)
      rw [this, rank_snoc_of_not_mem _ _ hnew]
  · intro p hp q hq
    rw [hr, List.mem_map] at hp hq
    obtain ⟨n1, hn1, rfl⟩ := hp
    obtain ⟨n2, hn2, rfl⟩ := hq
    simp only []
    rw [hstd n1 hn1, hstd n2 hn2]
    constructor
    · intro h; rw [h]
    · intro h
      have h3 : rank nums n1 = rank nums n2 := by omega
      exact (List.indexOf_inj ((mem_first_seen nums n1).2 hn1)
        ((mem_first_seen nums n2).2 hn2)).1 h3

theorem Good_initial (M : Machine) (hM : 2 ≤ M.int_bits) (ops : HashTableOps) :
    Good M ops [] ops.static_table false 1 := by
  refine ⟨?_, fun _ => rfl, fun h => by cases h⟩
  have h1 : (1 : Int) < 2 ^ (M.int_bits - 1) := by
    have : (2 : Int) ^ 1 ≤ 2 ^ (M.int_bits - 1) :=
      pow_le_pow_right₀ (by norm_num) (by omega)
    omega
  have := to_int_of_small M (by omega) 1 (by omega) h1
  simp [first_seen, this]

/-- Claim C25.  Number standardization is stable, sequential and injective,
as long as the `int` counters stay in range: the sequence has fewer than
`2 ^ (int_bits - 1)` calls (the overflow of an `int` is not defined).  From the
initial state, for every sequence of calls of `MR_standardize_event_num` and
`MR_standardize_call_num`, and for the results `r` of the calls of either
function, in order: a call with a number not seen before returns the number of
distinct numbers seen before plus one (1 for the first distinct number, 2 for
the second, and so on); calls with the same number return the same standard
number and calls with distinct numbers return distinct standard numbers.  The
results of the calls of either function are those of the same calls made
alone on its own table and counter: the calls of the other function do not
affect them. -/
theorem number_standardization (M : Machine) (hM : 2 ≤ M.int_bits)
    (hw : M.int_bits ≤ M.MR_Unsigned_bits + 1) (ops : HashTableOps) (calls : List StdCall)
    (hlen : calls.length < 2 ^ (M.int_bits - 1)) :
    let run := (std_run M ops calls (StdNums.initial ops)).1
    (∀ r, (r = event_results run ∨ r = call_results run) →
      (∀ i n s, r[i]? = some (n, s) → n ∉ (r.take i).map Prod.fst →
        s = (first_seen ((r.take i).map Prod.fst)).length + 1) ∧
      (∀ p ∈ r, ∀ q ∈ r, p.1 = q.1 ↔ p.2 = q.2)) ∧
    event_results run = (num_run M ops (event_nums calls) ops.static_table false 1).1 ∧
    call_results run = (num_run M ops (call_nums calls) ops.static_table false 1).1 := by
  intro run
  have he : event_results run
      = (num_run M ops (event_nums calls) ops.static_table false 1).1 :=
    event_results_std_run M ops calls (StdNums.initial ops)
  have hc : call_results run
      = (num_run M ops (call_nums calls) ops.static_table false 1).1 :=
    call_results_std_run M ops calls (StdNums.initial ops)
  refine ⟨?_, he, hc⟩
  rintro r (hr | hr)
  · refine results_standardized M (by omega) hw (event_nums calls)
      (lt_of_le_of_lt (event_nums_length_le calls) hlen) r ?_
    rw [hr, he, num_run_results M ops _ [] _ _ _ (Good_initial M hM ops)]
    simp
  · refine results_standardized M (by omega) hw (call_nums calls)
      (lt_of_le_of_lt (call_nums_length_le calls) hlen) r ?_
    rw [hr, hc, num_run_results M ops _ [] _ _ _ (Good_initial M hM ops)]
    simp

/-- Hash tables with chained buckets: the bucket of a key is chosen by
`MR_hash_orig_number`, and a record is found in its bucket by
`MR_equal_orig_number` on its key. -/
def bucket_table (M : Machine) : HashTableOps where
  Table := Int → List MR_Standard_Hash_Record
  static_table := fun _ => []
  MR_init_hash_table := fun _ _ => []
  MR_lookup_hash_table := fun t k =>
    (t (MR_hash_orig_number M k)).find? (fun r => MR_equal_orig_number (MR_get_orig_number r) k)
  MR_insert_hash_table := fun t r b =>
    if b = MR_hash_orig_number M (MR_get_orig_number r) then r :: t b else t b
  lookup_init := fun _ _ => rfl
  lookup_insert := by
    intro t r k _
    by_cases hk : MR_equal_orig_number (MR_get_orig_number r) k = true
    · have hk2 : MR_get_orig_number r = k := by
        simpa [MR_equal_orig_number] using hk
      simp only [hk, if_true]
      rw [← hk2]
      simp [MR_equal_orig_number]
    · simp only [hk, if_false]
      by_cases hb : MR_hash_orig_number M k = MR_hash_orig_number M (MR_get_orig_number r)
      · simp only [hb, if_true]
        rw [List.find?_cons_of_neg _ (by simpa using hk)]
        simp
      · simp only [hb, if_false]
        simp

/-- Three event numbers and three call numbers, interleaved, on a 64-bit
platform with the bucket tables: the event numbers 100, 200, 100 get 1, 2, 1
and the call numbers 7, 7, 9 get 1, 1, 2. -/
theorem number_standardization_witness :
    2 ≤ Machine.lp64.int_bits ∧
    Machine.lp64.int_bits ≤ Machine.lp64.MR_Unsigned_bits + 1 ∧
    [StdCall.event 100, StdCall.call 7, StdCall.event 200, StdCall.event 100,
      StdCall.call 7, StdCall.call 9].length < 2 ^ (Machine.lp64.int_bits - 1) ∧
    (std_run Machine.lp64 (bucket_table Machine.lp64)
        [StdCall.event 100, StdCall.call 7, StdCall.event 200, StdCall.event 100,
          StdCall.call 7, StdCall.call 9]
        (StdNums.initial (bucket_table Machine.lp64))).1
      = [(StdCall.event 100, 1), (StdCall.call 7, 1), (StdCall.event 200, 2),
         (StdCall.event 100, 1), (StdCall.call 7, 1), (StdCall.call 9, 2)] ∧
    (let run := (std_run Machine.lp64 (bucket_table Machine.lp64)
        [StdCall.event 100, StdCall.call 7, StdCall.event 200, StdCall.event 100,
          StdCall.call 7, StdCall.call 9]
        (StdNums.initial (bucket_table Machine.lp64))).1
    (∀ r, (r = event_results run ∨ r = call_results run) →
      (∀ i n s, r[i]? = some (n, s) → n ∉ (r.take i).map Prod.fst →
        s = (first_seen ((r.take i).map Prod.fst)).length + 1) ∧
      (∀ p ∈ r, ∀ q ∈ r, p.1 = q.1 ↔ p.2 = q.2)) ∧
    event_results run
      = (num_run Machine.lp64 (bucket_table Machine.lp64)
          (event_nums [StdCall.event 100, StdCall.call 7, StdCall.event 200,
            StdCall.event 100, StdCall.call 7, StdCall.call 9])
          (bucket_table Machine.lp64).static_table false 1).1 ∧
    call_results run
      = (num_run Machine.lp64 (bucket_table Machine.lp64)
          (call_nums [StdCall.event 100, StdCall.call 7, StdCall.event 200,
            StdCall.event 100, StdCall.call 7, StdCall.call 9])
          (bucket_table Machine.lp64).static_table false 1).1) :=
  ⟨by decide, by decide, by decide, by decide,
   number_standardization Machine.lp64 (by decide) (by decide) (bucket_table Machine.lp64)
    [StdCall.event 100, StdCall.call 7, StdCall.event 200, StdCall.event 100,
      StdCall.call 7, StdCall.call 9] (by decide)⟩

/-! ## Quoted atoms -/

/-- A `FILE` stream: the bytes written to it so far. -/
abbrev Stream := List Int

/-- The C library `fputc`: the character as an `unsigned char`. -/
def fputc (c : Int) (fp : Stream) : Stream := fp ++ [c % 256]

/-- The C library `fputs`. -/
def fputs (s : CString) (fp : Stream) : Stream := fp ++ s

/-- The C library `isalnum` in the "C" locale: a digit or a letter. -/
def isalnum (c : Int) : Bool :=
  (decide (48 ≤ c) && decide (c ≤ 57)) || (decide (65 ≤ c) && decide (c ≤ 90)) ||
  (decide (97 ≤ c) && decide (c ≤ 122))

/-- The C library `strchr`, compared with `NULL`: the character occurs in the
string or is its terminating NUL. -/
def strchr (s : CString) (c : Int) : Bool := decide (c ∈ s) || decide (c = 0)

/-- The digits of `n` in base 8, as characters, at least `width` of them:
what `printf` writes for `%0<width>o`. -/
def octal (width n : Nat) : CString :=
  let digits := (Nat.toDigits 8 n).map (fun d => (d.toNat : Int))
  List.replicate (width - digits.length) 48 ++ digits

/-- The call `fprintf(fp, "\\%03o\\", c)`: the `int` argument is read as an
`unsigned int`. -/
def fprintf_octal_escape (M : Machine) (c : Int) (fp : Stream) : Stream :=
  fp ++ [92] ++ octal 3 (c % 2 ^ M.int_bits).toNat ++ [92]

/-- The string literal of the call of `strchr`: the characters
``␣!@#$%^&*()-_+=`~{}[];:'"<>.,/?\|``. -/
def punctuation : CString :=
  [32, 33, 64, 35, 36, 37, 94, 38, 42, 40, 41, 45, 95, 43, 61, 96, 126, 123, 125, 91, 93,
   59, 58, 39, 34, 60, 62, 46, 44, 47, 63, 92, 124]

/-- The body of the loop of `MR_trace_write_quoted_atom`: the `switch` on one
character.  The codes are 39 for the single quote, 34 for the double quote, 92
for the backslash, 10, 9 and 8 for newline, tab and backspace, and 110, 116
and 98 for the letters n, t and b. -/
def write_quoted_char (M : Machine) (c : Int) (fp : Stream) : Stream :=
  if c = 39 then fputs [92, 39] fp
  else if c = 34 then fputs [92, 34] fp
  else if c = 92 then fputs [92, 92] fp
  else if c = 10 then fputs [92, 110] fp
  else if c = 9 then fputs [92, 116] fp
  else if c = 8 then fputs [92, 98] fp
  else if isalnum c || strchr punctuation c then fputc c fp
  else fprintf_octal_escape M c fp

/-- The loop `for (c = atom; *c != '\0'; c++)` over the characters at
`atom`. -/
def quoted_atom_loop (M : Machine) : CString → Stream → Stream
  | [], fp => fp
  | c :: rest, fp =>
    if c = 0 then fp else quoted_atom_loop M rest (write_quoted_char M c fp)

/-- The function `MR_trace_write_quoted_atom`. -/
def MR_trace_write_quoted_atom (M : Machine) (fp : Stream) (atom : CString) : Stream :=
  let fp := fputc 39 fp
  let fp := quoted_atom_loop M atom fp
  fputc 39 fp

/-- The characters of the C string at `atom`: those before the first NUL. -/
def c_string (atom : CString) : CString := atom.takeWhile (fun c => decide (c ≠ 0))

/-- The encoding of one character as the claim words it: the six
two-character escapes; an alphanumeric or listed punctuation character as
itself; any other character as a backslash, its value (taken as an
`unsigned int`) in octal with at least three digits, and a backslash. -/
def quoted_char (M : Machine) (c : Int) : CString :=
  if c = 39 then [92, 39]
  else if c = 34 then [92, 34]
  else if c = 92 then [92, 92]
  else if c = 10 then [92, 110]
  else if c = 9 then [92, 116]
  else if c = 8 then [92, 98]
  else if isalnum c = true ∨ c ∈ punctuation then [c]
  else [92] ++ octal 3 (c % 2 ^ M.int_bits).toNat ++ [92]

theorem plain_char_range (c : Int) (h : isalnum c = true ∨ c ∈ punctuation) :
    32 ≤ c ∧ c ≤ 126 := by
  rcases h with h | h
  · simp only [isalnum, Bool.or_eq_true, Bool.and_eq_true, decide_eq_true_eq] at h
    omega
  · simp only [punctuation, List.mem_cons, List.mem_singleton, List.not_mem_nil, or_false] at h
    omega

theorem write_quoted_char_eq (M : Machine) (c : Int) (hc : c ≠ 0) (fp : Stream) :
    write_quoted_char M c fp = fp ++ quoted_char M c := by
  unfold write_quoted_char quoted_char
  split_ifs with h1 h2 h3 h4 h5 h6 h7 h8 h8
  · rfl
  · rfl
  · rfl
  · rfl
  · rfl
  · rfl
  · have := plain_char_range c h8
    unfold fputc
    rw [Int.emod_eq_of_lt (by omega) (by omega)]
  · exfalso
    apply h8
    simp only [Bool.or_eq_true, strchr, decide_eq_true_eq] at h7
    rcases h7 with h7 | h7 | h7
    · exact Or.inl h7
    · exact Or.inr h7
    · exact absurd h7 hc
  · exfalso
    apply h7
    simp only [Bool.or_eq_true, strchr, decide_eq_true_eq]
    rcases h8 with h8 | h8
    · exact Or.inl h8
    · exact Or.inr (Or.inl h8)
  · simp [fprintf_octal_escape, List.append_assoc]

theorem quoted_atom_loop_eq (M : Machine) (atom : CString) :
    ∀ fp : Stream, quoted_atom_loop M atom fp
      = fp ++ (c_string atom).flatMap (quoted_char M) := by
  induction atom with
  | nil => intro fp; simp [quoted_atom_loop, c_string]
  | cons c rest ih =>
    intro fp
    unfold quoted_atom_loop c_string
    by_cases hc : c = 0
    · simp [hc]
    · rw [if_neg hc, ih, write_quoted_char_eq M c hc]
      simp [List.takeWhile, hc, c_string, List.append_assoc]

/-- Claim C23.  `MR_trace_write_quoted_atom` always uses quotes: for every
atom string, what it writes is a single quote, then the encodings of the
characters of the atom, in order, then a single quote.  The encoding of a
character is `quoted_char`: the single quote, the double quote, the backslash,
newline, tab and backspace as the two-character escapes backslash-quote,
backslash-double-quote, backslash-backslash, backslash-n, backslash-t and
backslash-b; every other alphanumeric or listed punctuation character as
itself; every remaining character as a backslash, its value in octal with at
least three digits, and a backslash (the value is the one `printf` reads: the
character as an `unsigned int`).  The empty atom yields exactly two quote
characters. -/
theorem quoted_atom_always_quotes (M : Machine) (fp : Stream) (atom : CString) :
    MR_trace_write_quoted_atom M fp atom
      = fp ++ [39] ++ (c_string atom).flatMap (quoted_char M) ++ [39] ∧
    MR_trace_write_quoted_atom M fp [] = fp ++ [39, 39] ∧
    (∀ n, 3 ≤ (octal 3 n).length) := by
  refine ⟨?_, ?_, ?_⟩
  · unfold MR_trace_write_quoted_atom
    simp only [fputc, quoted_atom_loop_eq]
    rfl
  · simp [MR_trace_write_quoted_atom, fputc, quoted_atom_loop]
  · intro n
    unfold octal
    simp only [List.length_append, List.length_replicate, List.length_map]
    omega

/-- Read one encoded character from the front of the interior of a quoted
atom: a plain character, a two-character escape or an octal escape of three
digits; the character and the rest. -/
def read_quoted_char : CString → Option (Int × CString)
  | [] => none
  | c :: rest =>
    if c ≠ 92 then some (c, rest)
    else
      match rest with
      | [] => none
      | e :: rest2 =>
        if e = 39 then some (39, rest2)
        else if e = 34 then some (34, rest2)
        else if e = 92 then some (92, rest2)
        else if e = 110 then some (10, rest2)
        else if e = 116 then some (9, rest2)
        else if e = 98 then some (8, rest2)
        else
          match rest2 with
          | d2 :: d3 :: _ :: rest3 => some ((e - 48) * 64 + (d2 - 48) * 8 + (d3 - 48), rest3)
          | _ => none

theorem quoted_char_small (M : Machine) (hM : 7 ≤ M.int_bits) (c : Int)
    (h1 : 1 ≤ c) (h2 : c ≤ 127) :
    quoted_char M c = quoted_char Machine.ilp32 c := by
  have hp : (2 : Int) ^ 7 ≤ 2 ^ M.int_bits := pow_le_pow_right₀ (by norm_num) hM
  have e1 : c % 2 ^ M.int_bits = c := Int.emod_eq_of_lt (by omega) (by omega)
  have e2 : c % 2 ^ Machine.ilp32.int_bits = c :=
    Int.emod_eq_of_lt (by omega) (by
      have : (2 : Int) ^ Machine.ilp32.int_bits = 4294967296 := by decide
      omega)
  unfold quoted_char
  rw [e1, e2]

theorem read_quoted_char_ilp32 (c : Int) (h1 : 1 ≤ c) (h2 : c ≤ 127) (rest : CString) :
    read_quoted_char (quoted_char Machine.ilp32 c ++ rest) = some (c, rest) := by
  interval_cases c <;> rfl

theorem c_string_of_nonzero (atom : CString) (h : ∀ c ∈ atom, 1 ≤ c ∧ c ≤ 127) :
    c_string atom = atom := by
  induction atom with
  | nil => rfl
  | cons c rest ih =>
    have hc : c ≠ 0 := by
      have := h c (List.mem_cons_self _ _)
      omega
    unfold c_string at ih ⊢
    rw [List.takeWhile_cons_of_pos (by simpa using hc),
      ih (fun x hx => h x (List.mem_cons_of_mem _ hx))]

theorem read_quoted_char_eq (M : Machine) (hM : 7 ≤ M.int_bits) (c : Int)
    (h1 : 1 ≤ c) (h2 : c ≤ 127) (rest : CString) :
    read_quoted_char (quoted_char M c ++ rest) = some (c, rest) := by
  rw [quoted_char_small M hM c h1 h2]
  exact read_quoted_char_ilp32 c h1 h2 rest

/-- The interior of the quoted atom determines the atom. -/
theorem quoted_interior_injective (M : Machine) (hM : 7 ≤ M.int_bits) (a : CString) :
    ∀ b : CString, (∀ c ∈ a, 1 ≤ c ∧ c ≤ 127) → (∀ c ∈ b, 1 ≤ c ∧ c ≤ 127) →
      a.flatMap (quoted_char M) = b.flatMap (quoted_char M) → a = b := by
  induction a with
  | nil =>
    intro b _ hb h
    cases b with
    | nil => rfl
    | cons c rest =>
      have hc := hb c (List.mem_cons_self _ _)
      have h3 := read_quoted_char_eq M hM c hc.1 hc.2 (rest.flatMap (quoted_char M))
      simp only [List.flatMap_nil, List.flatMap_cons] at h
      rw [← h] at h3
      simp [read_quoted_char] at h3
  | cons x xs ih =>
    intro b ha hb h
    have hx := ha x (List.mem_cons_self _ _)
    have h1 := read_quoted_char_eq M hM x hx.1 hx.2 (xs.flatMap (quoted_char M))
    cases b with
    | nil =>
      simp only [List.flatMap_nil, List.flatMap_cons] at h
      rw [h] at h1
      simp [read_quoted_char] at h1
    | cons c rest =>
      have hc := hb c (List.mem_cons_self _ _)
      have h2 := read_quoted_char_eq M hM c hc.1 hc.2 (rest.flatMap (quoted_char M))
      simp only [List.flatMap_cons] at h
      rw [h, h2] at h1
      simp only [Option.some.injEq, Prod.mk.injEq] at h1
      rw [h1.1, ih rest (fun y hy => ha y (List.mem_cons_of_mem _ hy))
        (fun y hy => hb y (List.mem_cons_of_mem _ hy)) h1.2.symm]

/-- Claim C24.  Quoting is injective on atoms of characters with codes 1 to
127 (with an `unsigned int` of at least 7 bits): two such atoms for which
`MR_trace_write_quoted_atom` writes the same are the same atom.  The interior
of the output decomposes uniquely: reading it from the left,
`read_quoted_char` finds an encoded character (a plain character, a
two-character escape or a backslash, three octal digits and a backslash) and
yields the character of the atom and the rest.  A single quote occurs in the
encoding of a character only as the second character of the escape
backslash-quote, so no unescaped single quote occurs before the closing
quote. -/
theorem quoting_injective (M : Machine) (hM : 7 ≤ M.int_bits) :
    (∀ a b : CString, (∀ c ∈ a, 1 ≤ c ∧ c ≤ 127) → (∀ c ∈ b, 1 ≤ c ∧ c ≤ 127) →
      ∀ fp : Stream, MR_trace_write_quoted_atom M fp a = MR_trace_write_quoted_atom M fp b →
        a = b) ∧
    (∀ (c : Int) (rest : CString), 1 ≤ c → c ≤ 127 →
      read_quoted_char (quoted_char M c ++ rest) = some (c, rest)) ∧
    (∀ c : Int, 1 ≤ c → c ≤ 127 → 39 ∈ quoted_char M c → quoted_char M c = [92, 39]) := by
  refine ⟨?_, fun c rest h1 h2 => read_quoted_char_eq M hM c h1 h2 rest, ?_⟩
  · intro a b ha hb fp h
    unfold MR_trace_write_quoted_atom at h
    simp only [fputc, quoted_atom_loop_eq, c_string_of_nonzero a ha,
      c_string_of_nonzero b hb] at h
    have h2 := List.append_cancel_right h
    have h3 := List.append_cancel_left h2
    exact quoted_interior_injective M hM a b ha hb h3
  · intro c h1 h2
    rw [quoted_char_small M hM c h1 h2]
    interval_cases c <;> decide

/-- The atoms "it's" and "its" on a 32-bit platform: the outputs differ, and
the quote of the first is written as backslash-quote. -/
theorem quoting_injective_witness :
    7 ≤ Machine.ilp32.int_bits ∧
    MR_trace_write_quoted_atom Machine.ilp32 [] [105, 116, 39, 115]
      = [39, 105, 116, 92, 39, 115, 39] ∧
    MR_trace_write_quoted_atom Machine.ilp32 [] [105, 116, 115] = [39, 105, 116, 115, 39] ∧
    MR_trace_write_quoted_atom Machine.ilp32 [] [7] = [39, 92, 48, 48, 55, 92, 39] ∧
    (MR_trace_write_quoted_atom Machine.ilp32 [] [105, 116, 39, 115]
        = MR_trace_write_quoted_atom Machine.ilp32 [] [105, 116, 115] →
      ([105, 116, 39, 115] : CString) = [105, 116, 115]) :=
  ⟨by decide, by decide, by decide, by decide,
   (quoting_injective Machine.ilp32 (by decide)).1 [105, 116, 39, 115] [105, 116, 115]
    (by decide) (by decide) []⟩

/-! ## Writing the execution counts -/

/-- The characters of a string literal. -/
def str (s : String) : CString := s.toList.map (fun ch => (ch.toNat : Int))

/-- The decimal digits of `n`, as characters. -/
def decimal (n : Nat) : CString := (Nat.toDigits 10 n).map (fun d => (d.toNat : Int))

/-- What `printf` writes for `%d` with the `int` argument `x`. -/
def printf_d (x : Int) : CString :=
  if x < 0 then 45 :: decimal (-x).toNat else decimal x.toNat

/-- What `printf` writes for `%u`: the argument read as an `unsigned int`. -/
def printf_u (M : Machine) (x : Nat) : CString := decimal (x % 2 ^ M.int_bits)

/-- The enum `MR_PathPort` (declared in a header outside the sources at
hand); `other` is any value that is none of the three enumerators. -/
inductive MR_PathPort where
  | PORT_ONLY
  | PATH_ONLY
  | PORT_AND_PATH
  | other (value : Nat)
  deriving DecidableEq, Repr

/-- The values of the enum `MR_Trace_Port` (declared in a header outside the
sources at hand), in the order of the array `MR_port_names`, which they
index. -/
def MR_PORT_CALL : Nat := 0

/-- See `MR_PORT_CALL`. -/
def MR_PORT_EXIT : Nat := 1

/-- See `MR_PORT_CALL`. -/
def MR_PORT_REDO : Nat := 2

/-- See `MR_PORT_CALL`. -/
def MR_PORT_FAIL : Nat := 3

/-- See `MR_PORT_CALL`. -/
def MR_PORT_NEG_ENTER : Nat := 8

/-- See `MR_PORT_CALL`. -/
def MR_PORT_NEG_SUCCESS : Nat := 9

/-- See `MR_PORT_CALL`. -/
def MR_PORT_NEG_FAILURE : Nat := 10

/-- See `MR_PORT_CALL`. -/
def MR_PORT_NONE : Nat := 15

/-- The array `MR_port_names`. -/
def MR_port_names (port : Nat) : CString :=
  str (["CALL", "EXIT", "REDO", "FAIL", "EXCP", "COND", "THEN", "ELSE", "NEGE", "NEGS",
        "NEGF", "DISJ", "SWTC", "FRST", "LATR", "NONE"].getD port "")

/-- Constants from headers outside the sources at hand: the string
`MR_TRACE_COUNT_FILE_ID` and the value `MR_PREDICATE`. -/
structure CountsCfg where
  MR_TRACE_COUNT_FILE_ID : CString
  MR_PREDICATE : Nat

/-- The global variables that `MR_trace_write_label_exec_counts` reads or
writes; `done` is the static flag of
`MR_trace_name_count_port_ensure_init`. -/
structure CountsGlobals where
  MR_coverage_test_enabled : Bool
  MR_module_infos : Nat → Nat
  MR_module_info_next : Int
  MR_named_count_port : Nat → MR_PathPort
  done : Bool

/-- An array with element `i` set to `v`. -/
def set_port (a : Nat → MR_PathPort) (i : Nat) (v : MR_PathPort) : Nat → MR_PathPort :=
  fun j => if j = i then v else a j

/-- The function `MR_trace_name_count_port_ensure_init`. -/
def MR_trace_name_count_port_ensure_init (g : CountsGlobals) : CountsGlobals :=
  if ! g.done then
    let t := for_upto (MR_PORT_NONE + 1 - MR_PORT_CALL)
      (fun i t => set_port t (MR_PORT_CALL + i) MR_PathPort.PATH_ONLY) g.MR_named_count_port
    let t := set_port t MR_PORT_CALL MR_PathPort.PORT_ONLY
    let t := set_port t MR_PORT_EXIT MR_PathPort.PORT_ONLY
    let t := set_port t MR_PORT_REDO MR_PathPort.PORT_ONLY
    let t := set_port t MR_PORT_FAIL MR_PathPort.PORT_ONLY
    let t := set_port t MR_PORT_NEG_ENTER MR_PathPort.PORT_AND_PATH
    let t := set_port t MR_PORT_NEG_SUCCESS MR_PathPort.PORT_AND_PATH
    let t := set_port t MR_PORT_NEG_FAILURE MR_PathPort.PORT_AND_PATH
    { g with MR_named_count_port := t, done := true }
  else g

/-- What the loops of `MR_trace_write_label_exec_counts` carry: the stream,
`prev_proc`, and, as a ghost, the labels a count line was written for (module
number, file number, label number), newest first. -/
structure CountsLoop where
  fp : Stream
  prev_proc : Nat
  emitted : List (Nat × Nat × Nat)
  deriving DecidableEq, Repr

/-- The loop `for (i = 0; i < n; i++) body`, with a body that can stop in a
fatal error. -/
def for_result {σ : Type} (n : Nat) (body : Nat → σ → Result σ) (s : σ) : Result σ :=
  (List.range n).foldl
    (fun r i => match r with
      | Result.ok s => body i s
      | Result.fatal_error msg => Result.fatal_error msg)
    (Result.ok s)

/-- The lines `proc ...` of a procedure. -/
def write_proc_line (M : Machine) (c : CountsCfg) (id : MR_User_Proc_Id) (fp : Stream) :
    Stream :=
  let fp := fp ++ str "proc "
  let fp := MR_trace_write_quoted_atom M fp id.MR_user_def_module
  let fp := fp ++ str " " ++
    [if id.MR_user_pred_or_func = c.MR_PREDICATE then 112 else 102] ++ str " "
  let fp := MR_trace_write_quoted_atom M fp id.MR_user_decl_module
  let fp := fputc 32 fp
  let fp := MR_trace_write_quoted_atom M fp id.MR_user_name
  fp ++ str " " ++ printf_d id.MR_user_arity ++ str " " ++ printf_d id.MR_user_mode ++ str "\n"

/-- The condition under which the body of the label loop writes: the
procedure is not a unify, compare or index procedure, the number of the label
in its module is not 0, and the label has been executed or the coverage test
is enabled. -/
def writes_count (g : CountsGlobals) (L : Layouts) (counters : Counters)
    (module_ label : Nat) : Bool :=
  let proc := (L.label label).MR_sll_entry
  let label_index := (L.label label).MR_sll_label_num_in_module
  let exec_count := counters ((L.module module_).MR_ml_label_exec_count + label_index)
  ! (L.proc proc).is_uci && decide (label_index > 0) &&
    (decide (exec_count > 0) || g.MR_coverage_test_enabled)

/-- The body of the label loop of `MR_trace_write_label_exec_counts`. -/
def write_label (M : Machine) (c : CountsCfg) (g : CountsGlobals) (L : Layouts)
    (counters : Counters) (module_num file_num module_ file label_num : Nat)
    (s : CountsLoop) : Result CountsLoop :=
  let label := (L.file file).MR_mfl_label_layout label_num
  let proc := (L.label label).MR_sll_entry
  let label_index := (L.label label).MR_sll_label_num_in_module
  let exec_count := counters ((L.module module_).MR_ml_label_exec_count + label_index)
  if ! (L.proc proc).is_uci && decide (label_index > 0) &&
      (decide (exec_count > 0) || g.MR_coverage_test_enabled) then
    let id := (L.proc proc).MR_sle_user
    let fp := if proc ≠ s.prev_proc then write_proc_line M c id s.fp else s.fp
    let port := (L.label label).MR_sll_port
    let path_port := g.MR_named_count_port port
    let line : Result Stream :=
      match path_port with
      | MR_PathPort.PORT_ONLY =>
        Result.ok (fp ++ MR_port_names port ++ str " " ++ printf_u M exec_count)
      | MR_PathPort.PATH_ONLY =>
        Result.ok (fp ++ str "<" ++ (L.label label).goal_path ++ str "> "
          ++ printf_u M exec_count)
      | MR_PathPort.PORT_AND_PATH =>
        Result.ok (fp ++ MR_port_names port ++ str " <" ++ (L.label label).goal_path
          ++ str "> " ++ printf_u M exec_count)
      | MR_PathPort.other _ =>
        Result.fatal_error "MR_trace_write_label_exec_counts: bad path_port"
    match line with
    | Result.fatal_error msg => Result.fatal_error msg
    | Result.ok fp =>
      let fp := fp ++ str " " ++ printf_d ((L.file file).MR_mfl_label_lineno label_num)
        ++ str "\n"
      Result.ok { fp := fp, prev_proc := proc,
                  emitted := (module_num, file_num, label_num) :: s.emitted }
  else Result.ok s

/-- The body of the file loop. -/
def write_file (M : Machine) (c : CountsCfg) (g : CountsGlobals) (L : Layouts)
    (counters : Counters) (module_num module_ file_num : Nat) (s : CountsLoop) :
    Result CountsLoop :=
  let file := (L.module module_).MR_ml_module_file_layout file_num
  let fp := s.fp ++ str "file "
  let fp := MR_trace_write_quoted_atom M fp (L.file file).MR_mfl_filename
  let fp := fp ++ str "\n"
  let num_labels := (L.file file).MR_mfl_label_count
  for_result num_labels.toNat
    (write_label M c g L counters module_num file_num module_ file) { s with fp := fp }

/-- The body of the module loop. -/
def write_module (M : Machine) (c : CountsCfg) (g : CountsGlobals) (L : Layouts)
    (counters : Counters) (module_num : Nat) (s : CountsLoop) : Result CountsLoop :=
  let module_ := g.MR_module_infos module_num
  let num_files := (L.module module_).MR_ml_filename_count
  for_result num_files.toNat (write_file M c g L counters module_num module_) s

/-- The function `MR_trace_write_label_exec_counts`: the globals after the
call and what the loops end with. -/
def MR_trace_write_label_exec_counts (M : Machine) (c : CountsCfg) (g : CountsGlobals)
    (L : Layouts) (counters : Counters) (fp : Stream) : CountsGlobals × Result CountsLoop :=
  let g := MR_trace_name_count_port_ensure_init g
  let fp := fp ++ c.MR_TRACE_COUNT_FILE_ID
  let fp := if g.MR_coverage_test_enabled then fp ++ str "user_all\n"
    else fp ++ str "user_nonzero\n"
  let prev_proc := 0
  let num_modules := g.MR_module_info_next
  (g, for_result num_modules.toNat (write_module M c g L counters)
    { fp := fp, prev_proc := prev_proc, emitted := [] })

theorem for_result_succ {σ : Type} (n : Nat) (body : Nat → σ → Result σ) (s : σ) :
    for_result (n + 1) body s
      = match for_result n body s with
        | Result.ok s => body n s
        | Result.fatal_error msg => Result.fatal_error msg := by
  simp [for_result, List.range_succ]

/-- A loop whose rounds return and add to the labels written the labels `P i`
returns, and has added the labels of all its rounds. -/
theorem for_result_emitted (n : Nat) (body : Nat → CountsLoop → Result CountsLoop)
    (P : Nat → Nat × Nat × Nat → Prop)
    (hbody : ∀ i, i < n → ∀ s, ∃ t, body i s = Result.ok t ∧
      ∀ x, x ∈ t.emitted ↔ x ∈ s.emitted ∨ P i x) :
    ∀ s, ∃ t, for_result n body s = Result.ok t ∧
      ∀ x, x ∈ t.emitted ↔ x ∈ s.emitted ∨ ∃ i, i < n ∧ P i x := by
  induction n with
  | zero =>
    intro s
    exact ⟨s, by simp [for_result], fun x => by simp⟩
  | succ n ih =>
    intro s
    obtain ⟨t, ht, hx⟩ := ih (fun i hi => hbody i (Nat.lt_succ_of_lt hi)) s
    obtain ⟨u, hu, hy⟩ := hbody n (Nat.lt_succ_self n) t
    refine ⟨u, by rw [for_result_succ, ht]; exact hu, fun x => ?_⟩
    rw [hy x, hx x]
    constructor
    · rintro ((h | ⟨i, hi, h⟩) | h)
      · exact Or.inl h
      · exact Or.inr ⟨i, Nat.lt_succ_of_lt hi, h⟩
      · exact Or.inr ⟨n, Nat.lt_succ_self n, h⟩
    · rintro (h | ⟨i, hi, h⟩)
      · exact Or.inl (Or.inl h)
      · rcases Nat.lt_succ_iff_lt_or_eq.1 hi with h1 | h1
        · exact Or.inl (Or.inr ⟨i, h1, h⟩)
        · rw [h1] at h; exact Or.inr h

theorem write_label_emitted (M : Machine) (c : CountsCfg) (g : CountsGlobals) (L : Layouts)
    (counters : Counters) (module_num file_num module_ file label_num : Nat)
    (hport : writes_count g L counters module_ ((L.file file).MR_mfl_label_layout label_num)
        = true →
      ∀ v, g.MR_named_count_port
        (L.label ((L.file file).MR_mfl_label_layout label_num)).MR_sll_port
          ≠ MR_PathPort.other v)
    (s : CountsLoop) :
    ∃ t, write_label M c g L counters module_num file_num module_ file label_num s
        = Result.ok t ∧
      ∀ x, x ∈ t.emitted ↔ x ∈ s.emitted ∨
        (x = (module_num, file_num, label_num) ∧
          writes_count g L counters module_ ((L.file file).MR_mfl_label_layout label_num)
            = true) := by
  unfold write_label
  simp only []
  by_cases hw : writes_count g L counters module_
      ((L.file file).MR_mfl_label_layout label_num) = true
  · have hp := hport hw
    have hw2 := hw
    unfold writes_count at hw2
    simp only [] at hw2
    rw [if_pos hw2]
    cases hpp : g.MR_named_count_port
        (L.label ((L.file file).MR_mfl_label_layout label_num)).MR_sll_port with
    | other v => exact absurd hpp (hp v)
    | PORT_ONLY => exact ⟨_, rfl, fun x => by simp [hw, or_comm]⟩
    | PATH_ONLY => exact ⟨_, rfl, fun x => by simp [hw, or_comm]⟩
    | PORT_AND_PATH => exact ⟨_, rfl, fun x => by simp [hw, or_comm]⟩
  · have hw2 := hw
    unfold writes_count at hw2
    simp only [] at hw2
    rw [if_neg hw2]
    exact ⟨s, rfl, fun x => by simp [hw]⟩

/-- The label at a position of the module table: module number, file number
and label number. -/
def label_at (g : CountsGlobals) (L : Layouts) (m f l : Nat) : Nat :=
  (L.file ((L.module (g.MR_module_infos m)).MR_ml_module_file_layout f)).MR_mfl_label_layout l

/-- The position is one that the loops of `MR_trace_write_label_exec_counts`
visit: the label is reachable from the module table. -/
def reachable (g : CountsGlobals) (L : Layouts) (m f l : Nat) : Prop :=
  m < g.MR_module_info_next.toNat ∧
  f < (L.module (g.MR_module_infos m)).MR_ml_filename_count.toNat ∧
  l < (L.file ((L.module (g.MR_module_infos m)).MR_ml_module_file_layout f)
        ).MR_mfl_label_count.toNat

theorem write_file_emitted (M : Machine) (c : CountsCfg) (g : CountsGlobals) (L : Layouts)
    (counters : Counters) (module_num module_ file_num : Nat)
    (hport : ∀ l, l < (L.file ((L.module module_).MR_ml_module_file_layout file_num)
          ).MR_mfl_label_count.toNat →
      writes_count g L counters module_
        ((L.file ((L.module module_).MR_ml_module_file_layout file_num)).MR_mfl_label_layout l)
          = true →
      ∀ v, g.MR_named_count_port
        (L.label ((L.file ((L.module module_).MR_ml_module_file_layout file_num)
          ).MR_mfl_label_layout l)).MR_sll_port ≠ MR_PathPort.other v)
    (s : CountsLoop) :
    ∃ t, write_file M c g L counters module_num module_ file_num s = Result.ok t ∧
      ∀ x, x ∈ t.emitted ↔ x ∈ s.emitted ∨
        ∃ l, l < (L.file ((L.module module_).MR_ml_module_file_layout file_num)
            ).MR_mfl_label_count.toNat ∧
          (x = (module_num, file_num, l) ∧
            writes_count g L counters module_
              ((L.file ((L.module module_).MR_ml_module_file_layout file_num)
                ).MR_mfl_label_layout l) = true) := by
  unfold write_file
  simp only []
  exact for_result_emitted _ _ _
    (fun l hl s => write_label_emitted M c g L counters module_num file_num module_ _ l
      (hport l hl) s) _

theorem write_module_emitted (M : Machine) (c : CountsCfg) (g : CountsGlobals) (L : Layouts)
    (counters : Counters) (module_num : Nat)
    (hport : ∀ f l, reachable g L module_num f l →
      module_num < g.MR_module_info_next.toNat →
      writes_count g L counters (g.MR_module_infos module_num) (label_at g L module_num f l)
        = true →
      ∀ v, g.MR_named_count_port (L.label (label_at g L module_num f l)).MR_sll_port
        ≠ MR_PathPort.other v)
    (hm : module_num < g.MR_module_info_next.toNat)
    (s : CountsLoop) :
    ∃ t, write_module M c g L counters module_num s = Result.ok t ∧
      ∀ x, x ∈ t.emitted ↔ x ∈ s.emitted ∨
        ∃ f, f < (L.module (g.MR_module_infos module_num)).MR_ml_filename_count.toNat ∧
          ∃ l, l < (L.file ((L.module (g.MR_module_infos module_num)
              ).MR_ml_module_file_layout f)).MR_mfl_label_count.toNat ∧
            (x = (module_num, f, l) ∧
              writes_count g L counters (g.MR_module_infos module_num)
                (label_at g L module_num f l) = true) := by
  unfold write_module
  simp only []
  exact for_result_emitted _ _ _
    (fun f hf s => write_file_emitted M c g L counters module_num _ f
      (fun l hl hw => hport f l ⟨hm, hf, hl⟩ hm hw) s) _

theorem ensure_init_loop (t : Nat → MR_PathPort) (n : Nat) :
    for_upto n (fun i t => set_port t (MR_PORT_CALL + i) MR_PathPort.PATH_ONLY) t
      = fun j => if j < n then MR_PathPort.PATH_ONLY else t j := by
  induction n with
  | zero => simp [for_upto]
  | succ n ih =>
    rw [for_upto_succ, ih]
    funext j
    simp only [set_port, MR_PORT_CALL, Nat.zero_add]
    by_cases h1 : j = n
    · simp [h1]
    · by_cases h2 : j < n
      · simp [h1, h2, Nat.lt_succ_of_lt h2]
      · have : ¬ j < n + 1 := by omega
        simp [h1, h2, this]

/-- After the first call of `MR_trace_name_count_port_ensure_init` every port
has one of the three kinds of line. -/
theorem ensure_init_ports (g : CountsGlobals) (h : g.done = false) (port : Nat)
    (hp : port ≤ MR_PORT_NONE) (v : Nat) :
    (MR_trace_name_count_port_ensure_init g).MR_named_count_port port
      ≠ MR_PathPort.other v := by
  unfold MR_trace_name_count_port_ensure_init
  simp only [h, Bool.not_false, if_true, ensure_init_loop]
  have hp2 : port ≤ 15 := hp
  interval_cases port <;>
    simp [set_port, MR_PORT_CALL, MR_PORT_EXIT, MR_PORT_REDO, MR_PORT_FAIL, MR_PORT_NEG_ENTER,
      MR_PORT_NEG_SUCCESS, MR_PORT_NEG_FAILURE, MR_PORT_NONE]

theorem ensure_init_keeps (g : CountsGlobals) :
    (MR_trace_name_count_port_ensure_init g).MR_coverage_test_enabled
      = g.MR_coverage_test_enabled ∧
    (MR_trace_name_count_port_ensure_init g).MR_module_infos = g.MR_module_infos ∧
    (MR_trace_name_count_port_ensure_init g).MR_module_info_next = g.MR_module_info_next := by
  unfold MR_trace_name_count_port_ensure_init
  cases g.done <;> exact ⟨rfl, rfl, rfl⟩

theorem writes_count_congr (g g1 : CountsGlobals) (L : Layouts) (counters : Counters)
    (h : g1.MR_coverage_test_enabled = g.MR_coverage_test_enabled) (module_ label : Nat) :
    writes_count g1 L counters module_ label = writes_count g L counters module_ label := by
  unfold writes_count
  rw [h]

/-- What the code does.  `MR_trace_write_label_exec_counts` writes a count
line for a label reachable from the module table if and only if the
procedure of the label is not a unify, compare or index procedure, the number
of the label in its module is not 0, and the execution count of the label is
greater than zero or `MR_coverage_test_enabled` is set (`writes_count`).  This
holds whenever no label that is due a line has a port whose entry in
`MR_named_count_port` is none of the three kinds of line, in which case the
function would stop in a fatal error; on the first call of
`MR_trace_name_count_port_ensure_init` that is so for every port up to
`MR_PORT_NONE`. -/
theorem count_line_written_iff (M : Machine) (c : CountsCfg) (g : CountsGlobals)
    (L : Layouts) (counters : Counters) (fp : Stream)
    (hport : ∀ m f l, reachable g L m f l →
      writes_count g L counters (g.MR_module_infos m) (label_at g L m f l) = true →
      ∀ v, (MR_trace_name_count_port_ensure_init g).MR_named_count_port
        (L.label (label_at g L m f l)).MR_sll_port ≠ MR_PathPort.other v) :
    (∃ t, (MR_trace_write_label_exec_counts M c g L counters fp).2 = Result.ok t ∧
      ∀ m f l, (m, f, l) ∈ t.emitted ↔
        (reachable g L m f l ∧
          writes_count g L counters (g.MR_module_infos m) (label_at g L m f l) = true)) ∧
    (g.done = false → ∀ port, port ≤ MR_PORT_NONE → ∀ v,
      (MR_trace_name_count_port_ensure_init g).MR_named_count_port port
        ≠ MR_PathPort.other v) := by
  refine ⟨?_, fun h port hp v => ensure_init_ports g h port hp v⟩
  obtain ⟨h1, h2, h3⟩ := ensure_init_keeps g
  unfold MR_trace_write_label_exec_counts
  simp only []
  generalize MR_trace_name_count_port_ensure_init g = g1 at h1 h2 h3 hport ⊢
  have hreach : ∀ m f l, reachable g1 L m f l ↔ reachable g L m f l := by
    intro m f l
    unfold reachable
    rw [h2, h3]
  have hlabel : ∀ m f l, label_at g1 L m f l = label_at g L m f l := by
    intro m f l
    unfold label_at
    rw [h2]
  have hw : ∀ module_ label, writes_count g1 L counters module_ label
      = writes_count g L counters module_ label :=
    writes_count_congr g g1 L counters h1
  obtain ⟨t, ht, hx⟩ := for_result_emitted g1.MR_module_info_next.toNat
    (write_module M c g1 L counters)
    (fun m x => ∃ f, f < (L.module (g1.MR_module_infos m)).MR_ml_filename_count.toNat ∧
      ∃ l, l < (L.file ((L.module (g1.MR_module_infos m)).MR_ml_module_file_layout f)
          ).MR_mfl_label_count.toNat ∧
        (x = (m, f, l) ∧
          writes_count g1 L counters (g1.MR_module_infos m) (label_at g1 L m f l) = true))
    (fun m hm s => write_module_emitted M c g1 L counters m
      (fun f l hr _ hwc => by
        have := hport m f l ((hreach m f l).1 hr) (by rw [← hw, ← h2, ← hlabel]; exact hwc)
        rw [hlabel]
        exact this) hm s)
    { fp := if g1.MR_coverage_test_enabled = true
        then fp ++ c.MR_TRACE_COUNT_FILE_ID ++ str "user_all\n"
        else fp ++ c.MR_TRACE_COUNT_FILE_ID ++ str "user_nonzero\n",
      prev_proc := 0, emitted := [] }
  refine ⟨t, ht, fun m f l => ?_⟩
  rw [hx]
  simp only [List.not_mem_nil, false_or]
  constructor
  · rintro ⟨m1, hm1, f1, hf1, l1, hl1, heq, hwc⟩
    simp only [Prod.mk.injEq] at heq
    obtain ⟨rfl, rfl, rfl⟩ := heq
    refine ⟨(hreach m f l).1 ⟨hm1, hf1, hl1⟩, ?_⟩
    rw [← hw, ← hlabel, ← h2]
    exact hwc
  · rintro ⟨hr, hwc⟩
    obtain ⟨hm1, hf1, hl1⟩ := (hreach m f l).2 hr
    exact ⟨m, hm1, f, hf1, l, hl1, rfl, by rw [hw, hlabel, h2]; exact hwc⟩

/-- Layouts with one module at `0x80` (four counters at `0x1000`) with one
file at `0x60`, named "a.m", with four labels: the label at `0x10` (number 1,
port CALL, line 10), the label at `0x20` (number 0, port CALL, line 11), the
label at `0x30` (number 2, port COND, line 12), which belongs to the unify
procedure at `0x50`, and the label at `0x38` (number 3, port EXIT, line 13).
The procedure at `0x40` is the predicate `m.foo/1`, mode 0. -/
def counts_layouts : Layouts where
  label := fun a =>
    if a = 0x10 then
      { MR_sll_entry := 0x40, MR_sll_label_num_in_module := 1, MR_sll_port := 0,
        goal_path := [] }
    else if a = 0x20 then
      { MR_sll_entry := 0x40, MR_sll_label_num_in_module := 0, MR_sll_port := 0,
        goal_path := [] }
    else if a = 0x30 then
      { MR_sll_entry := 0x50, MR_sll_label_num_in_module := 2, MR_sll_port := 5,
        goal_path := str "c1;" }
    else
      { MR_sll_entry := 0x40, MR_sll_label_num_in_module := 3, MR_sll_port := 1,
        goal_path := [] }
  proc := fun a =>
    { has_exec_trace := true, is_uci := decide (a = 0x50), MR_sle_module_layout := 0x80,
      MR_sle_call_label := 0x10,
      MR_sle_user := { MR_user_pred_or_func := 0, MR_user_decl_module := str "m",
                       MR_user_def_module := str "m", MR_user_name := str "foo",
                       MR_user_arity := 1, MR_user_mode := 0 } }
  file := fun _ =>
    { MR_mfl_filename := str "a.m", MR_mfl_label_count := 4,
      MR_mfl_label_lineno := fun i => 10 + i,
      MR_mfl_label_layout := fun i =>
        if i = 0 then 0x10 else if i = 1 then 0x20 else if i = 2 then 0x30 else 0x38 }
  module := fun _ =>
    { MR_ml_filename_count := 1, MR_ml_module_file_layout := fun _ => 0x60,
      MR_ml_num_label_exec_counts := 4, MR_ml_label_exec_count := 0x1000 }

/-- The counters of `counts_layouts`: label number 0 was executed 5 times,
number 1 never, number 2 three times, number 3 seven times. -/
def counts_counters : Counters :=
  fun a => if a = 0x1000 then 5 else if a = 0x1002 then 3 else if a = 0x1003 then 7 else 0

/-- The globals before the first call: one module in the table. -/
def counts_globals (MR_coverage_test_enabled : Bool) : CountsGlobals where
  MR_coverage_test_enabled := MR_coverage_test_enabled
  MR_module_infos := fun _ => 0x80
  MR_module_info_next := 1
  MR_named_count_port := fun _ => MR_PathPort.other 0
  done := false

/-- A configuration with the file id "id\n" and `MR_PREDICATE` 0. -/
def counts_cfg : CountsCfg where
  MR_TRACE_COUNT_FILE_ID := str "id\n"
  MR_PREDICATE := 0

/-- Claim C22, the failing input.  The comment of the function promises a
line for every label reachable from the module table except the labels that
have not been executed.  On `counts_layouts`, without the coverage
test, the only count line is the one of label 3 (`EXIT 7 13`): the label with
number 0 in its module and the label of the unify procedure get no line
although their counts, 5 and 3, are greater than zero.  With
`MR_coverage_test_enabled` set, label 0 of the file gets the line `CALL 0 10`
although its count is zero.  The streams are the texts
"id", "user_nonzero", "file 'a.m'", "proc 'm' p 'm' 'foo' 1 0", "EXIT 7 13"
and "id", "user_all", "file 'a.m'", "proc 'm' p 'm' 'foo' 1 0", "CALL 0 10",
"EXIT 7 13", each followed by a newline. -/
theorem count_line_counterexample :
    (counts_counters (0x1000 + (counts_layouts.label 0x20).MR_sll_label_num_in_module) = 5 ∧
      counts_counters (0x1000 + (counts_layouts.label 0x30).MR_sll_label_num_in_module) = 3 ∧
      (MR_trace_write_label_exec_counts Machine.ilp32 counts_cfg (counts_globals false)
          counts_layouts counts_counters []).2
        = Result.ok
            { fp := [105, 100, 10, 117, 115, 101, 114, 95, 110, 111, 110, 122, 101, 114, 111,
                     10, 102, 105, 108, 101, 32, 39, 97, 46, 109, 39, 10, 112, 114, 111, 99,
                     32, 39, 109, 39, 32, 112, 32, 39, 109, 39, 32, 39, 102, 111, 111, 39, 32,
                     49, 32, 48, 10, 69, 88, 73, 84, 32, 55, 32, 49, 51, 10],
              prev_proc := 0x40,
              emitted := [(0, 0, 3)] }) ∧
    (counts_counters (0x1000 + (counts_layouts.label 0x10).MR_sll_label_num_in_module) = 0 ∧
      (MR_trace_write_label_exec_counts Machine.ilp32 counts_cfg (counts_globals true)
          counts_layouts counts_counters []).2
        = Result.ok
            { fp := [105, 100, 10, 117, 115, 101, 114, 95, 97, 108, 108, 10, 102, 105, 108,
                     101, 32, 39, 97, 46, 109, 39, 10, 112, 114, 111, 99, 32, 39, 109, 39, 32,
                     112, 32, 39, 109, 39, 32, 39, 102, 111, 111, 39, 32, 49, 32, 48, 10, 67,
                     65, 76, 76, 32, 48, 32, 49, 48, 10, 69, 88, 73, 84, 32, 55, 32, 49, 51,
                     10],
              prev_proc := 0x40,
              emitted := [(0, 0, 3), (0, 0, 0)] }) := by
  decide

theorem counts_layouts_ports (a : Nat) : (counts_layouts.label a).MR_sll_port ≤ MR_PORT_NONE := by
  unfold counts_layouts
  simp only []
  split_ifs <;> decide

/-- The module table of `counts_layouts` without the coverage test: the
function returns, and the labels it wrote a count line for are the reachable
labels with `writes_count`. -/
theorem count_line_written_iff_witness :
    (∀ m f l, reachable (counts_globals false) counts_layouts m f l →
      writes_count (counts_globals false) counts_layouts counts_counters
        ((counts_globals false).MR_module_infos m)
        (label_at (counts_globals false) counts_layouts m f l) = true →
      ∀ v, (MR_trace_name_count_port_ensure_init (counts_globals false)).MR_named_count_port
        (counts_layouts.label (label_at (counts_globals false) counts_layouts m f l)).MR_sll_port
          ≠ MR_PathPort.other v) ∧
    ((∃ t, (MR_trace_write_label_exec_counts Machine.ilp32 counts_cfg (counts_globals false)
        counts_layouts counts_counters []).2 = Result.ok t ∧
      ∀ m f l, (m, f, l) ∈ t.emitted ↔
        (reachable (counts_globals false) counts_layouts m f l ∧
          writes_count (counts_globals false) counts_layouts counts_counters
            ((counts_globals false).MR_module_infos m)
            (label_at (counts_globals false) counts_layouts m f l) = true)) ∧
    ((counts_globals false).done = false → ∀ port, port ≤ MR_PORT_NONE → ∀ v,
      (MR_trace_name_count_port_ensure_init (counts_globals false)).MR_named_count_port port
        ≠ MR_PathPort.other v)) :=
  ⟨fun _ _ _ _ _ v =>
    ensure_init_ports (counts_globals false) rfl _ (counts_layouts_ports _) v,
   count_line_written_iff Machine.ilp32 counts_cfg (counts_globals false) counts_layouts
    counts_counters []
    (fun _ _ _ _ _ v =>
      ensure_init_ports (counts_globals false) rfl _ (counts_layouts_ports _) v)⟩

end TraceBase

/-! # Debug numbers of consumers and generators (`mercury_mm_own_stacks.c`)

The part of `src/runtime/mercury_mm_own_stacks.c` that lets the debugger
refer to consumers and generators by small numbers.  A pointer to a consumer
or generator is an address; a pointer into one of the two arrays is the index
of the entry, `NULL` is `none`. -/

namespace OwnStacks

open TraceBase (Machine to_int to_int_of_small)

/-- The constant `MR_TRUE`. -/
def MR_TRUE : Int := 1

/-- The struct `MR_ConsDebug_Struct`. -/
structure MR_ConsDebug where
  MR_cod_consumer : Nat
  MR_cod_sequence_num : Int
  MR_cod_version_num : Int
  MR_cod_valid : Int

/-- The static variables `MR_cons_debug_infos` and `MR_cons_debug_info_next`.
(`MR_cons_debug_info_max`, the allocated size, is only used by the macro
`MR_ensure_room_for_next`, which makes room for entry `next` and leaves the
entries and `next` as they are.) -/
structure ConsDebugInfos where
  MR_cons_debug_infos : Nat → MR_ConsDebug
  MR_cons_debug_info_next : Int

/-- The loop `for (i = 0; i < n; i++) if (p(i)) return i;`: the first index
below `n` at which `p` holds. -/
def find_index (p : Nat → Bool) : Nat → Option Nat
  | 0 => none
  | n + 1 =>
    match find_index p n with
    | some i => some i
    | none => if p n then some n else none

/-- An array with element `i` set to `v`. -/
def set_entry {α : Type} (a : Nat → α) (i : Nat) (v : α) : Nat → α :=
  fun j => if j = i then v else a j

/-- The function `MR_enter_cons_debug`.  `MR_cod_version_num++` and
`MR_cons_debug_info_next++` are taken in `int`. -/
def MR_enter_cons_debug (M : Machine) (t : ConsDebugInfos) (consumer : Nat) : ConsDebugInfos :=
  match find_index (fun i => decide ((t.MR_cons_debug_infos i).MR_cod_consumer = consumer))
      t.MR_cons_debug_info_next.toNat with
  | some i =>
    let e := t.MR_cons_debug_infos i
    let e := { e with MR_cod_version_num := to_int M (e.MR_cod_version_num + 1) }
    let e := { e with MR_cod_valid := MR_TRUE }
    { t with MR_cons_debug_infos := set_entry t.MR_cons_debug_infos i e }
  | none =>
    let i := t.MR_cons_debug_info_next
    let e : MR_ConsDebug :=
      { MR_cod_consumer := consumer, MR_cod_sequence_num := i, MR_cod_version_num := 0,
        MR_cod_valid := MR_TRUE }
    { MR_cons_debug_infos := set_entry t.MR_cons_debug_infos i.toNat e,
      MR_cons_debug_info_next := to_int M (t.MR_cons_debug_info_next + 1) }

/-- The function `MR_lookup_cons_debug_addr`. -/
def MR_lookup_cons_debug_addr (t : ConsDebugInfos) (consumer : Nat) : Option Nat :=
  find_index (fun i => decide ((t.MR_cons_debug_infos i).MR_cod_consumer = consumer))
    t.MR_cons_debug_info_next.toNat

/-- The function `MR_lookup_cons_debug_num`. -/
def MR_lookup_cons_debug_num (t : ConsDebugInfos) (cons_index : Int) : Option Nat :=
  find_index (fun i => decide ((t.MR_cons_debug_infos i).MR_cod_sequence_num = cons_index))
    t.MR_cons_debug_info_next.toNat

/-- The tables before the first call: no entry (the array pointer is
`NULL`; `unused` is what an entry never written reads as). -/
def ConsDebugInfos.initial (unused : MR_ConsDebug) : ConsDebugInfos where
  MR_cons_debug_infos := fun _ => unused
  MR_cons_debug_info_next := 0

/-- A sequence of calls of `MR_enter_cons_debug`. -/
def enter_cons_all (M : Machine) (t : ConsDebugInfos) (consumers : List Nat) : ConsDebugInfos :=
  consumers.foldl (MR_enter_cons_debug M) t

theorem find_index_some (p : Nat → Bool) (n i : Nat) (h : find_index p n = some i) :
    i < n ∧ p i = true ∧ ∀ j, j < i → p j = false := by
  induction n with
  | zero => simp [find_index] at h
  | succ n ih =>
    unfold find_index at h
    cases hx : find_index p n with
    | some k =>
      rw [hx] at h
      simp only [Option.some.injEq] at h
      subst h
      obtain ⟨h1, h2, h3⟩ := ih hx
      exact ⟨Nat.lt_succ_of_lt h1, h2, h3⟩
    | none =>
      rw [hx] at h
      simp only [] at h
      by_cases hp : p n = true
      · rw [if_pos hp] at h
        simp only [Option.some.injEq] at h
        subst h
        refine ⟨Nat.lt_succ_self _, hp, ?_⟩
        intro j hj
        have : ∀ m, find_index p m = none → ∀ j, j < m → p j = false := by
          intro m
          induction m with
          | zero => intro _ j hj; omega
          | succ m ihm =>
            intro hm j hj
            unfold find_index at hm
            cases hy : find_index p m with
            | some k => rw [hy] at hm; simp at hm
            | none =>
              rw [hy] at hm
              simp only [] at hm
              by_cases hpm : p m = true
              · rw [if_pos hpm] at hm; simp at hm
              · rcases Nat.lt_succ_iff_lt_or_eq.1 hj with h1 | h1
                · exact ihm hy j h1
                · rw [h1]; simpa using hpm
        exact this n hx j hj
      · rw [if_neg hp] at h
        simp at h

theorem find_index_none (p : Nat → Bool) (n : Nat) :
    find_index p n = none ↔ ∀ j, j < n → p j = false := by
  induction n with
  | zero => simp [find_index]
  | succ n ih =>
    unfold find_index
    cases hx : find_index p n with
    | some k =>
      simp only [reduceCtorEq, false_iff, not_forall]
      obtain ⟨h1, h2, _⟩ := find_index_some p n k hx
      exact ⟨k, Nat.lt_succ_of_lt h1, by simp [h2]⟩
    | none =>
      simp only []
      by_cases hp : p n = true
      · rw [if_pos hp]
        simp only [reduceCtorEq, false_iff, not_forall]
        exact ⟨n, Nat.lt_succ_self _, by simp [hp]⟩
      · rw [if_neg hp]
        simp only [true_iff]
        intro j hj
        rcases Nat.lt_succ_iff_lt_or_eq.1 hj with h1 | h1
        · exact (ih.1 hx) j h1
        · rw [h1]; simpa using hp

/-- With `p` holding at `i` and nowhere below, the loop returns `i`. -/
theorem find_index_eq (p : Nat → Bool) (n i : Nat) (hi : i < n) (hp : p i = true)
    (hmin : ∀ j, j < i → p j = false) : find_index p n = some i := by
  cases hx : find_index p n with
  | none => 
    have := (find_index_none p n).1 hx i hi
    rw [hp] at this
    cases this
  | some k =>
    obtain ⟨h1, h2, h3⟩ := find_index_some p n k hx
    rcases Nat.lt_trichotomy k i with h | h | h
    · have := hmin k h; rw [h2] at this; cases this
    · rw [h]
    · have := h3 i h; rw [hp] at this; cases this

/-- The consumer has an entry in the table. -/
def cons_present (t : ConsDebugInfos) (consumer : Nat) : Prop :=
  ∃ i, i < t.MR_cons_debug_info_next.toNat ∧
    (t.MR_cons_debug_infos i).MR_cod_consumer = consumer

/-- The table after the calls for the consumers `pre`: at most one entry per
call, entry `i` has sequence number `i`, a version number between 0 and the
number of calls, no two entries hold the same consumer, and every consumer of
`pre` has an entry. -/
def ConsInv (t : ConsDebugInfos) (pre : List Nat) : Prop :=
  0 ≤ t.MR_cons_debug_info_next ∧
  t.MR_cons_debug_info_next ≤ pre.length ∧
  (∀ i, i < t.MR_cons_debug_info_next.toNat →
    (t.MR_cons_debug_infos i).MR_cod_sequence_num = i ∧
    0 ≤ (t.MR_cons_debug_infos i).MR_cod_version_num ∧
    (t.MR_cons_debug_infos i).MR_cod_version_num ≤ pre.length) ∧
  (∀ i j, i < t.MR_cons_debug_info_next.toNat → j < t.MR_cons_debug_info_next.toNat →
    (t.MR_cons_debug_infos i).MR_cod_consumer = (t.MR_cons_debug_infos j).MR_cod_consumer →
    i = j) ∧
  (∀ consumer, consumer ∈ pre → cons_present t consumer)

theorem set_entry_same {α : Type} (a : Nat → α) (i : Nat) (v : α) :
    set_entry a i v i = v := by
  simp [set_entry]

theorem set_entry_other {α : Type} (a : Nat → α) (i : Nat) (v : α) (j : Nat) (h : j ≠ i) :
    set_entry a i v j = a j := by
  simp [set_entry, h]

theorem to_int_succ_small (M : Machine) (hM : 2 ≤ M.int_bits) (x : Int) (n : Nat)
    (h0 : 0 ≤ x) (h1 : x ≤ n) (hn : n + 1 < 2 ^ (M.int_bits - 1)) :
    to_int M (x + 1) = x + 1 := by
  have hn2 : ((n : Int) + 1) < 2 ^ (M.int_bits - 1) := by exact_mod_cast hn
  have hpos : (0 : Int) < 2 ^ (M.int_bits - 1) := by positivity
  exact to_int_of_small M (by omega) _ (by omega) (by omega)

/-- Entering a consumer that has the entry `i`. -/
theorem enter_cons_present (M : Machine) (hM : 2 ≤ M.int_bits) (t : ConsDebugInfos)
    (pre : List Nat) (h : ConsInv t pre) (hn : pre.length + 1 < 2 ^ (M.int_bits - 1))
    (consumer i : Nat) (hi : i < t.MR_cons_debug_info_next.toNat)
    (hc : (t.MR_cons_debug_infos i).MR_cod_consumer = consumer) :
    MR_enter_cons_debug M t consumer
      = { MR_cons_debug_infos := set_entry t.MR_cons_debug_infos i
            { MR_cod_consumer := consumer,
              MR_cod_sequence_num := (t.MR_cons_debug_infos i).MR_cod_sequence_num,
              MR_cod_version_num := (t.MR_cons_debug_infos i).MR_cod_version_num + 1,
              MR_cod_valid := MR_TRUE },
          MR_cons_debug_info_next := t.MR_cons_debug_info_next } := by
  obtain ⟨_, _, h3, h4, _⟩ := h
  have hfind : find_index
      (fun i => decide ((t.MR_cons_debug_infos i).MR_cod_consumer = consumer))
      t.MR_cons_debug_info_next.toNat = some i := by
    refine find_index_eq _ _ i hi (by simpa using hc) ?_
    intro j hj
    simp only [decide_eq_false_iff_not]
    intro hx
    have := h4 j i (by omega) hi (by rw [hx, hc])
    omega
  unfold MR_enter_cons_debug
  rw [hfind]
  simp only []
  rw [to_int_succ_small M hM _ pre.length (h3 i hi).2.1 (h3 i hi).2.2 hn, hc]

/-- Entering a consumer that has no entry. -/
theorem enter_cons_absent (M : Machine) (hM : 2 ≤ M.int_bits) (t : ConsDebugInfos)
    (pre : List Nat) (h : ConsInv t pre) (hn : pre.length + 1 < 2 ^ (M.int_bits - 1))
    (consumer : Nat) (hc : ¬ cons_present t consumer) :
    MR_enter_cons_debug M t consumer
      = { MR_cons_debug_infos := set_entry t.MR_cons_debug_infos
            t.MR_cons_debug_info_next.toNat
            { MR_cod_consumer := consumer,
              MR_cod_sequence_num := t.MR_cons_debug_info_next,
              MR_cod_version_num := 0,
              MR_cod_valid := MR_TRUE },
          MR_cons_debug_info_next := t.MR_cons_debug_info_next + 1 } := by
  obtain ⟨h1, h2, _, _, _⟩ := h
  have hfind : find_index
      (fun i => decide ((t.MR_cons_debug_infos i).MR_cod_consumer = consumer))
      t.MR_cons_debug_info_next.toNat = none := by
    rw [find_index_none]
    intro j hj
    simp only [decide_eq_false_iff_not]
    exact fun hx => hc ⟨j, hj, hx⟩
  unfold MR_enter_cons_debug
  rw [hfind]
  simp only []
  rw [to_int_succ_small M hM _ pre.length h1 h2 hn]

theorem ConsInv_step (M : Machine) (hM : 2 ≤ M.int_bits) (t : ConsDebugInfos)
    (pre : List Nat) (h : ConsInv t pre) (hn : pre.length + 1 < 2 ^ (M.int_bits - 1))
    (consumer : Nat) : ConsInv (MR_enter_cons_debug M t consumer) (pre ++ [consumer]) := by
  by_cases hc : cons_present t consumer
  · obtain ⟨i, hi, hci⟩ := hc
    rw [enter_cons_present M hM t pre h hn consumer i hi hci]
    obtain ⟨h1, h2, h3, h4, h5⟩ := h
    have hcons : ∀ j, (set_entry t.MR_cons_debug_infos i
        { MR_cod_consumer := consumer,
          MR_cod_sequence_num := (t.MR_cons_debug_infos i).MR_cod_sequence_num,
          MR_cod_version_num := (t.MR_cons_debug_infos i).MR_cod_version_num + 1,
          MR_cod_valid := MR_TRUE } j).MR_cod_consumer
        = (t.MR_cons_debug_infos j).MR_cod_consumer := by
      intro j
      unfold set_entry
      by_cases hj : j = i
      · rw [if_pos hj, hj, hci]
      · rw [if_neg hj]
    refine ⟨h1, ?_, ?_, ?_, ?_⟩
    · simp only [List.length_append, List.length_singleton]; push_cast; omega
    · intro j hj
      simp only [List.length_append, List.length_singleton]
      push_cast
      unfold set_entry
      by_cases hji : j = i
      · rw [if_pos hji]
        simp only []
        have := h3 i hi
        rw [hji]
        omega
      · rw [if_neg hji]
        have := h3 j hj
        omega
    · intro j k hj hk hjk
      rw [hcons j, hcons k] at hjk
      exact h4 j k hj hk hjk
    · intro c hcm
      simp only [List.mem_append, List.mem_singleton] at hcm
      rcases hcm with hcm | hcm
      · obtain ⟨j, hj, hjc⟩ := h5 c hcm
        exact ⟨j, hj, by rw [hcons j]; exact hjc⟩
      · exact ⟨i, hi, by rw [hcons i, hcm]; exact hci⟩
  · rw [enter_cons_absent M hM t pre h hn consumer hc]
    obtain ⟨h1, h2, h3, h4, h5⟩ := h
    have hnext : (t.MR_cons_debug_info_next + 1).toNat
        = t.MR_cons_debug_info_next.toNat + 1 := by omega
    have hcast : ((t.MR_cons_debug_info_next.toNat : Nat) : Int)
        = t.MR_cons_debug_info_next := Int.toNat_of_nonneg h1
    refine ⟨by simp only []; omega, ?_, ?_, ?_, ?_⟩
    · simp only [List.length_append, List.length_singleton]; push_cast; omega
    · intro j hj
      simp only [List.length_append, List.length_singleton]
      push_cast
      simp only [hnext] at hj
      unfold set_entry
      by_cases hjn : j = t.MR_cons_debug_info_next.toNat
      · rw [if_pos hjn]
        simp only []
        rw [hjn, hcast]
        omega
      · rw [if_neg hjn]
        have := h3 j (by omega)
        omega
    · intro j k hj hk hjk
      simp only [hnext] at hj hk
      simp only [] at hjk
      by_cases hjn : j = t.MR_cons_debug_info_next.toNat
      · by_cases hkn : k = t.MR_cons_debug_info_next.toNat
        · rw [hjn, hkn]
        · rw [hjn, set_entry_same, set_entry_other _ _ _ _ hkn] at hjk
          exact absurd ⟨k, by omega, hjk.symm⟩ hc
      · by_cases hkn : k = t.MR_cons_debug_info_next.toNat
        · rw [hkn, set_entry_same, set_entry_other _ _ _ _ hjn] at hjk
          exact absurd ⟨j, by omega, hjk⟩ hc
        · rw [set_entry_other _ _ _ _ hjn, set_entry_other _ _ _ _ hkn] at hjk
          exact h4 j k (by omega) (by omega) hjk
    · intro c hcm
      simp only [List.mem_append, List.mem_singleton] at hcm
      rcases hcm with hcm | hcm
      · obtain ⟨j, hj, hjc⟩ := h5 c hcm
        refine ⟨j, by simp only [hnext]; omega, ?_⟩
        simp only []
        rw [set_entry_other _ _ _ _ (by omega)]
        exact hjc
      · refine ⟨t.MR_cons_debug_info_next.toNat, by simp only [hnext]; omega, ?_⟩
        simp only []
        rw [set_entry_same, hcm]

theorem ConsInv_run (M : Machine) (hM : 2 ≤ M.int_bits) (consumers : List Nat) :
    ∀ (t : ConsDebugInfos) (pre : List Nat), ConsInv t pre →
      pre.length + consumers.length < 2 ^ (M.int_bits - 1) →
      ConsInv (enter_cons_all M t consumers) (pre ++ consumers) := by
  induction consumers with
  | nil => intro t pre h _; simpa [enter_cons_all] using h
  | cons c rest ih =>
    intro t pre h hn
    simp only [List.length_cons] at hn
    have h1 := ConsInv_step M hM t pre h (by omega) c
    have h2 := ih (MR_enter_cons_debug M t c) (pre ++ [c]) h1
      (by simp only [List.length_append, List.length_singleton]; omega)
    simpa [enter_cons_all] using h2

theorem ConsInv_initial (unused : MR_ConsDebug) :
    ConsInv (ConsDebugInfos.initial unused) [] := by
  refine ⟨le_refl _, le_refl _, ?_, ?_, ?_⟩
  · intro i hi; simp [ConsDebugInfos.initial] at hi
  · intro i j hi; simp [ConsDebugInfos.initial] at hi
  · intro c hc; simp at hc

/-- The table of consumers after any sequence of calls of `MR_enter_cons_debug`. -/
theorem cons_debug_consistent (M : Machine) (hM : 2 ≤ M.int_bits) (unused : MR_ConsDebug)
    (consumers : List Nat) (hlen : consumers.length + 1 < 2 ^ (M.int_bits - 1)) :
    let t := enter_cons_all M (ConsDebugInfos.initial unused) consumers
    (∀ i, i < t.MR_cons_debug_info_next.toNat →
      (t.MR_cons_debug_infos i).MR_cod_sequence_num = i) ∧
    (∀ i j, i < t.MR_cons_debug_info_next.toNat → j < t.MR_cons_debug_info_next.toNat →
      (t.MR_cons_debug_infos i).MR_cod_consumer = (t.MR_cons_debug_infos j).MR_cod_consumer →
      i = j) ∧
    (∀ consumer i, i < t.MR_cons_debug_info_next.toNat →
      (t.MR_cons_debug_infos i).MR_cod_consumer = consumer →
      MR_enter_cons_debug M t consumer
        = { MR_cons_debug_infos := set_entry t.MR_cons_debug_infos i
              { MR_cod_consumer := consumer,
                MR_cod_sequence_num := (t.MR_cons_debug_infos i).MR_cod_sequence_num,
                MR_cod_version_num := (t.MR_cons_debug_infos i).MR_cod_version_num + 1,
                MR_cod_valid := MR_TRUE },
            MR_cons_debug_info_next := t.MR_cons_debug_info_next }) ∧
    (∀ consumer, (∀ i, i < t.MR_cons_debug_info_next.toNat →
        (t.MR_cons_debug_infos i).MR_cod_consumer ≠ consumer) →
      MR_enter_cons_debug M t consumer
        = { MR_cons_debug_infos := set_entry t.MR_cons_debug_infos
              t.MR_cons_debug_info_next.toNat
              { MR_cod_consumer := consumer,
                MR_cod_sequence_num := t.MR_cons_debug_info_next,
                MR_cod_version_num := 0,
                MR_cod_valid := MR_TRUE },
            MR_cons_debug_info_next := t.MR_cons_debug_info_next + 1 }) ∧
    (∀ consumer, consumer ∈ consumers →
      ∃ i, MR_lookup_cons_debug_addr t consumer = some i ∧
        (t.MR_cons_debug_infos i).MR_cod_consumer = consumer ∧
        MR_lookup_cons_debug_num t (t.MR_cons_debug_infos i).MR_cod_sequence_num = some i) ∧
    (∀ k : Int, MR_lookup_cons_debug_num t k = none ↔
      (k < 0 ∨ k ≥ t.MR_cons_debug_info_next)) := by
  intro t
  have hinv : ConsInv t consumers := by
    have := ConsInv_run M hM consumers (ConsDebugInfos.initial unused) []
      (ConsInv_initial unused) (by simp only [List.length_nil]; omega)
    simpa using this
  have hinv2 := hinv
  obtain ⟨h1, h2, h3, h4, h5⟩ := hinv2
  have hcast : ((t.MR_cons_debug_info_next.toNat : Nat) : Int)
      = t.MR_cons_debug_info_next := Int.toNat_of_nonneg h1
  have hnum : ∀ i, i < t.MR_cons_debug_info_next.toNat →
      MR_lookup_cons_debug_num t (i : Int) = some i := by
    intro i hi
    unfold MR_lookup_cons_debug_num
    refine find_index_eq _ _ i hi (by simpa using (h3 i hi).1) ?_
    intro j hj
    simp only [decide_eq_false_iff_not]
    rw [(h3 j (by omega)).1]
    omega
  refine ⟨fun i hi => (h3 i hi).1, h4, ?_, ?_, ?_, ?_⟩
  · intro consumer i hi hc
    exact enter_cons_present M hM t consumers hinv hlen consumer i hi hc
  · intro consumer hc
    exact enter_cons_absent M hM t consumers hinv hlen consumer
      (fun ⟨i, hi, hx⟩ => hc i hi hx)
  · intro consumer hc
    obtain ⟨i, hi, hci⟩ := h5 consumer hc
    refine ⟨i, ?_, hci, ?_⟩
    · unfold MR_lookup_cons_debug_addr
      refine find_index_eq _ _ i hi (by simpa using hci) ?_
      intro j hj
      simp only [decide_eq_false_iff_not]
      intro hx
      have := h4 j i (by omega) hi (by rw [hx, hci])
      omega
    · rw [(h3 i hi).1]
      exact hnum i hi
  · intro k
    unfold MR_lookup_cons_debug_num
    rw [find_index_none]
    constructor
    · intro h
      by_contra hk
      have hk0 : 0 ≤ k := by omega
      have hlt : k.toNat < t.MR_cons_debug_info_next.toNat := by omega
      have := h k.toNat hlt
      simp only [decide_eq_false_iff_not] at this
      apply this
      rw [(h3 _ hlt).1]
      exact Int.toNat_of_nonneg hk0
    · intro hk j hj
      simp only [decide_eq_false_iff_not]
      rw [(h3 j hj).1]
      omega

/-- The struct `MR_GenDebug_Struct`. -/
structure MR_GenDebug where
  MR_gd_generator : Nat
  MR_gd_sequence_num : Int
  MR_gd_version_num : Int
  MR_gd_valid : Int

/-- The static variables `MR_gen_debug_infos` and `MR_gen_debug_info_next`.
(`MR_gen_debug_info_max`, the allocated size, is only used by the macro
`MR_ensure_room_for_next`, which makes room for entry `next` and leaves the
entries and `next` as they are.) -/
structure GenDebugInfos where
  MR_gen_debug_infos : Nat → MR_GenDebug
  MR_gen_debug_info_next : Int

/-- The function `MR_enter_gen_debug`.  `MR_gd_version_num++` and
`MR_gen_debug_info_next++` are taken in `int`. -/
def MR_enter_gen_debug (M : Machine) (t : GenDebugInfos) (generator : Nat) : GenDebugInfos :=
  match find_index (fun i => decide ((t.MR_gen_debug_infos i).MR_gd_generator = generator))
      t.MR_gen_debug_info_next.toNat with
  | some i =>
    let e := t.MR_gen_debug_infos i
    let e := { e with MR_gd_version_num := to_int M (e.MR_gd_version_num + 1) }
    let e := { e with MR_gd_valid := MR_TRUE }
    { t with MR_gen_debug_infos := set_entry t.MR_gen_debug_infos i e }
  | none =>
    let i := t.MR_gen_debug_info_next
    let e : MR_GenDebug :=
      { MR_gd_generator := generator, MR_gd_sequence_num := i, MR_gd_version_num := 0,
        MR_gd_valid := MR_TRUE }
    { MR_gen_debug_infos := set_entry t.MR_gen_debug_infos i.toNat e,
      MR_gen_debug_info_next := to_int M (t.MR_gen_debug_info_next + 1) }

/-- The function `MR_lookup_gen_debug_addr`. -/
def MR_lookup_gen_debug_addr (t : GenDebugInfos) (generator : Nat) : Option Nat :=
  find_index (fun i => decide ((t.MR_gen_debug_infos i).MR_gd_generator = generator))
    t.MR_gen_debug_info_next.toNat

/-- The function `MR_lookup_gen_debug_num`. -/
def MR_lookup_gen_debug_num (t : GenDebugInfos) (gen_index : Int) : Option Nat :=
  find_index (fun i => decide ((t.MR_gen_debug_infos i).MR_gd_sequence_num = gen_index))
    t.MR_gen_debug_info_next.toNat

/-- The tables before the first call: no entry (the array pointer is
`NULL`; `unused` is what an entry never written reads as). -/
def GenDebugInfos.initial (unused : MR_GenDebug) : GenDebugInfos where
  MR_gen_debug_infos := fun _ => unused
  MR_gen_debug_info_next := 0

/-- A sequence of calls of `MR_enter_gen_debug`. -/
def enter_gen_all (M : Machine) (t : GenDebugInfos) (generators : List Nat) : GenDebugInfos :=
  generators.foldl (MR_enter_gen_debug M) t

/-- The generator has an entry in the table. -/
def gen_present (t : GenDebugInfos) (generator : Nat) : Prop :=
  ∃ i, i < t.MR_gen_debug_info_next.toNat ∧
    (t.MR_gen_debug_infos i).MR_gd_generator = generator

/-- The table after the calls for the generators `pre`: at most one entry per
call, entry `i` has sequence number `i`, a version number between 0 and the
number of calls, no two entries hold the same generator, and every generator of
`pre` has an entry. -/
def GenInv (t : GenDebugInfos) (pre : List Nat) : Prop :=
  0 ≤ t.MR_gen_debug_info_next ∧
  t.MR_gen_debug_info_next ≤ pre.length ∧
  (∀ i, i < t.MR_gen_debug_info_next.toNat →
    (t.MR_gen_debug_infos i).MR_gd_sequence_num = i ∧
    0 ≤ (t.MR_gen_debug_infos i).MR_gd_version_num ∧
    (t.MR_gen_debug_infos i).MR_gd_version_num ≤ pre.length) ∧
  (∀ i j, i < t.MR_gen_debug_info_next.toNat → j < t.MR_gen_debug_info_next.toNat →
    (t.MR_gen_debug_infos i).MR_gd_generator = (t.MR_gen_debug_infos j).MR_gd_generator →
    i = j) ∧
  (∀ generator, generator ∈ pre → gen_present t generator)

/-- Entering a generator that has the entry `i`. -/
theorem enter_gen_present (M : Machine) (hM : 2 ≤ M.int_bits) (t : GenDebugInfos)
    (pre : List Nat) (h : GenInv t pre) (hn : pre.length + 1 < 2 ^ (M.int_bits - 1))
    (generator i : Nat) (hi : i < t.MR_gen_debug_info_next.toNat)
    (hc : (t.MR_gen_debug_infos i).MR_gd_generator = generator) :
    MR_enter_gen_debug M t generator
      = { MR_gen_debug_infos := set_entry t.MR_gen_debug_infos i
            { MR_gd_generator := generator,
              MR_gd_sequence_num := (t.MR_gen_debug_infos i).MR_gd_sequence_num,
              MR_gd_version_num := (t.MR_gen_debug_infos i).MR_gd_version_num + 1,
              MR_gd_valid := MR_TRUE },
          MR_gen_debug_info_next := t.MR_gen_debug_info_next } := by
  obtain ⟨_, _, h3, h4, _⟩ := h
  have hfind : find_index
      (fun i => decide ((t.MR_gen_debug_infos i).MR_gd_generator = generator))
      t.MR_gen_debug_info_next.toNat = some i := by
    refine find_index_eq _ _ i hi (by simpa using hc) ?_
    intro j hj
    simp only [decide_eq_false_iff_not]
    intro hx
    have := h4 j i (by omega) hi (by rw [hx, hc])
    omega
  unfold MR_enter_gen_debug
  rw [hfind]
  simp only []
  rw [to_int_succ_small M hM _ pre.length (h3 i hi).2.1 (h3 i hi).2.2 hn, hc]

/-- Entering a generator that has no entry. -/
theorem enter_gen_absent (M : Machine) (hM : 2 ≤ M.int_bits) (t : GenDebugInfos)
    (pre : List Nat) (h : GenInv t pre) (hn : pre.length + 1 < 2 ^ (M.int_bits - 1))
    (generator : Nat) (hc : ¬ gen_present t generator) :
    MR_enter_gen_debug M t generator
      = { MR_gen_debug_infos := set_entry t.MR_gen_debug_infos
            t.MR_gen_debug_info_next.toNat
            { MR_gd_generator := generator,
              MR_gd_sequence_num := t.MR_gen_debug_info_next,
              MR_gd_version_num := 0,
              MR_gd_valid := MR_TRUE },
          MR_gen_debug_info_next := t.MR_gen_debug_info_next + 1 } := by
  obtain ⟨h1, h2, _, _, _⟩ := h
  have hfind : find_index
      (fun i => decide ((t.MR_gen_debug_infos i).MR_gd_generator = generator))
      t.MR_gen_debug_info_next.toNat = none := by
    rw [find_index_none]
    intro j hj
    simp only [decide_eq_false_iff_not]
    exact fun hx => hc ⟨j, hj, hx⟩
  unfold MR_enter_gen_debug
  rw [hfind]
  simp only []
  rw [to_int_succ_small M hM _ pre.length h1 h2 hn]

theorem GenInv_step (M : Machine) (hM : 2 ≤ M.int_bits) (t : GenDebugInfos)
    (pre : List Nat) (h : GenInv t pre) (hn : pre.length + 1 < 2 ^ (M.int_bits - 1))
    (generator : Nat) : GenInv (MR_enter_gen_debug M t generator) (pre ++ [generator]) := by
  by_cases hc : gen_present t generator
  · obtain ⟨i, hi, hci⟩ := hc
    rw [enter_gen_present M hM t pre h hn generator i hi hci]
    obtain ⟨h1, h2, h3, h4, h5⟩ := h
    have hcons : ∀ j, (set_entry t.MR_gen_debug_infos i
        { MR_gd_generator := generator,
          MR_gd_sequence_num := (t.MR_gen_debug_infos i).MR_gd_sequence_num,
          MR_gd_version_num := (t.MR_gen_debug_infos i).MR_gd_version_num + 1,
          MR_gd_valid := MR_TRUE } j).MR_gd_generator
        = (t.MR_gen_debug_infos j).MR_gd_generator := by
      intro j
      unfold set_entry
      by_cases hj : j = i
      · rw [if_pos hj, hj, hci]
      · rw [if_neg hj]
    refine ⟨h1, ?_, ?_, ?_, ?_⟩
    · simp only [List.length_append, List.length_singleton]; push_cast; omega
    · intro j hj
      simp only [List.length_append, List.length_singleton]
      push_cast
      unfold set_entry
      by_cases hji : j = i
      · rw [if_pos hji]
        simp only []
        have := h3 i hi
        rw [hji]
        omega
      · rw [if_neg hji]
        have := h3 j hj
        omega
    · intro j k hj hk hjk
      rw [hcons j, hcons k] at hjk
      exact h4 j k hj hk hjk
    · intro c hcm
      simp only [List.mem_append, List.mem_singleton] at hcm
      rcases hcm with hcm | hcm
      · obtain ⟨j, hj, hjc⟩ := h5 c hcm
        exact ⟨j, hj, by rw [hcons j]; exact hjc⟩
      · exact ⟨i, hi, by rw [hcons i, hcm]; exact hci⟩
  · rw [enter_gen_absent M hM t pre h hn generator hc]
    obtain ⟨h1, h2, h3, h4, h5⟩ := h
    have hnext : (t.MR_gen_debug_info_next + 1).toNat
        = t.MR_gen_debug_info_next.toNat + 1 := by omega
    have hcast : ((t.MR_gen_debug_info_next.toNat : Nat) : Int)
        = t.MR_gen_debug_info_next := Int.toNat_of_nonneg h1
    refine ⟨by simp only []; omega, ?_, ?_, ?_, ?_⟩
    · simp only [List.length_append, List.length_singleton]; push_cast; omega
    · intro j hj
      simp only [List.length_append, List.length_singleton]
      push_cast
      simp only [hnext] at hj
      unfold set_entry
      by_cases hjn : j = t.MR_gen_debug_info_next.toNat
      · rw [if_pos hjn]
        simp only []
        rw [hjn, hcast]
        omega
      · rw [if_neg hjn]
        have := h3 j (by omega)
        omega
    · intro j k hj hk hjk
      simp only [hnext] at hj hk
      simp only [] at hjk
      by_cases hjn : j = t.MR_gen_debug_info_next.toNat
      · by_cases hkn : k = t.MR_gen_debug_info_next.toNat
        · rw [hjn, hkn]
        · rw [hjn, set_entry_same, set_entry_other _ _ _ _ hkn] at hjk
          exact absurd ⟨k, by omega, hjk.symm⟩ hc
      · by_cases hkn : k = t.MR_gen_debug_info_next.toNat
        · rw [hkn, set_entry_same, set_entry_other _ _ _ _ hjn] at hjk
          exact absurd ⟨j, by omega, hjk⟩ hc
        · rw [set_entry_other _ _ _ _ hjn, set_entry_other _ _ _ _ hkn] at hjk
          exact h4 j k (by omega) (by omega) hjk
    · intro c hcm
      simp only [List.mem_append, List.mem_singleton] at hcm
      rcases hcm with hcm | hcm
      · obtain ⟨j, hj, hjc⟩ := h5 c hcm
        refine ⟨j, by simp only [hnext]; omega, ?_⟩
        simp only []
        rw [set_entry_other _ _ _ _ (by omega)]
        exact hjc
      · refine ⟨t.MR_gen_debug_info_next.toNat, by simp only [hnext]; omega, ?_⟩
        simp only []
        rw [set_entry_same, hcm]

theorem GenInv_run (M : Machine) (hM : 2 ≤ M.int_bits) (generators : List Nat) :
    ∀ (t : GenDebugInfos) (pre : List Nat), GenInv t pre →
      pre.length + generators.length < 2 ^ (M.int_bits - 1) →
      GenInv (enter_gen_all M t generators) (pre ++ generators) := by
  induction generators with
  | nil => intro t pre h _; simpa [enter_gen_all] using h
  | cons c rest ih =>
    intro t pre h hn
    simp only [List.length_cons] at hn
    have h1 := GenInv_step M hM t pre h (by omega) c
    have h2 := ih (MR_enter_gen_debug M t c) (pre ++ [c]) h1
      (by simp only [List.length_append, List.length_singleton]; omega)
    simpa [enter_gen_all] using h2

theorem GenInv_initial (unused : MR_GenDebug) :
    GenInv (GenDebugInfos.initial unused) [] := by
  refine ⟨le_refl _, le_refl _, ?_, ?_, ?_⟩
  · intro i hi; simp [GenDebugInfos.initial] at hi
  · intro i j hi; simp [GenDebugInfos.initial] at hi
  · intro c hc; simp at hc

/-- The table of generators after any sequence of calls of `MR_enter_gen_debug`. -/
theorem gen_debug_consistent (M : Machine) (hM : 2 ≤ M.int_bits) (unused : MR_GenDebug)
    (generators : List Nat) (hlen : generators.length + 1 < 2 ^ (M.int_bits - 1)) :
    let t := enter_gen_all M (GenDebugInfos.initial unused) generators
    (∀ i, i < t.MR_gen_debug_info_next.toNat →
      (t.MR_gen_debug_infos i).MR_gd_sequence_num = i) ∧
    (∀ i j, i < t.MR_gen_debug_info_next.toNat → j < t.MR_gen_debug_info_next.toNat →
      (t.MR_gen_debug_infos i).MR_gd_generator = (t.MR_gen_debug_infos j).MR_gd_generator →
      i = j) ∧
    (∀ generator i, i < t.MR_gen_debug_info_next.toNat →
      (t.MR_gen_debug_infos i).MR_gd_generator = generator →
      MR_enter_gen_debug M t generator
        = { MR_gen_debug_infos := set_entry t.MR_gen_debug_infos i
              { MR_gd_generator := generator,
                MR_gd_sequence_num := (t.MR_gen_debug_infos i).MR_gd_sequence_num,
                MR_gd_version_num := (t.MR_gen_debug_infos i).MR_gd_version_num + 1,
                MR_gd_valid := MR_TRUE },
            MR_gen_debug_info_next := t.MR_gen_debug_info_next }) ∧
    (∀ generator, (∀ i, i < t.MR_gen_debug_info_next.toNat →
        (t.MR_gen_debug_infos i).MR_gd_generator ≠ generator) →
      MR_enter_gen_debug M t generator
        = { MR_gen_debug_infos := set_entry t.MR_gen_debug_infos
              t.MR_gen_debug_info_next.toNat
              { MR_gd_generator := generator,
                MR_gd_sequence_num := t.MR_gen_debug_info_next,
                MR_gd_version_num := 0,
                MR_gd_valid := MR_TRUE },
            MR_gen_debug_info_next := t.MR_gen_debug_info_next + 1 }) ∧
    (∀ generator, generator ∈ generators →
      ∃ i, MR_lookup_gen_debug_addr t generator = some i ∧
        (t.MR_gen_debug_infos i).MR_gd_generator = generator ∧
        MR_lookup_gen_debug_num t (t.MR_gen_debug_infos i).MR_gd_sequence_num = some i) ∧
    (∀ k : Int, MR_lookup_gen_debug_num t k = none ↔
      (k < 0 ∨ k ≥ t.MR_gen_debug_info_next)) := by
  intro t
  have hinv : GenInv t generators := by
    have := GenInv_run M hM generators (GenDebugInfos.initial unused) []
      (GenInv_initial unused) (by simp only [List.length_nil]; omega)
    simpa using this
  have hinv2 := hinv
  obtain ⟨h1, h2, h3, h4, h5⟩ := hinv2
  have hcast : ((t.MR_gen_debug_info_next.toNat : Nat) : Int)
      = t.MR_gen_debug_info_next := Int.toNat_of_nonneg h1
  have hnum : ∀ i, i < t.MR_gen_debug_info_next.toNat →
      MR_lookup_gen_debug_num t (i : Int) = some i := by
    intro i hi
    unfold MR_lookup_gen_debug_num
    refine find_index_eq _ _ i hi (by simpa using (h3 i hi).1) ?_
    intro j hj
    simp only [decide_eq_false_iff_not]
    rw [(h3 j (by omega)).1]
    omega
  refine ⟨fun i hi => (h3 i hi).1, h4, ?_, ?_, ?_, ?_⟩
  · intro generator i hi hc
    exact enter_gen_present M hM t generators hinv hlen generator i hi hc
  · intro generator hc
    exact enter_gen_absent M hM t generators hinv hlen generator
      (fun ⟨i, hi, hx⟩ => hc i hi hx)
  · intro generator hc
    obtain ⟨i, hi, hci⟩ := h5 generator hc
    refine ⟨i, ?_, hci, ?_⟩
    · unfold MR_lookup_gen_debug_addr
      refine find_index_eq _ _ i hi (by simpa using hci) ?_
      intro j hj
      simp only [decide_eq_false_iff_not]
      intro hx
      have := h4 j i (by omega) hi (by rw [hx, hci])
      omega
    · rw [(h3 i hi).1]
      exact hnum i hi
  · intro k
    unfold MR_lookup_gen_debug_num
    rw [find_index_none]
    constructor
    · intro h
      by_contra hk
      have hk0 : 0 ≤ k := by omega
      have hlt : k.toNat < t.MR_gen_debug_info_next.toNat := by omega
      have := h k.toNat hlt
      simp only [decide_eq_false_iff_not] at this
      apply this
      rw [(h3 _ hlt).1]
      exact Int.toNat_of_nonneg hk0
    · intro hk j hj
      simp only [decide_eq_false_iff_not]
      rw [(h3 j hj).1]
      omega

/-- Claim C27: the debug-number tables of consumers and of generators stay
consistent.  After any sequence of calls of `MR_enter_cons_debug` from the
empty table (short enough for the `int` counters: one more call than the
sequence has still fits `int`), (1) every entry `i` below
`MR_cons_debug_info_next` has sequence number `i`; (2) no two entries hold
the same consumer; (3) entering a consumer that is present at entry `i`
leaves `MR_cons_debug_info_next` and every other entry as they are and gives
entry `i` its version number plus one and `MR_cod_valid = MR_TRUE`;
(4) entering a consumer that is absent writes one entry at index
`MR_cons_debug_info_next` with that consumer, that sequence number and
version 0, and adds one to `MR_cons_debug_info_next`; (5) for every entered
consumer, `MR_lookup_cons_debug_addr` returns an entry holding it, and
`MR_lookup_cons_debug_num` of that entry's sequence number returns the same
entry; (6) `MR_lookup_cons_debug_num k` is `NULL` exactly when `k < 0` or
`k ≥ MR_cons_debug_info_next`.  The same six facts hold for
`MR_enter_gen_debug`, `MR_lookup_gen_debug_addr` and
`MR_lookup_gen_debug_num`. -/
theorem debug_tables_consistent (M : Machine) (hM : 2 ≤ M.int_bits)
    (unused_cons : MR_ConsDebug) (unused_gen : MR_GenDebug)
    (consumers generators : List Nat)
    (hcons : consumers.length + 1 < 2 ^ (M.int_bits - 1))
    (hgen : generators.length + 1 < 2 ^ (M.int_bits - 1)) :
    (
      let t := enter_cons_all M (ConsDebugInfos.initial unused_cons) consumers
      (∀ i, i < t.MR_cons_debug_info_next.toNat →
        (t.MR_cons_debug_infos i).MR_cod_sequence_num = i) ∧
      (∀ i j, i < t.MR_cons_debug_info_next.toNat → j < t.MR_cons_debug_info_next.toNat →
        (t.MR_cons_debug_infos i).MR_cod_consumer = (t.MR_cons_debug_infos j).MR_cod_consumer →
        i = j) ∧
      (∀ consumer i, i < t.MR_cons_debug_info_next.toNat →
        (t.MR_cons_debug_infos i).MR_cod_consumer = consumer →
        MR_enter_cons_debug M t consumer
          = { MR_cons_debug_infos := set_entry t.MR_cons_debug_infos i
                { MR_cod_consumer := consumer,
                  MR_cod_sequence_num := (t.MR_cons_debug_infos i).MR_cod_sequence_num,
                  MR_cod_version_num := (t.MR_cons_debug_infos i).MR_cod_version_num + 1,
                  MR_cod_valid := MR_TRUE },
              MR_cons_debug_info_next := t.MR_cons_debug_info_next }) ∧
      (∀ consumer, (∀ i, i < t.MR_cons_debug_info_next.toNat →
          (t.MR_cons_debug_infos i).MR_cod_consumer ≠ consumer) →
        MR_enter_cons_debug M t consumer
          = { MR_cons_debug_infos := set_entry t.MR_cons_debug_infos
                t.MR_cons_debug_info_next.toNat
                { MR_cod_consumer := consumer,
                  MR_cod_sequence_num := t.MR_cons_debug_info_next,
                  MR_cod_version_num := 0,
                  MR_cod_valid := MR_TRUE },
              MR_cons_debug_info_next := t.MR_cons_debug_info_next + 1 }) ∧
      (∀ consumer, consumer ∈ consumers →
        ∃ i, MR_lookup_cons_debug_addr t consumer = some i ∧
          (t.MR_cons_debug_infos i).MR_cod_consumer = consumer ∧
          MR_lookup_cons_debug_num t (t.MR_cons_debug_infos i).MR_cod_sequence_num = some i) ∧
      (∀ k : Int, MR_lookup_cons_debug_num t k = none ↔
        (k < 0 ∨ k ≥ t.MR_cons_debug_info_next))) ∧
    (
      let t := enter_gen_all M (GenDebugInfos.initial unused_gen) generators
      (∀ i, i < t.MR_gen_debug_info_next.toNat →
        (t.MR_gen_debug_infos i).MR_gd_sequence_num = i) ∧
      (∀ i j, i < t.MR_gen_debug_info_next.toNat → j < t.MR_gen_debug_info_next.toNat →
        (t.MR_gen_debug_infos i).MR_gd_generator = (t.MR_gen_debug_infos j).MR_gd_generator →
        i = j) ∧
      (∀ generator i, i < t.MR_gen_debug_info_next.toNat →
        (t.MR_gen_debug_infos i).MR_gd_generator = generator →
        MR_enter_gen_debug M t generator
          = { MR_gen_debug_infos := set_entry t.MR_gen_debug_infos i
                { MR_gd_generator := generator,
                  MR_gd_sequence_num := (t.MR_gen_debug_infos i).MR_gd_sequence_num,
                  MR_gd_version_num := (t.MR_gen_debug_infos i).MR_gd_version_num + 1,
                  MR_gd_valid := MR_TRUE },
              MR_gen_debug_info_next := t.MR_gen_debug_info_next }) ∧
      (∀ generator, (∀ i, i < t.MR_gen_debug_info_next.toNat →
          (t.MR_gen_debug_infos i).MR_gd_generator ≠ generator) →
        MR_enter_gen_debug M t generator
          = { MR_gen_debug_infos := set_entry t.MR_gen_debug_infos
                t.MR_gen_debug_info_next.toNat
                { MR_gd_generator := generator,
                  MR_gd_sequence_num := t.MR_gen_debug_info_next,
                  MR_gd_version_num := 0,
                  MR_gd_valid := MR_TRUE },
              MR_gen_debug_info_next := t.MR_gen_debug_info_next + 1 }) ∧
      (∀ generator, generator ∈ generators →
        ∃ i, MR_lookup_gen_debug_addr t generator = some i ∧
          (t.MR_gen_debug_infos i).MR_gd_generator = generator ∧
          MR_lookup_gen_debug_num t (t.MR_gen_debug_infos i).MR_gd_sequence_num = some i) ∧
      (∀ k : Int, MR_lookup_gen_debug_num t k = none ↔
        (k < 0 ∨ k ≥ t.MR_gen_debug_info_next))) :=
  ⟨cons_debug_consistent M hM unused_cons consumers hcons,
   gen_debug_consistent M hM unused_gen generators hgen⟩

theorem debug_tables_consistent_witness :
    2 ≤ Machine.lp64.int_bits ∧
    [0x1000, 0x2000, 0x1000].length + 1 < 2 ^ (Machine.lp64.int_bits - 1) ∧
    [0x3000, 0x3000].length + 1 < 2 ^ (Machine.lp64.int_bits - 1) ∧
    (
      let t := enter_cons_all Machine.lp64 (ConsDebugInfos.initial ⟨0, 0, 0, 0⟩)
          [0x1000, 0x2000, 0x1000]
      t.MR_cons_debug_info_next = 2 ∧
      MR_lookup_cons_debug_addr t 0x1000 = some 0 ∧
      MR_lookup_cons_debug_addr t 0x2000 = some 1 ∧
      (t.MR_cons_debug_infos 0).MR_cod_version_num = 1 ∧
      (t.MR_cons_debug_infos 1).MR_cod_version_num = 0 ∧
      (∀ consumer, consumer ∈ [0x1000, 0x2000, 0x1000] →
        ∃ i, MR_lookup_cons_debug_addr t consumer = some i ∧
          (t.MR_cons_debug_infos i).MR_cod_consumer = consumer ∧
          MR_lookup_cons_debug_num t (t.MR_cons_debug_infos i).MR_cod_sequence_num
            = some i) ∧
      (∀ k : Int, MR_lookup_cons_debug_num t k = none ↔
        (k < 0 ∨ k ≥ t.MR_cons_debug_info_next))) ∧
    (
      let t := enter_gen_all Machine.lp64 (GenDebugInfos.initial ⟨0, 0, 0, 0⟩)
          [0x3000, 0x3000]
      t.MR_gen_debug_info_next = 1 ∧
      MR_lookup_gen_debug_addr t 0x3000 = some 0 ∧
      (t.MR_gen_debug_infos 0).MR_gd_version_num = 1 ∧
      (∀ k : Int, MR_lookup_gen_debug_num t k = none ↔
        (k < 0 ∨ k ≥ t.MR_gen_debug_info_next))) :=
  ⟨by decide, by decide, by decide,
   ⟨by decide, by decide, by decide, by decide, by decide,
    (debug_tables_consistent Machine.lp64 (by decide) ⟨0, 0, 0, 0⟩ ⟨0, 0, 0, 0⟩
      [0x1000, 0x2000, 0x1000] [0x3000, 0x3000] (by decide) (by decide)).1.2.2.2.2.1,
    (debug_tables_consistent Machine.lp64 (by decide) ⟨0, 0, 0, 0⟩ ⟨0, 0, 0, 0⟩
      [0x1000, 0x2000, 0x1000] [0x3000, 0x3000] (by decide) (by decide)).1.2.2.2.2.2⟩,
   ⟨by decide, by decide, by decide,
    (debug_tables_consistent Machine.lp64 (by decide) ⟨0, 0, 0, 0⟩ ⟨0, 0, 0, 0⟩
      [0x1000, 0x2000, 0x1000] [0x3000, 0x3000] (by decide) (by decide)).2.2.2.2.2.2⟩⟩

end OwnStacks
